import Mathlib

/-!
SOA1 — verification development

A shallow embedding of parts of the SOA1 individual-based STI simulation
(`src/SOA1`) together with theorems about them.

Conventions of the embedding:

* C++ `double` values are exact rationals (`ℚ`): every statement below is a
  statement in exact arithmetic.
* C++ `int` values are unbounded integers (`ℤ`), or natural numbers where the
  source only uses them as loop counters / vector indices.
* `std::vector<T>` is `List T`.
* A call that fails an assertion, throws, or has undefined behaviour returns
  `none`.
-/

namespace soa1

/-! ## `tr` — transmission: layers -/

namespace tr

/-- `soa1::tr::Coordinate<double>` (`soa1_tr_coordinate.h`). -/
structure Coordinate where
  x : ℚ
  y : ℚ
deriving DecidableEq

/-- `soa1::tr::Layer` (`soa1_tr_layer.h`): `std::vector<Coordinate<double>>`. -/
abbrev Layer := List Coordinate

/-- "A layer must be sorted according to the time ascending" (`soa1_tr_layer.h`),
read as non-decreasing `x`. -/
def Layer.Sorted (l : Layer) : Prop := List.Chain' (fun a b => a.x ≤ b.x) l

instance : Inhabited Coordinate := ⟨⟨0, 0⟩⟩

/-- The step function a layer denotes, at time `t`: the `y` of the last point
of `pts` with `x ≤ t`, and `cur` when no point of `pts` has `x ≤ t`. -/
def Layer.valueFrom (cur : ℚ) (pts : List Coordinate) (t : ℚ) : ℚ :=
  match (pts.filter (fun c => decide (c.x ≤ t))).getLast? with
  | some c => c.y
  | none => cur

/-- Value of the step function of a layer at time `t`: the `y` of its last
point with `x ≤ t`, and its first `y` when no point has `x ≤ t`
(`soa1_tr_layer.h`: "the very first coordinate also determines the rate until
-infinity"). -/
def Layer.value (l : Layer) (t : ℚ) : ℚ :=
  Layer.valueFrom (l.headD default).y l t

/-- Length of the part of the interval `[a, b]` that lies inside `[0, T]`. -/
def segLen (a b T : ℚ) : ℚ := max 0 (min b T - max a 0)

/-- Area under the step function over `[0, T]`, counting only the pieces that
start at a point of the list: the piece of point `i` runs from `x_i` to
`x_{i+1}` at height `y_i`; the last piece runs from the last `x` on. -/
def Layer.areaFrom : List Coordinate → ℚ → ℚ
  | [], _ => 0
  | [c], T => c.y * max 0 (T - max c.x 0)
  | c :: c' :: rest, T => c.y * segLen c.x c'.x T + Layer.areaFrom (c' :: rest) T

/-- Integral over `[0, T]` of the step function of a layer: the piece before
the first `x` (at the first `y`) plus the pieces starting at the points. -/
def Layer.area (l : Layer) (T : ℚ) : ℚ :=
  match l with
  | [] => 0
  | c :: rest => c.y * max 0 (min c.x T) + Layer.areaFrom (c :: rest) T

/-- The `for` loop of `GetTransmissionTime::Get`
(`soa1_tr_get_transmission_time.h`, lines 61-86) over the remaining points,
with the loop state `(val_remaining, t, rate)`; a `break` returns the state. -/
def GetTransmissionTime.walk : List Coordinate → ℚ → ℚ → ℚ → ℚ × ℚ × ℚ
  | [], val_remaining, t, rate => (val_remaining, t, rate)
  | c :: rest, val_remaining, t, rate =>
    if c.x ≤ 0 then
      GetTransmissionTime.walk rest val_remaining t c.y
    else
      let val_remaining1 := val_remaining - (c.x - t) * rate
      if val_remaining1 < 0 then
        (val_remaining1 + (c.x - t) * rate, t, rate)
      else
        GetTransmissionTime.walk rest val_remaining1 c.x c.y

/-- `GetTransmissionTime::Get` (`soa1_tr_get_transmission_time.h`, lines 53-97)
with the unit-exponential draw `e` made explicit. `none` is the empty layer,
for which `layer[0]` is undefined (the layer assertion fails). -/
def GetTransmissionTime.Get (layer : Layer) (e : ℚ) : Option ℚ :=
  match layer with
  | [] => none
  | c0 :: rest =>
    let r := GetTransmissionTime.walk (c0 :: rest) e 0 c0.y
    if r.2.2 = 0 then some (-1) else some (r.1 / r.2.2 + r.2.1)

/-- `std::numeric_limits<double>::max()`. -/
def doubleMax : ℚ := 2 ^ 1024 - 2 ^ 971

/-- `GetMultiple` (`soa1_tr_create_multiplication_layer.h`, lines 49-56): the
product over the layers of `input_layers[i][indices[i]].y`. -/
def GetMultiple (input_layers : List Layer) (indices : List Nat) : ℚ :=
  (List.zipWith (fun (l : Layer) (k : Nat) => (l.getD k default).y) input_layers indices).foldl
    (fun multiple v => multiple * v) 1

/-- `std::unique` on a list whose first element `a` has been read: drops every
element equal to its predecessor. -/
def uniqueFrom (a : ℚ) : List ℚ → List ℚ
  | [] => [a]
  | b :: l => if a = b then uniqueFrom a l else a :: uniqueFrom b l

/-- `std::unique` followed by the `resize` (lines 82-83). -/
def unique : List ℚ → List ℚ
  | [] => []
  | a :: l => uniqueFrom a l

/-- The leftmost x of the result (lines 65, 70): the smallest first x of the
input layers, starting from the largest double. -/
def lowestXVal (input_layers : List Layer) : ℚ :=
  input_layers.foldl
    (fun lowest_x_val (l : Layer) =>
      if (l.getD 0 default).x < lowest_x_val then (l.getD 0 default).x else lowest_x_val)
    doubleMax

/-- The vector `t_change` after sorting and removing doubles (lines 66-83):
the x of every point but the first of every layer. -/
def tChange (input_layers : List Layer) : List ℚ :=
  unique (List.insertionSort (· ≤ ·)
    (input_layers.map (fun (l : Layer) => l.tail.map (fun c => c.x))).flatten)

/-- One pass of the inner loop (lines 98-105) for one layer: move to the next
coordinate when there is one and its x equals `t`. -/
def advanceIndex (l : Layer) (at_index : Nat) (t : ℚ) : Nat :=
  if at_index + 1 < l.length then
    if (l.getD (at_index + 1) default).x = t then at_index + 1 else at_index
  else at_index

/-- The inner loop (lines 98-105) over all layers. -/
def advance (input_layers : List Layer) (at_index : List Nat) (t : ℚ) : List Nat :=
  List.zipWith (fun l k => advanceIndex l k t) input_layers at_index

/-- The loop over `t_change` (lines 95-109): the points pushed onto the
return layer, in order. -/
def multiplicationPoints (input_layers : List Layer) : List ℚ → List Nat → List Coordinate
  | [], _ => []
  | t :: ts, at_index =>
    ⟨t, GetMultiple input_layers (advance input_layers at_index t)⟩ ::
      multiplicationPoints input_layers ts (advance input_layers at_index t)

/-- `CreateMultiplicationLayer` (`soa1_tr_create_multiplication_layer.h`,
lines 58-112). -/
def CreateMultiplicationLayer (input_layers : List Layer) : Layer :=
  ⟨lowestXVal input_layers,
      GetMultiple input_layers (List.replicate input_layers.length 0)⟩ ::
    multiplicationPoints input_layers (tChange input_layers)
      (List.replicate input_layers.length 0)

end tr

/-! ## `sv` — status variables -/

namespace sv

/-- `soa1::sv::priority::PriorityList` (`soa1_sv_priority_list.h`): the enum
values, as the `int` kept in `State::current_priority_`. -/
def priority.DEATH : Int := 0
def priority.BIRTHS : Int := 1
def priority.RELATION_START : Int := 2
def priority.MATCHMAKING : Int := 3
def priority.RELATION_END : Int := 4
def priority.HIV_TRANSMISSION : Int := 5
def priority.GN_TRANSMISSION : Int := 6
def priority.GN_NATURAL_CURE : Int := 7

/-- `soa1::sv::relation_event_codes::RelationEventCodes`
(`soa1_sv_relation_event_codes.h`). -/
def relation_event_codes.END_DUE_TO_DEATH : Int := 0
def relation_event_codes.CANCEL_EV_HIV_TRANSMISSION : Int := 1
def relation_event_codes.CANCEL_EV_GN_TRANSMISSION : Int := 2

/-- `soa1::sv::person::HIVStatus` (`soa1_sv_person_hiv_status.h`). -/
structure person.HIVStatus where
  infected : Bool
  t_infected : Int
deriving DecidableEq

/-- `soa1::sv::person::GonorrheaStatus` (`soa1_sv_person_gonorrhea_status.h`). -/
structure person.GonorrheaStatus where
  infected : Bool
  t_infected : Int
  symptomatic : Bool
deriving DecidableEq

/-- `soa1::sv::Person` (`soa1_sv_person.h`), without its relation-time
generator. -/
structure Person where
  id : Int
  day_of_birth : Int
  hiv_status : person.HIVStatus
  gonorrhea_status : person.GonorrheaStatus
deriving DecidableEq

/-- `soa1::sv::Relation` (`soa1_sv_relation.h`). -/
structure Relation where
  relation_id : Int
  person1_id : Int
  person2_id : Int
  time_start : Int
  time_end : Int
deriving DecidableEq

/-- The part of `soa1::sv::State` (`soa1_sv_state.h`) read by the transmission
update: the clock, the priority class being executed, the person list
(`PersonList::operator[]` is `std::map::at`, which throws for an unknown id:
`none`), and `GetGNTransmission`, the time until transmission that
`state.transmission().GetGNTransmission(relation, infected, susceptible, time)`
samples at this call. -/
structure State where
  time : Int
  current_priority : Int
  person_list : Int → Option Person
  GetGNTransmission : Relation → Person → Person → Int → ℚ

end sv

namespace tr

/-- `soa1::tr::ev::GNTransmission` (`soa1_tr_ev_gn_transmission.h`): the
members of the event and of its `alje::Event` base (due day, priority class,
channel-1 tag, channel-2 tag). -/
structure ev.GNTransmission where
  time_due : Int
  priority : Int
  channel1 : Int
  channel2 : Int
  relation_id : Int
  person_to_infect_id : Int
deriving DecidableEq

/-- The constructor of `GNTransmission` (lines 82-88): the base is built as
`alje::Event(time_due, sv::priority::GN_TRANSMISSION, -1, relation_id)`. -/
def ev.GNTransmission.new (relation_id person_to_infect_id time_due : Int) :
    ev.GNTransmission :=
  { time_due := time_due, priority := sv.priority.GN_TRANSMISSION, channel1 := -1,
    channel2 := relation_id, relation_id := relation_id,
    person_to_infect_id := person_to_infect_id }

/-- A call made on `state.event_manager()`. -/
inductive EventManagerCall where
  | NotifyChannel2 (number : Int) (extra_info : Int)
  | Add (e : ev.GNTransmission)
deriving DecidableEq

/-- `static_cast<int>` of a `double`: rounds toward zero. -/
def staticCastInt (x : ℚ) : Int := if 0 ≤ x then ⌊x⌋ else ⌈x⌉

/-- `UpdateGNTransmissionEvent` (`soa1_tr_update_gn_transmission_event.h`,
lines 55-116): the calls made on the event manager, in order; `none` when a
partner is not in the person list (`std::out_of_range`). -/
def UpdateGNTransmissionEvent (state : sv.State) (relation : sv.Relation) :
    Option (List EventManagerCall) :=
  let cancel := EventManagerCall.NotifyChannel2 relation.relation_id
    sv.relation_event_codes.CANCEL_EV_GN_TRANSMISSION
  match state.person_list relation.person1_id, state.person_list relation.person2_id with
  | some person1, some person2 =>
    if person1.gonorrhea_status.infected != person2.gonorrhea_status.infected then
      let sampled : ℚ × Int :=
        if person1.gonorrhea_status.infected = true then
          (state.GetGNTransmission relation person1 person2 state.time, person2.id)
        else
          (state.GetGNTransmission relation person2 person1 state.time, person1.id)
      let transmission_time_from_now := sampled.1
      let person_to_infect_id := sampled.2
      if transmission_time_from_now = -1 then
        some [cancel]
      else if transmission_time_from_now + (state.time : ℚ) > (relation.time_end : ℚ) then
        some [cancel]
      else
        let just_infected_mod : Int :=
          if state.current_priority ≥ sv.priority.GN_TRANSMISSION then 1 else 0
        let transmission_simulation_time : Int :=
          state.time + staticCastInt transmission_time_from_now + just_infected_mod
        some [cancel, EventManagerCall.Add
          (ev.GNTransmission.new relation.relation_id person_to_infect_id
            transmission_simulation_time)]
    else
      some [cancel]
  | _, _ => none

end tr

/-! ## `rg::start` — when do relationships start -/

namespace parameters

/-- The members of `soa1::parameters::RelationGenerationStart`
(`soa1_parameters_pack.h`) read by `RateGivenAgeFormula`. -/
structure RelationGenerationStart where
  sexual_onset : ℚ
  sexual_stop : ℚ
  average_total_lifetime_n_partners : ℚ
  rate_given_age_formula_skew : ℚ
  age_effect_strength : ℚ

end parameters

namespace rg

/-- `soa1::rg::start::RateGivenAgeFormula`
(`soa1_rg_start_rate_given_age_formula.h`): the coefficients of the cubic. -/
structure start.RateGivenAgeFormula where
  a_ : ℚ
  b_ : ℚ
  c_ : ℚ
  d_ : ℚ

/-- The constructor of `RateGivenAgeFormula` (lines 62-112). -/
def start.RateGivenAgeFormula.new (rg_parameters : parameters.RelationGenerationStart) :
    start.RateGivenAgeFormula :=
  let b := rg_parameters.sexual_onset * 365
  let e := rg_parameters.sexual_stop * 365
  let s := rg_parameters.rate_given_age_formula_skew
  let p := 1 / (e - b)
  let a_avg_rate_equal_to_one := p * p * p * (2 * s - 1) * 12
  let b_avg_rate_equal_to_one := p * p * (3 * b * p - 6 * b * s * p + 1 - 3 * s) * 12
  let c_avg_rate_equal_to_one :=
    p * (6 * b * b * s * p * p - 3 * b * b * p * p + 6 * b * s * p - 2 * b * p + s) * 12
  let d_avg_rate_equal_to_one :=
    (b * b * b * p * p * p - 2 * b * b * b * s * p * p * p + b * b * p * p
      - 3 * b * b * p * p * s - b * s * p) * 12
  let w := rg_parameters.age_effect_strength
  let a_including_strength := w * a_avg_rate_equal_to_one + 0
  let b_including_strength := w * b_avg_rate_equal_to_one + 0
  let c_including_strength := w * c_avg_rate_equal_to_one + 0
  let d_including_strength := w * d_avg_rate_equal_to_one + (1 - w)
  let current_total_partners := e - b
  let desired_total_partners := rg_parameters.average_total_lifetime_n_partners
  { a_ := a_including_strength / current_total_partners * desired_total_partners,
    b_ := b_including_strength / current_total_partners * desired_total_partners,
    c_ := c_including_strength / current_total_partners * desired_total_partners,
    d_ := d_including_strength / current_total_partners * desired_total_partners }

/-- `RateGivenAgeFormula::rate_primitive` (lines 44-48). -/
def start.RateGivenAgeFormula.rate_primitive (f : start.RateGivenAgeFormula)
    (age_in_days : ℚ) : ℚ :=
  let x := age_in_days
  f.a_ / 4 * x * x * x * x + f.b_ / 3 * x * x * x + f.c_ / 2 * x * x + f.d_ * x

/-- `RateGivenAgeFormula::rate_function` (lines 50-54). -/
def start.RateGivenAgeFormula.rate_function (f : start.RateGivenAgeFormula)
    (age_in_days : ℚ) : ℚ :=
  let x := age_in_days
  f.a_ * x * x * x + f.b_ * x * x + f.c_ * x + f.d_

/-- `RateGivenAgeFormula::rate_derivative` (lines 56-60). -/
def start.RateGivenAgeFormula.rate_derivative (f : start.RateGivenAgeFormula)
    (age_in_days : ℚ) : ℚ :=
  let x := age_in_days
  3 * f.a_ * x * x + 2 * f.b_ * x + f.c_

end rg

/-! ## `rg::mm` — matchmaking: the link handler -/

namespace alje

/-- Modelled from the spec: `alje::MultiSetSize2<int>` (`alje_multiset_size2.h`
is not among the sources), an unordered pair of group indices `{a, b}`, kept
as `first ≤ second` ("group (1,3) exists but (3,1) does not",
`soa1_rg_mm_link_handler.h` line 337). -/
structure MultiSetSize2 where
  first : Nat
  second : Nat
deriving DecidableEq

end alje

namespace rg
namespace mm

/-- A `std::vector<std::vector<double>>` indexed by two group numbers: the
function from the two indices to the entry. -/
abbrev GroupMatrix := Nat → Nat → ℚ

/-- The credit of a link: a `double`, where
`std::numeric_limits<double>::lowest()` ("-infinity", "not possible") is `⊥`.
Like the floating-point value, `⊥` is below every other credit and is not
changed by adding to it. -/
abbrev Credit := WithBot ℚ

/-- `soa1::rg::mm::LinkListState` (`soa1_rg_mm_link_handler.h`, lines 72-76). -/
inductive LinkListState where
  | SORTED_BY_VALUE
  | SORTED_BY_LINKS
  | UNSORTED
deriving DecidableEq

/-- `soa1::rg::mm::LinkHandler` (`soa1_rg_mm_link_handler.h`): its members. -/
structure LinkHandler where
  n_sorts_by_value_called_ : Int
  n_sorts_by_links_called_ : Int
  current_position_ : Nat
  n_groups_ : Nat
  partner_choice_matrix_ : GroupMatrix
  link_list_ : List (alje.MultiSetSize2 × Credit)
  link_list_state_ : LinkListState

/-- `LinkHandler::acceptable_treshhold_` (line 310). -/
def LinkHandler.acceptable_treshhold_ : Int := -50

/-- The constructor `LinkHandler::LinkHandler` (lines 262-296): one entry for
every unique link, `higher` in the outer loop and `lower ≤ higher` in the
inner loop, at credit 0, or at "-inf" when `preference_matrix[higher][lower]`
is 0. -/
def LinkHandler.new (n_groups : Nat) (preference_matrix : GroupMatrix) : LinkHandler :=
  { n_sorts_by_value_called_ := 0,
    n_sorts_by_links_called_ := 0,
    current_position_ := 0,
    n_groups_ := n_groups,
    partner_choice_matrix_ := preference_matrix,
    link_list_ := (List.range n_groups).flatMap (fun higher =>
      (List.range (higher + 1)).map (fun lower =>
        ((⟨lower, higher⟩ : alje.MultiSetSize2),
          if preference_matrix higher lower = 0 then (⊥ : Credit) else 0))),
    link_list_state_ := LinkListState.UNSORTED }

/-- `LinkHandler::PositionInLinkSorted` (lines 327-342). -/
def PositionInLinkSorted (n_groups_ : Nat) (group1 group2 : Nat) : Nat :=
  if group1 > group2 then
    group2 * (2 * n_groups_ - group2 - 1) / 2 + group1
  else
    group1 * (2 * n_groups_ - group1 - 1) / 2 + group2

/-- The statement `link_list_[position].second += amount`. -/
def addCredit : List (alje.MultiSetSize2 × Credit) → Nat → ℚ →
    List (alje.MultiSetSize2 × Credit)
  | [], _, _ => []
  | p :: l, 0, amount => (p.1, p.2 + (amount : Credit)) :: l
  | p :: l, position + 1, amount => p :: addCredit l position amount

/-- `LinkHandler::Add` (lines 80-112). -/
def LinkHandler.Add (lh : LinkHandler) (n_people_per_group : Nat → Int) : LinkHandler :=
  { lh with
    link_list_ :=
      (List.range lh.n_groups_).foldl (fun link_list group_from =>
        (List.range lh.n_groups_).foldl (fun link_list group_to =>
          addCredit link_list (PositionInLinkSorted lh.n_groups_ group_from group_to)
            (1 / 2 * (n_people_per_group group_from : ℚ)
              * lh.partner_choice_matrix_ group_from group_to))
          link_list)
        lh.link_list_ }

/-- `LinkHandler::PointToTop` (lines 114-117). -/
def LinkHandler.PointToTop (lh : LinkHandler) : LinkHandler :=
  { lh with current_position_ := 0 }

/-- `LinkHandler::Get` (lines 119-122); `none` when the cursor is past the end. -/
def LinkHandler.Get (lh : LinkHandler) : Option alje.MultiSetSize2 :=
  (lh.link_list_[lh.current_position_]?).map (fun p => p.1)

/-- The `total` of `LinkHandler::LogReport` (lines 128-139): the sum of the
credits that are not `lowest()`. -/
def LinkHandler.total (lh : LinkHandler) : ℚ :=
  lh.link_list_.foldl (fun total link =>
    match link.2 with
    | none => total
    | some v => total + v) 0

/-- `LinkHandler::Next` (lines 152-155). -/
def LinkHandler.Next (lh : LinkHandler) : LinkHandler :=
  { lh with current_position_ := lh.current_position_ + 1 }

/-- `LinkHandler::PointsToAcceptableLink` (lines 157-168). -/
def LinkHandler.PointsToAcceptableLink (lh : LinkHandler) : Bool :=
  match lh.link_list_[lh.current_position_]? with
  | some p => decide (p.2 > (((LinkHandler.acceptable_treshhold_ : Int) : ℚ) : Credit))
  | none => false

/-- `LinkHandler::PointsToPositiveLink` (lines 170-180). -/
def LinkHandler.PointsToPositiveLink (lh : LinkHandler) : Bool :=
  match lh.link_list_[lh.current_position_]? with
  | some p => decide (p.2 > 0)
  | none => false

/-- The partial bubble sort of `LinkHandler::Remove` (lines 198-211): the
changed entry `ours` moves down past every entry below it with a strictly
higher credit. -/
def bubbleDown (ours : alje.MultiSetSize2 × Credit) :
    List (alje.MultiSetSize2 × Credit) → List (alje.MultiSetSize2 × Credit)
  | [] => [ours]
  | below :: rest =>
    if below.2 ≤ ours.2 then ours :: below :: rest else below :: bubbleDown ours rest

/-- `link_list_[position].second -= 1` followed by the partial bubble sort. -/
def removeAt : List (alje.MultiSetSize2 × Credit) → Nat →
    List (alje.MultiSetSize2 × Credit)
  | [], _ => []
  | p :: l, 0 => bubbleDown (p.1, p.2 + ((-1 : ℚ) : Credit)) l
  | p :: l, position + 1 => p :: removeAt l position

/-- `LinkHandler::Remove` (lines 182-213). -/
def LinkHandler.Remove (lh : LinkHandler) : LinkHandler :=
  { lh with link_list_ := removeAt lh.link_list_ lh.current_position_ }

/-- `LinkHandler::RemovePerson` (lines 215-228). -/
def LinkHandler.RemovePerson (lh : LinkHandler) (remove_a_person_from : Nat) : LinkHandler :=
  { lh with
    link_list_ :=
      (List.range lh.n_groups_).foldl (fun link_list group_to =>
        addCredit link_list (PositionInLinkSorted lh.n_groups_ remove_a_person_from group_to)
          (-(1 / 2 * lh.partner_choice_matrix_ remove_a_person_from group_to)))
        lh.link_list_ }

/-- The default ordering of `std::pair<alje::MultiSetSize2<int>, double>`:
by link (first group, then second group), then by credit. -/
def linkPairLe (p q : alje.MultiSetSize2 × Credit) : Prop :=
  p.1.first < q.1.first ∨ (p.1.first = q.1.first ∧
    (p.1.second < q.1.second ∨ (p.1.second = q.1.second ∧ p.2 ≤ q.2)))

instance : DecidableRel linkPairLe := fun p q => by
  unfold linkPairLe
  exact inferInstance

/-- `LinkHandler::SortByLinks` (lines 230-241): `std::sort` with the default
ordering of the pairs. -/
def LinkHandler.SortByLinks (lh : LinkHandler) : LinkHandler :=
  { lh with
    n_sorts_by_links_called_ := lh.n_sorts_by_links_called_ + 1,
    link_list_ := List.insertionSort linkPairLe lh.link_list_,
    link_list_state_ := LinkListState.SORTED_BY_LINKS }

/-- `LinkHandler::SortByValue` (lines 243-256): `std::sort` by descending
credit. `std::sort` leaves the order of entries with equal credit unspecified,
so the sorting function `sort_descending` is a parameter. -/
def LinkHandler.SortByValue
    (sort_descending : List (alje.MultiSetSize2 × Credit) → List (alje.MultiSetSize2 × Credit))
    (lh : LinkHandler) : LinkHandler :=
  { lh with
    n_sorts_by_value_called_ := lh.n_sorts_by_value_called_ + 1,
    link_list_ := sort_descending lh.link_list_,
    link_list_state_ := LinkListState.SORTED_BY_VALUE }

/-- `LinkHandler::UpdatePartnerChoiceMatrix` (lines 258-260). -/
def LinkHandler.UpdatePartnerChoiceMatrix (lh : LinkHandler) (p : GroupMatrix) : LinkHandler :=
  { lh with partner_choice_matrix_ := p }

/-- The order of links alone: first group, then second group. -/
def linkLe (p q : alje.MultiSetSize2) : Prop :=
  p.first < q.first ∨ (p.first = q.first ∧ p.second ≤ q.second)

/-- All unordered links over `n` groups, sorted by (smaller group, larger
group): `{0,0}, {0,1}, ..., {0,n-1}, {1,1}, ...`. -/
def allLinks (n : Nat) : List alje.MultiSetSize2 :=
  (List.range n).flatMap (fun a =>
    (List.range' a (n - a)).map (fun b => (⟨a, b⟩ : alje.MultiSetSize2)))

/-- The credit stored for the link `{a, b}` (`a ≤ b`), if the link is stored. -/
def LinkHandler.credit (lh : LinkHandler) (a b : Nat) : Option Credit :=
  (lh.link_list_.find? (fun p => decide (p.1 = ⟨a, b⟩))).map (fun p => p.2)

/-! ## `rg::mm` — matchmaking: the partner-choice matrix -/

/-- `soa1::rg::mm::PartnerChoiceMatrix` (`soa1_rg_mm_partner_choice_matrix.h`):
its members, without the weighting object `alje_weight_`. Vectors indexed by
group are functions of the group number. -/
structure PartnerChoiceMatrix where
  percent_in_group_estimate_ : Nat → ℚ
  percent_in_group_estimate_last_recalculation_ : Nat → ℚ
  n_database_updates_called_ : Int
  n_get_called_ : Int
  preference_matrix_ : GroupMatrix
  weight_new_database_update_ : ℚ
  n_relation_matrix_iterations_ : Int
  group_estimate_error_tolerance_ : ℚ
  n_groups_ : Nat
  msm_hack_enabled_ : Bool

/-- Step 1 of one iteration of `PartnerChoiceMatrix::Get` (lines 109-126):
every column is multiplied by `rescale_by`, which is
`percent_in_group_estimate_[column] / column_sum` when both are non-zero and 1
otherwise. The sum of a column only reads that column, so the columns are
rescaled independently. -/
def PartnerChoiceMatrix.rescaleColumns (pcm : PartnerChoiceMatrix) (return_vec : GroupMatrix) :
    GroupMatrix :=
  fun row column =>
    let column_sum := ∑ row1 in Finset.range pcm.n_groups_,
      pcm.percent_in_group_estimate_ row1 * return_vec row1 column
    let rescale_by :=
      if column_sum ≠ 0 ∧ pcm.percent_in_group_estimate_ column ≠ 0 then
        pcm.percent_in_group_estimate_ column / column_sum
      else 1
    return_vec row column * rescale_by

/-- Step 2 of one iteration (lines 129-138): every row is multiplied by
`1 / row_sum`. `none` when a `row_sum` is 0: the division then yields no
number. -/
def PartnerChoiceMatrix.rescaleRows (pcm : PartnerChoiceMatrix) (return_vec : GroupMatrix) :
    Option GroupMatrix :=
  if ∀ row ∈ List.range pcm.n_groups_,
      (∑ column in Finset.range pcm.n_groups_, return_vec row column) ≠ 0 then
    some (fun row column =>
      let row_sum := ∑ column1 in Finset.range pcm.n_groups_, return_vec row column1
      let rescale_by := 1 / row_sum
      return_vec row column * rescale_by)
  else none

/-- The loop of `PartnerChoiceMatrix::Get` (lines 105-139), `iterations` times. -/
def PartnerChoiceMatrix.iterate (pcm : PartnerChoiceMatrix) :
    Nat → GroupMatrix → Option GroupMatrix
  | 0, return_vec => some return_vec
  | iterations + 1, return_vec =>
    match pcm.rescaleRows (pcm.rescaleColumns return_vec) with
    | none => none
    | some return_vec1 => PartnerChoiceMatrix.iterate pcm iterations return_vec1

/-- `*std::max_element` over the first `n` entries of a vector; `none` for an
empty vector. -/
def maxElement (v : Nat → ℚ) : Nat → Option ℚ
  | 0 => none
  | n + 1 =>
    match maxElement v n with
    | none => some (v n)
    | some m => some (max m (v n))

/-- `fullmatrix` as first filled in `ProvideFinishingTouch` (lines 282-293). -/
def PartnerChoiceMatrix.fullmatrixFilled (pcm : PartnerChoiceMatrix) (m : GroupMatrix) :
    GroupMatrix :=
  fun i j =>
    if i = j then pcm.percent_in_group_estimate_ i * m i i
    else min (pcm.percent_in_group_estimate_ i * m i j) (pcm.percent_in_group_estimate_ j * m j i)

/-- `row_total_div_by_group_size` (lines 281-300): the row total of
`fullmatrix` divided by the group size, and 0 for a group of size 0. -/
def PartnerChoiceMatrix.row_total_div_by_group_size (pcm : PartnerChoiceMatrix)
    (m : GroupMatrix) : Nat → ℚ :=
  fun i =>
    if pcm.percent_in_group_estimate_ i = 0 then 0
    else ∑ j in Finset.range pcm.n_groups_,
      pcm.fullmatrixFilled m i j / pcm.percent_in_group_estimate_ i

/-- `factor` (lines 308-309). -/
def PartnerChoiceMatrix.factor (pcm : PartnerChoiceMatrix) (m : GroupMatrix) : Option ℚ :=
  maxElement (pcm.row_total_div_by_group_size m) pcm.n_groups_

/-- `toadd` (lines 321-322) for the matrix `fullmatrix` divided by `factor`. -/
def PartnerChoiceMatrix.toadd (pcm : PartnerChoiceMatrix) (m : GroupMatrix) (factor : ℚ) :
    Nat → ℚ :=
  fun i => pcm.percent_in_group_estimate_ i
    - ∑ j in Finset.range pcm.n_groups_, pcm.fullmatrixFilled m i j / factor

/-- `fullmatrix` after the division by `factor` and the padding of the
diagonal (lines 311-324). -/
def PartnerChoiceMatrix.fullmatrixPadded (pcm : PartnerChoiceMatrix) (m : GroupMatrix)
    (factor : ℚ) : GroupMatrix :=
  fun i j =>
    if i = j then pcm.fullmatrixFilled m i j / factor + pcm.toadd m factor i
    else pcm.fullmatrixFilled m i j / factor

/-- `PartnerChoiceMatrix::ProvideFinishingTouch` (lines 260-351). `none` when
there is no group (`max_element` of an empty vector) or when `factor` is 0:
the division of the cells by `factor` then yields no number. -/
def PartnerChoiceMatrix.ProvideFinishingTouch (pcm : PartnerChoiceMatrix) (m : GroupMatrix) :
    Option GroupMatrix :=
  match pcm.factor m with
  | none => none
  | some factor =>
    if factor = 0 then none
    else
      some (fun i j =>
        let row_sum := ∑ j1 in Finset.range pcm.n_groups_, pcm.fullmatrixPadded m factor i j1
        if row_sum ≠ 0 then pcm.fullmatrixPadded m factor i j / row_sum
        else if i = j then 1 else 0)

/-- `PartnerChoiceMatrix::Get` (lines 92-146): the updated object and the
matrix returned. -/
def PartnerChoiceMatrix.Get (pcm : PartnerChoiceMatrix) :
    PartnerChoiceMatrix × Option GroupMatrix :=
  ({ pcm with
      percent_in_group_estimate_last_recalculation_ := pcm.percent_in_group_estimate_,
      n_get_called_ := pcm.n_get_called_ + 1 },
    match pcm.iterate pcm.n_relation_matrix_iterations_.toNat pcm.preference_matrix_ with
    | none => none
    | some return_vec =>
      if pcm.msm_hack_enabled_ then pcm.ProvideFinishingTouch return_vec
      else some return_vec)

/-! ## `rg::mm` — matchmaking: robustness check and matchmaker -/

/-- `soa1::rg::mm::RelationRequest` (`soa1_rg_mm_relation_request.h`). -/
structure RelationRequest where
  person_id : Int
  duration_in_days : Int
deriving DecidableEq

instance : Inhabited RelationRequest := ⟨⟨0, 0⟩⟩

/-- `soa1::rg::mm::RobustnessCheck` (`soa1_rg_mm_robustness_check.h`): its
members, without the weighting object `weight_new_`. -/
structure RobustnessCheck where
  n_groups_ : Nat
  avg_ : Nat → ℚ
  cum_remove_ : Nat → ℚ
  max_percent_in_priority_goal_ : ℚ
  n_times_called_ : Int
  w_ : ℚ

/-- The constructor `RobustnessCheck::RobustnessCheck` (lines 88-94) with the
member initialisers `n_times_called_ = 0` and `w_ = 0.01`. -/
def RobustnessCheck.new (n_groups : Nat) (max_percent_in_priority_goal : ℚ) : RobustnessCheck :=
  { n_groups_ := n_groups,
    avg_ := fun _ => 0,
    cum_remove_ := fun _ => 0,
    max_percent_in_priority_goal_ := max_percent_in_priority_goal,
    n_times_called_ := 0,
    w_ := 1 / 100 }

/-- `RobustnessCheck::Update` (lines 50-58). `GetWeight` is
`alje::HistoricExponentialWeighting::GetWeight` of `weight_new_`
(`alje_historic_exponential_weighting.h` is not among the sources). -/
def RobustnessCheck.Update (GetWeight : Int → ℚ) (rc : RobustnessCheck)
    (normal priority : Nat → Int) : RobustnessCheck :=
  { rc with
    avg_ := fun i =>
      if i < rc.n_groups_ then
        let exceeds : ℚ := (priority i : ℚ) - (normal i : ℚ) * rc.max_percent_in_priority_goal_
        let exceeds := if exceeds < 0 then 0 else exceeds
        GetWeight rc.n_times_called_ * exceeds
          + (1 - GetWeight rc.n_times_called_) * rc.avg_ i
      else rc.avg_ i }

/-- The value of `return_vec[i]` computed by `RobustnessCheck::Advice`
(lines 66-74) from the accumulated amount `cum_remove`. -/
def RobustnessCheck.adviceFor (cum_remove : ℚ) (priority_i : Int) : Int :=
  let return_vec_i := tr.staticCastInt cum_remove
  if return_vec_i > priority_i - 10 then
    if priority_i - 10 < 0 then 0 else priority_i - 10
  else return_vec_i

/-- `RobustnessCheck::Advice` (lines 60-79): the updated object and the
advice. -/
def RobustnessCheck.Advice (rc : RobustnessCheck) (_normal priority : Nat → Int) :
    RobustnessCheck × (Nat → Int) :=
  ({ rc with
      cum_remove_ := fun i =>
        if i < rc.n_groups_ then
          rc.cum_remove_ i + rc.avg_ i / 1000
            - (RobustnessCheck.adviceFor (rc.cum_remove_ i + rc.avg_ i / 1000) (priority i) : ℚ)
        else rc.cum_remove_ i },
    fun i =>
      if i < rc.n_groups_ then
        RobustnessCheck.adviceFor (rc.cum_remove_ i + rc.avg_ i / 1000) (priority i)
      else 0)

/-- `RobustnessCheck::UpdateandAdvice` (lines 81-86). -/
def RobustnessCheck.UpdateandAdvice (GetWeight : Int → ℚ) (rc : RobustnessCheck)
    (normal priority : Nat → Int) : RobustnessCheck × (Nat → Int) :=
  RobustnessCheck.Advice
    (RobustnessCheck.Update GetWeight { rc with n_times_called_ := rc.n_times_called_ + 1 }
      normal priority)
    normal priority

/-- `soa1::rg::mm::MatchMaker` (`soa1_rg_mm_matchmaker.h`): its members.
`n_groups` is `group_handler_.NumberOfGroups()`; the vectors indexed by group
are functions of the group number. What `Get` obtains from the random
generator `rng_` and from `partner_choice_matrix_` is passed to `Get`. -/
structure MatchMaker where
  n_groups : Nat
  link_handler_ : LinkHandler
  robustness_check_ : RobustnessCheck
  n_requests_received_ : Int
  n_requests_scheduled_first_day_ : Int
  n_requests_scheduled_second_day_ : Int
  n_requests_dropped_after_first_day_ : Int
  n_requests_dropped_after_second_day_ : Int
  relation_request_by_group_ : Nat → List RelationRequest
  relation_request_by_group_priority_ : Nat → List RelationRequest
  r_ : Nat → Int
  r_p_ : Nat → Int

/-- The constructor `MatchMaker::MatchMaker` (lines 283-303) for `n_groups`
groups with the preference matrix `group_handler_.PreferenceMatrix()`;
`n_percent_unscheduled_on_day_1_bound` is 0.8. -/
def MatchMaker.new (n_groups : Nat) (preference_matrix : GroupMatrix) : MatchMaker :=
  { n_groups := n_groups,
    link_handler_ := LinkHandler.new n_groups preference_matrix,
    robustness_check_ := RobustnessCheck.new n_groups (4 / 5),
    n_requests_received_ := 0,
    n_requests_scheduled_first_day_ := 0,
    n_requests_scheduled_second_day_ := 0,
    n_requests_dropped_after_first_day_ := 0,
    n_requests_dropped_after_second_day_ := 0,
    relation_request_by_group_ := fun _ => [],
    relation_request_by_group_priority_ := fun _ => [],
    r_ := fun _ => 0,
    r_p_ := fun _ => 0 }

/-- `MatchMaker::AddRelationRequest` (lines 115-120); `GroupNumber` is
`group_handler_.GroupNumber`. -/
def MatchMaker.AddRelationRequest (GroupNumber : RelationRequest → Nat) (mm : MatchMaker)
    (rr : RelationRequest) : MatchMaker :=
  let group := GroupNumber rr
  { mm with
    n_requests_received_ := mm.n_requests_received_ + 1,
    relation_request_by_group_ :=
      Function.update mm.relation_request_by_group_ group
        (mm.relation_request_by_group_ group ++ [rr]),
    r_ := Function.update mm.r_ group (mm.r_ group + 1) }

/-- One of the two identical blocks of `MatchFoundDoAllAndReturnPair`
(lines 350-360 for `group1`, 361-371 for `group2`): take the last request of
the priority queue of `group` when its counter is positive, of the
non-priority queue otherwise. -/
def MatchMaker.takeRequest (mm : MatchMaker) (group : Nat) : MatchMaker × RelationRequest :=
  if mm.r_p_ group > 0 then
    ({ mm with
        relation_request_by_group_priority_ :=
          Function.update mm.relation_request_by_group_priority_ group
            (mm.relation_request_by_group_priority_ group).dropLast,
        r_p_ := Function.update mm.r_p_ group (mm.r_p_ group - 1),
        n_requests_scheduled_second_day_ := mm.n_requests_scheduled_second_day_ + 1 },
      (mm.relation_request_by_group_priority_ group).getLastD default)
  else
    ({ mm with
        relation_request_by_group_ :=
          Function.update mm.relation_request_by_group_ group
            (mm.relation_request_by_group_ group).dropLast,
        r_ := Function.update mm.r_ group (mm.r_ group - 1),
        n_requests_scheduled_first_day_ := mm.n_requests_scheduled_first_day_ + 1 },
      (mm.relation_request_by_group_ group).getLastD default)

/-- `MatchMaker::MatchFoundDoAllAndReturnPair` (lines 331-377). -/
def MatchMaker.MatchFoundDoAllAndReturnPair (mm : MatchMaker) (group1 group2 : Nat) :
    MatchMaker × (RelationRequest × RelationRequest) :=
  let mm1 := { mm with link_handler_ := mm.link_handler_.Remove }
  let taken1 := mm1.takeRequest group1
  let taken2 := taken1.1.takeRequest group2
  (taken2.1, (taken1.2, taken2.2))

/-- The test of the priority pass (lines 202-205). -/
def MatchMaker.priorityTest (mm : MatchMaker) (g1 g2 : Nat) : Bool :=
  (g1 == g2 && (decide (mm.r_p_ g1 > 1) || (decide (mm.r_p_ g1 > 0) && decide (mm.r_ g1 > 0))))
  || (g1 != g2 && decide (mm.r_p_ g1 > 0) && (decide (mm.r_p_ g2 > 0) || decide (mm.r_ g2 > 0)))
  || (g1 != g2 && decide (mm.r_p_ g2 > 0) && (decide (mm.r_p_ g1 > 0) || decide (mm.r_ g1 > 0)))

/-- The test of the non-priority pass (lines 222-224). -/
def MatchMaker.normalTest (mm : MatchMaker) (g1 g2 : Nat) : Bool :=
  (g1 == g2 && decide (mm.r_ g1 > 1))
  || (g1 != g2 && !(decide (mm.r_ g1 = 0) || decide (mm.r_ g2 = 0)))

/-- One iteration of the `while` loop of the priority pass (lines 193-210):
`none` when the loop condition `PointsToAcceptableLink()` is false. -/
def MatchMaker.priorityStep (mm : MatchMaker)
    (return_vec : List (RelationRequest × RelationRequest)) :
    Option (MatchMaker × List (RelationRequest × RelationRequest)) :=
  if mm.link_handler_.PointsToAcceptableLink then
    match mm.link_handler_.Get with
    | some possible_match =>
      if mm.priorityTest possible_match.first possible_match.second then
        let found := mm.MatchFoundDoAllAndReturnPair possible_match.first possible_match.second
        some (found.1, return_vec ++ [found.2])
      else
        some ({ mm with link_handler_ := mm.link_handler_.Next }, return_vec)
    | none => none
  else none

/-- One iteration of the `while` loop of the non-priority pass (lines
214-230): `none` when the loop condition `PointsToPositiveLink()` is false. -/
def MatchMaker.normalStep (mm : MatchMaker)
    (return_vec : List (RelationRequest × RelationRequest)) :
    Option (MatchMaker × List (RelationRequest × RelationRequest)) :=
  if mm.link_handler_.PointsToPositiveLink then
    match mm.link_handler_.Get with
    | some possible_match =>
      if mm.normalTest possible_match.first possible_match.second then
        let found := mm.MatchFoundDoAllAndReturnPair possible_match.first possible_match.second
        some (found.1, return_vec ++ [found.2])
      else
        some ({ mm with link_handler_ := mm.link_handler_.Next }, return_vec)
    | none => none
  else none

/-- A `while` loop run for at most `fuel` iterations. -/
def MatchMaker.runLoop
    (step : MatchMaker → List (RelationRequest × RelationRequest) →
      Option (MatchMaker × List (RelationRequest × RelationRequest))) :
    Nat → MatchMaker → List (RelationRequest × RelationRequest) →
      MatchMaker × List (RelationRequest × RelationRequest)
  | 0, mm, return_vec => (mm, return_vec)
  | fuel + 1, mm, return_vec =>
    match step mm return_vec with
    | none => (mm, return_vec)
    | some next => MatchMaker.runLoop step fuel next.1 next.2

/-- A bound on the number of iterations of a scheduling loop: every iteration
either takes two queued requests or advances the cursor. -/
def MatchMaker.fuel (mm : MatchMaker) : Nat :=
  (∑ g in Finset.range mm.n_groups, ((mm.r_ g).toNat + (mm.r_p_ g).toNat))
    + mm.link_handler_.link_list_.length + 1

/-- The body of the robustness loop (lines 176-181) for group `i`. -/
def MatchMaker.removeAdvised (mm : MatchMaker) (i : Nat) : MatchMaker :=
  { mm with
    n_requests_dropped_after_first_day_ := mm.n_requests_dropped_after_first_day_ + 1,
    r_p_ := Function.update mm.r_p_ i (mm.r_p_ i - 1),
    relation_request_by_group_priority_ :=
      Function.update mm.relation_request_by_group_priority_ i
        (mm.relation_request_by_group_priority_ i).dropLast,
    link_handler_ := mm.link_handler_.RemovePerson i }

/-- The body of the loop of step 5 over the remaining priority requests of
`group_nr` (lines 236-244). -/
def MatchMaker.dropOne (mm : MatchMaker) (group_nr : Nat) : MatchMaker :=
  { mm with
    link_handler_ := mm.link_handler_.SortByLinks.RemovePerson group_nr,
    n_requests_dropped_after_second_day_ := mm.n_requests_dropped_after_second_day_ + 1 }

/-- Step 5 for one group (lines 236-246). -/
def MatchMaker.dropGroup (mm : MatchMaker) (group_nr : Nat) : MatchMaker :=
  let mm1 := Nat.iterate (fun m => m.dropOne group_nr)
    (mm.relation_request_by_group_priority_ group_nr).length mm
  { mm1 with
    relation_request_by_group_priority_ :=
      Function.update mm1.relation_request_by_group_priority_ group_nr [],
    r_p_ := Function.update mm1.r_p_ group_nr 0 }

/-- Step 0 of `MatchMaker::Get` (lines 141-143): shuffle the new arrivals.
`shuffle g` is the permutation `std::shuffle` applies to the queue of group
`g` with the random generator `rng_`. -/
def MatchMaker.stepShuffle (shuffle : Nat → List RelationRequest → List RelationRequest)
    (mm : MatchMaker) : MatchMaker :=
  { mm with
    relation_request_by_group_ := fun g => shuffle g (mm.relation_request_by_group_ g) }

/-- Step 1 of `MatchMaker::Get` (lines 147-150). `new_matrix` is
`partner_choice_matrix_.Get()` when `IsNewMatrixAvailable()` holds after
`UpdateDatabase(r_)`, and `none` otherwise. -/
def MatchMaker.stepMatrix (new_matrix : Option GroupMatrix) (mm : MatchMaker) : MatchMaker :=
  match new_matrix with
  | some p => { mm with link_handler_ := mm.link_handler_.UpdatePartnerChoiceMatrix p }
  | none => mm

/-- Step 2 of `MatchMaker::Get` (lines 167-182): the robustness check and the
removals it advises. -/
def MatchMaker.stepRobustness (GetWeight : Int → ℚ) (mm : MatchMaker) : MatchMaker :=
  let advised := mm.robustness_check_.UpdateandAdvice GetWeight mm.r_ mm.r_p_
  let remove_advice := advised.2
  let mm1 : MatchMaker := { mm with
    robustness_check_ := advised.1,
    link_handler_ := mm.link_handler_.SortByLinks }
  (List.range mm1.n_groups).foldl (fun m i =>
    Nat.iterate (fun m1 => m1.removeAdvised i) (remove_advice i).toNat m) mm1

/-- Step 3 of `MatchMaker::Get` (line 186). -/
def MatchMaker.stepAdd (mm : MatchMaker) : MatchMaker :=
  { mm with link_handler_ := mm.link_handler_.Add mm.r_ }

/-- Step 4a of `MatchMaker::Get` (lines 190-210): priority scheduling.
`sort_descending` is the `std::sort` of `SortByValue`. -/
def MatchMaker.stepPriority
    (sort_descending : List (alje.MultiSetSize2 × Credit) → List (alje.MultiSetSize2 × Credit))
    (mm : MatchMaker) : MatchMaker × List (RelationRequest × RelationRequest) :=
  let mm1 : MatchMaker := { mm with
    link_handler_ := (mm.link_handler_.SortByValue sort_descending).PointToTop }
  MatchMaker.runLoop MatchMaker.priorityStep mm1.fuel mm1 []

/-- Step 4b of `MatchMaker::Get` (lines 213-230): non-priority scheduling. -/
def MatchMaker.stepNormal (mm : MatchMaker)
    (return_vec : List (RelationRequest × RelationRequest)) :
    MatchMaker × List (RelationRequest × RelationRequest) :=
  let mm1 : MatchMaker := { mm with link_handler_ := mm.link_handler_.PointToTop }
  MatchMaker.runLoop MatchMaker.normalStep mm1.fuel mm1 return_vec

/-- Step 5 of `MatchMaker::Get` (lines 234-247): remove the requests that
have been unscheduled for two days. -/
def MatchMaker.stepDrop (mm : MatchMaker) : MatchMaker :=
  (List.range mm.n_groups).foldl (fun m group_nr => m.dropGroup group_nr) mm

/-- Step 6 of `MatchMaker::Get` (lines 253-254): the two `std::swap`s. -/
def MatchMaker.stepSwap (mm : MatchMaker) : MatchMaker :=
  { mm with
    relation_request_by_group_ := mm.relation_request_by_group_priority_,
    relation_request_by_group_priority_ := mm.relation_request_by_group_,
    r_ := mm.r_p_,
    r_p_ := mm.r_ }

/-- `MatchMaker::Get` (lines 122-257): the updated matchmaker and the matches
returned. -/
def MatchMaker.Get (shuffle : Nat → List RelationRequest → List RelationRequest)
    (new_matrix : Option GroupMatrix) (GetWeight : Int → ℚ)
    (sort_descending : List (alje.MultiSetSize2 × Credit) → List (alje.MultiSetSize2 × Credit))
    (mm : MatchMaker) : MatchMaker × List (RelationRequest × RelationRequest) :=
  let prepared :=
    ((((mm.stepShuffle shuffle).stepMatrix new_matrix).stepRobustness GetWeight).stepAdd)
  let pass1 := prepared.stepPriority sort_descending
  let pass2 := pass1.1.stepNormal pass1.2
  (pass2.1.stepDrop.stepSwap, pass2.2)

/-- The counters of the matchmaker equal the lengths of its queues. -/
def MatchMaker.CountersMatch (mm : MatchMaker) : Prop :=
  ∀ g, mm.r_ g = ((mm.relation_request_by_group_ g).length : Int) ∧
    mm.r_p_ g = ((mm.relation_request_by_group_priority_ g).length : Int)

/-- A request handed out in a match, with the group and the queue
(`from_priority`) it was taken from. -/
structure Taken where
  group : Nat
  from_priority : Bool
  request : RelationRequest

/-- The requests of `taken` that were taken from the priority
(`from_priority = true`) or non-priority queue of group `g`, in order. -/
def takenFrom (taken : List Taken) (g : Nat) (from_priority : Bool) : List RelationRequest :=
  (taken.filter (fun t => t.group == g && t.from_priority == from_priority)).map
    (fun t => t.request)

/-- The taken requests of a list of matches, in the order they were taken. -/
def takenOf (pairs : List (Taken × Taken)) : List Taken :=
  pairs.flatMap (fun p => [p.1, p.2])

/-- The match, as `MatchMaker::Get` returns it, made of two taken requests. -/
def matchOf (p : Taken × Taken) : RelationRequest × RelationRequest :=
  (p.1.request, p.2.request)

/-- A match with at least one request taken from a priority queue. -/
def hasPriorityRequest (p : Taken × Taken) : Prop :=
  p.1.from_priority = true ∨ p.2.from_priority = true

/-- Bookkeeping of the queues against reference queues `N0` (non-priority) and
`P0` (priority): the counters match the queues, every non-priority queue is its
reference queue minus the requests taken from it, and every priority queue is
its reference queue minus the requests taken from it and minus the requests
`dropped` from it. -/
def MatchMaker.Exact (N0 P0 : Nat → List RelationRequest) (mm : MatchMaker)
    (taken : List Taken) (dropped : Nat → List RelationRequest) : Prop :=
  mm.CountersMatch ∧
  (∀ g, (N0 g).Perm (mm.relation_request_by_group_ g ++ takenFrom taken g false)) ∧
  (∀ g, (P0 g).Perm
    (mm.relation_request_by_group_priority_ g ++ takenFrom taken g true ++ dropped g))

/-- Bookkeeping of the queues with some requests dropped from the priority
queues. -/
def MatchMaker.Accounted (N0 P0 : Nat → List RelationRequest) (mm : MatchMaker)
    (taken : List Taken) : Prop :=
  mm.CountersMatch ∧
  (∀ g, (N0 g).Perm (mm.relation_request_by_group_ g ++ takenFrom taken g false)) ∧
  (∀ g, ∃ d, (P0 g).Perm (mm.relation_request_by_group_priority_ g ++ takenFrom taken g true ++ d))

/-- Bookkeeping during the scheduling loops: the matches found so far are made
of the requests taken from the queues, and every match satisfies `Q`. -/
def MatchMaker.Booked (Q : Taken × Taken → Prop) (N0 P0 : Nat → List RelationRequest)
    (mm : MatchMaker) (return_vec : List (RelationRequest × RelationRequest))
    (dropped : Nat → List RelationRequest) : Prop :=
  ∃ pairs : List (Taken × Taken), pairs.map matchOf = return_vec ∧ (∀ p ∈ pairs, Q p) ∧
    mm.Exact N0 P0 (takenOf pairs) dropped

/-- Every stored link joins two groups of the matchmaker. -/
def MatchMaker.LinksInRange (mm : MatchMaker) : Prop :=
  ∀ p ∈ mm.link_handler_.link_list_, p.1.first < mm.n_groups ∧ p.1.second < mm.n_groups

/-- The number of iterations a scheduling loop can still make: the queued
requests and the links from the cursor on. -/
def MatchMaker.remaining (mm : MatchMaker) : Nat :=
  (∑ g in Finset.range mm.n_groups, ((mm.r_ g).toNat + (mm.r_p_ g).toNat))
    + (mm.link_handler_.link_list_.length - mm.link_handler_.current_position_)

end mm
end rg

/-! ## `rg::mm` — sequences of calls on the link handler -/

namespace rg
namespace mm

/-- A call of one of the member functions of `LinkHandler` that change the
object. -/
inductive LinkHandler.Call where
  | Add (n_people_per_group : Nat → Int)
  | RemovePerson (remove_a_person_from : Nat)
  | Remove
  | SortByLinks
  | SortByValue
  | UpdatePartnerChoiceMatrix (p : GroupMatrix)
  | PointToTop
  | Next

/-- The link handler after one call; `sort_descending` is the `std::sort` of
`SortByValue`. -/
def LinkHandler.call
    (sort_descending : List (alje.MultiSetSize2 × Credit) → List (alje.MultiSetSize2 × Credit))
    (lh : LinkHandler) : LinkHandler.Call → LinkHandler
  | .Add n_people_per_group => lh.Add n_people_per_group
  | .RemovePerson remove_a_person_from => lh.RemovePerson remove_a_person_from
  | .Remove => lh.Remove
  | .SortByLinks => lh.SortByLinks
  | .SortByValue => lh.SortByValue sort_descending
  | .UpdatePartnerChoiceMatrix p => lh.UpdatePartnerChoiceMatrix p
  | .PointToTop => lh.PointToTop
  | .Next => lh.Next

/-- The link handler after a sequence of calls. -/
def LinkHandler.calls
    (sort_descending : List (alje.MultiSetSize2 × Credit) → List (alje.MultiSetSize2 × Credit))
    (lh : LinkHandler) (cs : List LinkHandler.Call) : LinkHandler :=
  cs.foldl (LinkHandler.call sort_descending) lh

/-- The link list `l2` has the links of `l1`, and a link at "-inf" in `l1` is
at "-inf" in `l2`. -/
def SameLinks (l1 l2 : List (alje.MultiSetSize2 × Credit)) : Prop :=
  (∀ p ∈ l2, ∃ q ∈ l1, q.1 = p.1 ∧ (q.2 = ⊥ → p.2 = ⊥)) ∧
  (∀ q ∈ l1, ∃ p ∈ l2, p.1 = q.1)

/-- The link `key` is stored, and only at credit "-inf". -/
def LinkHandler.Blocked (lh : LinkHandler) (key : alje.MultiSetSize2) : Prop :=
  (∃ p ∈ lh.link_list_, p.1 = key) ∧ ∀ p ∈ lh.link_list_, p.1 = key → p.2 = ⊥

end mm
end rg

/-! ## `rg::mm` — sequences of calls on the robustness check -/

namespace rg
namespace mm

/-- The robustness check after a sequence of `UpdateandAdvice(normal, priority)`
calls, given as the pairs `(normal, priority)`. -/
def RobustnessCheck.after (GetWeight : Int → ℚ) (rc : RobustnessCheck)
    (calls : List ((Nat → Int) × (Nat → Int))) : RobustnessCheck :=
  calls.foldl (fun rc1 c => (rc1.UpdateandAdvice GetWeight c.1 c.2).1) rc

/-- The accumulated averages and remainders are not negative. -/
def RobustnessCheck.NonNeg (rc : RobustnessCheck) : Prop :=
  ∀ i, 0 ≤ rc.avg_ i ∧ 0 ≤ rc.cum_remove_ i

end mm
end rg

/-! ## `rg::mm` — groups of relation requests -/

namespace parameters

/-- The members of `soa1::parameters::MatchMaking` (`soa1_parameters_pack.h`)
read by `GroupHandler`. -/
structure MatchMaking where
  age_groups : List (List ℚ)
  age_group_preference_distribution : String
  age_group_preference_sd : ℚ
  duration_groups : List (List Int)
  duration_group_preference_distribution : String

end parameters

namespace rg
namespace mm

/-- `std::lower_bound(v.begin(), v.end(), value) - v.begin()` on a sorted
vector: the index of the first element that is not smaller than `value`. -/
def lowerBound {α : Type} [LT α] [DecidableRel (fun a b : α => a < b)]
    (v : List α) (value : α) : Nat :=
  (v.takeWhile (fun u => decide (u < value))).length

/-- `soa1::rg::mm::GroupDimensionExact` (`soa1_rg_mm_group_dimension_exact.h`). -/
structure GroupDimensionExact where
  g_lower_ : List Int
  g_upper_ : List Int
  lowest_ : Int
  highest_ : Int
deriving DecidableEq

/-- The constructor of `GroupDimensionExact` (lines 69-95); `none` when an
assertion fails or a range that it reads does not exist. -/
def GroupDimensionExact.new (groups : List (List Int)) : Option GroupDimensionExact :=
  if groups ≠ [] ∧ (∀ g ∈ groups, 2 ≤ g.length) ∧
      (∀ g ∈ groups, g.getD 0 0 ≤ g.getD 1 0) ∧
      List.Chain' (fun below g => g.getD 0 0 = below.getD 1 0 + 1) groups ∧
      List.Chain' (fun a b : Int => a ≤ b) (groups.map (fun g => g.getLastD 0)) then
    some
      { g_lower_ := groups.map (fun g => g.headD 0),
        g_upper_ := groups.map (fun g => g.getLastD 0),
        lowest_ := (groups.headD []).headD 0,
        highest_ := (groups.getLastD []).getLastD 0 }
  else none

/-- `GroupDimensionExact::NumberOfGroups` (lines 65-67). -/
def GroupDimensionExact.NumberOfGroups (self : GroupDimensionExact) : Nat :=
  self.g_upper_.length

/-- `GroupDimensionExact::GroupNumber` (lines 35-43); `none` when the assertion
fails. -/
def GroupDimensionExact.GroupNumber (self : GroupDimensionExact) (value : Int) : Option Nat :=
  if value ≥ self.lowest_ ∧ value ≤ self.highest_ then
    some (lowerBound self.g_upper_ value)
  else none

/-- `GroupDimensionExact::PreferenceMatrix` (lines 45-59): the entries of the
returned `NumberOfGroups() x NumberOfGroups()` matrix (0 outside it). -/
def GroupDimensionExact.PreferenceMatrix (self : GroupDimensionExact) : GroupMatrix :=
  fun row column =>
    if row < self.NumberOfGroups ∧ column < self.NumberOfGroups then
      if row = column then 1 else 0
    else 0

/-- `soa1::rg::mm::GroupDimensionNormal` (`soa1_rg_mm_group_dimension_normal.h`),
without the normal distribution `normal_dist_`. -/
structure GroupDimensionNormal where
  g_lower_ : List ℚ
  g_upper_ : List ℚ
deriving DecidableEq

/-- The constructor of `GroupDimensionNormal` (lines 134-158); `none` when an
assertion fails or a range that it reads does not exist. -/
def GroupDimensionNormal.new (groups : List (List ℚ)) (_sd : ℚ) :
    Option GroupDimensionNormal :=
  if (∀ g ∈ groups, 2 ≤ g.length) ∧
      (∀ g ∈ groups, g.getD 0 0 < g.getD 1 0) ∧
      List.Chain' (fun below g => g.getD 0 0 = below.getD 1 0) groups ∧
      List.Chain' (fun a b : ℚ => a ≤ b) (groups.map (fun g => g.getD 0 0)) ∧
      List.Chain' (fun a b : ℚ => a ≤ b) (groups.map (fun g => g.getD 1 0)) then
    some
      { g_lower_ := groups.map (fun g => g.getD 0 0),
        g_upper_ := groups.map (fun g => g.getD 1 0) }
  else none

/-- `GroupDimensionNormal::NumberOfGroups` (lines 130-132). -/
def GroupDimensionNormal.NumberOfGroups (self : GroupDimensionNormal) : Nat :=
  self.g_upper_.length

/-- `GroupDimensionNormal::GroupNumber` (lines 71-79); `none` when the
assertion fails or there is no group. -/
def GroupDimensionNormal.GroupNumber (self : GroupDimensionNormal) (value : ℚ) : Option Nat :=
  match self.g_lower_.head?, self.g_upper_.getLast? with
  | some front, some back =>
    if value ≥ front ∧ value ≤ back then some (lowerBound self.g_upper_ value) else none
  | _, _ => none

/-- `soa1::rg::mm::GroupHandler` (`soa1_rg_mm_group_handler.h`); the person
list is as in `sv.State`. -/
structure GroupHandler where
  time_ : Int
  person_list_ : Int → Option sv.Person
  age_dimension_ : GroupDimensionNormal
  duration_dimension_ : GroupDimensionExact

/-- The constructor of `GroupHandler` (lines 116-137); `none` when an
assertion fails. -/
def GroupHandler.new (time : Int) (person_list : Int → Option sv.Person)
    (mm_parameters : parameters.MatchMaking) : Option GroupHandler :=
  match GroupDimensionNormal.new mm_parameters.age_groups mm_parameters.age_group_preference_sd,
    GroupDimensionExact.new mm_parameters.duration_groups with
  | some age_dimension, some duration_dimension =>
    if mm_parameters.age_group_preference_distribution = "normal" ∧
        mm_parameters.duration_group_preference_distribution = "exact" then
      some
        { time_ := time,
          person_list_ := person_list,
          age_dimension_ := age_dimension,
          duration_dimension_ := duration_dimension }
    else none
  | _, _ => none

/-- `GroupHandler::GroupNumber` (lines 57-66); `none` when the person is not in
the person list or an assertion of a dimension fails. -/
def GroupHandler.GroupNumber (self : GroupHandler) (request : RelationRequest) : Option Nat :=
  let person_id := request.person_id
  let duration := request.duration_in_days
  match self.person_list_ person_id with
  | some person =>
    let person_age_years : ℚ := ((self.time_ - person.day_of_birth : Int) : ℚ) / 365
    match self.age_dimension_.GroupNumber person_age_years,
      self.duration_dimension_.GroupNumber duration with
    | some age_group, some duration_group =>
      some (age_group * self.duration_dimension_.NumberOfGroups + duration_group)
    | _, _ => none
  | none => none

/-- `GroupHandler::NumberOfGroups` (lines 68-70). -/
def GroupHandler.NumberOfGroups (self : GroupHandler) : Nat :=
  self.age_dimension_.NumberOfGroups * self.duration_dimension_.NumberOfGroups

/-- `GroupHandler::PreferenceMatrix` (lines 72-109): the entries of the
returned `n x n` matrix (0 outside it). `dim1_pref` is
`age_dimension_.PreferenceMatrix()`, which is computed with the normal
distribution function. -/
def GroupHandler.PreferenceMatrix (dim1_pref : GroupMatrix) (self : GroupHandler) : GroupMatrix :=
  let dim2_n_groups := self.duration_dimension_.NumberOfGroups
  let o_n_groups := self.NumberOfGroups
  let dim2_pref := self.duration_dimension_.PreferenceMatrix
  fun o_from o_to =>
    if o_from < o_n_groups ∧ o_to < o_n_groups then
      let dim1_from := o_from / dim2_n_groups
      let dim2_from := o_from % dim2_n_groups
      let dim1_to := o_to / dim2_n_groups
      let dim2_to := o_to % dim2_n_groups
      dim1_pref dim1_from dim1_to * dim2_pref dim2_from dim2_to
    else 0

end mm
end rg

/-! ## `tr` — transmission: the layers of the diseases and `Transmission` -/

namespace parameters

/-- `soa1::parameters::TransmissionSexualBehavior` (`soa1_parameters_pack.h`). -/
structure TransmissionSexualBehavior where
  sex_frequency : ℚ
  condom_use : ℚ

/-- `soa1::parameters::TransmissionHIV` (`soa1_parameters_pack.h`). -/
structure TransmissionHIV where
  base_rate : ℚ
  infectivity_over_time : List (List ℚ)
  hiv_pos_has_gonorrhea_multiplier : ℚ
  hiv_neg_has_gonorrhea_multiplier : ℚ

/-- `soa1::parameters::TransmissionGonorrhea` (`soa1_parameters_pack.h`). -/
structure TransmissionGonorrhea where
  base_rate : ℚ
  probability_symptomatic : ℚ
  natural_cure_symptomatic : Int
  natural_cure_asymptomatic : Int

end parameters

namespace tr

/-- `layer::MoveForward` (`soa1_tr_layer_move_forward.h`, lines 43-47). -/
def layer.MoveForward (layer : Layer) (amount : ℚ) : Layer :=
  layer.map (fun c => ⟨c.x + amount, c.y⟩)

/-- `soa1::tr::SexualBehaviorLayer` (`soa1_tr_sexual_behavior_layer.h`). -/
structure SexualBehaviorLayer where
  sb_layer_ : Layer

/-- The constructor of `SexualBehaviorLayer` (lines 45-50). -/
def SexualBehaviorLayer.new (parameters : parameters.TransmissionSexualBehavior) :
    SexualBehaviorLayer :=
  let uai_rate := (1 - parameters.condom_use) * parameters.sex_frequency
  { sb_layer_ := [⟨0, uai_rate⟩] }

/-- `SexualBehaviorLayer::Get` (lines 40-43). -/
def SexualBehaviorLayer.Get (self : SexualBehaviorLayer) (_relation : sv.Relation)
    (_person1 _person2 : sv.Person) (_simulation_t : Int) : Layer :=
  self.sb_layer_

/-- `soa1::tr::GNLayer` (`soa1_tr_gn_layer.h`). -/
structure GNLayer where
  gn_layer_ : Layer

/-- The constructor of `GNLayer` (lines 53-56). -/
def GNLayer.new (parameters : parameters.TransmissionGonorrhea) : GNLayer :=
  { gn_layer_ := [⟨0, parameters.base_rate⟩] }

/-- `GNLayer::Get` (lines 43-52); `none` when one of its three assertions
fails. -/
def GNLayer.Get (self : GNLayer) (_relation : sv.Relation)
    (infected_person susceptible_person : sv.Person) (simulation_t : Int) : Option Layer :=
  if infected_person.gonorrhea_status.infected = true then
    if susceptible_person.gonorrhea_status.infected = false then
      if simulation_t - infected_person.gonorrhea_status.t_infected ≥ 0 then
        some self.gn_layer_
      else none
    else none
  else none

/-- `soa1::tr::HIVLayer` (`soa1_tr_hiv_layer.h`). -/
structure HIVLayer where
  hiv_base_layer_ : Layer
  hiv_pos_has_gn_multiplier_ : ℚ
  hiv_neg_has_gn_multiplier_ : ℚ

/-- The constructor of `HIVLayer` (lines 82-88). A period shorter than two
entries has no `period[0]` or `period[1]`; those read as 0 here. -/
def HIVLayer.new (parameters : parameters.TransmissionHIV) : HIVLayer :=
  { hiv_base_layer_ := parameters.infectivity_over_time.map (fun period =>
      ⟨period.getD 0 0, period.getD 1 0 * parameters.base_rate⟩),
    hiv_pos_has_gn_multiplier_ := parameters.hiv_pos_has_gonorrhea_multiplier,
    hiv_neg_has_gn_multiplier_ := parameters.hiv_neg_has_gonorrhea_multiplier }

/-- `HIVLayer::Get` (lines 54-81); `none` when one of its three assertions
fails. -/
def HIVLayer.Get (self : HIVLayer) (_relation : sv.Relation)
    (infected_person susceptible_person : sv.Person) (simulation_t : Int) : Option Layer :=
  if infected_person.hiv_status.infected = true then
    if susceptible_person.hiv_status.infected = false then
      if simulation_t - infected_person.hiv_status.t_infected ≥ 0 then
        let total_multiplier : ℚ := 1
        let total_multiplier :=
          if infected_person.gonorrhea_status.infected = true then
            total_multiplier * self.hiv_pos_has_gn_multiplier_
          else total_multiplier
        let total_multiplier :=
          if susceptible_person.gonorrhea_status.infected = true then
            total_multiplier * self.hiv_pos_has_gn_multiplier_
          else total_multiplier
        let return_layer : Layer :=
          self.hiv_base_layer_.map (fun point => ⟨point.x, point.y * total_multiplier⟩)
        let t_since_inf : Int := simulation_t - infected_person.hiv_status.t_infected
        some (layer.MoveForward return_layer ((-1 * t_since_inf : Int) : ℚ))
      else none
    else none
  else none

/-- `soa1::tr::Transmission` (`soa1_tr_transmission.h`), without the random
generator of `transmission_time_`. -/
structure Transmission where
  sexual_behavior_layer_ : SexualBehaviorLayer
  hiv_layer_ : HIVLayer
  gn_layer_ : GNLayer

/-- The constructor of `Transmission` (lines 78-85). -/
def Transmission.new (sexual_behavior : parameters.TransmissionSexualBehavior)
    (hiv_parameters : parameters.TransmissionHIV)
    (gn_parameters : parameters.TransmissionGonorrhea) : Transmission :=
  { sexual_behavior_layer_ := SexualBehaviorLayer.new sexual_behavior,
    hiv_layer_ := HIVLayer.new hiv_parameters,
    gn_layer_ := GNLayer.new gn_parameters }

/-- `Transmission::GetTransmissionGivenSTILayer` (lines 97-113). `AssertCorrect`
is `tr::layer::AssertCorrect` (`soa1_tr_layer_assert_correct.h` is not among
the sources); `e` is the unit-exponential draw of `transmission_time_.Get`;
`none` when an assertion fails. -/
def Transmission.GetTransmissionGivenSTILayer (AssertCorrect : Layer → Bool)
    (self : Transmission) (relation : sv.Relation)
    (infected_person susceptible_person : sv.Person) (simulation_time : Int)
    (sti_layer : Layer) (e : ℚ) : Option ℚ :=
  if AssertCorrect sti_layer then
    let sb_layer := self.sexual_behavior_layer_.Get relation infected_person
      susceptible_person simulation_time
    if AssertCorrect sb_layer then
      let sb_and_sti := [sb_layer, sti_layer]
      let total_layer := CreateMultiplicationLayer sb_and_sti
      if AssertCorrect total_layer then
        GetTransmissionTime.Get total_layer e
      else none
    else none
  else none

/-- `Transmission::GetHIVTransmission` (lines 54-64). -/
def Transmission.GetHIVTransmission (AssertCorrect : Layer → Bool)
    (self : Transmission) (relation : sv.Relation)
    (infected_person susceptible_person : sv.Person) (simulation_time : Int)
    (e : ℚ) : Option ℚ :=
  match self.hiv_layer_.Get relation infected_person susceptible_person simulation_time with
  | some hiv_layer =>
    self.GetTransmissionGivenSTILayer AssertCorrect relation infected_person
      susceptible_person simulation_time hiv_layer e
  | none => none

/-- `Transmission::GetGNTransmission` (lines 66-76). -/
def Transmission.GetGNTransmission (AssertCorrect : Layer → Bool)
    (self : Transmission) (relation : sv.Relation)
    (infected_person susceptible_person : sv.Person) (simulation_time : Int)
    (e : ℚ) : Option ℚ :=
  match self.gn_layer_.Get relation infected_person susceptible_person simulation_time with
  | some gn_layer =>
    self.GetTransmissionGivenSTILayer AssertCorrect relation infected_person
      susceptible_person simulation_time gn_layer e
  | none => none

end tr

/-! ## Events and their notification -/

namespace alje

/-- Modelled from the spec: `alje::EventManager::NotifyChannel2`
(`alje_event_manager.h` is not among the sources) on the pending events of one
kind: "for every pending event whose ... relation-tag equals the given tag,
invoke `notify`; remove events whose notify returns true". `tag` is the
channel-2 tag of an event; `notify` is its `Notify`, which may change the
state `S` and is `none` when an assertion of the event fails. The pending
events are visited in order; the result is the state after the notifications
and the events that stay pending. -/
def EventManager.NotifyChannel2 {E S : Type} (tag : E → Int)
    (notify : E → S → Int → Int → Int → Option (S × Bool)) :
    List E → S → Int → Int → Option (S × List E)
  | [], state, _, _ => some (state, [])
  | event :: rest, state, number, extra_info =>
    if tag event = number then
      match notify event state 2 number extra_info with
      | none => none
      | some (state1, remove) =>
        match EventManager.NotifyChannel2 tag notify rest state1 number extra_info with
        | none => none
        | some (state2, kept) => some (state2, if remove then kept else event :: kept)
    else
      match EventManager.NotifyChannel2 tag notify rest state number extra_info with
      | none => none
      | some (state2, kept) => some (state2, event :: kept)

end alje

namespace tr

/-- `GNTransmission::Notify` (`soa1_tr_ev_gn_transmission.h`, lines 63-80);
`none` when the assertion `number == relation_id_` fails. -/
def ev.GNTransmission.Notify (self : ev.GNTransmission) (state : sv.State)
    (_track number extra_info : Int) : Option Bool :=
  if number = self.relation_id then
    if extra_info = sv.relation_event_codes.END_DUE_TO_DEATH then
      some true
    else if extra_info = sv.relation_event_codes.CANCEL_EV_GN_TRANSMISSION ∧
        state.current_priority ≠ sv.priority.GN_TRANSMISSION then
      some true
    else some false
  else none

end tr

namespace sv

/-- `soa1::sv::RelationList` (`soa1_sv_relation_list.h`): the relations of the
`boost::multi_index_container`, whose first index is unique on
`relation_id`. -/
structure RelationList where
  relation_multi_index_ : List Relation

/-- `RelationList::Insert` (lines 73-75): the container refuses a relation
whose `relation_id` is already present. -/
def RelationList.Insert (self : RelationList) (relation_to_insert : Relation) : RelationList :=
  if self.relation_multi_index_.any (fun r => r.relation_id == relation_to_insert.relation_id)
  then self
  else { relation_multi_index_ := self.relation_multi_index_ ++ [relation_to_insert] }

/-- `RelationList::RemoveGivenRelationID` (lines 146-150): erases the relation
found for `id`; `none` when there is none (erasing the `end()` iterator is
undefined). -/
def RelationList.RemoveGivenRelationID (self : RelationList) (id : Int) : Option RelationList :=
  if self.relation_multi_index_.any (fun r => r.relation_id == id) then
    some { relation_multi_index_ :=
      self.relation_multi_index_.eraseP (fun r => r.relation_id == id) }
  else none

end sv

namespace rg

/-- `soa1::rg::ev::EndRelation` (`soa1_rg_ev_end_relation.h`): the members of
the event and of its `alje::Event` base (due day, priority class, channel-1
tag, channel-2 tag). -/
structure ev.EndRelation where
  time_due : Int
  priority : Int
  channel1 : Int
  channel2 : Int
  relation_id_ : Int
deriving DecidableEq

/-- The constructor of `EndRelation` (lines 35-38). -/
def ev.EndRelation.new (relation_id time : Int) : ev.EndRelation :=
  { time_due := time, priority := sv.priority.RELATION_END, channel1 := -1,
    channel2 := relation_id, relation_id_ := relation_id }

/-- `EndRelation::Execute` (lines 40-42) on the relation list of the state. -/
def ev.EndRelation.Execute (self : ev.EndRelation) (relation_list : sv.RelationList) :
    Option sv.RelationList :=
  relation_list.RemoveGivenRelationID self.relation_id_

/-- `EndRelation::Notify` (lines 44-59): the relation list after the call and
the value returned; `none` when an assertion fails or `Execute` is undefined. -/
def ev.EndRelation.Notify (self : ev.EndRelation) (relation_list : sv.RelationList)
    (track number extra_info : Int) : Option (sv.RelationList × Bool) :=
  if track = 2 then
    if number = self.relation_id_ then
      if extra_info = sv.relation_event_codes.END_DUE_TO_DEATH then
        match self.Execute relation_list with
        | some relation_list1 => some (relation_list1, true)
        | none => none
      else some (relation_list, false)
    else none
  else none

end rg

/-! ## `rg::dur` — the duration of a relation -/

namespace rg
namespace dur

/-- `std::upper_bound(v.begin(), v.end(), value) - v.begin()` on a sorted
vector: the index of the first element that is greater than `value`. -/
def upperBound (v : List Int) (value : Int) : Nat :=
  (v.takeWhile (fun u => decide (u ≤ value))).length

/-- `soa1::rg::dur::ValuesToPercentiles`
(`soa1_rg_dur_values_to_percentiles.h`): the sample database. -/
structure ValuesToPercentiles where
  sample_database_ : List Int
deriving DecidableEq

/-- The (implicit) constructor: an empty sample database. -/
def ValuesToPercentiles.new : ValuesToPercentiles :=
  { sample_database_ := [] }

/-- `ValuesToPercentiles::GetLowerUpper` (lines 60-112): the pair
`(percentile_lower, percentile_upper)` that is returned and the object after
the call. -/
def ValuesToPercentiles.GetLowerUpper (self : ValuesToPercentiles) (value : Int) :
    (ℚ × ℚ) × ValuesToPercentiles :=
  let possible_positions_to_insert : ℚ := ((self.sample_database_.length + 1 : Nat) : ℚ)
  let lower_position := mm.lowerBound self.sample_database_ value
  let upper_position := upperBound self.sample_database_ value
  let percentile_lower := ((lower_position : ℚ) + 1 / 2) / possible_positions_to_insert
  let percentile_upper := ((upper_position : ℚ) + 1 / 2) / possible_positions_to_insert
  let sample_database1 :=
    if self.sample_database_.length < 100000 then
      self.sample_database_.take upper_position ++
        value :: self.sample_database_.drop upper_position
    else self.sample_database_
  ((percentile_lower, percentile_upper), { sample_database_ := sample_database1 })

/-- The object after a history of calls of `GetLowerUpper` on a new object, one
call for each value of `history` in turn. -/
def ValuesToPercentiles.after (history : List Int) : ValuesToPercentiles :=
  history.foldl (fun s v => (s.GetLowerUpper v).2) ValuesToPercentiles.new

/-- `soa1::rg::dur::GetDuration` (`soa1_rg_dur_get_duration.h`): the member
`val_to_percentile_`. The random number generator is replaced by the values it
draws, the association and the duration distribution by the functions they
compute. -/
structure GetDuration where
  val_to_percentile_ : ValuesToPercentiles
deriving DecidableEq

/-- The constructor of `GetDuration` (lines 113-131): `none` when the assertion
on `monogamy` fails. -/
def GetDuration.new (monogamy : ℚ) : Option GetDuration :=
  if 0 ≤ monogamy ∧ monogamy ≤ 1 then
    some { val_to_percentile_ := ValuesToPercentiles.new }
  else none

/-- Lines 68-85 of `GetDuration::Get`: the inter-relation percentile chosen from
the pair `(lower_percentile, upper_percentile)`; `draw` is the value of
`unit_real_distribution_(rng_)` at line 82, which is drawn only when the range
is wider than 0.001. -/
def GetDuration.interRelationPercentile (lower_upper : ℚ × ℚ) (draw : ℚ) : ℚ :=
  let lower_percentile := lower_upper.1
  let upper_percentile := lower_upper.2
  if upper_percentile - lower_percentile > 1 / 1000 then
    (upper_percentile - lower_percentile) * draw + lower_percentile
  else lower_percentile

/-- The inter-relation percentile that a call `Get(interrelation_time)` passes
to the association (the local `inter_relation_percentile` at line 93). -/
def GetDuration.inter_relation_percentile (self : GetDuration) (draw : ℚ)
    (interrelation_time : Int) : ℚ :=
  GetDuration.interRelationPercentile
    (self.val_to_percentile_.GetLowerUpper interrelation_time).1 draw

/-- `GetDuration::Get` (lines 68-111): the duration returned and the object
after the call. `CombineValues` is `association_.CombineValues` (alje) and
`DurationGivenPercentile` is `duration_distribution_.DurationGivenPercentile`
(the quantile of the gamma distribution, computed by boost); `draw_range` and
`draw_association` are the values of `unit_real_distribution_(rng_)` at lines
82 and 93. -/
def GetDuration.Get (CombineValues : List ℚ → ℚ) (DurationGivenPercentile : ℚ → ℚ)
    (self : GetDuration) (draw_range draw_association : ℚ) (interrelation_time : Int) :
    Int × GetDuration :=
  let inter_relation_percentile_lower_upper :=
    self.val_to_percentile_.GetLowerUpper interrelation_time
  let inter_relation_percentile :=
    GetDuration.interRelationPercentile inter_relation_percentile_lower_upper.1 draw_range
  let duration_percentile := CombineValues [draw_association, inter_relation_percentile]
  let ret_value := tr.staticCastInt (DurationGivenPercentile duration_percentile)
  (ret_value, { val_to_percentile_ := inter_relation_percentile_lower_upper.2 })

/-- The sampler after a history of calls of `Get` on a new object: only the
inter-relation times of the calls matter for the object. -/
def GetDuration.after (history : List Int) : GetDuration :=
  { val_to_percentile_ := ValuesToPercentiles.after history }

end dur

/-- `rg::AddRelationRequest` (`soa1_rg_add_relation_request.h`, lines 36-45) on
the duration sampler and the matchmaker of the state: the two after the call. -/
def AddRelationRequest (CombineValues : List ℚ → ℚ) (DurationGivenPercentile : ℚ → ℚ)
    (GroupNumber : mm.RelationRequest → Nat)
    (get_duration : dur.GetDuration) (matchmaker : mm.MatchMaker)
    (draw_range draw_association : ℚ) (person_id interrelation_time : Int) :
    dur.GetDuration × mm.MatchMaker :=
  let got := get_duration.Get CombineValues DurationGivenPercentile draw_range
    draw_association interrelation_time
  let duration_in_days := got.1
  let rr : mm.RelationRequest :=
    { person_id := person_id, duration_in_days := duration_in_days }
  (got.2, matchmaker.AddRelationRequest GroupNumber rr)

/-- `rg::AddRelation` (`soa1_rg_add_relation.h`, lines 36-57): the relation
that is created, the relation list after `Insert` and the `EndRelation` event
that is added. `pick_first_duration` is the Bernoulli draw and `relation_id`
the value that the static counter of `sv::Relation` gives the new relation.
The updates of the transmission events and the export read the relation and
do not change it. -/
def AddRelation (state : sv.State) (relation_list : sv.RelationList) (relation_id : Int)
    (pick_first_duration : Bool) (requests : mm.RelationRequest × mm.RelationRequest) :
    sv.Relation × sv.RelationList × ev.EndRelation :=
  let duration :=
    if pick_first_duration then requests.1.duration_in_days
    else requests.2.duration_in_days
  let r : sv.Relation :=
    { relation_id := relation_id, person1_id := requests.1.person_id,
      person2_id := requests.2.person_id, time_start := state.time,
      time_end := state.time + duration }
  (r, relation_list.Insert r, ev.EndRelation.new r.relation_id (state.time + duration))

end rg

/-! ## `rg::start` — the next relation of a person -/

namespace rg
namespace start

/-- `soa1::rg::start::NextRelationPersonTime`
(`soa1_rg_start_next_relation_person_time.h`): its members; of the stationary
process `stationary_process_` (alje) only the value of `average_rate()` is
kept, the arrivals that it delivers are arguments of `Get`. -/
structure NextRelationPersonTime where
  stationary_process_total_time : ℚ
  sexual_onset_ : ℚ
  sexual_stop_ : ℚ
  average_rate : ℚ
  rate_formula_ : RateGivenAgeFormula

/-- The constructors of `NextRelationPersonTime` (lines 96-123). -/
def NextRelationPersonTime.new (rg_start_parameters : parameters.RelationGenerationStart)
    (average_rate : ℚ) : NextRelationPersonTime :=
  { stationary_process_total_time := 0,
    sexual_onset_ := rg_start_parameters.sexual_onset * 365,
    sexual_stop_ := rg_start_parameters.sexual_stop * 365,
    average_rate := average_rate,
    rate_formula_ := RateGivenAgeFormula.new rg_start_parameters }

/-- `NextRelationPersonTime::f` (lines 139-173). -/
def NextRelationPersonTime.f (self : NextRelationPersonTime)
    (real_time_guess required_stat_time : ℚ) : ℚ :=
  let a := self.rate_formula_.rate_primitive real_time_guess
  let b := self.rate_formula_.rate_primitive self.sexual_onset_
  let c := required_stat_time * self.average_rate
  let d := a - b - c
  d

/-- `NextRelationPersonTime::f_deriv` (lines 175-178). -/
def NextRelationPersonTime.f_deriv (self : NextRelationPersonTime) (real_time : ℚ) : ℚ :=
  self.rate_formula_.rate_function real_time

/-- The body of the loop of `ConvertStationaryTimeToRealPersonTime` (lines
213-227): the new `current_estimate` and `last_correction`; `none` when the
derivative is 0 (the quotient is then not a number of days). -/
def NextRelationPersonTime.newtonStep (self : NextRelationPersonTime)
    (stat_time current_estimate : ℚ) : Option (ℚ × ℚ) :=
  if self.f_deriv current_estimate = 0 then none
  else
    let old_estimate := current_estimate
    let current_estimate1 :=
      current_estimate - 1 * self.f current_estimate stat_time / self.f_deriv current_estimate
    let current_estimate2 :=
      if current_estimate1 ≥ self.sexual_stop_ - 1 then self.sexual_stop_ - 1
      else current_estimate1
    let current_estimate3 :=
      if current_estimate2 ≤ self.sexual_onset_ + 1 then self.sexual_onset_ + 1
      else current_estimate2
    some (current_estimate3, current_estimate3 - old_estimate)

/-- The loop of `ConvertStationaryTimeToRealPersonTime` (lines 212-228), which
is entered with `last_correction` equal to the largest double, so its body
runs at least once; `none` when it has not ended after `fuel` passes. -/
def NextRelationPersonTime.newtonLoop (self : NextRelationPersonTime) (stat_time : ℚ) :
    Nat → ℚ → Option ℚ
  | 0, _ => none
  | fuel + 1, current_estimate =>
    match self.newtonStep stat_time current_estimate with
    | none => none
    | some (current_estimate1, last_correction) =>
      if |last_correction| > 1 / 10 then self.newtonLoop stat_time fuel current_estimate1
      else some current_estimate1

/-- `NextRelationPersonTime::ConvertStationaryTimeToRealPersonTime` (lines
180-236). -/
def NextRelationPersonTime.ConvertStationaryTimeToRealPersonTime
    (self : NextRelationPersonTime) (fuel : Nat) (stat_time : ℚ) : Option ℚ :=
  match self.newtonLoop stat_time fuel
      ((self.sexual_stop_ - self.sexual_onset_) / 2 + self.sexual_onset_) with
  | none => none
  | some current_estimate =>
    if current_estimate ≥ self.sexual_stop_ - 1 then some (-1)
    else some current_estimate

/-- `std::numeric_limits<int>::max()`. -/
def intMax : Int := 2147483647

/-- `NextRelationPersonTime::Get` (lines 53-91): the value returned and the
object after the call; `next_arrival` is the value of
`stationary_process_.NextArrival()`. `none` when the assertion fails or the
conversion gives no value. -/
def NextRelationPersonTime.Get (self : NextRelationPersonTime) (fuel : Nat)
    (next_arrival : ℚ) : Option (Int × NextRelationPersonTime) :=
  if next_arrival ≥ 0 then
    let self1 := { self with
      stationary_process_total_time := self.stationary_process_total_time + next_arrival }
    match self1.ConvertStationaryTimeToRealPersonTime fuel
        self1.stationary_process_total_time with
    | none => none
    | some real_person_time =>
      if real_person_time = -1 then some (intMax, self1)
      else some (tr.staticCastInt real_person_time, self1)
  else none

end start
end rg

namespace sv

/-- `Person::next_relation_time` (`soa1_sv_person.h`, lines 52-61) on the
members `day_of_birth_` and `next_relation_person_time_` of the person: the
value returned and `next_relation_person_time_` after the call. -/
def Person.next_relation_time (day_of_birth_ : Int)
    (next_relation_person_time_ : rg.start.NextRelationPersonTime) (fuel : Nat)
    (next_arrival : ℚ) : Option (Int × rg.start.NextRelationPersonTime) :=
  match next_relation_person_time_.Get fuel next_arrival with
  | none => none
  | some (next_relation_person_time, next_relation_person_time1) =>
    if next_relation_person_time = rg.start.intMax then
      some (rg.start.intMax, next_relation_person_time1)
    else some (next_relation_person_time + day_of_birth_, next_relation_person_time1)

/-- The values that successive calls of `next_relation_time` return for the
arrivals of `arrivals`, one call for each arrival in turn. -/
def Person.next_relation_times (day_of_birth_ : Int) (fuel : Nat) :
    rg.start.NextRelationPersonTime → List ℚ → Option (List Int)
  | _, [] => some []
  | next_relation_person_time_, next_arrival :: arrivals =>
    match Person.next_relation_time day_of_birth_ next_relation_person_time_ fuel
        next_arrival with
    | none => none
    | some (t, next_relation_person_time1) =>
      match Person.next_relation_times day_of_birth_ fuel next_relation_person_time1
          arrivals with
      | none => none
      | some ts => some (t :: ts)

end sv

/-! ## `rg::mm` — the two scheduling passes of the matchmaker -/

namespace rg
namespace mm

/-- The state of the priority pass: the link list is sorted by descending
credit, and on no link above the cursor the test of the priority pass holds. -/
def MatchMaker.PriorityScanned (mm : MatchMaker) : Prop :=
  mm.link_handler_.link_list_.Pairwise (fun p q => q.2 ≤ p.2) ∧
  ∀ i, i < mm.link_handler_.current_position_ →
    ∀ p, mm.link_handler_.link_list_[i]? = some p →
      mm.priorityTest p.1.first p.1.second = false

/-- On no acceptable link the test of the priority pass holds. -/
def MatchMaker.PriorityDone (mm : MatchMaker) : Prop :=
  ∀ p ∈ mm.link_handler_.link_list_,
    p.2 > (((LinkHandler.acceptable_treshhold_ : Int) : ℚ) : Credit) →
      mm.priorityTest p.1.first p.1.second = false

/-- The queue from which `takeRequest` pops (the priority queue of `group` when
its counter is positive, the non-priority queue otherwise) is not empty, and
the counter that is decremented is positive. -/
def MatchMaker.CanTake (mm : MatchMaker) (group : Nat) : Prop :=
  if mm.r_p_ group > 0 then mm.relation_request_by_group_priority_ group ≠ []
  else mm.r_ group > 0 ∧ mm.relation_request_by_group_ group ≠ []

/-- The state in step 2 of `MatchMaker::Get` (lines 172-182) at the head of the
inner loop for group `i` with `to_remove = j`: the groups below `i` are done
and `j` requests of group `i` have been removed. -/
def MatchMaker.robustnessState (GetWeight : Int → ℚ) (mm : MatchMaker) (i j : Nat) :
    MatchMaker :=
  let advised := mm.robustness_check_.UpdateandAdvice GetWeight mm.r_ mm.r_p_
  let remove_advice := advised.2
  let mm1 : MatchMaker := { mm with
    robustness_check_ := advised.1,
    link_handler_ := mm.link_handler_.SortByLinks }
  Nat.iterate (fun m1 => m1.removeAdvised i) j
    ((List.range i).foldl (fun m i1 =>
      Nat.iterate (fun m1 => m1.removeAdvised i1) (remove_advice i1).toNat m) mm1)

/-- A call of one of the two public member functions of `MatchMaker` that
change the object; for `Get`, with what the call obtains from the random
generator (`shuffle`) and from the partner-choice matrix (`new_matrix`). -/
inductive MatchMaker.Call where
  | AddRelationRequest (rr : RelationRequest)
  | Get (shuffle : Nat → List RelationRequest → List RelationRequest)
      (new_matrix : Option GroupMatrix)

/-- The call is made as the code expects: the group of an added request is one
of the `n_groups` groups, and `std::shuffle` rearranges a queue. -/
def MatchMaker.Call.WellFormed (GroupNumber : RelationRequest → Nat) (n_groups : Nat) :
    MatchMaker.Call → Prop
  | .AddRelationRequest rr => GroupNumber rr < n_groups
  | .Get shuffle _ => ∀ g l, (shuffle g l).Perm l

/-- The matchmaker after one call, with the matches returned by all calls of
`Get` so far. -/
def MatchMaker.call (GroupNumber : RelationRequest → Nat) (GetWeight : Int → ℚ)
    (sort_descending : List (alje.MultiSetSize2 × Credit) → List (alje.MultiSetSize2 × Credit))
    (s : MatchMaker × List (RelationRequest × RelationRequest)) :
    MatchMaker.Call → MatchMaker × List (RelationRequest × RelationRequest)
  | .AddRelationRequest rr => (s.1.AddRelationRequest GroupNumber rr, s.2)
  | .Get shuffle new_matrix =>
    ((s.1.Get shuffle new_matrix GetWeight sort_descending).1,
      s.2 ++ (s.1.Get shuffle new_matrix GetWeight sort_descending).2)

/-- The matchmaker after a sequence of calls, with the matches returned by all
calls of `Get` in the sequence. -/
def MatchMaker.calls (GroupNumber : RelationRequest → Nat) (GetWeight : Int → ℚ)
    (sort_descending : List (alje.MultiSetSize2 × Credit) → List (alje.MultiSetSize2 × Credit))
    (mm : MatchMaker) (cs : List MatchMaker.Call) :
    MatchMaker × List (RelationRequest × RelationRequest) :=
  cs.foldl (MatchMaker.call GroupNumber GetWeight sort_descending) (mm, [])

/-- The number of requests that are still queued. -/
def MatchMaker.queued (mm : MatchMaker) : Int :=
  ∑ g in Finset.range mm.n_groups,
    (((mm.relation_request_by_group_ g).length : Int)
      + ((mm.relation_request_by_group_priority_ g).length : Int))

/-- The requests that the counters of the matchmaker account for: the four
counters of scheduled and dropped requests and the counters `r_` and `r_p_` of
the groups. -/
def MatchMaker.counted (mm : MatchMaker) : Int :=
  mm.n_requests_scheduled_first_day_ + mm.n_requests_scheduled_second_day_
    + mm.n_requests_dropped_after_first_day_ + mm.n_requests_dropped_after_second_day_
    + ∑ g in Finset.range mm.n_groups, (mm.r_ g + mm.r_p_ g)

/-- The books of the matchmaker against `n_pairs` matches returned so far: the
number of groups, the requests received, the requests accounted for, and the
scheduled requests that are not in a returned match. -/
def MatchMaker.ledger (mm : MatchMaker) (n_pairs : Nat) : Nat × Int × Int × Int :=
  (mm.n_groups, mm.n_requests_received_, mm.counted,
    mm.n_requests_scheduled_first_day_ + mm.n_requests_scheduled_second_day_
      - 2 * (n_pairs : Int))

end mm
end rg

/-! ## `double` arithmetic with rounding -/

namespace ieee

/-- The integer part of the binary logarithm of `n ≥ 1`, by halving at most
`fuel` times. -/
def log2Aux : Nat → Nat → Nat
  | 0, _ => 0
  | fuel + 1, n => if 2 ≤ n then log2Aux fuel (n / 2) + 1 else 0

/-- The power `2 ^ e` for an integer exponent. -/
def pow2 (e : Int) : ℚ :=
  if 0 ≤ e then (2 : ℚ) ^ e.toNat else 1 / (2 : ℚ) ^ (-e).toNat

/-- The binary exponent of `a > 0`: the `e` with `2 ^ e ≤ a < 2 ^ (e + 1)`. -/
def exponent (a : ℚ) : Int :=
  let e0 : Int := (log2Aux 2200 a.num.natAbs : Int) - (log2Aux 2200 a.den : Int)
  if pow2 e0 ≤ a then e0 else e0 - 1

/-- Rounding to the nearest integer, a tie to the even one. -/
def roundHalfEven (q : ℚ) : Int :=
  let f : Int := ⌊q⌋
  if q - (f : ℚ) < 1 / 2 then f
  else if q - (f : ℚ) > 1 / 2 then f + 1
  else if f % 2 = 0 then f else f + 1

/-- The `double` nearest to `x` (IEEE 754 binary64, round to nearest, ties to
even): `x` is rounded to 53 significant bits. Overflow and subnormal numbers
are left out, the exponent is not bounded. -/
def roundDouble (x : ℚ) : ℚ :=
  if x = 0 then 0
  else
    let ulp := pow2 (exponent |x| - 52)
    (roundHalfEven (x / ulp) : ℚ) * ulp

end ieee

namespace rg
namespace mm

/-- The statement `link_list_[position].second += amount` on `double`s: the
sum is rounded to the nearest `double`. -/
def addCreditDouble : List (alje.MultiSetSize2 × Credit) → Nat → ℚ →
    List (alje.MultiSetSize2 × Credit)
  | [], _, _ => []
  | p :: l, 0, amount => (p.1, WithBot.map ieee.roundDouble (p.2 + (amount : Credit))) :: l
  | p :: l, position + 1, amount => p :: addCreditDouble l position amount

/-- `LinkHandler::Add` (lines 80-112) on `double`s: each product and each sum
of `0.5 * n_people_per_group[group_from] * partner_choice_matrix_[group_from][group_to]`
added to the credit is rounded to the nearest `double`. -/
def LinkHandler.AddDouble (lh : LinkHandler) (n_people_per_group : Nat → Int) : LinkHandler :=
  { lh with
    link_list_ :=
      (List.range lh.n_groups_).foldl (fun link_list group_from =>
        (List.range lh.n_groups_).foldl (fun link_list group_to =>
          addCreditDouble link_list (PositionInLinkSorted lh.n_groups_ group_from group_to)
            (ieee.roundDouble
              (ieee.roundDouble (1 / 2 * (n_people_per_group group_from : ℚ))
                * lh.partner_choice_matrix_ group_from group_to)))
          link_list)
        lh.link_list_ }

/-- `LinkHandler::RemovePerson` (lines 215-228) on `double`s: the product
`0.5 * partner_choice_matrix_[remove_a_person_from][group_to]` and the
difference are rounded to the nearest `double`. -/
def LinkHandler.RemovePersonDouble (lh : LinkHandler) (remove_a_person_from : Nat) :
    LinkHandler :=
  { lh with
    link_list_ :=
      (List.range lh.n_groups_).foldl (fun link_list group_to =>
        addCreditDouble link_list (PositionInLinkSorted lh.n_groups_ remove_a_person_from group_to)
          (-(ieee.roundDouble (1 / 2 * lh.partner_choice_matrix_ remove_a_person_from group_to))))
        lh.link_list_ }

end mm
end rg
/-! ## Theorems -/

namespace tr

theorem Layer.areaFrom_eq_zero (l : List Coordinate) (c : Coordinate) (T : ℚ)
    (hs : Layer.Sorted (c :: l)) (hT : T ≤ max c.x 0) :
    Layer.areaFrom (c :: l) T = 0 := by
  induction l generalizing c with
  | nil =>
    simp only [Layer.areaFrom]
    rw [max_eq_left (by linarith), mul_zero]
  | cons d rest ih =>
    simp only [Layer.areaFrom, segLen]
    have hcd : c.x ≤ d.x := by
      have := hs
      simp only [Layer.Sorted, List.chain'_cons] at this
      exact this.1
    have hs2 : Layer.Sorted (d :: rest) := by
      have := hs
      simp only [Layer.Sorted, List.chain'_cons] at this
      simpa [Layer.Sorted] using this.2
    have h1 : min d.x T - max c.x 0 ≤ 0 := by
      have : min d.x T ≤ T := min_le_right _ _
      linarith
    rw [max_eq_left h1, mul_zero, zero_add]
    apply ih d hs2
    exact le_trans hT (max_le_max hcd le_rfl)


theorem Layer.sorted_cons {c d : Coordinate} {l : List Coordinate}
    (hs : Layer.Sorted (c :: d :: l)) : c.x ≤ d.x ∧ Layer.Sorted (d :: l) := by
  simp only [Layer.Sorted, List.chain'_cons] at hs
  exact ⟨hs.1, by simpa [Layer.Sorted] using hs.2⟩

theorem GetTransmissionTime.walk_spec (l : List Coordinate) :
    ∀ (prev : Coordinate) (val t : ℚ) (r : ℚ × ℚ × ℚ), Layer.Sorted (prev :: l) →
      (∀ c ∈ prev :: l, 0 ≤ c.y) → 0 ≤ val → t = max prev.x 0 →
      GetTransmissionTime.walk l val t prev.y = r →
      0 ≤ r.1 ∧ t ≤ r.2.1 ∧ 0 ≤ r.2.2 ∧
      (r.2.2 ≠ 0 → Layer.areaFrom (prev :: l) (r.1 / r.2.2 + r.2.1) = val) := by
  induction l with
  | nil =>
    intro prev val t r _ hy hval ht hr
    have hp : 0 ≤ prev.y := hy prev (by simp)
    simp only [GetTransmissionTime.walk] at hr
    subst hr
    refine ⟨hval, le_rfl, hp, ?_⟩
    intro hne
    have hq : 0 ≤ val / prev.y := div_nonneg hval hp
    simp only [Layer.areaFrom]
    rw [← ht, add_sub_cancel_right, max_eq_right hq]
    field_simp
  | cons c rest ih =>
    intro prev val t r hs hy hval ht hr
    obtain ⟨hpc, hs2⟩ := Layer.sorted_cons hs
    have hp : 0 ≤ prev.y := hy prev (by simp)
    have hy2 : ∀ d ∈ c :: rest, 0 ≤ d.y := fun d hd => hy d (List.mem_cons_of_mem _ hd)
    by_cases hc : c.x ≤ 0
    · -- a point at or before time 0 only sets the rate
      have hp0 : t = 0 := by rw [ht]; exact max_eq_right (le_trans hpc hc)
      have hc0 : t = max c.x 0 := by rw [hp0]; exact (max_eq_right hc).symm
      have hw : GetTransmissionTime.walk rest val t c.y = r := by
        rw [← hr]; simp [GetTransmissionTime.walk, hc]
      obtain ⟨h1, h2, h3, h4⟩ := ih c val t r hs2 hy2 hval hc0 hw
      refine ⟨h1, h2, h3, ?_⟩
      intro hne
      simp only [Layer.areaFrom, segLen]
      rw [h4 hne]
      have hmin : min c.x (r.1 / r.2.2 + r.2.1) - max prev.x 0 ≤ 0 := by
        have := min_le_left c.x (r.1 / r.2.2 + r.2.1)
        rw [← ht, hp0]; linarith
      rw [max_eq_left hmin]; ring
    · push_neg at hc
      have hc0 : c.x = max c.x 0 := (max_eq_left hc.le).symm
      have htc : t ≤ c.x := by rw [ht]; exact max_le hpc hc.le
      by_cases hv : val - (c.x - t) * prev.y < 0
      · -- the draw is exhausted inside this piece: break
        have hw : r = (val - (c.x - t) * prev.y + (c.x - t) * prev.y, t, prev.y) := by
          rw [← hr]; simp [GetTransmissionTime.walk, not_le.mpr hc, hv]
        rw [sub_add_cancel] at hw
        subst hw
        refine ⟨hval, le_rfl, hp, ?_⟩
        intro hne
        have hpos : 0 < prev.y := lt_of_le_of_ne hp (Ne.symm hne)
        have hq : 0 ≤ val / prev.y := div_nonneg hval hp
        have hlt : val / prev.y < c.x - t := by
          rw [div_lt_iff₀ hpos]; linarith
        simp only [Layer.areaFrom, segLen]
        rw [Layer.areaFrom_eq_zero rest c _ hs2 (by rw [← hc0]; linarith)]
        rw [min_eq_right (by linarith), ← ht, add_sub_cancel_right, max_eq_right hq]
        field_simp
      · push_neg at hv
        have hw : GetTransmissionTime.walk rest (val - (c.x - t) * prev.y) c.x c.y = r := by
          rw [← hr]; simp [GetTransmissionTime.walk, not_le.mpr hc, not_lt.mpr hv]
        obtain ⟨h1, h2, h3, h4⟩ := ih c _ c.x r hs2 hy2 hv hc0 hw
        refine ⟨h1, le_trans htc h2, h3, ?_⟩
        intro hne
        have hq : 0 ≤ r.1 / r.2.2 := div_nonneg h1 h3
        simp only [Layer.areaFrom, segLen]
        rw [h4 hne, min_eq_left (by linarith), ← ht, max_eq_right (by linarith)]
        ring


/-- C1: for a non-empty layer with non-decreasing x and non-negative y, and a draw
`e ≥ 0`, `GetTransmissionTime::Get` returns a value `T`; when `T` is not the
sentinel `-1` then `T ≥ 0` and the integral of the layer's step function over
`[0, T]` equals `e`. A point with `x ≤ 0` leaves `val_remaining` and `t`
untouched and only sets the rate. -/
theorem C1_get_transmission_time_integral (layer : Layer) (e : ℚ)
    (hne : layer ≠ []) (hs : Layer.Sorted layer) (hy : ∀ c ∈ layer, 0 ≤ c.y)
    (he : 0 ≤ e) :
    (∃ T, GetTransmissionTime.Get layer e = some T ∧
      (T ≠ -1 → 0 ≤ T ∧ Layer.area layer T = e)) ∧
    (∀ (c : Coordinate) (rest : List Coordinate) (val t rate : ℚ), c.x ≤ 0 →
      GetTransmissionTime.walk (c :: rest) val t rate
        = GetTransmissionTime.walk rest val t c.y) := by
  refine ⟨?_, fun c rest val t rate hc => by simp [GetTransmissionTime.walk, hc]⟩
  cases layer with
  | nil => exact absurd rfl hne
  | cons c0 rest =>
    have hp : 0 ≤ c0.y := hy c0 (by simp)
    simp only [GetTransmissionTime.Get]
    generalize hr : GetTransmissionTime.walk (c0 :: rest) e 0 c0.y = r
    have key : 0 ≤ r.1 ∧ 0 ≤ r.2.1 ∧ 0 ≤ r.2.2 ∧
        (r.2.2 ≠ 0 → Layer.area (c0 :: rest) (r.1 / r.2.2 + r.2.1) = e) := by
      by_cases hc : c0.x ≤ 0
      · have hw : GetTransmissionTime.walk rest e 0 c0.y = r := by
          rw [← hr]; simp [GetTransmissionTime.walk, hc]
        obtain ⟨h1, h2, h3, h4⟩ := GetTransmissionTime.walk_spec rest c0 e 0 r hs hy he
          (max_eq_right hc).symm hw
        refine ⟨h1, h2, h3, fun hne0 => ?_⟩
        simp only [Layer.area]
        rw [h4 hne0, max_eq_left (le_trans (min_le_left _ _) hc)]
        ring
      · push_neg at hc
        by_cases hv : e - (c0.x - 0) * c0.y < 0
        · have hw : r = (e - (c0.x - 0) * c0.y + (c0.x - 0) * c0.y, 0, c0.y) := by
            rw [← hr]; simp only [GetTransmissionTime.walk, not_le.mpr hc, hv, if_false, if_true]
          rw [sub_add_cancel] at hw
          subst hw
          refine ⟨he, le_rfl, hp, fun hne0 => ?_⟩
          have hpos : 0 < c0.y := lt_of_le_of_ne hp (Ne.symm hne0)
          have hq : 0 ≤ e / c0.y := div_nonneg he hp
          have hlt : e / c0.y < c0.x := by
            rw [div_lt_iff₀ hpos]; linarith
          simp only [Layer.area, add_zero]
          rw [Layer.areaFrom_eq_zero rest c0 _ hs (le_trans hlt.le (le_max_left _ _)),
            min_eq_right hlt.le, max_eq_right hq]
          field_simp
        · push_neg at hv
          have hw : GetTransmissionTime.walk rest (e - (c0.x - 0) * c0.y) c0.x c0.y = r := by
            rw [← hr]; simp only [GetTransmissionTime.walk, not_le.mpr hc, not_lt.mpr hv, if_false]
          obtain ⟨h1, h2, h3, h4⟩ := GetTransmissionTime.walk_spec rest c0 _ c0.x r hs hy hv
            (max_eq_left hc.le).symm hw
          have hq : 0 ≤ r.1 / r.2.2 := div_nonneg h1 h3
          refine ⟨h1, le_trans hc.le h2, h3, fun hne0 => ?_⟩
          simp only [Layer.area]
          rw [h4 hne0, min_eq_left (by linarith), max_eq_right hc.le]
          ring
    obtain ⟨h1, h2, h3, h4⟩ := key
    by_cases h0 : r.2.2 = 0
    · exact ⟨-1, by simp [h0], fun h => absurd rfl h⟩
    · refine ⟨r.1 / r.2.2 + r.2.1, by simp [h0], fun _ => ⟨?_, h4 h0⟩⟩
      have := div_nonneg h1 h3
      linarith

/-- Witness for C1: the layer `[{0,2},{10,0}]` with the draw `e = 4`. -/
theorem C1_get_transmission_time_integral_witness :
    (∃ T, GetTransmissionTime.Get [⟨0, 2⟩, ⟨10, 0⟩] 4 = some T ∧
      (T ≠ -1 → 0 ≤ T ∧ Layer.area [⟨0, 2⟩, ⟨10, 0⟩] T = 4)) ∧
    (∀ (c : Coordinate) (rest : List Coordinate) (val t rate : ℚ), c.x ≤ 0 →
      GetTransmissionTime.walk (c :: rest) val t rate
        = GetTransmissionTime.walk rest val t c.y) :=
  C1_get_transmission_time_integral [⟨0, 2⟩, ⟨10, 0⟩] 4 (by simp)
    (by simp [Layer.Sorted]) (by simp) (by norm_num)


end tr


namespace tr

theorem mem_uniqueFrom (x : ℚ) (l : List ℚ) : ∀ a, x ∈ uniqueFrom a l ↔ x = a ∨ x ∈ l := by
  induction l with
  | nil => intro a; simp [uniqueFrom]
  | cons b l ih =>
    intro a
    by_cases h : a = b
    · subst h
      simp only [uniqueFrom, if_true, ih, List.mem_cons]
      tauto
    · simp only [uniqueFrom, if_neg h, List.mem_cons, ih]

theorem mem_unique (x : ℚ) (l : List ℚ) : x ∈ unique l ↔ x ∈ l := by
  cases l with
  | nil => simp [unique]
  | cons a l => simp [unique, mem_uniqueFrom]

theorem uniqueFrom_sorted (l : List ℚ) :
    ∀ a, List.Sorted (· ≤ ·) (a :: l) → List.Sorted (· < ·) (uniqueFrom a l) := by
  induction l with
  | nil => intro a _; simp [uniqueFrom]
  | cons b l ih =>
    intro a h
    rw [List.sorted_cons] at h
    obtain ⟨hal, hbl⟩ := h
    have hab : a ≤ b := hal b (by simp)
    by_cases e : a = b
    · subst e
      simp only [uniqueFrom, if_true]
      apply ih a
      rw [List.sorted_cons]
      exact ⟨fun c hc => hal c (List.mem_cons_of_mem _ hc), (List.sorted_cons.mp hbl).2⟩
    · simp only [uniqueFrom, if_neg e]
      rw [List.sorted_cons]
      refine ⟨?_, ih b hbl⟩
      intro c hc
      rw [mem_uniqueFrom] at hc
      have hlt : a < b := lt_of_le_of_ne hab e
      rcases hc with rfl | hc
      · exact hlt
      · exact lt_of_lt_of_le hlt ((List.sorted_cons.mp hbl).1 c hc)

theorem unique_sorted (l : List ℚ) (h : List.Sorted (· ≤ ·) l) :
    List.Sorted (· < ·) (unique l) := by
  cases l with
  | nil => simp [unique]
  | cons a l => exact uniqueFrom_sorted l a h

theorem tChange_sorted (input_layers : List Layer) :
    List.Sorted (· < ·) (tChange input_layers) :=
  unique_sorted _ (List.sorted_insertionSort _ _)

theorem mem_tChange (input_layers : List Layer) (t : ℚ) :
    t ∈ tChange input_layers ↔ ∃ l ∈ input_layers, ∃ c ∈ l.tail, c.x = t := by
  unfold tChange
  rw [mem_unique, (List.perm_insertionSort _ _).mem_iff]
  simp only [List.mem_flatten, List.mem_map]
  constructor
  · rintro ⟨_, ⟨l, hl, rfl⟩, ht⟩
    obtain ⟨c, hc, rfl⟩ := List.mem_map.mp ht
    exact ⟨l, hl, c, hc, rfl⟩
  · rintro ⟨l, hl, c, hc, rfl⟩
    exact ⟨_, ⟨l, hl, rfl⟩, List.mem_map.mpr ⟨c, hc, rfl⟩⟩

theorem Layer.valueFrom_cons_le (cur u : ℚ) (c : Coordinate) (rest : List Coordinate)
    (h : c.x ≤ u) : Layer.valueFrom cur (c :: rest) u = Layer.valueFrom c.y rest u := by
  unfold Layer.valueFrom
  rw [List.filter_cons_of_pos (by simpa using h), List.getLast?_cons]
  cases (List.filter (fun c => decide (c.x ≤ u)) rest).getLast? <;> rfl

theorem Layer.valueFrom_cons_gt (cur u : ℚ) (c : Coordinate) (rest : List Coordinate)
    (h : u < c.x) : Layer.valueFrom cur (c :: rest) u = Layer.valueFrom cur rest u := by
  unfold Layer.valueFrom
  rw [List.filter_cons_of_neg (by simpa using h)]

theorem Layer.valueFrom_of_all_gt (cur u : ℚ) (pts : List Coordinate)
    (h : ∀ c ∈ pts, u < c.x) : Layer.valueFrom cur pts u = cur := by
  induction pts with
  | nil => rfl
  | cons c rest ih =>
    rw [Layer.valueFrom_cons_gt cur u c rest (h c (by simp))]
    exact ih (fun d hd => h d (List.mem_cons_of_mem _ hd))

theorem Layer.valueFrom_append_of_all_gt (cur u : ℚ) (pre post : List Coordinate)
    (h : ∀ c ∈ post, u < c.x) :
    Layer.valueFrom cur (pre ++ post) u = Layer.valueFrom cur pre u := by
  induction pre generalizing cur with
  | nil => simpa using Layer.valueFrom_of_all_gt cur u post h
  | cons c rest ih =>
    by_cases hc : c.x ≤ u
    · rw [List.cons_append, Layer.valueFrom_cons_le _ _ _ _ hc, Layer.valueFrom_cons_le _ _ _ _ hc]
      exact ih _
    · push_neg at hc
      rw [List.cons_append, Layer.valueFrom_cons_gt _ _ _ _ hc, Layer.valueFrom_cons_gt _ _ _ _ hc]
      exact ih _

theorem mem_multiplicationPoints (input_layers : List Layer) (ts : List ℚ) :
    ∀ (idx : List Nat) (c : Coordinate),
      c ∈ multiplicationPoints input_layers ts idx → c.x ∈ ts := by
  induction ts with
  | nil => intro idx c h; simp [multiplicationPoints] at h
  | cons t ts ih =>
    intro idx c h
    simp only [multiplicationPoints, List.mem_cons] at h
    rcases h with rfl | h
    · simp
    · exact List.mem_cons_of_mem _ (ih _ c h)

theorem valueFrom_multiplicationPoints (input_layers : List Layer) (u : ℚ) (ts : List ℚ) :
    ∀ (idx : List Nat), List.Sorted (· < ·) ts →
      Layer.valueFrom (GetMultiple input_layers idx)
          (multiplicationPoints input_layers ts idx) u
        = GetMultiple input_layers
            ((ts.filter (fun t => decide (t ≤ u))).foldl (advance input_layers) idx) := by
  induction ts with
  | nil => intro idx _; rfl
  | cons t ts ih =>
    intro idx hs
    rw [List.sorted_cons] at hs
    by_cases ht : t ≤ u
    · rw [List.filter_cons_of_pos (by simpa using ht), List.foldl_cons]
      simp only [multiplicationPoints]
      rw [Layer.valueFrom_cons_le _ _ _ _ ht]
      exact ih _ hs.2
    · push_neg at ht
      have hall : ∀ c ∈ multiplicationPoints input_layers (t :: ts) idx, u < c.x := by
        intro c hc
        have := mem_multiplicationPoints input_layers (t :: ts) idx c hc
        rcases List.mem_cons.mp this with h | h
        · rw [h]; exact ht
        · exact lt_trans ht (hs.1 _ h)
      rw [Layer.valueFrom_of_all_gt _ _ _ hall]
      have hf : (t :: ts).filter (fun t => decide (t ≤ u)) = [] := by
        rw [List.filter_eq_nil_iff]
        intro a ha
        have : u < a := by
          rcases List.mem_cons.mp ha with h | h
          · rw [h]; exact ht
          · exact lt_trans ht (hs.1 _ h)
        simpa using this
      rw [hf]; rfl

theorem zipWith_map_self {α β γ : Type} (f : α → β → γ) (g : α → β) (l : List α) :
    List.zipWith f l (l.map g) = l.map (fun a => f a (g a)) := by
  induction l with
  | nil => rfl
  | cons a l ih => simp [ih]

theorem foldl_advance (input_layers : List Layer) (ts : List ℚ) :
    ∀ (g : Layer → Nat),
      ts.foldl (advance input_layers) (input_layers.map g)
        = input_layers.map (fun l => ts.foldl (advanceIndex l) (g l)) := by
  induction ts with
  | nil => intro g; rfl
  | cons t ts ih =>
    intro g
    rw [List.foldl_cons]
    unfold advance
    rw [zipWith_map_self]
    exact ih (fun l => advanceIndex l (g l) t)

theorem GetMultiple_map (input_layers : List Layer) (g : Layer → Nat) :
    GetMultiple input_layers (input_layers.map g)
      = (input_layers.map (fun l => (l.getD (g l) default).y)).prod := by
  unfold GetMultiple
  rw [zipWith_map_self, List.prod_eq_foldl]

theorem replicate_eq_map_zero (input_layers : List Layer) :
    List.replicate input_layers.length 0 = input_layers.map (fun _ => 0) := by
  induction input_layers with
  | nil => rfl
  | cons a l ih =>
    rw [List.length_cons, List.replicate_succ, ih, List.map_cons]

end tr

namespace tr

theorem advanceIndex_split (pre post : List Coordinate) (t : ℚ) (hpre : pre ≠ []) :
    advanceIndex (pre ++ post) (pre.length - 1) t =
      match post with
      | [] => pre.length - 1
      | c :: _ => if c.x = t then pre.length else pre.length - 1 := by
  have hlen : 0 < pre.length := List.length_pos.mpr hpre
  have h1 : pre.length - 1 + 1 = pre.length := by omega
  unfold advanceIndex
  rw [h1]
  cases post with
  | nil => simp
  | cons c rest =>
    have h2 : pre.length < (pre ++ c :: rest).length := by simp
    rw [if_pos h2]
    have h3 : (pre ++ c :: rest).getD pre.length default = c := by
      rw [List.getD_eq_getElem?_getD, List.getElem?_append_right (le_refl _)]
      simp
    rw [h3]

theorem advance_invariant (l : Layer) (u : ℚ) (tsu : List ℚ) :
    ∀ (pre post : List Coordinate), l = pre ++ post → pre ≠ [] →
      List.Sorted (· < ·) tsu → (∀ t ∈ tsu, t ≤ u) →
      (∀ c ∈ post, c.x ≤ u → c.x ∈ tsu) →
      List.Pairwise (fun a b : Coordinate => a.x < b.x) post →
      (∀ c ∈ pre.tail, c.x ≤ u) →
      ∃ pre1 post1, l = pre1 ++ post1 ∧ pre1 ≠ [] ∧
        tsu.foldl (advanceIndex l) (pre.length - 1) = pre1.length - 1 ∧
        (∀ c ∈ post1, u < c.x) ∧ (∀ c ∈ pre1.tail, c.x ≤ u) ∧
        pre1.head? = pre.head? := by
  induction tsu with
  | nil =>
    intro pre post hl hpre _ _ hmem _ htail
    refine ⟨pre, post, hl, hpre, rfl, ?_, htail, rfl⟩
    intro c hc
    by_contra hcu
    push_neg at hcu
    exact absurd (hmem c hc hcu) (by simp)
  | cons t ts ih =>
    intro pre post hl hpre hs hle hmem hpw htail
    rw [List.sorted_cons] at hs
    rw [List.foldl_cons]
    have hstep := advanceIndex_split pre post t hpre
    rw [← hl] at hstep
    rw [hstep]
    have hle2 : ∀ t1 ∈ ts, t1 ≤ u := fun t1 h1 => hle t1 (List.mem_cons_of_mem _ h1)
    cases post with
    | nil =>
      simp only
      exact ih pre [] hl hpre hs.2 hle2 (by simp) List.Pairwise.nil htail
    | cons c rest =>
      simp only
      rw [List.pairwise_cons] at hpw
      by_cases hct : c.x = t
      · rw [if_pos hct]
        have hl2 : l = (pre ++ [c]) ++ rest := by rw [hl]; simp
        have hlen : pre.length = (pre ++ [c]).length - 1 := by simp
        rw [hlen]
        have hmem2 : ∀ d ∈ rest, d.x ≤ u → d.x ∈ ts := by
          intro d hd hdu
          have h1 := hmem d (List.mem_cons_of_mem _ hd) hdu
          rcases List.mem_cons.mp h1 with h | h
          · have := hpw.1 d hd
            rw [hct, h] at this
            exact absurd this (lt_irrefl _)
          · exact h
        have htail2 : ∀ d ∈ (pre ++ [c]).tail, d.x ≤ u := by
          intro d hd
          rw [List.tail_append_of_ne_nil hpre] at hd
          rcases List.mem_append.mp hd with h | h
          · exact htail d h
          · rw [List.mem_singleton.mp h, hct]
            exact hle t (by simp)
        obtain ⟨pre1, post1, h1, h2, h3, h4, h5, h6⟩ :=
          ih (pre ++ [c]) rest hl2 (by simp) hs.2 hle2 hmem2 hpw.2 htail2
        refine ⟨pre1, post1, h1, h2, h3, h4, h5, ?_⟩
        rw [h6]
        cases pre with
        | nil => exact absurd rfl hpre
        | cons p ps => rfl
      · rw [if_neg hct]
        have hmem2 : ∀ d ∈ c :: rest, d.x ≤ u → d.x ∈ ts := by
          intro d hd hdu
          have h1 := hmem d hd hdu
          rcases List.mem_cons.mp h1 with h | h
          · -- then the head `c` has `c.x ≤ d.x = t ≤ u`, so `c.x` is in `t :: ts`, hence `c.x = t`
            exfalso
            have hcd : c.x ≤ d.x := by
              rcases List.mem_cons.mp hd with e | e
              · rw [e]
              · exact (hpw.1 d e).le
            have hcu : c.x ≤ u := le_trans hcd hdu
            have h2 := hmem c (by simp) hcu
            rcases List.mem_cons.mp h2 with e | e
            · exact hct e
            · have := hs.1 _ e
              rw [h] at hcd
              exact absurd (lt_of_lt_of_le this hcd) (lt_irrefl _)
          · exact h
        exact ih pre (c :: rest) hl hpre hs.2 hle2 hmem2 (List.pairwise_cons.mpr hpw) htail

theorem Layer.valueFrom_all_le (u : ℚ) (tl : List Coordinate) :
    ∀ cur, (∀ c ∈ tl, c.x ≤ u) →
      Layer.valueFrom cur tl u = (tl.getLast?.map (fun c => c.y)).getD cur := by
  induction tl with
  | nil => intro cur _; rfl
  | cons c rest ih =>
    intro cur h
    rw [Layer.valueFrom_cons_le _ _ _ _ (h c (by simp)), ih _ (fun d hd => h d (List.mem_cons_of_mem _ hd)),
      List.getLast?_cons]
    cases rest.getLast? <;> rfl

end tr

namespace tr

theorem advanceIndex_value (l : Layer) (ts : List ℚ) (u : ℚ) (hne : l ≠ [])
    (htail : List.Chain' (fun a b : Coordinate => a.x < b.x) l.tail)
    (hs : List.Sorted (· < ·) ts) (hmem : ∀ c ∈ l.tail, c.x ∈ ts) :
    (l.getD ((ts.filter (fun t => decide (t ≤ u))).foldl (advanceIndex l) 0) default).y
      = Layer.value l u := by
  cases l with
  | nil => exact absurd rfl hne
  | cons l0 tl =>
    have hpw : List.Pairwise (fun a b : Coordinate => a.x < b.x) tl := by
      have : IsTrans Coordinate (fun a b : Coordinate => a.x < b.x) :=
        ⟨fun a b c hab hbc => lt_trans hab hbc⟩
      exact List.chain'_iff_pairwise.mp htail
    obtain ⟨pre1, post1, h1, h2, h3, h4, h5, h6⟩ :=
      advance_invariant (l0 :: tl) u (ts.filter (fun t => decide (t ≤ u))) [l0] tl rfl (by simp)
        (List.Pairwise.filter _ hs)
        (fun t ht => by simpa using (List.mem_filter.mp ht).2)
        (fun c hc hcu => List.mem_filter.mpr ⟨hmem c hc, by simpa using hcu⟩)
        hpw (by simp)
    simp only [List.length_singleton, Nat.sub_self] at h3
    rw [h3]
    cases pre1 with
    | nil => exact absurd rfl h2
    | cons p tl1 =>
      simp only [List.head?_cons, Option.some.injEq] at h6
      subst h6
      simp only [List.tail_cons] at h5
      have hv : Layer.value (p :: tl) u = (tl1.getLast?.map (fun c => c.y)).getD p.y := by
        unfold Layer.value
        rw [h1, Layer.valueFrom_append_of_all_gt _ _ _ _ h4]
        simp only [List.cons_append, List.headD_cons]
        by_cases hp : p.x ≤ u
        · rw [Layer.valueFrom_cons_le _ _ _ _ hp]
          exact Layer.valueFrom_all_le u tl1 _ h5
        · push_neg at hp
          rw [Layer.valueFrom_cons_gt _ _ _ _ hp]
          exact Layer.valueFrom_all_le u tl1 _ h5
      rw [hv, h1]
      have hidx : ((p :: tl1) ++ post1).getD ((p :: tl1).length - 1) default
          = tl1.getLast?.getD p := by
        rw [List.getD_eq_getElem?_getD, List.getElem?_append_left (by simp),
          ← List.getLast?_eq_getElem?, List.getLast?_cons]
        simp
      rw [hidx]
      cases tl1.getLast? <;> rfl

/-- C2 (as amended): for every list of layers, each with at least one point,
non-decreasing x and no two points after the first sharing an x, the step
function of `CreateMultiplicationLayer` at every `t` is the product of the step
functions of the input layers at `t`. -/
theorem C2_multiplication_layer_pointwise_product (input_layers : List Layer) (t : ℚ)
    (hvalid : ∀ l ∈ input_layers, l ≠ [] ∧ Layer.Sorted l ∧
      List.Chain' (fun a b : Coordinate => a.x < b.x) l.tail) :
    Layer.value (CreateMultiplicationLayer input_layers) t
      = (input_layers.map (fun l => Layer.value l t)).prod := by
  have hstep : Layer.value (CreateMultiplicationLayer input_layers) t
      = Layer.valueFrom (GetMultiple input_layers (List.replicate input_layers.length 0))
          (multiplicationPoints input_layers (tChange input_layers)
            (List.replicate input_layers.length 0)) t := by
    unfold Layer.value CreateMultiplicationLayer
    simp only [List.headD_cons]
    by_cases h : lowestXVal input_layers ≤ t
    · rw [Layer.valueFrom_cons_le _ _ _ _ h]
    · push_neg at h
      rw [Layer.valueFrom_cons_gt _ _ _ _ h]
  rw [hstep, valueFrom_multiplicationPoints _ _ _ _ (tChange_sorted input_layers),
    replicate_eq_map_zero, foldl_advance, GetMultiple_map]
  congr 1
  apply List.map_congr_left
  intro l hl
  obtain ⟨hne, _, htail⟩ := hvalid l hl
  exact advanceIndex_value l (tChange input_layers) t hne htail (tChange_sorted input_layers)
    (fun c hc => (mem_tChange input_layers c.x).mpr ⟨l, hl, c, hc, rfl⟩)

/-- Witness for C2: two layers with a shared breakpoint, evaluated at `t = 5`. -/
theorem C2_multiplication_layer_pointwise_product_witness :
    Layer.value (CreateMultiplicationLayer
        [[⟨0, 1⟩, ⟨5, 2⟩], [⟨-1, 3⟩, ⟨2, 7⟩, ⟨5, 11⟩]]) 5
      = ([[⟨0, 1⟩, ⟨5, 2⟩], [⟨-1, 3⟩, ⟨2, 7⟩, ⟨5, 11⟩]].map
          (fun l => Layer.value l 5)).prod :=
  C2_multiplication_layer_pointwise_product _ 5 (by
    intro l hl
    simp only [List.mem_cons, List.mem_singleton, List.not_mem_nil, or_false] at hl
    rcases hl with rfl | rfl
    · refine ⟨by simp, by simp [Layer.Sorted], by simp⟩
    · refine ⟨by simp, ?_, ?_⟩
      · simp only [Layer.Sorted, List.chain'_cons, List.chain'_singleton, and_true]
        constructor <;> norm_num
      · simp only [List.tail_cons, List.chain'_cons, List.chain'_singleton, and_true]
        norm_num)

/-- Counterexample to C2 as stated: the layer `[{0,1},{1,2},{1,3}]` has
non-decreasing x, its step function at `t = 1` is `3`, but the multiplication
layer of this single layer is `[{0,1},{1,2}]` with value `2` at `t = 1`. -/
theorem C2_counterexample :
    Layer.Sorted [⟨0, 1⟩, ⟨1, 2⟩, ⟨1, 3⟩] ∧
    CreateMultiplicationLayer [[⟨0, 1⟩, ⟨1, 2⟩, ⟨1, 3⟩]] = [⟨0, 1⟩, ⟨1, 2⟩] ∧
    Layer.value (CreateMultiplicationLayer [[⟨0, 1⟩, ⟨1, 2⟩, ⟨1, 3⟩]]) 1 = 2 ∧
    ([[⟨0, 1⟩, ⟨1, 2⟩, ⟨1, 3⟩]].map (fun l => Layer.value l 1)).prod = 3 ∧
    Layer.value (CreateMultiplicationLayer [[⟨0, 1⟩, ⟨1, 2⟩, ⟨1, 3⟩]]) 1
      ≠ ([[⟨0, 1⟩, ⟨1, 2⟩, ⟨1, 3⟩]].map (fun l => Layer.value l 1)).prod := by
  refine ⟨?_, by decide!, by decide!, by decide!, by decide!⟩
  simp only [Layer.Sorted, List.chain'_cons, List.chain'_singleton, and_true]
  constructor <;> norm_num

end tr

namespace tr

/-- C3: with both partners in the person list and a sampled time `dT` that is
the sentinel `-1` or non-negative, `UpdateGNTransmissionEvent` first sends the
cancellation and then adds an event if and only if the gonorrhea statuses
differ, `dT ≠ -1` and `time + dT ≤ time_end`; it then adds exactly one
`GNTransmission` event, for the uninfected partner, due on
`time + ⌊dT⌋ + eps` with `eps = 1` when `current_priority ≥ GN_TRANSMISSION`
and `0` otherwise; in every other case it adds no event. -/
theorem C3_update_gn_transmission_event (state : sv.State) (relation : sv.Relation)
    (person1 person2 : sv.Person)
    (h1 : state.person_list relation.person1_id = some person1)
    (h2 : state.person_list relation.person2_id = some person2)
    (hdT : state.GetGNTransmission relation
        (if person1.gonorrhea_status.infected = true then person1 else person2)
        (if person1.gonorrhea_status.infected = true then person2 else person1)
        state.time = -1 ∨
      0 ≤ state.GetGNTransmission relation
        (if person1.gonorrhea_status.infected = true then person1 else person2)
        (if person1.gonorrhea_status.infected = true then person2 else person1)
        state.time) :
    UpdateGNTransmissionEvent state relation =
      some
        (EventManagerCall.NotifyChannel2 relation.relation_id
            sv.relation_event_codes.CANCEL_EV_GN_TRANSMISSION ::
          if person1.gonorrhea_status.infected ≠ person2.gonorrhea_status.infected ∧
              state.GetGNTransmission relation
                (if person1.gonorrhea_status.infected = true then person1 else person2)
                (if person1.gonorrhea_status.infected = true then person2 else person1)
                state.time ≠ -1 ∧
              (state.time : ℚ) + state.GetGNTransmission relation
                (if person1.gonorrhea_status.infected = true then person1 else person2)
                (if person1.gonorrhea_status.infected = true then person2 else person1)
                state.time ≤ (relation.time_end : ℚ) then
            [EventManagerCall.Add
              { time_due := state.time + ⌊state.GetGNTransmission relation
                    (if person1.gonorrhea_status.infected = true then person1 else person2)
                    (if person1.gonorrhea_status.infected = true then person2 else person1)
                    state.time⌋ +
                  (if state.current_priority ≥ sv.priority.GN_TRANSMISSION then 1 else 0),
                priority := sv.priority.GN_TRANSMISSION,
                channel1 := -1,
                channel2 := relation.relation_id,
                relation_id := relation.relation_id,
                person_to_infect_id :=
                  (if person1.gonorrhea_status.infected = true then person2 else person1).id }]
          else []) := by
  unfold UpdateGNTransmissionEvent
  rw [h1, h2]
  simp only
  by_cases hd : person1.gonorrhea_status.infected = person2.gonorrhea_status.infected
  · simp [hd]
  · have hbne : (person1.gonorrhea_status.infected != person2.gonorrhea_status.infected) = true := by
      simpa using hd
    rw [if_pos hbne]
    have key : ∀ (dT : ℚ) (target : Int), (dT = -1 ∨ 0 ≤ dT) →
        (if dT = -1 then some [EventManagerCall.NotifyChannel2 relation.relation_id
              sv.relation_event_codes.CANCEL_EV_GN_TRANSMISSION]
          else if dT + (state.time : ℚ) > (relation.time_end : ℚ) then
            some [EventManagerCall.NotifyChannel2 relation.relation_id
              sv.relation_event_codes.CANCEL_EV_GN_TRANSMISSION]
          else some [EventManagerCall.NotifyChannel2 relation.relation_id
              sv.relation_event_codes.CANCEL_EV_GN_TRANSMISSION,
            EventManagerCall.Add (ev.GNTransmission.new relation.relation_id target
              (state.time + staticCastInt dT +
                (if state.current_priority ≥ sv.priority.GN_TRANSMISSION then 1 else 0)))])
        = some (EventManagerCall.NotifyChannel2 relation.relation_id
              sv.relation_event_codes.CANCEL_EV_GN_TRANSMISSION ::
            if person1.gonorrhea_status.infected ≠ person2.gonorrhea_status.infected ∧
                dT ≠ -1 ∧ (state.time : ℚ) + dT ≤ (relation.time_end : ℚ) then
              [EventManagerCall.Add
                { time_due := state.time + ⌊dT⌋ +
                    (if state.current_priority ≥ sv.priority.GN_TRANSMISSION then 1 else 0),
                  priority := sv.priority.GN_TRANSMISSION,
                  channel1 := -1,
                  channel2 := relation.relation_id,
                  relation_id := relation.relation_id,
                  person_to_infect_id := target }]
            else []) := by
      intro dT target hdT
      by_cases hm : dT = -1
      · simp [hm]
      · have h0 : 0 ≤ dT := hdT.resolve_left hm
        rw [if_neg hm]
        by_cases hlate : dT + (state.time : ℚ) > (relation.time_end : ℚ)
        · rw [if_pos hlate, if_neg]
          intro hc
          have := hc.2.2
          linarith
        · have hcond : person1.gonorrhea_status.infected ≠ person2.gonorrhea_status.infected ∧
                dT ≠ -1 ∧ (state.time : ℚ) + dT ≤ (relation.time_end : ℚ) :=
            ⟨hd, hm, by linarith⟩
          rw [if_neg hlate, if_pos hcond]
          simp only [ev.GNTransmission.new, staticCastInt, if_pos h0]
    by_cases hp : person1.gonorrhea_status.infected = true
    · simp only [hp, if_true] at hdT ⊢
      simp only [hp] at key
      exact key _ _ hdT
    · simp only [hp, if_false] at hdT ⊢
      simp only [hp] at key
      exact key _ _ hdT

end tr


namespace tr

/-- Witness for C3: person 1 infected, person 2 not, sampled time `5/2`, at
time 10 while the relation-end class (priority 4) executes: one event for
person 2, due on day 12. -/
theorem C3_update_gn_transmission_event_witness :
    UpdateGNTransmissionEvent
        { time := 10, current_priority := 4,
          person_list := fun i =>
            if i = 1 then some ⟨1, 0, ⟨false, -1⟩, ⟨true, 3, false⟩⟩
            else if i = 2 then some ⟨2, 0, ⟨false, -1⟩, ⟨false, -1, false⟩⟩ else none,
          GetGNTransmission := fun _ _ _ _ => 5 / 2 }
        ⟨7, 1, 2, 0, 100⟩
      = some [EventManagerCall.NotifyChannel2 7 2,
          EventManagerCall.Add ⟨12, 6, -1, 7, 7, 2⟩] := by
  have h := C3_update_gn_transmission_event
    { time := 10, current_priority := 4,
      person_list := fun i =>
        if i = 1 then some ⟨1, 0, ⟨false, -1⟩, ⟨true, 3, false⟩⟩
        else if i = 2 then some ⟨2, 0, ⟨false, -1⟩, ⟨false, -1, false⟩⟩ else none,
      GetGNTransmission := fun _ _ _ _ => 5 / 2 }
    ⟨7, 1, 2, 0, 100⟩
    ⟨1, 0, ⟨false, -1⟩, ⟨true, 3, false⟩⟩ ⟨2, 0, ⟨false, -1⟩, ⟨false, -1, false⟩⟩
    (by simp) (by simp) (Or.inr (by norm_num))
  rw [h]
  decide!

end tr

namespace rg

/-- C10: for `sexual_onset < sexual_stop`, every skew and every
age-effect strength, `rate_primitive(E) - rate_primitive(B)` equals
`average_total_lifetime_n_partners` exactly, with `B = 365 * sexual_onset` and
`E = 365 * sexual_stop`; and `rate_primitive` is an antiderivative of
`rate_function` (it is the evaluation of a polynomial whose formal derivative
evaluates to `rate_function`), so this difference is the integral of the rate
over `[B, E]`, in particular for skew `1/2` and strength `1`. -/
theorem C10_rate_primitive_total (par : parameters.RelationGenerationStart)
    (h : par.sexual_onset < par.sexual_stop) :
    (start.RateGivenAgeFormula.new par).rate_primitive (par.sexual_stop * 365)
        - (start.RateGivenAgeFormula.new par).rate_primitive (par.sexual_onset * 365)
      = par.average_total_lifetime_n_partners ∧
    ∃ P : Polynomial ℚ,
      (∀ x, P.eval x = (start.RateGivenAgeFormula.new par).rate_primitive x) ∧
      (∀ x, (Polynomial.derivative P).eval x
        = (start.RateGivenAgeFormula.new par).rate_function x) := by
  constructor
  · have hne : par.sexual_stop * 365 - par.sexual_onset * 365 ≠ 0 := by
      intro h0; linarith
    simp only [start.RateGivenAgeFormula.new, start.RateGivenAgeFormula.rate_primitive]
    field_simp
    ring
  · refine ⟨Polynomial.C ((start.RateGivenAgeFormula.new par).a_ / 4) * Polynomial.X ^ 4
      + Polynomial.C ((start.RateGivenAgeFormula.new par).b_ / 3) * Polynomial.X ^ 3
      + Polynomial.C ((start.RateGivenAgeFormula.new par).c_ / 2) * Polynomial.X ^ 2
      + Polynomial.C ((start.RateGivenAgeFormula.new par).d_) * Polynomial.X, ?_, ?_⟩
    · intro x
      simp only [start.RateGivenAgeFormula.rate_primitive, Polynomial.eval_add,
        Polynomial.eval_mul, Polynomial.eval_C, Polynomial.eval_pow, Polynomial.eval_X]
      ring
    · intro x
      simp only [start.RateGivenAgeFormula.rate_function, Polynomial.derivative_add,
        Polynomial.derivative_mul, Polynomial.derivative_C, Polynomial.derivative_X_pow,
        Polynomial.derivative_X, Polynomial.eval_add,
        Polynomial.eval_mul, Polynomial.eval_C, Polynomial.eval_pow, Polynomial.eval_X,
        Polynomial.eval_zero, Polynomial.eval_one, Polynomial.eval_natCast]
      push_cast
      ring

/-- Witness for C10: the default parameter pack (onset 15, stop 80, 300
partners, skew 1/2, strength 1). -/
theorem C10_rate_primitive_total_witness :
    (start.RateGivenAgeFormula.new ⟨15, 80, 300, 1 / 2, 1⟩).rate_primitive (80 * 365)
        - (start.RateGivenAgeFormula.new ⟨15, 80, 300, 1 / 2, 1⟩).rate_primitive (15 * 365)
      = 300 ∧
    ∃ P : Polynomial ℚ,
      (∀ x, P.eval x = (start.RateGivenAgeFormula.new ⟨15, 80, 300, 1 / 2, 1⟩).rate_primitive x) ∧
      (∀ x, (Polynomial.derivative P).eval x
        = (start.RateGivenAgeFormula.new ⟨15, 80, 300, 1 / 2, 1⟩).rate_function x) :=
  C10_rate_primitive_total ⟨15, 80, 300, 1 / 2, 1⟩ (by norm_num)

end rg

namespace rg
namespace mm

theorem length_flatMap_range (f : Nat → List alje.MultiSetSize2) (m : Nat) :
    ((List.range m).flatMap f).length = ((List.range m).map (fun i => (f i).length)).sum := by
  induction m with
  | zero => rfl
  | succ m ih =>
    rw [List.range_succ, List.flatMap_append, List.length_append, ih, List.map_append,
      List.sum_append]
    simp

theorem getElem?_flatMap_range (f : Nat → List alje.MultiSetSize2) (m a j : Nat)
    (ha : a < m) (hj : j < (f a).length) :
    ((List.range m).flatMap f)[((List.range a).map (fun i => (f i).length)).sum + j]?
      = (f a)[j]? := by
  induction m with
  | zero => exact absurd ha (Nat.not_lt_zero _)
  | succ m ih =>
    rw [List.range_succ, List.flatMap_append]
    by_cases h : a < m
    · have hlt : ((List.range a).map (fun i => (f i).length)).sum + j
          < ((List.range m).flatMap f).length := by
        have h1 := ih h
        by_contra hge
        push_neg at hge
        rw [List.getElem?_eq_none hge] at h1
        rw [List.getElem?_eq_getElem hj] at h1
        exact absurd h1 (by simp)
      rw [List.getElem?_append_left hlt]
      exact ih h
    · have hm : a = m := by omega
      subst hm
      rw [← length_flatMap_range, List.getElem?_append_right (Nat.le_add_right _ _)]
      simp

theorem offset_allLinks (n a : Nat) (ha : a ≤ n) :
    ((List.range a).map (fun i =>
        ((List.range' i (n - i)).map (fun b => (⟨i, b⟩ : alje.MultiSetSize2))).length)).sum
      = a * (2 * n - a - 1) / 2 + a := by
  induction a with
  | zero => simp
  | succ a ih =>
    rw [List.range_succ, List.map_append, List.sum_append, ih (by omega)]
    simp only [List.map_cons, List.map_nil, List.length_map, List.length_range', List.sum_cons,
      List.sum_nil, add_zero]
    obtain ⟨k, rfl⟩ : ∃ k, n = a + 1 + k := ⟨n - (a + 1), by omega⟩
    have e1 : 2 * (a + 1 + k) - a - 1 = a + 2 * k + 1 := by omega
    have e2 : 2 * (a + 1 + k) - (a + 1) - 1 = a + 2 * k := by omega
    have e3 : (a + 1) * (a + 2 * k) = a * (a + 2 * k + 1) + 2 * k := by ring
    rw [e1, e2, e3]
    omega

theorem getElem?_allLinks (n a b : Nat) (hab : a ≤ b) (hb : b < n) :
    (allLinks n)[PositionInLinkSorted n a b]? = some ⟨a, b⟩ := by
  have hpos : PositionInLinkSorted n a b
      = ((List.range a).map (fun i =>
          ((List.range' i (n - i)).map (fun b => (⟨i, b⟩ : alje.MultiSetSize2))).length)).sum
        + (b - a) := by
    rw [offset_allLinks n a (by omega)]
    unfold PositionInLinkSorted
    rw [if_neg (by omega)]
    omega
  rw [hpos]
  unfold allLinks
  rw [getElem?_flatMap_range _ n a (b - a) (by omega) (by simp; omega)]
  rw [List.getElem?_map, List.getElem?_range' _ _ (by omega)]
  simp only [Option.map_some', mul_one]
  congr 2
  omega

theorem PositionInLinkSorted_comm (n a b : Nat) :
    PositionInLinkSorted n a b = PositionInLinkSorted n b a := by
  unfold PositionInLinkSorted
  by_cases h1 : a > b
  · rw [if_pos h1, if_neg (by omega)]
  · by_cases h2 : b > a
    · rw [if_neg h1, if_pos h2]
    · have : a = b := by omega
      subst this
      rfl

theorem mem_allLinks (n : Nat) (l : alje.MultiSetSize2) :
    l ∈ allLinks n ↔ l.first ≤ l.second ∧ l.second < n := by
  unfold allLinks
  simp only [List.mem_flatMap, List.mem_range, List.mem_map, List.mem_range']
  constructor
  · rintro ⟨a, _, b, ⟨i, hi, rfl⟩, rfl⟩
    simp only
    omega
  · rintro ⟨h1, h2⟩
    refine ⟨l.first, by omega, l.second, ⟨l.second - l.first, by omega, by omega⟩, ?_⟩
    cases l; rfl

theorem length_allLinks_pos (n a b : Nat) (hab : a ≤ b) (hb : b < n) :
    PositionInLinkSorted n a b < (allLinks n).length := by
  by_contra h
  push_neg at h
  have := getElem?_allLinks n a b hab hb
  rw [List.getElem?_eq_none h] at this
  exact absurd this (by simp)

/-- `PositionInLinkSorted` is injective on unordered links. -/
theorem PositionInLinkSorted_inj (n a b c d : Nat) (hab : a ≤ b) (hb : b < n)
    (hcd : c ≤ d) (hd : d < n)
    (h : PositionInLinkSorted n a b = PositionInLinkSorted n c d) : a = c ∧ b = d := by
  have h1 := getElem?_allLinks n a b hab hb
  have h2 := getElem?_allLinks n c d hcd hd
  rw [h, h2] at h1
  simp only [Option.some.injEq, alje.MultiSetSize2.mk.injEq] at h1
  exact ⟨h1.1.symm, h1.2.symm⟩

end mm
end rg

namespace rg
namespace mm

instance linkPairLe_isTotal : IsTotal (alje.MultiSetSize2 × Credit) linkPairLe :=
  ⟨fun p q => by
    unfold linkPairLe
    rcases lt_trichotomy p.1.first q.1.first with h | h | h
    · exact Or.inl (Or.inl h)
    · rcases lt_trichotomy p.1.second q.1.second with h2 | h2 | h2
      · exact Or.inl (Or.inr ⟨h, Or.inl h2⟩)
      · rcases le_total p.2 q.2 with h3 | h3
        · exact Or.inl (Or.inr ⟨h, Or.inr ⟨h2, h3⟩⟩)
        · exact Or.inr (Or.inr ⟨h.symm, Or.inr ⟨h2.symm, h3⟩⟩)
      · exact Or.inr (Or.inr ⟨h.symm, Or.inl h2⟩)
    · exact Or.inr (Or.inl h)⟩

instance linkPairLe_isTrans : IsTrans (alje.MultiSetSize2 × Credit) linkPairLe :=
  ⟨fun p q r hpq hqr => by
    unfold linkPairLe at *
    rcases hpq with h | ⟨h, h2⟩
    · rcases hqr with g | ⟨g, _⟩
      · exact Or.inl (lt_trans h g)
      · exact Or.inl (g ▸ h)
    · rcases hqr with g | ⟨g, g2⟩
      · exact Or.inl (h ▸ g)
      · refine Or.inr ⟨h.trans g, ?_⟩
        rcases h2 with k | ⟨k, k2⟩
        · rcases g2 with m | ⟨m, _⟩
          · exact Or.inl (lt_trans k m)
          · exact Or.inl (m ▸ k)
        · rcases g2 with m | ⟨m, m2⟩
          · exact Or.inl (k ▸ m)
          · exact Or.inr ⟨k.trans m, le_trans k2 m2⟩⟩

instance linkLe_isAntisymm : IsAntisymm alje.MultiSetSize2 linkLe :=
  ⟨fun p q hpq hqp => by
    unfold linkLe at *
    cases p; cases q
    simp only [alje.MultiSetSize2.mk.injEq] at *
    omega⟩

theorem linkLe_of_linkPairLe (p q : alje.MultiSetSize2 × Credit) (h : linkPairLe p q) :
    linkLe p.1 q.1 := by
  unfold linkPairLe at h
  unfold linkLe
  rcases h with h | ⟨h, h2⟩
  · exact Or.inl h
  · refine Or.inr ⟨h, ?_⟩
    rcases h2 with k | ⟨k, _⟩
    · exact k.le
    · exact k.le

theorem allLinks_sorted (n : Nat) : List.Sorted linkLe (allLinks n) := by
  unfold allLinks List.Sorted
  rw [List.pairwise_flatMap]
  constructor
  · intro a _
    rw [List.pairwise_map]
    refine List.Pairwise.imp ?_ (List.pairwise_lt_range' a (n - a))
    intro x y hxy
    exact Or.inr ⟨rfl, hxy.le⟩
  · refine List.Pairwise.imp ?_ (List.pairwise_lt_range n)
    intro a1 a2 h12 x hx y hy
    obtain ⟨_, _, rfl⟩ := List.mem_map.mp hx
    obtain ⟨_, _, rfl⟩ := List.mem_map.mp hy
    exact Or.inl h12

/-- After `SortByLinks` the links of a handler that stores every link once sit
in the order of `allLinks`. -/
theorem SortByLinks_layout (lh : LinkHandler)
    (hperm : (lh.link_list_.map Prod.fst).Perm (allLinks lh.n_groups_)) :
    lh.SortByLinks.link_list_.map Prod.fst = allLinks lh.n_groups_ := by
  simp only [LinkHandler.SortByLinks]
  apply List.eq_of_perm_of_sorted (r := linkLe)
  · exact ((List.perm_insertionSort linkPairLe lh.link_list_).map Prod.fst).trans hperm
  · have hs := List.sorted_insertionSort linkPairLe lh.link_list_
    unfold List.Sorted at hs ⊢
    rw [List.pairwise_map]
    exact hs.imp (fun {p q} h => linkLe_of_linkPairLe p q h)
  · exact allLinks_sorted _

theorem addCredit_getElem? (l : List (alje.MultiSetSize2 × Credit)) :
    ∀ (k : Nat) (x : ℚ) (j : Nat),
      (addCredit l k x)[j]? =
        if j = k then (l[j]?).map (fun p => (p.1, p.2 + (x : Credit))) else l[j]? := by
  induction l with
  | nil => intro k x j; simp [addCredit]
  | cons p l ih =>
    intro k x j
    cases k with
    | zero =>
      cases j with
      | zero => simp [addCredit]
      | succ j => simp [addCredit]
    | succ k =>
      cases j with
      | zero => simp [addCredit]
      | succ j =>
        simp only [addCredit, List.getElem?_cons_succ, ih k x j, Nat.add_right_cancel_iff]

theorem foldl_addCredit_getElem? {ι : Type} (idx : ι → Nat) (amt : ι → ℚ) (is : List ι) :
    ∀ (l : List (alje.MultiSetSize2 × Credit)) (j : Nat),
      (is.foldl (fun ll i => addCredit ll (idx i) (amt i)) l)[j]? =
        (l[j]?).map (fun p =>
          (p.1, p.2 + (((is.map (fun i => if idx i = j then amt i else 0)).sum : ℚ) : Credit))) := by
  induction is with
  | nil =>
    intro l j
    simp only [List.foldl_nil, List.map_nil, List.sum_nil, WithBot.coe_zero, add_zero]
    cases l[j]? <;> rfl
  | cons i is ih =>
    intro l j
    rw [List.foldl_cons, ih, addCredit_getElem?]
    by_cases h : j = idx i
    · rw [if_pos h]
      simp only [List.map_cons, List.sum_cons, if_pos h.symm, Option.map_map]
      congr 1
      funext p
      simp only [Function.comp, WithBot.coe_add, add_assoc]
    · rw [if_neg h]
      simp only [List.map_cons, List.sum_cons, if_neg (Ne.symm h), zero_add]

theorem foldl_nested {α β γ : Type} (g : γ → α → β → γ) (xs : List α) (ys : List β) :
    ∀ (l : γ),
      xs.foldl (fun ll x => ys.foldl (fun ll y => g ll x y) ll) l =
        (xs.flatMap (fun x => ys.map (fun y => (x, y)))).foldl (fun ll xy => g ll xy.1 xy.2) l := by
  induction xs with
  | nil => intro l; rfl
  | cons x xs ih =>
    intro l
    rw [List.foldl_cons, ih, List.flatMap_cons, List.foldl_append, List.foldl_map]

theorem sum_map_range (g : Nat → ℚ) (n : Nat) :
    ((List.range n).map g).sum = ∑ i in Finset.range n, g i := by
  induction n with
  | zero => rfl
  | succ n ih =>
    rw [List.range_succ, List.map_append, List.sum_append, ih, Finset.sum_range_succ]
    simp

theorem sum_map_flatMap_pairs (h : Nat × Nat → ℚ) (ys : List Nat) (xs : List Nat) :
    ((xs.flatMap (fun x => ys.map (fun y => (x, y)))).map h).sum
      = (xs.map (fun x => (ys.map (fun y => h (x, y))).sum)).sum := by
  induction xs with
  | nil => rfl
  | cons x xs ih =>
    rw [List.flatMap_cons, List.map_append, List.sum_append, ih, List.map_cons, List.sum_cons,
      List.map_map]
    rfl

theorem sum_map_pairs (h : Nat × Nat → ℚ) (n : Nat) :
    (((List.range n).flatMap (fun x => (List.range n).map (fun y => (x, y)))).map h).sum
      = ∑ f in Finset.range n, ∑ t in Finset.range n, h (f, t) := by
  rw [sum_map_flatMap_pairs, sum_map_range]
  apply Finset.sum_congr rfl
  intro f _
  rw [sum_map_range]

end mm
end rg

namespace rg
namespace mm

theorem allLinks_nodup (n : Nat) : (allLinks n).Nodup := by
  unfold allLinks List.Nodup
  rw [List.pairwise_flatMap]
  constructor
  · intro a _
    rw [List.pairwise_map]
    refine List.Pairwise.imp ?_ (List.pairwise_lt_range' a (n - a))
    intro x y hxy h
    simp only [alje.MultiSetSize2.mk.injEq, true_and] at h
    omega
  · refine List.Pairwise.imp ?_ (List.pairwise_lt_range n)
    intro a1 a2 h12 x hx y hy
    obtain ⟨_, _, rfl⟩ := List.mem_map.mp hx
    obtain ⟨_, _, rfl⟩ := List.mem_map.mp hy
    intro h
    simp only [alje.MultiSetSize2.mk.injEq] at h
    omega

theorem find?_eq_getElem?_of_nodup (l : List (alje.MultiSetSize2 × Credit)) :
    ∀ (k : Nat) (x : alje.MultiSetSize2), (l.map Prod.fst).Nodup →
      (l.map Prod.fst)[k]? = some x →
      l.find? (fun p => decide (p.1 = x)) = l[k]? := by
  induction l with
  | nil => intro k x _ h; simp at h
  | cons p l ih =>
    intro k x hnd h
    rw [List.map_cons, List.nodup_cons] at hnd
    cases k with
    | zero =>
      simp only [List.map_cons, List.getElem?_cons_zero, Option.some.injEq] at h
      simp [h]
    | succ k =>
      simp only [List.map_cons, List.getElem?_cons_succ] at h
      have hmem : x ∈ l.map Prod.fst := List.getElem?_mem h
      have hne : p.1 ≠ x := fun e => hnd.1 (e ▸ hmem)
      rw [List.getElem?_cons_succ, ← ih k x hnd.2 h]
      simp [List.find?_cons, hne]

theorem credit_eq_getElem? (lh : LinkHandler) (n a b : Nat)
    (hl : lh.link_list_.map Prod.fst = allLinks n) (hab : a ≤ b) (hb : b < n) :
    lh.credit a b = (lh.link_list_[PositionInLinkSorted n a b]?).map (fun p => p.2) := by
  unfold LinkHandler.credit
  rw [find?_eq_getElem?_of_nodup lh.link_list_ (PositionInLinkSorted n a b) ⟨a, b⟩
    (hl ▸ allLinks_nodup n) (hl ▸ getElem?_allLinks n a b hab hb)]

theorem PositionInLinkSorted_eq_iff (n f t a b : Nat) (hf : f < n) (ht : t < n)
    (hab : a ≤ b) (hb : b < n) :
    PositionInLinkSorted n f t = PositionInLinkSorted n a b ↔
      (f = a ∧ t = b) ∨ (f = b ∧ t = a) := by
  constructor
  · intro h
    by_cases hft : f ≤ t
    · exact Or.inl (PositionInLinkSorted_inj n f t a b hft ht hab hb h)
    · rw [PositionInLinkSorted_comm] at h
      have := PositionInLinkSorted_inj n t f a b (by omega) hf hab hb h
      exact Or.inr ⟨this.2, this.1⟩
  · rintro (⟨rfl, rfl⟩ | ⟨rfl, rfl⟩)
    · rfl
    · exact PositionInLinkSorted_comm n _ _

theorem sum_at_position (n a b : Nat) (g : Nat → Nat → ℚ) (hab : a ≤ b) (hb : b < n) :
    (∑ f in Finset.range n, ∑ t in Finset.range n,
      if PositionInLinkSorted n f t = PositionInLinkSorted n a b then g f t else 0)
      = if a = b then g a a else g a b + g b a := by
  have ha : a < n := by omega
  have key : ∀ f ∈ Finset.range n, ∀ t ∈ Finset.range n,
      (if PositionInLinkSorted n f t = PositionInLinkSorted n a b then g f t else 0)
        = (if f = a then (if t = b then g a b else 0) else 0)
          + (if f = b then (if t = a then (if a = b then 0 else g b a) else 0) else 0) := by
    intro f hf t ht
    rw [Finset.mem_range] at hf ht
    by_cases h : PositionInLinkSorted n f t = PositionInLinkSorted n a b
    · rw [if_pos h]
      rcases (PositionInLinkSorted_eq_iff n f t a b hf ht hab hb).mp h with ⟨rfl, rfl⟩ | ⟨rfl, rfl⟩
      · by_cases e : f = t
        · subst e; simp
        · simp [e, Ne.symm e]
      · by_cases e : f = t
        · subst e; simp
        · simp [e, Ne.symm e]
    · rw [if_neg h]
      have h2 := (PositionInLinkSorted_eq_iff n f t a b hf ht hab hb).not.mp h
      push_neg at h2
      have z1 : (if f = a then (if t = b then g a b else 0) else 0) = 0 := by
        split_ifs with c1 c2
        · exact absurd c2 (h2.1 c1)
        · rfl
        · rfl
      have z2 : (if f = b then (if t = a then (if a = b then 0 else g b a) else 0) else 0) = 0 := by
        split_ifs with c1 c2 c3
        · rfl
        · exact absurd c2 (h2.2 c1)
        · rfl
        · rfl
      rw [z1, z2, add_zero]
  rw [Finset.sum_congr rfl (fun f hf => Finset.sum_congr rfl (fun t ht => key f hf t ht))]
  simp only [Finset.sum_add_distrib]
  have s1 : (∑ f in Finset.range n, ∑ t in Finset.range n,
      (if f = a then (if t = b then g a b else 0) else 0)) = g a b := by
    rw [Finset.sum_eq_single a]
    · simp only [if_true]
      rw [Finset.sum_ite_eq' (Finset.range n) b (fun _ => g a b),
        if_pos (Finset.mem_range.mpr hb)]
    · intro f _ hfa
      simp [hfa]
    · intro h
      exact absurd (Finset.mem_range.mpr ha) h
  have s2 : (∑ f in Finset.range n, ∑ t in Finset.range n,
      (if f = b then (if t = a then (if a = b then 0 else g b a) else 0) else 0))
      = if a = b then 0 else g b a := by
    rw [Finset.sum_eq_single b]
    · simp only [if_true]
      rw [Finset.sum_ite_eq' (Finset.range n) a (fun _ => if a = b then 0 else g b a),
        if_pos (Finset.mem_range.mpr ha)]
    · intro f _ hfa
      simp [hfa]
    · intro h
      exact absurd (Finset.mem_range.mpr hb) h
  rw [s1, s2]
  by_cases e : a = b
  · subst e; simp
  · simp [e]

/-- The list of links after `Add`, entry by entry. -/
theorem Add_getElem? (lh : LinkHandler) (n_people_per_group : Nat → Int) (j : Nat) :
    (lh.Add n_people_per_group).link_list_[j]? =
      (lh.link_list_[j]?).map (fun p =>
        (p.1, p.2 + ((∑ f in Finset.range lh.n_groups_, ∑ t in Finset.range lh.n_groups_,
          if PositionInLinkSorted lh.n_groups_ f t = j then
            1 / 2 * (n_people_per_group f : ℚ) * lh.partner_choice_matrix_ f t
          else 0 : ℚ) : Credit))) := by
  simp only [LinkHandler.Add]
  rw [foldl_nested (fun ll x y => addCredit ll (PositionInLinkSorted lh.n_groups_ x y)
    (1 / 2 * (n_people_per_group x : ℚ) * lh.partner_choice_matrix_ x y))]
  rw [foldl_addCredit_getElem? (fun xy : Nat × Nat => PositionInLinkSorted lh.n_groups_ xy.1 xy.2)
    (fun xy : Nat × Nat => 1 / 2 * (n_people_per_group xy.1 : ℚ) * lh.partner_choice_matrix_ xy.1 xy.2)]
  rw [sum_map_pairs (fun xy : Nat × Nat =>
    if PositionInLinkSorted lh.n_groups_ xy.1 xy.2 = j then
      1 / 2 * (n_people_per_group xy.1 : ℚ) * lh.partner_choice_matrix_ xy.1 xy.2 else 0)]

theorem Add_map_fst (lh : LinkHandler) (n_people_per_group : Nat → Int) :
    (lh.Add n_people_per_group).link_list_.map Prod.fst = lh.link_list_.map Prod.fst := by
  apply List.ext_getElem?
  intro j
  rw [List.getElem?_map, List.getElem?_map, Add_getElem?]
  cases lh.link_list_[j]? <;> rfl

end mm
end rg

namespace rg
namespace mm

/-- A freshly constructed handler stores every link over its groups once. -/
theorem new_links_perm (n : Nat) (M : GroupMatrix) :
    ((LinkHandler.new n M).link_list_.map Prod.fst).Perm (allLinks n) := by
  rw [List.perm_ext_iff_of_nodup ?_ (allLinks_nodup n)]
  · intro l
    rw [mem_allLinks]
    simp only [LinkHandler.new, List.mem_map, List.mem_flatMap, List.mem_range]
    constructor
    · rintro ⟨p, ⟨higher, hh, lower, hl, rfl⟩, rfl⟩
      simp only
      omega
    · rintro ⟨h1, h2⟩
      refine ⟨(l, if M l.second l.first = 0 then ⊥ else 0),
        ⟨l.second, h2, l.first, by omega, ?_⟩, rfl⟩
      cases l; rfl
  · simp only [LinkHandler.new, List.map_flatMap, List.map_map]
    unfold List.Nodup
    rw [List.pairwise_flatMap]
    constructor
    · intro higher _
      rw [List.pairwise_map]
      refine List.Pairwise.imp ?_ (List.pairwise_lt_range (higher + 1))
      intro x y hxy h
      simp only [Function.comp, alje.MultiSetSize2.mk.injEq, and_true] at h
      omega
    · refine List.Pairwise.imp ?_ (List.pairwise_lt_range n)
      intro a1 a2 h12 x hx y hy
      obtain ⟨_, _, rfl⟩ := List.mem_map.mp hx
      obtain ⟨_, _, rfl⟩ := List.mem_map.mp hy
      intro h
      simp only [Function.comp, alje.MultiSetSize2.mk.injEq] at h
      omega

/-- C6: for a handler that stores every link over its groups once, after
`SortByLinks` the call `Add(n)` keeps the same links in the same order, changes
no other member, and raises the credit of every link `{a,b}` with `a ≠ b` by
`0.5 * (n_a * C[a][b] + n_b * C[b][a])` and of every link `{a,a}` by
`0.5 * n_a * C[a][a]`, with `C` the current partner-choice matrix (a credit at
"-infinity" stays there). -/
theorem C6_link_handler_add (lh : LinkHandler) (n_people_per_group : Nat → Int)
    (hperm : (lh.link_list_.map Prod.fst).Perm (allLinks lh.n_groups_)) :
    (lh.SortByLinks.Add n_people_per_group).link_list_.map Prod.fst
        = lh.SortByLinks.link_list_.map Prod.fst ∧
    lh.SortByLinks.Add n_people_per_group
        = { lh.SortByLinks with
            link_list_ := (lh.SortByLinks.Add n_people_per_group).link_list_ } ∧
    ∀ a b, a ≤ b → b < lh.n_groups_ →
      ∃ c : Credit, lh.SortByLinks.credit a b = some c ∧
        (lh.SortByLinks.Add n_people_per_group).credit a b
          = some (c + (((if a = b then
                1 / 2 * (n_people_per_group a : ℚ) * lh.partner_choice_matrix_ a a
              else
                1 / 2 * ((n_people_per_group a : ℚ) * lh.partner_choice_matrix_ a b
                  + (n_people_per_group b : ℚ) * lh.partner_choice_matrix_ b a)) : ℚ) : Credit)) := by
  have hlay := SortByLinks_layout lh hperm
  refine ⟨Add_map_fst _ _, rfl, ?_⟩
  intro a b hab hb
  have hlay2 : (lh.SortByLinks.Add n_people_per_group).link_list_.map Prod.fst
      = allLinks lh.n_groups_ := (Add_map_fst _ _).trans hlay
  rw [credit_eq_getElem? _ lh.n_groups_ a b hlay hab hb,
    credit_eq_getElem? _ lh.n_groups_ a b hlay2 hab hb, Add_getElem?]
  have hsome : (lh.SortByLinks.link_list_.map Prod.fst)[PositionInLinkSorted lh.n_groups_ a b]?
      = some ⟨a, b⟩ := hlay ▸ getElem?_allLinks lh.n_groups_ a b hab hb
  rw [List.getElem?_map] at hsome
  cases hp : lh.SortByLinks.link_list_[PositionInLinkSorted lh.n_groups_ a b]? with
  | none => rw [hp] at hsome; simp at hsome
  | some p =>
    refine ⟨p.2, rfl, ?_⟩
    simp only [Option.map_some', Option.some.injEq]
    have hn : lh.SortByLinks.n_groups_ = lh.n_groups_ := rfl
    have hC : lh.SortByLinks.partner_choice_matrix_ = lh.partner_choice_matrix_ := rfl
    rw [hn, hC, sum_at_position lh.n_groups_ a b
      (fun f t => 1 / 2 * (n_people_per_group f : ℚ) * lh.partner_choice_matrix_ f t) hab hb]
    congr 2
    by_cases e : a = b
    · rw [if_pos e, if_pos e]
    · rw [if_neg e, if_neg e]
      ring

/-- Witness for C6: a fresh handler over two groups. -/
theorem C6_link_handler_add_witness :
    ((LinkHandler.new 2 (fun i j => if i = j then 1 / 2 else 1 / 2)).SortByLinks.Add
          (fun i => if i = 0 then 2 else 4)).link_list_.map Prod.fst
        = (LinkHandler.new 2 (fun i j => if i = j then 1 / 2 else 1 / 2)).SortByLinks.link_list_.map
            Prod.fst ∧
    (LinkHandler.new 2 (fun i j => if i = j then 1 / 2 else 1 / 2)).SortByLinks.Add
          (fun i => if i = 0 then 2 else 4)
        = { (LinkHandler.new 2 (fun i j => if i = j then 1 / 2 else 1 / 2)).SortByLinks with
            link_list_ :=
              ((LinkHandler.new 2 (fun i j => if i = j then 1 / 2 else 1 / 2)).SortByLinks.Add
                (fun i => if i = 0 then 2 else 4)).link_list_ } ∧
    ∀ a b, a ≤ b → b < 2 →
      ∃ c : Credit,
        (LinkHandler.new 2 (fun i j => if i = j then 1 / 2 else 1 / 2)).SortByLinks.credit a b
          = some c ∧
        ((LinkHandler.new 2 (fun i j => if i = j then 1 / 2 else 1 / 2)).SortByLinks.Add
            (fun i => if i = 0 then 2 else 4)).credit a b
          = some (c + (((if a = b then
                1 / 2 * (((fun i => if i = 0 then 2 else 4) a : Int) : ℚ)
                  * (fun i j => if i = j then 1 / 2 else 1 / 2 : GroupMatrix) a a
              else
                1 / 2 * ((((fun i => if i = 0 then 2 else 4) a : Int) : ℚ)
                    * (fun i j => if i = j then 1 / 2 else 1 / 2 : GroupMatrix) a b
                  + (((fun i => if i = 0 then 2 else 4) b : Int) : ℚ)
                    * (fun i j => if i = j then 1 / 2 else 1 / 2 : GroupMatrix) b a)) : ℚ) : Credit)) :=
  C6_link_handler_add (LinkHandler.new 2 (fun i j => if i = j then 1 / 2 else 1 / 2))
    (fun i => if i = 0 then 2 else 4) (new_links_perm 2 _)

end mm
end rg

namespace rg
namespace mm

/-- The contribution of one credit to `LinkHandler::LogReport`'s total. -/
theorem total_eq_sum (lh : LinkHandler) :
    lh.total = (lh.link_list_.map (fun p => (p.2 : Credit).getD 0)).sum := by
  unfold LinkHandler.total
  have gen : ∀ (l : List (alje.MultiSetSize2 × Credit)) (acc : ℚ),
      l.foldl (fun total link =>
        match link.2 with
        | none => total
        | some v => total + v) acc
      = acc + (l.map (fun p => (p.2 : Credit).getD 0)).sum := by
    intro l
    induction l with
    | nil => intro acc; simp
    | cons p l ih =>
      intro acc
      rw [List.foldl_cons, ih, List.map_cons, List.sum_cons]
      rcases p with ⟨l1, c⟩
      cases c with
      | none => simp [Option.getD]
      | some v => simp [Option.getD]; ring
  rw [gen, zero_add]

theorem getD_bot_add (x : ℚ) : ((⊥ : Credit) + (x : Credit)).getD 0 = 0 := by
  rw [WithBot.bot_add]; rfl

theorem getD_coe_add (v x : ℚ) : (((v : ℚ) : Credit) + (x : Credit)).getD 0 = v + x := by
  rw [← WithBot.coe_add]; rfl

theorem sum_addCredit (l : List (alje.MultiSetSize2 × Credit)) :
    ∀ (k : Nat) (x : ℚ),
      ((addCredit l k x).map (fun p => (p.2 : Credit).getD 0)).sum
        = (l.map (fun p => (p.2 : Credit).getD 0)).sum
          + (if (l[k]?.map (fun p => decide (p.2 ≠ ⊥))) = some true then x else 0) := by
  induction l with
  | nil => intro k x; simp [addCredit]
  | cons p l ih =>
    intro k x
    cases k with
    | zero =>
      rcases p with ⟨l1, c⟩
      induction c using WithBot.recBotCoe with
      | bot =>
        simp only [addCredit, List.map_cons, List.sum_cons, List.getElem?_cons_zero,
          Option.map_some', getD_bot_add]
        simp
        rfl
      | coe v =>
        simp only [addCredit, List.map_cons, List.sum_cons, List.getElem?_cons_zero,
          Option.map_some', getD_coe_add]
        have hv : ((v : ℚ) : Credit).getD 0 = v := rfl
        rw [hv]
        simp
        ring
    | succ k =>
      simp only [addCredit, List.map_cons, List.sum_cons, List.getElem?_cons_succ, ih k x]
      ring

theorem isFin_addCredit (l : List (alje.MultiSetSize2 × Credit)) (k : Nat) (x : ℚ) (j : Nat) :
    ((addCredit l k x)[j]?.map (fun p => decide (p.2 ≠ ⊥)))
      = (l[j]?.map (fun p => decide (p.2 ≠ ⊥))) := by
  rw [addCredit_getElem?]
  by_cases h : j = k
  · rw [if_pos h, Option.map_map]
    cases l[j]? with
    | none => rfl
    | some p =>
      rcases p with ⟨l1, c⟩
      induction c using WithBot.recBotCoe with
      | bot => simp
      | coe v =>
        simp only [Option.map_some', Function.comp, ← WithBot.coe_add]
        simp
  · rw [if_neg h]

theorem sum_foldl_addCredit {ι : Type} (idx : ι → Nat) (amt : ι → ℚ) (is : List ι) :
    ∀ (l : List (alje.MultiSetSize2 × Credit)),
      ((is.foldl (fun ll i => addCredit ll (idx i) (amt i)) l).map
          (fun p => (p.2 : Credit).getD 0)).sum
        = (l.map (fun p => (p.2 : Credit).getD 0)).sum
          + (is.map (fun i =>
              if (l[idx i]?.map (fun p => decide (p.2 ≠ ⊥))) = some true then amt i else 0)).sum := by
  induction is with
  | nil => intro l; simp
  | cons i is ih =>
    intro l
    rw [List.foldl_cons, ih, sum_addCredit, List.map_cons, List.sum_cons]
    simp only [isFin_addCredit]
    ring

end mm
end rg

namespace rg
namespace mm

theorem new_sorted_entries (n : Nat) (M : GroupMatrix) :
    ∀ p ∈ (LinkHandler.new n M).SortByLinks.link_list_,
      p.2 = if M p.1.second p.1.first = 0 then (⊥ : Credit) else 0 := by
  intro p hp
  simp only [LinkHandler.SortByLinks] at hp
  rw [(List.perm_insertionSort linkPairLe _).mem_iff] at hp
  simp only [LinkHandler.new, List.mem_flatMap, List.mem_map, List.mem_range] at hp
  obtain ⟨higher, _, lower, _, rfl⟩ := hp
  rfl

/-- C7 (as amended): for a freshly constructed handler over a matrix whose rows
each sum to 1 and whose zero entries are symmetric (`M[i][j] = 0` implies
`M[j][i] = 0`, as the constructor's comment assumes), after `SortByLinks` and one
`Add(n)` the sum of the credits that are not at minus infinity is
`0.5 * Σ n_i`. -/
theorem C7_link_handler_total (n : Nat) (M : GroupMatrix) (n_people_per_group : Nat → Int)
    (hrow : ∀ i < n, ∑ j in Finset.range n, M i j = 1)
    (hzero : ∀ i < n, ∀ j < n, M i j = 0 → M j i = 0) :
    ((LinkHandler.new n M).SortByLinks.Add n_people_per_group).total
      = 1 / 2 * ∑ i in Finset.range n, (n_people_per_group i : ℚ) := by
  have hlay := SortByLinks_layout (LinkHandler.new n M) (new_links_perm n M)
  have hent := new_sorted_entries n M
  have hn : (LinkHandler.new n M).SortByLinks.n_groups_ = n := rfl
  have hC : (LinkHandler.new n M).SortByLinks.partner_choice_matrix_ = M := rfl
  have hn0 : (LinkHandler.new n M).n_groups_ = n := rfl
  rw [hn0] at hlay
  rw [total_eq_sum]
  simp only [LinkHandler.Add, hn, hC]
  generalize (LinkHandler.new n M).SortByLinks.link_list_ = L1 at hlay hent ⊢
  rw [foldl_nested (fun ll x y => addCredit ll (PositionInLinkSorted n x y)
    (1 / 2 * (n_people_per_group x : ℚ) * M x y))]
  rw [sum_foldl_addCredit (fun xy : Nat × Nat => PositionInLinkSorted n xy.1 xy.2)
    (fun xy : Nat × Nat => 1 / 2 * (n_people_per_group xy.1 : ℚ) * M xy.1 xy.2)]
  have h0 : (L1.map (fun p => (p.2 : Credit).getD 0)).sum = 0 := by
    apply List.sum_eq_zero
    intro x hx
    obtain ⟨p, hp, rfl⟩ := List.mem_map.mp hx
    rw [hent p hp]
    split_ifs <;> rfl
  have hpairs : ∀ xy ∈ (List.range n).flatMap (fun x => (List.range n).map (fun y => (x, y))),
      (if (L1[PositionInLinkSorted n xy.1 xy.2]?.map (fun p => decide (p.2 ≠ ⊥))) = some true
        then 1 / 2 * (n_people_per_group xy.1 : ℚ) * M xy.1 xy.2 else 0)
      = 1 / 2 * (n_people_per_group xy.1 : ℚ) * M xy.1 xy.2 := by
    rintro ⟨f, t⟩ hxy
    simp only [List.mem_flatMap, List.mem_map, List.mem_range, Prod.mk.injEq] at hxy
    obtain ⟨f1, hf, t1, ht, rfl, rfl⟩ := hxy
    simp only
    -- the entry for the link of `f1` and `t1`
    have hentry : ∀ a b, a ≤ b → b < n → (M b a = 0 → M f1 t1 = 0) →
        PositionInLinkSorted n f1 t1 = PositionInLinkSorted n a b →
        (if (L1[PositionInLinkSorted n f1 t1]?.map (fun p => decide (p.2 ≠ ⊥))) = some true
          then 1 / 2 * (n_people_per_group f1 : ℚ) * M f1 t1 else 0)
        = 1 / 2 * (n_people_per_group f1 : ℚ) * M f1 t1 := by
      intro a b hab hb hM hpos
      have hsome : (L1.map Prod.fst)[PositionInLinkSorted n a b]? = some ⟨a, b⟩ :=
        hlay ▸ getElem?_allLinks n a b hab hb
      rw [List.getElem?_map] at hsome
      rw [hpos]
      cases hp : L1[PositionInLinkSorted n a b]? with
      | none => rw [hp] at hsome; simp at hsome
      | some p =>
        rw [hp] at hsome
        simp only [Option.map_some', Option.some.injEq] at hsome
        have hp2 := hent p (List.getElem?_mem hp)
        rw [hsome] at hp2
        simp only at hp2
        by_cases hz : M b a = 0
        · rw [hM hz]; simp
        · rw [if_neg hz] at hp2
          have hne : p.2 ≠ ⊥ := by rw [hp2]; exact WithBot.coe_ne_bot
          simp [hne]
    by_cases hft : f1 ≤ t1
    · exact hentry f1 t1 hft ht (fun h => hzero t1 ht f1 hf h) rfl
    · exact hentry t1 f1 (by omega) hf (fun h => h) (PositionInLinkSorted_comm n f1 t1)
  rw [h0, zero_add, List.map_congr_left hpairs,
    sum_map_pairs (fun xy : Nat × Nat => 1 / 2 * (n_people_per_group xy.1 : ℚ) * M xy.1 xy.2)]
  rw [Finset.mul_sum]
  apply Finset.sum_congr rfl
  intro f hf
  simp only
  rw [← Finset.mul_sum, hrow f (Finset.mem_range.mp hf), mul_one]

/-- Witness for C7: two groups with the uniform matrix, 2 and 4 people. -/
theorem C7_link_handler_total_witness :
    ((LinkHandler.new 2 (fun _ _ => 1 / 2)).SortByLinks.Add
        (fun i => if i = 0 then 2 else 4)).total
      = 1 / 2 * ∑ i in Finset.range 2, (((fun i => if i = 0 then 2 else 4 : Nat → Int) i : Int) : ℚ) :=
  C7_link_handler_total 2 (fun _ _ => 1 / 2) (fun i => if i = 0 then 2 else 4)
    (by intro i _; simp [Finset.sum_range_succ])
    (by intro i _ j _ h; norm_num at h)

/-- Counterexample to C7 as stated: the matrix `[[1/2, 1/2], [0, 1]]` has rows
summing to 1; the link `{0,1}` is at minus infinity because `M[1][0] = 0`, so
with 2 people in group 0 and none in group 1 the credits not at minus infinity
sum to `1/2`, not to `0.5 * (2 + 0) = 1`. -/
theorem C7_counterexample :
    (∀ i < 2, ∑ j in Finset.range 2,
      (fun i j => if i = 0 then 1 / 2 else if j = 0 then 0 else 1 : GroupMatrix) i j = 1) ∧
    ((LinkHandler.new 2 (fun i j => if i = 0 then 1 / 2 else if j = 0 then 0 else 1)).SortByLinks.Add
        (fun i => if i = 0 then 2 else 0)).link_list_
      = [(⟨0, 0⟩, ((1 / 2 : ℚ) : Credit)), (⟨0, 1⟩, ⊥), (⟨1, 1⟩, ((0 : ℚ) : Credit))] ∧
    ((LinkHandler.new 2 (fun i j => if i = 0 then 1 / 2 else if j = 0 then 0 else 1)).SortByLinks.Add
        (fun i => if i = 0 then 2 else 0)).total = 1 / 2 ∧
    ((LinkHandler.new 2 (fun i j => if i = 0 then 1 / 2 else if j = 0 then 0 else 1)).SortByLinks.Add
        (fun i => if i = 0 then 2 else 0)).total
      ≠ 1 / 2 * ∑ i in Finset.range 2, (((fun i => if i = 0 then 2 else 0 : Nat → Int) i : Int) : ℚ) := by
  refine ⟨by decide!, by decide!, by decide!, by decide!⟩

end mm
end rg

namespace rg
namespace mm

theorem maxElement_spec (v : Nat → ℚ) (n : Nat) :
    ∀ f, maxElement v n = some f → (∀ i < n, v i ≤ f) ∧ ∃ i < n, v i = f := by
  induction n with
  | zero => intro f h; simp [maxElement] at h
  | succ n ih =>
    intro f h
    simp only [maxElement] at h
    cases hm : maxElement v n with
    | none =>
      rw [hm] at h
      simp only [Option.some.injEq] at h
      have hn : n = 0 := by
        cases n with
        | zero => rfl
        | succ k =>
          simp only [maxElement] at hm
          cases hk : maxElement v k <;> rw [hk] at hm <;> simp at hm
      subst hn
      refine ⟨fun i hi => ?_, 0, by omega, h⟩
      have : i = 0 := by omega
      rw [this, h]
    | some m =>
      rw [hm] at h
      simp only [Option.some.injEq] at h
      obtain ⟨h1, i0, hi0, h2⟩ := ih m hm
      constructor
      · intro i hi
        rw [← h]
        by_cases e : i = n
        · rw [e]; exact le_max_right _ _
        · exact le_trans (h1 i (by omega)) (le_max_left _ _)
      · rcases le_total m (v n) with hle | hle
        · exact ⟨n, by omega, by rw [← h, max_eq_right hle]⟩
        · exact ⟨i0, by omega, by rw [← h, max_eq_left hle, h2]⟩

theorem sum_ite_diag (n i : Nat) (a : Nat → ℚ) (t : ℚ) (hi : i < n) :
    (∑ j in Finset.range n, if i = j then a j + t else a j)
      = (∑ j in Finset.range n, a j) + t := by
  have : ∀ j ∈ Finset.range n, (if i = j then a j + t else a j)
      = a j + (if i = j then t else 0) := by
    intro j _
    split_ifs <;> simp
  rw [Finset.sum_congr rfl this, Finset.sum_add_distrib, Finset.sum_ite_eq,
    if_pos (Finset.mem_range.mpr hi)]

theorem fullmatrixFilled_nonneg (pcm : PartnerChoiceMatrix) (m : GroupMatrix)
    (hpi : ∀ i < pcm.n_groups_, 0 ≤ pcm.percent_in_group_estimate_ i)
    (hm : ∀ i < pcm.n_groups_, ∀ j < pcm.n_groups_, 0 ≤ m i j)
    (i j : Nat) (hi : i < pcm.n_groups_) (hj : j < pcm.n_groups_) :
    0 ≤ pcm.fullmatrixFilled m i j := by
  unfold PartnerChoiceMatrix.fullmatrixFilled
  split_ifs
  · exact mul_nonneg (hpi i hi) (hm i hi i hi)
  · exact le_min (mul_nonneg (hpi i hi) (hm i hi j hj)) (mul_nonneg (hpi j hj) (hm j hj i hi))

theorem fullmatrixFilled_symm (pcm : PartnerChoiceMatrix) (m : GroupMatrix) (i j : Nat) :
    pcm.fullmatrixFilled m i j = pcm.fullmatrixFilled m j i := by
  unfold PartnerChoiceMatrix.fullmatrixFilled
  by_cases e : i = j
  · subst e; rfl
  · rw [if_neg e, if_neg (Ne.symm e), min_comm]

theorem fullmatrixFilled_zero (pcm : PartnerChoiceMatrix) (m : GroupMatrix)
    (hpi : ∀ i < pcm.n_groups_, 0 ≤ pcm.percent_in_group_estimate_ i)
    (hm : ∀ i < pcm.n_groups_, ∀ j < pcm.n_groups_, 0 ≤ m i j)
    (i j : Nat) (hi : i < pcm.n_groups_) (hj : j < pcm.n_groups_)
    (h0 : pcm.percent_in_group_estimate_ i = 0) :
    pcm.fullmatrixFilled m i j = 0 := by
  unfold PartnerChoiceMatrix.fullmatrixFilled
  split_ifs
  · rw [h0, zero_mul]
  · rw [h0, zero_mul]
    exact min_eq_left (mul_nonneg (hpi j hj) (hm j hj i hi))

theorem sum_fullmatrixFilled (pcm : PartnerChoiceMatrix) (m : GroupMatrix)
    (hpi : ∀ i < pcm.n_groups_, 0 ≤ pcm.percent_in_group_estimate_ i)
    (hm : ∀ i < pcm.n_groups_, ∀ j < pcm.n_groups_, 0 ≤ m i j)
    (i : Nat) (hi : i < pcm.n_groups_) :
    (∑ j in Finset.range pcm.n_groups_, pcm.fullmatrixFilled m i j)
      = pcm.percent_in_group_estimate_ i * pcm.row_total_div_by_group_size m i := by
  unfold PartnerChoiceMatrix.row_total_div_by_group_size
  by_cases h0 : pcm.percent_in_group_estimate_ i = 0
  · rw [if_pos h0, mul_zero]
    apply Finset.sum_eq_zero
    intro j hj
    exact fullmatrixFilled_zero pcm m hpi hm i j hi (Finset.mem_range.mp hj) h0
  · rw [if_neg h0, ← Finset.sum_div]
    field_simp

theorem row_total_nonneg (pcm : PartnerChoiceMatrix) (m : GroupMatrix)
    (hpi : ∀ i < pcm.n_groups_, 0 ≤ pcm.percent_in_group_estimate_ i)
    (hm : ∀ i < pcm.n_groups_, ∀ j < pcm.n_groups_, 0 ≤ m i j)
    (i : Nat) (hi : i < pcm.n_groups_) :
    0 ≤ pcm.row_total_div_by_group_size m i := by
  unfold PartnerChoiceMatrix.row_total_div_by_group_size
  split_ifs
  · exact le_rfl
  · apply Finset.sum_nonneg
    intro j hj
    exact div_nonneg (fullmatrixFilled_nonneg pcm m hpi hm i j hi (Finset.mem_range.mp hj))
      (hpi i hi)

theorem factor_pos (pcm : PartnerChoiceMatrix) (m : GroupMatrix)
    (hpi : ∀ i < pcm.n_groups_, 0 ≤ pcm.percent_in_group_estimate_ i)
    (hm : ∀ i < pcm.n_groups_, ∀ j < pcm.n_groups_, 0 ≤ m i j)
    (f : ℚ) (hf : pcm.factor m = some f) (hf0 : f ≠ 0) : 0 < f := by
  obtain ⟨_, i, hi, h2⟩ := maxElement_spec _ _ f hf
  exact lt_of_le_of_ne (h2 ▸ row_total_nonneg pcm m hpi hm i hi) (Ne.symm hf0)

theorem toadd_nonneg (pcm : PartnerChoiceMatrix) (m : GroupMatrix)
    (hpi : ∀ i < pcm.n_groups_, 0 ≤ pcm.percent_in_group_estimate_ i)
    (hm : ∀ i < pcm.n_groups_, ∀ j < pcm.n_groups_, 0 ≤ m i j)
    (f : ℚ) (hf : pcm.factor m = some f) (hf0 : f ≠ 0)
    (i : Nat) (hi : i < pcm.n_groups_) :
    0 ≤ pcm.toadd m f i := by
  have hpos := factor_pos pcm m hpi hm f hf hf0
  obtain ⟨h1, _⟩ := maxElement_spec _ _ f hf
  unfold PartnerChoiceMatrix.toadd
  rw [← Finset.sum_div, sum_fullmatrixFilled pcm m hpi hm i hi]
  have hle : pcm.row_total_div_by_group_size m i / f ≤ 1 := by
    rw [div_le_one hpos]; exact h1 i hi
  have : pcm.percent_in_group_estimate_ i * pcm.row_total_div_by_group_size m i / f
      = pcm.percent_in_group_estimate_ i * (pcm.row_total_div_by_group_size m i / f) := by ring
  rw [this]
  nlinarith [hpi i hi, mul_nonneg (hpi i hi) (sub_nonneg.mpr hle)]

theorem sum_fullmatrixPadded (pcm : PartnerChoiceMatrix) (m : GroupMatrix) (f : ℚ)
    (i : Nat) (hi : i < pcm.n_groups_) :
    (∑ j in Finset.range pcm.n_groups_, pcm.fullmatrixPadded m f i j)
      = pcm.percent_in_group_estimate_ i := by
  unfold PartnerChoiceMatrix.fullmatrixPadded
  rw [sum_ite_diag pcm.n_groups_ i (fun j => pcm.fullmatrixFilled m i j / f) _ hi]
  unfold PartnerChoiceMatrix.toadd
  ring

theorem fullmatrixPadded_nonneg (pcm : PartnerChoiceMatrix) (m : GroupMatrix)
    (hpi : ∀ i < pcm.n_groups_, 0 ≤ pcm.percent_in_group_estimate_ i)
    (hm : ∀ i < pcm.n_groups_, ∀ j < pcm.n_groups_, 0 ≤ m i j)
    (f : ℚ) (hf : pcm.factor m = some f) (hf0 : f ≠ 0)
    (i j : Nat) (hi : i < pcm.n_groups_) (hj : j < pcm.n_groups_) :
    0 ≤ pcm.fullmatrixPadded m f i j := by
  have hpos := factor_pos pcm m hpi hm f hf hf0
  have h1 := div_nonneg (fullmatrixFilled_nonneg pcm m hpi hm i j hi hj) hpos.le
  unfold PartnerChoiceMatrix.fullmatrixPadded
  split_ifs
  · exact add_nonneg h1 (toadd_nonneg pcm m hpi hm f hf hf0 i hi)
  · exact h1

theorem fullmatrixPadded_symm (pcm : PartnerChoiceMatrix) (m : GroupMatrix) (f : ℚ)
    (i j : Nat) : pcm.fullmatrixPadded m f i j = pcm.fullmatrixPadded m f j i := by
  unfold PartnerChoiceMatrix.fullmatrixPadded
  by_cases e : i = j
  · subst e; rfl
  · rw [if_neg e, if_neg (Ne.symm e), fullmatrixFilled_symm]

theorem fullmatrixPadded_zero (pcm : PartnerChoiceMatrix) (m : GroupMatrix)
    (hpi : ∀ i < pcm.n_groups_, 0 ≤ pcm.percent_in_group_estimate_ i)
    (hm : ∀ i < pcm.n_groups_, ∀ j < pcm.n_groups_, 0 ≤ m i j)
    (f : ℚ) (i j : Nat) (hi : i < pcm.n_groups_) (hj : j < pcm.n_groups_)
    (h0 : pcm.percent_in_group_estimate_ i = 0) :
    pcm.fullmatrixPadded m f i j = 0 := by
  have hz : ∀ k < pcm.n_groups_, pcm.fullmatrixFilled m i k = 0 :=
    fun k hk => fullmatrixFilled_zero pcm m hpi hm i k hi hk h0
  have ht : pcm.toadd m f i = 0 := by
    unfold PartnerChoiceMatrix.toadd
    rw [h0, Finset.sum_eq_zero, sub_zero]
    intro k hk
    rw [hz k (Finset.mem_range.mp hk), zero_div]
  unfold PartnerChoiceMatrix.fullmatrixPadded
  split_ifs
  · rw [hz j hj, zero_div, ht, add_zero]
  · rw [hz j hj, zero_div]

end mm
end rg

namespace rg
namespace mm

theorem exists_pos_of_sum_pos (n : Nat) (a : Nat → ℚ) (h : 0 < ∑ j in Finset.range n, a j) :
    ∃ j ∈ Finset.range n, 0 < a j := by
  by_contra hc
  push_neg at hc
  exact absurd h (not_lt.mpr (Finset.sum_nonpos hc))

theorem rescaleColumns_inv (pcm : PartnerChoiceMatrix) (rv : GroupMatrix)
    (hpi : ∀ i < pcm.n_groups_, 0 ≤ pcm.percent_in_group_estimate_ i)
    (h0 : ∀ i < pcm.n_groups_, ∀ j < pcm.n_groups_, 0 ≤ rv i j)
    (h1 : ∀ i < pcm.n_groups_, 0 < ∑ j in Finset.range pcm.n_groups_, rv i j) :
    (∀ i < pcm.n_groups_, ∀ j < pcm.n_groups_, 0 ≤ pcm.rescaleColumns rv i j) ∧
    (∀ i < pcm.n_groups_, 0 < ∑ j in Finset.range pcm.n_groups_, pcm.rescaleColumns rv i j) := by
  have hres : ∀ j < pcm.n_groups_,
      0 < (if (∑ row1 in Finset.range pcm.n_groups_,
              pcm.percent_in_group_estimate_ row1 * rv row1 j) ≠ 0
            ∧ pcm.percent_in_group_estimate_ j ≠ 0 then
          pcm.percent_in_group_estimate_ j /
            (∑ row1 in Finset.range pcm.n_groups_, pcm.percent_in_group_estimate_ row1 * rv row1 j)
        else 1) := by
    intro j hj
    split_ifs with hc
    · have hs : 0 ≤ ∑ row1 in Finset.range pcm.n_groups_,
          pcm.percent_in_group_estimate_ row1 * rv row1 j :=
        Finset.sum_nonneg (fun r hr =>
          mul_nonneg (hpi r (Finset.mem_range.mp hr)) (h0 r (Finset.mem_range.mp hr) j hj))
      exact div_pos (lt_of_le_of_ne (hpi j hj) (Ne.symm hc.2)) (lt_of_le_of_ne hs (Ne.symm hc.1))
    · exact one_pos
  constructor
  · intro i hi j hj
    exact mul_nonneg (h0 i hi j hj) (hres j hj).le
  · intro i hi
    obtain ⟨j, hj, hpos⟩ := exists_pos_of_sum_pos _ _ (h1 i hi)
    apply Finset.sum_pos'
    · intro k hk
      exact mul_nonneg (h0 i hi k (Finset.mem_range.mp hk)) (hres k (Finset.mem_range.mp hk)).le
    · exact ⟨j, hj, mul_pos hpos (hres j (Finset.mem_range.mp hj))⟩

theorem rescaleRows_inv (pcm : PartnerChoiceMatrix) (rv : GroupMatrix)
    (h0 : ∀ i < pcm.n_groups_, ∀ j < pcm.n_groups_, 0 ≤ rv i j)
    (h1 : ∀ i < pcm.n_groups_, 0 < ∑ j in Finset.range pcm.n_groups_, rv i j) :
    ∃ rv1, pcm.rescaleRows rv = some rv1 ∧
      (∀ i < pcm.n_groups_, ∀ j < pcm.n_groups_, 0 ≤ rv1 i j) ∧
      (∀ i < pcm.n_groups_, 0 < ∑ j in Finset.range pcm.n_groups_, rv1 i j) := by
  have hc : ∀ row ∈ List.range pcm.n_groups_,
      (∑ column in Finset.range pcm.n_groups_, rv row column) ≠ 0 :=
    fun row hrow => (h1 row (List.mem_range.mp hrow)).ne'
  unfold PartnerChoiceMatrix.rescaleRows
  rw [if_pos hc]
  refine ⟨_, rfl, ?_, ?_⟩
  · intro i hi j hj
    exact mul_nonneg (h0 i hi j hj) (div_nonneg zero_le_one (h1 i hi).le)
  · intro i hi
    simp only
    rw [← Finset.sum_mul, mul_one_div, div_self (h1 i hi).ne']
    exact one_pos

theorem iterate_inv (pcm : PartnerChoiceMatrix)
    (hpi : ∀ i < pcm.n_groups_, 0 ≤ pcm.percent_in_group_estimate_ i) (k : Nat) :
    ∀ rv : GroupMatrix, (∀ i < pcm.n_groups_, ∀ j < pcm.n_groups_, 0 ≤ rv i j) →
      (∀ i < pcm.n_groups_, 0 < ∑ j in Finset.range pcm.n_groups_, rv i j) →
      ∃ m, pcm.iterate k rv = some m ∧
        (∀ i < pcm.n_groups_, ∀ j < pcm.n_groups_, 0 ≤ m i j) := by
  induction k with
  | zero => intro rv h0 _; exact ⟨rv, rfl, h0⟩
  | succ k ih =>
    intro rv h0 h1
    obtain ⟨c0, c1⟩ := rescaleColumns_inv pcm rv hpi h0 h1
    obtain ⟨rv1, hrv1, r0, r1⟩ := rescaleRows_inv pcm _ c0 c1
    simp only [PartnerChoiceMatrix.iterate, hrv1]
    exact ih rv1 r0 r1

/-- What `ProvideFinishingTouch` returns when `factor` is non-zero. -/
theorem ProvideFinishingTouch_spec (pcm : PartnerChoiceMatrix) (m : GroupMatrix)
    (hpi : ∀ i < pcm.n_groups_, 0 ≤ pcm.percent_in_group_estimate_ i)
    (hm : ∀ i < pcm.n_groups_, ∀ j < pcm.n_groups_, 0 ≤ m i j)
    (f : ℚ) (hf : pcm.factor m = some f) (hf0 : f ≠ 0) :
    ∃ C, pcm.ProvideFinishingTouch m = some C ∧
      (∀ j < pcm.n_groups_,
        ∑ i in Finset.range pcm.n_groups_, pcm.percent_in_group_estimate_ i * C i j
          = pcm.percent_in_group_estimate_ j) ∧
      (∀ i < pcm.n_groups_, ∀ j < pcm.n_groups_, 0 ≤ C i j) ∧
      (∀ i < pcm.n_groups_, ∑ j in Finset.range pcm.n_groups_, C i j = 1) ∧
      (∀ i < pcm.n_groups_, pcm.percent_in_group_estimate_ i = 0 →
        ∀ j, C i j = if i = j then 1 else 0) := by
  unfold PartnerChoiceMatrix.ProvideFinishingTouch
  rw [hf]
  simp only [if_neg hf0]
  refine ⟨_, rfl, ?_, ?_, ?_, ?_⟩
  · intro j hj
    have hterm : ∀ i ∈ Finset.range pcm.n_groups_,
        pcm.percent_in_group_estimate_ i *
          (if (∑ j1 in Finset.range pcm.n_groups_, pcm.fullmatrixPadded m f i j1) ≠ 0 then
            pcm.fullmatrixPadded m f i j /
              (∑ j1 in Finset.range pcm.n_groups_, pcm.fullmatrixPadded m f i j1)
          else if i = j then 1 else 0)
        = pcm.fullmatrixPadded m f j i := by
      intro i hi
      rw [Finset.mem_range] at hi
      rw [sum_fullmatrixPadded pcm m f i hi, fullmatrixPadded_symm pcm m f j i]
      by_cases h0 : pcm.percent_in_group_estimate_ i = 0
      · rw [h0, zero_mul, fullmatrixPadded_zero pcm m hpi hm f i j hi hj h0]
      · rw [if_pos h0]
        field_simp
    rw [Finset.sum_congr rfl hterm, sum_fullmatrixPadded pcm m f j hj]
  · intro i hi j hj
    rw [sum_fullmatrixPadded pcm m f i hi]
    split_ifs
    · exact div_nonneg (fullmatrixPadded_nonneg pcm m hpi hm f hf hf0 i j hi hj) (hpi i hi)
    · exact zero_le_one
    · exact le_rfl
  · intro i hi
    rw [sum_fullmatrixPadded pcm m f i hi]
    by_cases h0 : pcm.percent_in_group_estimate_ i = 0
    · simp only [h0, ne_eq, not_true_eq_false, if_false]
      rw [Finset.sum_ite_eq, if_pos (Finset.mem_range.mpr hi)]
    · simp only [ne_eq, h0, not_false_eq_true, if_true]
      rw [← Finset.sum_div, sum_fullmatrixPadded pcm m f i hi, div_self h0]
  · intro i hi h0 j
    rw [sum_fullmatrixPadded pcm m f i hi, if_neg (by simpa using h0)]

end mm
end rg

namespace rg
namespace mm

theorem iterate_preference (pcm : PartnerChoiceMatrix)
    (hpi : ∀ i < pcm.n_groups_, 0 ≤ pcm.percent_in_group_estimate_ i)
    (hP0 : ∀ i < pcm.n_groups_, ∀ j < pcm.n_groups_, 0 ≤ pcm.preference_matrix_ i j)
    (hP1 : ∀ i < pcm.n_groups_, ∑ j in Finset.range pcm.n_groups_, pcm.preference_matrix_ i j = 1) :
    ∃ m, pcm.iterate pcm.n_relation_matrix_iterations_.toNat pcm.preference_matrix_ = some m ∧
      (∀ i < pcm.n_groups_, ∀ j < pcm.n_groups_, 0 ≤ m i j) :=
  iterate_inv pcm hpi _ _ hP0 (fun i hi => by rw [hP1 i hi]; exact one_pos)

/-- C8: for a group-proportion estimate with non-negative entries and a
row-stochastic preference matrix, the iterations of `PartnerChoiceMatrix::Get`
produce a matrix, and with the finishing touch enabled, whenever its
normalisation factor is non-zero, `Get` returns a matrix `C` with
`Σ_i π_i * C[i][j] = π_j` for every group `j`. -/
theorem C8_partner_choice_column_mass (pcm : PartnerChoiceMatrix)
    (hmsm : pcm.msm_hack_enabled_ = true)
    (hpi : ∀ i < pcm.n_groups_, 0 ≤ pcm.percent_in_group_estimate_ i)
    (hP0 : ∀ i < pcm.n_groups_, ∀ j < pcm.n_groups_, 0 ≤ pcm.preference_matrix_ i j)
    (hP1 : ∀ i < pcm.n_groups_, ∑ j in Finset.range pcm.n_groups_, pcm.preference_matrix_ i j = 1) :
    ∃ m, pcm.iterate pcm.n_relation_matrix_iterations_.toNat pcm.preference_matrix_ = some m ∧
      ∀ f, pcm.factor m = some f → f ≠ 0 →
        ∃ C, pcm.Get.2 = some C ∧
          ∀ j < pcm.n_groups_,
            ∑ i in Finset.range pcm.n_groups_, pcm.percent_in_group_estimate_ i * C i j
              = pcm.percent_in_group_estimate_ j := by
  obtain ⟨m, hm, hm0⟩ := iterate_preference pcm hpi hP0 hP1
  refine ⟨m, hm, ?_⟩
  intro f hf hf0
  obtain ⟨C, hC, hbal, _⟩ := ProvideFinishingTouch_spec pcm m hpi hm0 f hf hf0
  refine ⟨C, ?_, hbal⟩
  simp only [PartnerChoiceMatrix.Get, hm, hmsm, if_true, hC]

/-- Witness for C8: two groups with proportions `1/4, 3/4`, preference rows
`(1/2, 1/2)` and `(1/3, 2/3)`, three iterations. -/
theorem C8_partner_choice_column_mass_witness :
    (fun pcm : PartnerChoiceMatrix =>
      (∃ m, pcm.iterate pcm.n_relation_matrix_iterations_.toNat pcm.preference_matrix_ = some m ∧
        ∀ f, pcm.factor m = some f → f ≠ 0 →
          ∃ C, pcm.Get.2 = some C ∧
            ∀ j < pcm.n_groups_,
              ∑ i in Finset.range pcm.n_groups_, pcm.percent_in_group_estimate_ i * C i j
                = pcm.percent_in_group_estimate_ j)
      ∧ (pcm.iterate pcm.n_relation_matrix_iterations_.toNat pcm.preference_matrix_).bind
          pcm.factor = some 1)
      { percent_in_group_estimate_ := fun i => if i = 0 then 1 / 4 else 3 / 4,
        percent_in_group_estimate_last_recalculation_ := fun _ => 0,
        n_database_updates_called_ := 1,
        n_get_called_ := 0,
        preference_matrix_ := fun i j =>
          if i = 0 then 1 / 2 else if j = 0 then 1 / 3 else 2 / 3,
        weight_new_database_update_ := 1 / 1000,
        n_relation_matrix_iterations_ := 3,
        group_estimate_error_tolerance_ := 1 / 10000,
        n_groups_ := 2,
        msm_hack_enabled_ := true } :=
  ⟨C8_partner_choice_column_mass _ rfl
    (by intro i _; simp only; split_ifs <;> norm_num)
    (by intro i _ j _; simp only; split_ifs <;> norm_num)
    (by intro i hi; simp only [Finset.sum_range_succ, Finset.sum_range_zero]
        split_ifs <;> first | contradiction | norm_num),
    by decide!⟩

/-- C9 (as amended): under the same conditions and whenever the normalisation
factor of the finishing touch is non-zero, the matrix returned by
`PartnerChoiceMatrix::Get` is row-stochastic: every entry is `≥ 0`, every row
sums to 1, the row of a group whose estimated proportion is 0 is the unit row
on the diagonal, and the diagonal padding `toadd` is never negative. -/
theorem C9_partner_choice_row_stochastic (pcm : PartnerChoiceMatrix)
    (hmsm : pcm.msm_hack_enabled_ = true)
    (hpi : ∀ i < pcm.n_groups_, 0 ≤ pcm.percent_in_group_estimate_ i)
    (hP0 : ∀ i < pcm.n_groups_, ∀ j < pcm.n_groups_, 0 ≤ pcm.preference_matrix_ i j)
    (hP1 : ∀ i < pcm.n_groups_, ∑ j in Finset.range pcm.n_groups_, pcm.preference_matrix_ i j = 1) :
    ∃ m, pcm.iterate pcm.n_relation_matrix_iterations_.toNat pcm.preference_matrix_ = some m ∧
      ∀ f, pcm.factor m = some f → f ≠ 0 →
        ∃ C, pcm.Get.2 = some C ∧
          (∀ i < pcm.n_groups_, ∀ j < pcm.n_groups_, 0 ≤ C i j) ∧
          (∀ i < pcm.n_groups_, ∑ j in Finset.range pcm.n_groups_, C i j = 1) ∧
          (∀ i < pcm.n_groups_, pcm.percent_in_group_estimate_ i = 0 →
            ∀ j, C i j = if i = j then 1 else 0) ∧
          (∀ i < pcm.n_groups_, 0 ≤ pcm.toadd m f i) := by
  obtain ⟨m, hm, hm0⟩ := iterate_preference pcm hpi hP0 hP1
  refine ⟨m, hm, ?_⟩
  intro f hf hf0
  obtain ⟨C, hC, _, hnn, hrow, hunit⟩ := ProvideFinishingTouch_spec pcm m hpi hm0 f hf hf0
  refine ⟨C, ?_, hnn, hrow, hunit, fun i hi => toadd_nonneg pcm m hpi hm0 f hf hf0 i hi⟩
  simp only [PartnerChoiceMatrix.Get, hm, hmsm, if_true, hC]

/-- Witness for C9: two groups with proportions `1/4, 3/4`, preference rows
`(1/2, 1/2)` and `(1/3, 2/3)`, three iterations. -/
theorem C9_partner_choice_row_stochastic_witness :
    (fun pcm : PartnerChoiceMatrix =>
      (∃ m, pcm.iterate pcm.n_relation_matrix_iterations_.toNat pcm.preference_matrix_ = some m ∧
        ∀ f, pcm.factor m = some f → f ≠ 0 →
          ∃ C, pcm.Get.2 = some C ∧
            (∀ i < pcm.n_groups_, ∀ j < pcm.n_groups_, 0 ≤ C i j) ∧
            (∀ i < pcm.n_groups_, ∑ j in Finset.range pcm.n_groups_, C i j = 1) ∧
            (∀ i < pcm.n_groups_, pcm.percent_in_group_estimate_ i = 0 →
              ∀ j, C i j = if i = j then 1 else 0) ∧
            (∀ i < pcm.n_groups_, 0 ≤ pcm.toadd m f i))
      ∧ (pcm.iterate pcm.n_relation_matrix_iterations_.toNat pcm.preference_matrix_).bind
          pcm.factor = some 1)
      { percent_in_group_estimate_ := fun i => if i = 0 then 1 / 4 else 3 / 4,
        percent_in_group_estimate_last_recalculation_ := fun _ => 0,
        n_database_updates_called_ := 1,
        n_get_called_ := 0,
        preference_matrix_ := fun i j =>
          if i = 0 then 1 / 2 else if j = 0 then 1 / 3 else 2 / 3,
        weight_new_database_update_ := 1 / 1000,
        n_relation_matrix_iterations_ := 3,
        group_estimate_error_tolerance_ := 1 / 10000,
        n_groups_ := 2,
        msm_hack_enabled_ := true } :=
  ⟨C9_partner_choice_row_stochastic _ rfl
    (by intro i _; simp only; split_ifs <;> norm_num)
    (by intro i _ j _; simp only; split_ifs <;> norm_num)
    (by intro i hi; simp only [Finset.sum_range_succ, Finset.sum_range_zero]
        split_ifs <;> first | contradiction | norm_num),
    by decide!⟩

/-- Counterexample to C9 as stated: two groups with proportions `(1, 0)` and
the row-stochastic preference matrix `[[0, 1], [1, 0]]`. The iterations leave
the matrix unchanged, every cell of `fullmatrix` is 0, so `factor` is 0 and the
cells are divided by 0: `Get` returns no matrix of numbers, in particular no
row-stochastic one. -/
theorem C9_counterexample :
    (fun pcm : PartnerChoiceMatrix =>
      (∀ i < pcm.n_groups_, 0 ≤ pcm.percent_in_group_estimate_ i) ∧
      (∀ i < pcm.n_groups_, ∀ j < pcm.n_groups_, 0 ≤ pcm.preference_matrix_ i j) ∧
      (∀ i < pcm.n_groups_,
        ∑ j in Finset.range pcm.n_groups_, pcm.preference_matrix_ i j = 1) ∧
      (pcm.iterate pcm.n_relation_matrix_iterations_.toNat pcm.preference_matrix_).map
          (fun m => ([[m 0 0, m 0 1], [m 1 0, m 1 1]], pcm.factor m))
        = some ([[0, 1], [1, 0]], some 0) ∧
      pcm.Get.2.isNone = true)
      { percent_in_group_estimate_ := fun i => if i = 0 then 1 else 0,
        percent_in_group_estimate_last_recalculation_ := fun _ => 0,
        n_database_updates_called_ := 1,
        n_get_called_ := 0,
        preference_matrix_ := fun i j => if i = j then 0 else 1,
        weight_new_database_update_ := 1 / 1000,
        n_relation_matrix_iterations_ := 50,
        group_estimate_error_tolerance_ := 1 / 10000,
        n_groups_ := 2,
        msm_hack_enabled_ := true } := by
  refine ⟨by decide!, by decide!, by decide!, by decide!, by decide!⟩

end mm
end rg

namespace rg
namespace mm

theorem exists_dropLast_getLastD (l : List RelationRequest) (h : l ≠ []) :
    ∃ dl x, l = dl ++ [x] ∧ l.dropLast = dl ∧ l.getLastD default = x := by
  refine ⟨l.dropLast, l.getLast h, (List.dropLast_append_getLast h).symm, rfl, ?_⟩
  cases l with
  | nil => exact absurd rfl h
  | cons a t => rw [List.getLastD_cons, List.getLast_eq_getLastD]

theorem ne_nil_of_length_pos {l : List RelationRequest} {c : Int}
    (hc : c = (l.length : Int)) (hpos : c > 0) : l ≠ [] := by
  intro h
  rw [h] at hc
  simp at hc
  omega

theorem takenFrom_nil (g : Nat) (p : Bool) : takenFrom [] g p = [] := rfl

theorem takenFrom_append_singleton (T : List Taken) (t : Taken) (g : Nat) (p : Bool) :
    takenFrom (T ++ [t]) g p =
      takenFrom T g p ++ (if t.group = g ∧ t.from_priority = p then [t.request] else []) := by
  unfold takenFrom
  rw [List.filter_append, List.map_append]
  congr 1
  by_cases h : t.group = g ∧ t.from_priority = p
  · rw [if_pos h]
    simp [List.filter_cons, h.1, h.2]
  · rw [if_neg h]
    have : (t.group == g && t.from_priority == p) = false := by
      rw [Bool.eq_false_iff]
      intro hh
      simp only [Bool.and_eq_true, beq_iff_eq] at hh
      exact h hh
    simp [List.filter_cons, this]

theorem exact_self (mm : MatchMaker) (hc : mm.CountersMatch) :
    mm.Exact mm.relation_request_by_group_ mm.relation_request_by_group_priority_ []
      (fun _ => []) :=
  ⟨hc, fun _ => by simp [takenFrom_nil], fun _ => by simp [takenFrom_nil]⟩

theorem Exact.link_handler {N0 P0 : Nat → List RelationRequest} {mm : MatchMaker}
    {T : List Taken} {D : Nat → List RelationRequest} (h : mm.Exact N0 P0 T D)
    (lh : LinkHandler) :
    MatchMaker.Exact N0 P0 { mm with link_handler_ := lh } T D := h

theorem Exact.accounted {N0 P0 : Nat → List RelationRequest} {mm : MatchMaker}
    {T : List Taken} {D : Nat → List RelationRequest} (h : mm.Exact N0 P0 T D) :
    mm.Accounted N0 P0 T :=
  ⟨h.1, h.2.1, fun g => ⟨D g, h.2.2 g⟩⟩

theorem Accounted.exact {N0 P0 : Nat → List RelationRequest} {mm : MatchMaker}
    {T : List Taken} (h : mm.Accounted N0 P0 T) :
    ∃ D, mm.Exact N0 P0 T D := by
  obtain ⟨hc, hN, hP⟩ := h
  choose D hD using hP
  exact ⟨D, hc, hN, hD⟩

/-- Taking a request from a group with a positive counter keeps the books. -/
theorem takeRequest_exact {N0 P0 : Nat → List RelationRequest} {mm : MatchMaker}
    {T : List Taken} {D : Nat → List RelationRequest} (h : mm.Exact N0 P0 T D) (group : Nat)
    (hpos : mm.r_p_ group > 0 ∨ mm.r_ group > 0) :
    (mm.takeRequest group).1.Exact N0 P0
      (T ++ [⟨group, decide (mm.r_p_ group > 0), (mm.takeRequest group).2⟩]) D := by
  obtain ⟨hc, hN, hP⟩ := h
  unfold MatchMaker.takeRequest
  by_cases hp : mm.r_p_ group > 0
  · rw [if_pos hp]
    have hne : mm.relation_request_by_group_priority_ group ≠ [] :=
      ne_nil_of_length_pos (hc group).2 hp
    obtain ⟨dl, x, hQ, hdl, hx⟩ := exists_dropLast_getLastD _ hne
    simp only [hdl, hx, hp, decide_True]
    refine ⟨?_, ?_, ?_⟩
    · intro g
      by_cases e : g = group
      · subst e
        simp only [Function.update_same]
        refine ⟨(hc g).1, ?_⟩
        rw [(hc g).2, hQ]
        simp
      · simp only [Function.update_noteq e]
        exact hc g
    · intro g
      rw [takenFrom_append_singleton]
      simpa using hN g
    · intro g
      have hm := hP g
      rw [takenFrom_append_singleton]
      by_cases e : g = group
      · subst e
        simp only [Function.update_same, and_self, if_true]
        rw [hQ] at hm
        refine hm.trans ?_
        simp only [List.append_assoc]
        refine List.Perm.append_left _ ?_
        rw [← List.append_assoc, ← List.append_assoc]
        exact List.Perm.append_right _ List.perm_append_comm
      · simp only [Function.update_noteq e, Ne.symm e, false_and, if_false, List.append_nil]
        exact hm
  · rw [if_neg hp]
    have hr : mm.r_ group > 0 := hpos.resolve_left hp
    have hne : mm.relation_request_by_group_ group ≠ [] :=
      ne_nil_of_length_pos (hc group).1 hr
    obtain ⟨dl, x, hQ, hdl, hx⟩ := exists_dropLast_getLastD _ hne
    simp only [hdl, hx, hp, decide_False]
    refine ⟨?_, ?_, ?_⟩
    · intro g
      by_cases e : g = group
      · subst e
        simp only [Function.update_same]
        refine ⟨?_, (hc g).2⟩
        rw [(hc g).1, hQ]
        simp
      · simp only [Function.update_noteq e]
        exact hc g
    · intro g
      have hm := hN g
      rw [takenFrom_append_singleton]
      by_cases e : g = group
      · subst e
        simp only [Function.update_same, and_self, if_true]
        rw [hQ] at hm
        refine hm.trans ?_
        simp only [List.append_assoc]
        refine List.Perm.append_left _ ?_
        exact List.perm_append_comm
      · simp only [Function.update_noteq e, Ne.symm e, false_and, if_false, List.append_nil]
        exact hm
    · intro g
      rw [takenFrom_append_singleton]
      simpa using hP g

end mm
end rg

namespace rg
namespace mm

theorem priorityTest_iff (mm : MatchMaker) (g1 g2 : Nat) :
    mm.priorityTest g1 g2 = true ↔
      (g1 = g2 ∧ (mm.r_p_ g1 > 1 ∨ (mm.r_p_ g1 > 0 ∧ mm.r_ g1 > 0))) ∨
      (g1 ≠ g2 ∧ mm.r_p_ g1 > 0 ∧ (mm.r_p_ g2 > 0 ∨ mm.r_ g2 > 0)) ∨
      (g1 ≠ g2 ∧ mm.r_p_ g2 > 0 ∧ (mm.r_p_ g1 > 0 ∨ mm.r_ g1 > 0)) := by
  unfold MatchMaker.priorityTest
  simp only [Bool.or_eq_true, Bool.and_eq_true, decide_eq_true_eq, beq_iff_eq, bne_iff_ne,
    or_assoc, and_assoc]

theorem normalTest_iff (mm : MatchMaker) (g1 g2 : Nat) :
    mm.normalTest g1 g2 = true ↔
      (g1 = g2 ∧ mm.r_ g1 > 1) ∨ (g1 ≠ g2 ∧ ¬(mm.r_ g1 = 0 ∨ mm.r_ g2 = 0)) := by
  unfold MatchMaker.normalTest
  simp only [Bool.or_eq_true, Bool.and_eq_true, decide_eq_true_eq, beq_iff_eq, bne_iff_ne,
    Bool.not_eq_true', Bool.or_eq_false_iff, decide_eq_false_iff_not, not_or]

theorem takeRequest_r_p_ (mm : MatchMaker) (group g : Nat) :
    (mm.takeRequest group).1.r_p_ g =
      if mm.r_p_ group > 0 ∧ g = group then mm.r_p_ g - 1 else mm.r_p_ g := by
  unfold MatchMaker.takeRequest
  by_cases hp : mm.r_p_ group > 0
  · rw [if_pos hp]
    by_cases e : g = group
    · subst e; simp [hp]
    · simp [Function.update_noteq e, e]
  · rw [if_neg hp]; simp [hp]

theorem takeRequest_r_ (mm : MatchMaker) (group g : Nat) :
    (mm.takeRequest group).1.r_ g =
      if ¬ mm.r_p_ group > 0 ∧ g = group then mm.r_ g - 1 else mm.r_ g := by
  unfold MatchMaker.takeRequest
  by_cases hp : mm.r_p_ group > 0
  · rw [if_pos hp]; simp [hp]
  · rw [if_neg hp]
    by_cases e : g = group
    · subst e; simp [hp]
    · simp [Function.update_noteq e, e]

theorem takeRequest_second_day (mm : MatchMaker) (group : Nat) :
    (mm.takeRequest group).1.n_requests_scheduled_second_day_ =
      mm.n_requests_scheduled_second_day_ + (if mm.r_p_ group > 0 then 1 else 0) := by
  unfold MatchMaker.takeRequest
  by_cases hp : mm.r_p_ group > 0
  · rw [if_pos hp, if_pos hp]
  · rw [if_neg hp, if_neg hp]; simp

/-- Under the test of the priority pass both requests can be taken. -/
theorem priorityTest_takes (mm : MatchMaker) (lh : LinkHandler) (g1 g2 : Nat)
    (hc : mm.CountersMatch) (ht : mm.priorityTest g1 g2 = true) :
    (mm.r_p_ g1 > 0 ∨ mm.r_ g1 > 0) ∧
    (((({ mm with link_handler_ := lh } : MatchMaker).takeRequest g1).1.r_p_ g2 > 0) ∨
      ((({ mm with link_handler_ := lh } : MatchMaker).takeRequest g1).1.r_ g2 > 0)) ∧
    (mm.r_p_ g1 > 0 ∨
      (({ mm with link_handler_ := lh } : MatchMaker).takeRequest g1).1.r_p_ g2 > 0) := by
  rw [priorityTest_iff] at ht
  rw [takeRequest_r_p_, takeRequest_r_]
  simp only
  have h1 := (hc g1).1
  have h2 := (hc g1).2
  have h3 := (hc g2).1
  have h4 := (hc g2).2
  by_cases e : g2 = g1
  · subst e
    by_cases hp : mm.r_p_ g2 > 0
    · simp only [hp, true_and, not_true_eq_false, false_and, if_true, if_false, true_or,
        and_true]
      omega
    · simp only [hp, false_and, not_false_eq_true, true_and, if_true, if_false, false_or]
      omega
  · have e2 : g1 ≠ g2 := Ne.symm e
    simp only [e, and_false, if_false]
    omega

/-- Under the test of the non-priority pass both requests can be taken. -/
theorem normalTest_takes (mm : MatchMaker) (lh : LinkHandler) (g1 g2 : Nat)
    (hc : mm.CountersMatch) (ht : mm.normalTest g1 g2 = true) :
    (mm.r_p_ g1 > 0 ∨ mm.r_ g1 > 0) ∧
    (((({ mm with link_handler_ := lh } : MatchMaker).takeRequest g1).1.r_p_ g2 > 0) ∨
      ((({ mm with link_handler_ := lh } : MatchMaker).takeRequest g1).1.r_ g2 > 0)) := by
  rw [normalTest_iff] at ht
  rw [takeRequest_r_p_, takeRequest_r_]
  simp only
  have h1 := (hc g1).1
  have h2 := (hc g1).2
  have h3 := (hc g2).1
  have h4 := (hc g2).2
  by_cases e : g2 = g1
  · subst e
    by_cases hp : mm.r_p_ g2 > 0
    · simp only [hp, true_and, not_true_eq_false, false_and, if_true, if_false, true_or,
        and_true]
      omega
    · simp only [hp, false_and, not_false_eq_true, true_and, if_true, if_false, false_or]
      omega
  · have e2 : g1 ≠ g2 := Ne.symm e
    simp only [e, and_false, if_false]
    omega

/-- The two requests `MatchFoundDoAllAndReturnPair` takes, with the queues
they are taken from. -/
theorem MatchFound_exact {N0 P0 : Nat → List RelationRequest} {mm : MatchMaker}
    {T : List Taken} {D : Nat → List RelationRequest}
    (h : mm.Exact N0 P0 T D) (g1 g2 : Nat)
    (h1 : mm.r_p_ g1 > 0 ∨ mm.r_ g1 > 0)
    (h2 : (({ mm with link_handler_ := mm.link_handler_.Remove } : MatchMaker).takeRequest g1).1.r_p_ g2 > 0 ∨
      (({ mm with link_handler_ := mm.link_handler_.Remove } : MatchMaker).takeRequest g1).1.r_ g2 > 0) :
    (mm.MatchFoundDoAllAndReturnPair g1 g2).1.Exact N0 P0
      (T ++ [⟨g1, decide (mm.r_p_ g1 > 0), (mm.MatchFoundDoAllAndReturnPair g1 g2).2.1⟩,
        ⟨g2, decide ((({ mm with link_handler_ := mm.link_handler_.Remove } :
            MatchMaker).takeRequest g1).1.r_p_ g2 > 0),
          (mm.MatchFoundDoAllAndReturnPair g1 g2).2.2⟩]) D := by
  have ha1 := takeRequest_exact (Exact.link_handler h mm.link_handler_.Remove) g1 h1
  have ha2 := takeRequest_exact ha1 g2 h2
  rw [List.append_assoc] at ha2
  exact ha2

theorem takenOf_append_singleton (pairs : List (Taken × Taken)) (p : Taken × Taken) :
    takenOf (pairs ++ [p]) = takenOf pairs ++ [p.1, p.2] := by
  simp [takenOf, List.flatMap_append]

/-- A match keeps the books, with the two requests added to the matched ones. -/
theorem MatchFound_booked {Q : Taken × Taken → Prop} {N0 P0 : Nat → List RelationRequest}
    {mm : MatchMaker} {D : Nat → List RelationRequest}
    {acc : List (RelationRequest × RelationRequest)}
    (h : mm.Booked Q N0 P0 acc D) (g1 g2 : Nat)
    (h1 : mm.r_p_ g1 > 0 ∨ mm.r_ g1 > 0)
    (h2 : (({ mm with link_handler_ := mm.link_handler_.Remove } : MatchMaker).takeRequest g1).1.r_p_ g2 > 0 ∨
      (({ mm with link_handler_ := mm.link_handler_.Remove } : MatchMaker).takeRequest g1).1.r_ g2 > 0)
    (hQ : ∀ x y, Q (⟨g1, decide (mm.r_p_ g1 > 0), x⟩,
      ⟨g2, decide ((({ mm with link_handler_ := mm.link_handler_.Remove } :
            MatchMaker).takeRequest g1).1.r_p_ g2 > 0), y⟩)) :
    (mm.MatchFoundDoAllAndReturnPair g1 g2).1.Booked Q N0 P0
      (acc ++ [(mm.MatchFoundDoAllAndReturnPair g1 g2).2]) D := by
  obtain ⟨pairs, hT, hq, ha⟩ := h
  refine ⟨pairs ++ [(⟨g1, decide (mm.r_p_ g1 > 0), (mm.MatchFoundDoAllAndReturnPair g1 g2).2.1⟩,
    ⟨g2, decide ((({ mm with link_handler_ := mm.link_handler_.Remove } :
            MatchMaker).takeRequest g1).1.r_p_ g2 > 0),
          (mm.MatchFoundDoAllAndReturnPair g1 g2).2.2⟩)], ?_, ?_, ?_⟩
  · rw [List.map_append, hT]
    rfl
  · intro p hp
    rcases List.mem_append.mp hp with hp | hp
    · exact hq p hp
    · rw [List.mem_singleton] at hp
      subst hp
      exact hQ _ _
  · rw [takenOf_append_singleton]
    exact MatchFound_exact ha g1 g2 h1 h2

end mm
end rg

namespace rg
namespace mm

theorem takeRequest_n_groups (mm : MatchMaker) (group : Nat) :
    (mm.takeRequest group).1.n_groups = mm.n_groups := by
  unfold MatchMaker.takeRequest
  split_ifs <;> rfl

theorem MatchFound_n_groups (mm : MatchMaker) (g1 g2 : Nat) :
    (mm.MatchFoundDoAllAndReturnPair g1 g2).1.n_groups = mm.n_groups := by
  unfold MatchMaker.MatchFoundDoAllAndReturnPair
  simp only [takeRequest_n_groups]

theorem priorityStep_booked {N0 P0 : Nat → List RelationRequest} {mm : MatchMaker}
    {D : Nat → List RelationRequest} {acc : List (RelationRequest × RelationRequest)}
    (h : mm.Booked hasPriorityRequest N0 P0 acc D)
    (next : MatchMaker × List (RelationRequest × RelationRequest))
    (hs : mm.priorityStep acc = some next) :
    next.1.Booked hasPriorityRequest N0 P0 next.2 D ∧ next.1.n_groups = mm.n_groups := by
  unfold MatchMaker.priorityStep at hs
  split_ifs at hs with hpt
  cases hget : mm.link_handler_.Get with
  | none => rw [hget] at hs; simp at hs
  | some possible_match =>
    rw [hget] at hs
    simp only at hs
    split_ifs at hs with htest
    · simp only [Option.some.injEq] at hs
      subst hs
      obtain ⟨t1, t2, t3⟩ := priorityTest_takes mm mm.link_handler_.Remove _ _
        h.choose_spec.2.2.1 htest
      refine ⟨MatchFound_booked h _ _ t1 t2 (fun x y => ?_), MatchFound_n_groups _ _ _⟩
      unfold hasPriorityRequest
      simpa using t3
    · simp only [Option.some.injEq] at hs
      subst hs
      exact ⟨h, rfl⟩

theorem normalStep_booked {N0 P0 : Nat → List RelationRequest} {mm : MatchMaker}
    {D : Nat → List RelationRequest} {acc : List (RelationRequest × RelationRequest)}
    (h : mm.Booked (fun _ => True) N0 P0 acc D)
    (next : MatchMaker × List (RelationRequest × RelationRequest))
    (hs : mm.normalStep acc = some next) :
    next.1.Booked (fun _ => True) N0 P0 next.2 D ∧ next.1.n_groups = mm.n_groups := by
  unfold MatchMaker.normalStep at hs
  split_ifs at hs with hpt
  cases hget : mm.link_handler_.Get with
  | none => rw [hget] at hs; simp at hs
  | some possible_match =>
    rw [hget] at hs
    simp only at hs
    split_ifs at hs with htest
    · simp only [Option.some.injEq] at hs
      subst hs
      obtain ⟨t1, t2⟩ := normalTest_takes mm mm.link_handler_.Remove _ _
        h.choose_spec.2.2.1 htest
      exact ⟨MatchFound_booked h _ _ t1 t2 (fun _ _ => trivial), MatchFound_n_groups _ _ _⟩
    · simp only [Option.some.injEq] at hs
      subst hs
      exact ⟨h, rfl⟩

theorem runLoop_booked {Q : Taken × Taken → Prop} {N0 P0 : Nat → List RelationRequest}
    {D : Nat → List RelationRequest}
    (step : MatchMaker → List (RelationRequest × RelationRequest) →
      Option (MatchMaker × List (RelationRequest × RelationRequest)))
    (hstep : ∀ (mm : MatchMaker) (acc : List (RelationRequest × RelationRequest)),
      mm.Booked Q N0 P0 acc D → ∀ next, step mm acc = some next →
        next.1.Booked Q N0 P0 next.2 D ∧ next.1.n_groups = mm.n_groups)
    (fuel : Nat) :
    ∀ (mm : MatchMaker) (acc : List (RelationRequest × RelationRequest)),
      mm.Booked Q N0 P0 acc D →
      (MatchMaker.runLoop step fuel mm acc).1.Booked Q N0 P0
          (MatchMaker.runLoop step fuel mm acc).2 D ∧
        (MatchMaker.runLoop step fuel mm acc).1.n_groups = mm.n_groups := by
  induction fuel with
  | zero => intro mm acc h; exact ⟨h, rfl⟩
  | succ fuel ih =>
    intro mm acc h
    simp only [MatchMaker.runLoop]
    cases hs : step mm acc with
    | none => exact ⟨h, rfl⟩
    | some next =>
      obtain ⟨h1, h2⟩ := hstep mm acc h next hs
      obtain ⟨h3, h4⟩ := ih next.1 next.2 h1
      exact ⟨h3, h4.trans h2⟩

theorem adviceFor_le (cum_remove : ℚ) (priority_i : Int) (hp : 0 ≤ priority_i) :
    ((RobustnessCheck.adviceFor cum_remove priority_i).toNat : Int) ≤ priority_i := by
  unfold RobustnessCheck.adviceFor
  simp only
  split_ifs <;> omega

theorem UpdateandAdvice_le (GetWeight : Int → ℚ) (rc : RobustnessCheck)
    (normal priority : Nat → Int) (i : Nat) (hp : 0 ≤ priority i) :
    (((rc.UpdateandAdvice GetWeight normal priority).2 i).toNat : Int) ≤ priority i := by
  unfold RobustnessCheck.UpdateandAdvice RobustnessCheck.Advice
  simp only
  split_ifs
  · exact adviceFor_le _ _ hp
  · simpa using hp

theorem removeAdvised_iterate {N0 P0 : Nat → List RelationRequest}
    {cs : List Taken} (i : Nat) (k : Nat) :
    ∀ (mm : MatchMaker), mm.Accounted N0 P0 cs → (k : Int) ≤ mm.r_p_ i →
      (Nat.iterate (fun m1 => m1.removeAdvised i) k mm).Accounted N0 P0 cs ∧
      (Nat.iterate (fun m1 => m1.removeAdvised i) k mm).n_groups = mm.n_groups ∧
      ∀ j, j ≠ i → (Nat.iterate (fun m1 => m1.removeAdvised i) k mm).r_p_ j = mm.r_p_ j := by
  induction k with
  | zero => intro mm h _; exact ⟨h, rfl, fun _ _ => rfl⟩
  | succ k ih =>
    intro mm h hk
    rw [Function.iterate_succ_apply]
    have hpos : mm.r_p_ i > 0 := by omega
    obtain ⟨hc, hN, hP⟩ := h
    have hne : mm.relation_request_by_group_priority_ i ≠ [] :=
      ne_nil_of_length_pos (hc i).2 hpos
    obtain ⟨dl, x, hQ, hdl, hx⟩ := exists_dropLast_getLastD _ hne
    have hacc : (mm.removeAdvised i).Accounted N0 P0 cs := by
      unfold MatchMaker.removeAdvised
      rw [hdl]
      refine ⟨?_, hN, ?_⟩
      · intro g
        by_cases e : g = i
        · subst e
          simp only [Function.update_same]
          refine ⟨(hc g).1, ?_⟩
          rw [(hc g).2, hQ]
          simp
        · simp only [Function.update_noteq e]
          exact hc g
      · intro g
        obtain ⟨d, hm⟩ := hP g
        by_cases e : g = i
        · subst e
          simp only [Function.update_same]
          refine ⟨x :: d, ?_⟩
          rw [hQ] at hm
          refine hm.trans ?_
          simp only [List.append_assoc, List.singleton_append]
          exact List.Perm.append_left _ (List.perm_middle.symm)
        · simp only [Function.update_noteq e]
          exact ⟨d, hm⟩
    have hrp : (mm.removeAdvised i).r_p_ i = mm.r_p_ i - 1 := by
      simp [MatchMaker.removeAdvised]
    obtain ⟨a1, a2, a3⟩ := ih (mm.removeAdvised i) hacc (by rw [hrp]; omega)
    refine ⟨a1, a2, ?_⟩
    intro j hj
    rw [a3 j hj]
    simp [MatchMaker.removeAdvised, Function.update_noteq hj]

end mm
end rg

namespace rg
namespace mm

theorem removeAdvised_fold {N0 P0 : Nat → List RelationRequest}
    {cs : List Taken} (adv : Nat → Int) (mm : MatchMaker)
    (h : mm.Accounted N0 P0 cs) (hadv : ∀ i, ((adv i).toNat : Int) ≤ mm.r_p_ i) (m : Nat) :
    ((List.range m).foldl (fun m1 i =>
        Nat.iterate (fun m2 => m2.removeAdvised i) (adv i).toNat m1) mm).Accounted N0 P0 cs ∧
    ((List.range m).foldl (fun m1 i =>
        Nat.iterate (fun m2 => m2.removeAdvised i) (adv i).toNat m1) mm).n_groups = mm.n_groups ∧
    ∀ j, m ≤ j → ((List.range m).foldl (fun m1 i =>
        Nat.iterate (fun m2 => m2.removeAdvised i) (adv i).toNat m1) mm).r_p_ j = mm.r_p_ j := by
  induction m with
  | zero => exact ⟨h, rfl, fun _ _ => rfl⟩
  | succ m ih =>
    obtain ⟨i1, i2, i3⟩ := ih
    rw [List.range_succ, List.foldl_append, List.foldl_cons, List.foldl_nil]
    obtain ⟨a1, a2, a3⟩ := removeAdvised_iterate m (adv m).toNat _ i1
      (by rw [i3 m le_rfl]; exact hadv m)
    refine ⟨a1, a2.trans i2, ?_⟩
    intro j hj
    rw [a3 j (by omega), i3 j (by omega)]

theorem dropOne_iterate (group_nr : Nat) (k : Nat) :
    ∀ (mm : MatchMaker),
      (Nat.iterate (fun m => m.dropOne group_nr) k mm).n_groups = mm.n_groups ∧
      (Nat.iterate (fun m => m.dropOne group_nr) k mm).relation_request_by_group_
        = mm.relation_request_by_group_ ∧
      (Nat.iterate (fun m => m.dropOne group_nr) k mm).relation_request_by_group_priority_
        = mm.relation_request_by_group_priority_ ∧
      (Nat.iterate (fun m => m.dropOne group_nr) k mm).r_ = mm.r_ ∧
      (Nat.iterate (fun m => m.dropOne group_nr) k mm).r_p_ = mm.r_p_ := by
  induction k with
  | zero => intro mm; exact ⟨rfl, rfl, rfl, rfl, rfl⟩
  | succ k ih =>
    intro mm
    rw [Function.iterate_succ_apply]
    obtain ⟨a, b, c, d, e⟩ := ih (mm.dropOne group_nr)
    exact ⟨a, b, c, d, e⟩

theorem dropGroup_accounted {N0 P0 : Nat → List RelationRequest}
    {cs : List Taken} (mm : MatchMaker) (h : mm.Accounted N0 P0 cs) (g : Nat) :
    (mm.dropGroup g).Accounted N0 P0 cs ∧
    (mm.dropGroup g).n_groups = mm.n_groups ∧
    (mm.dropGroup g).relation_request_by_group_priority_ g = [] ∧
    (mm.dropGroup g).r_p_ g = 0 ∧
    ∀ j, j ≠ g →
      (mm.dropGroup g).relation_request_by_group_priority_ j
          = mm.relation_request_by_group_priority_ j ∧
      (mm.dropGroup g).r_p_ j = mm.r_p_ j := by
  obtain ⟨a, b, c, d, e⟩ := dropOne_iterate g (mm.relation_request_by_group_priority_ g).length mm
  obtain ⟨hc, hN, hP⟩ := h
  unfold MatchMaker.dropGroup
  refine ⟨⟨?_, ?_, ?_⟩, a, ?_, ?_, ?_⟩
  · intro j
    simp only [b, c, d, e]
    by_cases ej : j = g
    · subst ej
      simp only [Function.update_same]
      exact ⟨(hc j).1, by simp⟩
    · simp only [Function.update_noteq ej]
      exact hc j
  · simp only [b]
    exact hN
  · intro j
    simp only [c]
    obtain ⟨dd, hm⟩ := hP j
    by_cases ej : j = g
    · subst ej
      simp only [Function.update_same]
      refine ⟨mm.relation_request_by_group_priority_ j ++ dd, ?_⟩
      refine hm.trans ?_
      simp only [List.nil_append, List.append_assoc]
      rw [← List.append_assoc, ← List.append_assoc]
      exact List.Perm.append_right _ List.perm_append_comm
    · simp only [Function.update_noteq ej]
      exact ⟨dd, hm⟩
  · simp only [Function.update_same]
  · simp only [Function.update_same]
  · intro j hj
    simp only [c, e, Function.update_noteq hj]
    exact ⟨trivial, trivial⟩

theorem dropGroup_fold {N0 P0 : Nat → List RelationRequest}
    {cs : List Taken} (mm : MatchMaker) (h : mm.Accounted N0 P0 cs) (m : Nat) :
    ((List.range m).foldl (fun m1 group_nr => m1.dropGroup group_nr) mm).Accounted N0 P0 cs ∧
    ((List.range m).foldl (fun m1 group_nr => m1.dropGroup group_nr) mm).n_groups
      = mm.n_groups ∧
    ∀ j, j < m →
      ((List.range m).foldl (fun m1 group_nr => m1.dropGroup group_nr)
          mm).relation_request_by_group_priority_ j = [] ∧
      ((List.range m).foldl (fun m1 group_nr => m1.dropGroup group_nr) mm).r_p_ j = 0 := by
  induction m with
  | zero => exact ⟨h, rfl, fun j hj => absurd hj (Nat.not_lt_zero _)⟩
  | succ m ih =>
    obtain ⟨i1, i2, i3⟩ := ih
    rw [List.range_succ, List.foldl_append, List.foldl_cons, List.foldl_nil]
    obtain ⟨a1, a2, a3, a4, a5⟩ := dropGroup_accounted _ i1 m
    refine ⟨a1, a2.trans i2, ?_⟩
    intro j hj
    by_cases e : j = m
    · subst e; exact ⟨a3, a4⟩
    · obtain ⟨b1, b2⟩ := a5 j e
      rw [b1, b2]
      exact i3 j (by omega)

end mm
end rg

namespace rg
namespace mm

theorem stepShuffle_accounted (shuffle : Nat → List RelationRequest → List RelationRequest)
    (mm : MatchMaker) (hc : mm.CountersMatch) (hsh : ∀ g l, (shuffle g l).Perm l) :
    (mm.stepShuffle shuffle).Accounted mm.relation_request_by_group_
        mm.relation_request_by_group_priority_ [] ∧
      (mm.stepShuffle shuffle).n_groups = mm.n_groups := by
  refine ⟨⟨?_, ?_, ?_⟩, rfl⟩
  · intro g
    refine ⟨?_, (hc g).2⟩
    simp only [MatchMaker.stepShuffle]
    rw [(hc g).1, (hsh g _).length_eq]
  · intro g
    simpa [MatchMaker.stepShuffle, takenFrom_nil] using (hsh g _).symm
  · intro g
    exact ⟨[], by simp [MatchMaker.stepShuffle, takenFrom_nil]⟩

theorem stepMatrix_accounted {N0 P0 : Nat → List RelationRequest} {cs : List Taken}
    (new_matrix : Option GroupMatrix) (mm : MatchMaker) (h : mm.Accounted N0 P0 cs) :
    (mm.stepMatrix new_matrix).Accounted N0 P0 cs ∧
      (mm.stepMatrix new_matrix).n_groups = mm.n_groups := by
  unfold MatchMaker.stepMatrix
  cases new_matrix with
  | none => exact ⟨h, rfl⟩
  | some p => exact ⟨h, rfl⟩

theorem stepRobustness_accounted {N0 P0 : Nat → List RelationRequest}
    {cs : List Taken} (GetWeight : Int → ℚ) (mm : MatchMaker)
    (h : mm.Accounted N0 P0 cs) :
    (mm.stepRobustness GetWeight).Accounted N0 P0 cs ∧
      (mm.stepRobustness GetWeight).n_groups = mm.n_groups := by
  unfold MatchMaker.stepRobustness
  simp only
  have hadv : ∀ i, (((mm.robustness_check_.UpdateandAdvice GetWeight mm.r_ mm.r_p_).2 i).toNat : Int)
      ≤ mm.r_p_ i := by
    intro i
    apply UpdateandAdvice_le
    rw [(h.1 i).2]
    exact Int.natCast_nonneg _
  obtain ⟨a1, a2, _⟩ := @removeAdvised_fold N0 P0 cs
    (mm.robustness_check_.UpdateandAdvice GetWeight mm.r_ mm.r_p_).2
    { mm with
      robustness_check_ := (mm.robustness_check_.UpdateandAdvice GetWeight mm.r_ mm.r_p_).1,
      link_handler_ := mm.link_handler_.SortByLinks }
    h hadv mm.n_groups
  exact ⟨a1, a2⟩

theorem stepPriority_booked {N0 P0 : Nat → List RelationRequest}
    {D : Nat → List RelationRequest}
    (sort_descending : List (alje.MultiSetSize2 × Credit) → List (alje.MultiSetSize2 × Credit))
    (mm : MatchMaker) (h : mm.Exact N0 P0 [] D) :
    (mm.stepPriority sort_descending).1.Booked hasPriorityRequest N0 P0
        (mm.stepPriority sort_descending).2 D ∧
      (mm.stepPriority sort_descending).1.n_groups = mm.n_groups := by
  unfold MatchMaker.stepPriority
  exact runLoop_booked MatchMaker.priorityStep
    (fun m acc hm next hs => priorityStep_booked hm next hs) _ _ []
    ⟨[], rfl, fun _ hp => absurd hp (List.not_mem_nil _), h⟩

theorem stepNormal_booked {N0 P0 : Nat → List RelationRequest}
    {D : Nat → List RelationRequest}
    (mm : MatchMaker) (acc : List (RelationRequest × RelationRequest))
    (h : mm.Booked (fun _ => True) N0 P0 acc D) :
    (mm.stepNormal acc).1.Booked (fun _ => True) N0 P0 (mm.stepNormal acc).2 D ∧
      (mm.stepNormal acc).1.n_groups = mm.n_groups := by
  unfold MatchMaker.stepNormal
  exact runLoop_booked MatchMaker.normalStep
    (fun m acc hm next hs => normalStep_booked hm next hs) _ _ acc h

theorem Booked.weaken {Q : Taken × Taken → Prop} {N0 P0 : Nat → List RelationRequest}
    {mm : MatchMaker} {D : Nat → List RelationRequest}
    {acc : List (RelationRequest × RelationRequest)} (h : mm.Booked Q N0 P0 acc D) :
    mm.Booked (fun _ => True) N0 P0 acc D := by
  obtain ⟨pairs, h1, _, h3⟩ := h
  exact ⟨pairs, h1, fun _ _ => trivial, h3⟩

/-- The queues and counters after `MatchMaker::Get`. -/
theorem Get_booked (shuffle : Nat → List RelationRequest → List RelationRequest)
    (new_matrix : Option GroupMatrix) (GetWeight : Int → ℚ)
    (sort_descending : List (alje.MultiSetSize2 × Credit) → List (alje.MultiSetSize2 × Credit))
    (mm : MatchMaker) (hc : mm.CountersMatch) (hsh : ∀ g l, (shuffle g l).Perm l) :
    (mm.Get shuffle new_matrix GetWeight sort_descending).1.CountersMatch ∧
    (mm.Get shuffle new_matrix GetWeight sort_descending).1.n_groups = mm.n_groups ∧
    (∀ g, g < mm.n_groups →
      (mm.Get shuffle new_matrix GetWeight sort_descending).1.relation_request_by_group_ g = [] ∧
      (mm.Get shuffle new_matrix GetWeight sort_descending).1.r_ g = 0) ∧
    ∃ pairs : List (Taken × Taken),
      pairs.map matchOf = (mm.Get shuffle new_matrix GetWeight sort_descending).2 ∧
      (∀ g, (mm.relation_request_by_group_ g).Perm
        ((mm.Get shuffle new_matrix GetWeight sort_descending).1.relation_request_by_group_priority_ g
          ++ takenFrom (takenOf pairs) g false)) ∧
      (∀ g, g < mm.n_groups → ∃ dropped,
        (mm.relation_request_by_group_priority_ g).Perm
          (takenFrom (takenOf pairs) g true ++ dropped)) := by
  have hprep : (((mm.stepShuffle shuffle).stepMatrix new_matrix).stepRobustness
        GetWeight).stepAdd.Accounted
        mm.relation_request_by_group_ mm.relation_request_by_group_priority_ [] ∧
      (((mm.stepShuffle shuffle).stepMatrix new_matrix).stepRobustness
        GetWeight).stepAdd.n_groups = mm.n_groups := by
    obtain ⟨s0, n0⟩ := stepShuffle_accounted shuffle mm hc hsh
    obtain ⟨s1, n1⟩ := stepMatrix_accounted new_matrix _ s0
    obtain ⟨s2, n2⟩ := stepRobustness_accounted GetWeight _ s1
    exact ⟨s2, (n2.trans n1).trans n0⟩
  simp only [MatchMaker.Get]
  generalize (((mm.stepShuffle shuffle).stepMatrix new_matrix).stepRobustness
    GetWeight).stepAdd = prepared at hprep ⊢
  obtain ⟨s3, n3⟩ := hprep
  obtain ⟨D, s3⟩ := Accounted.exact s3
  have h4 := stepPriority_booked sort_descending prepared s3
  generalize prepared.stepPriority sort_descending = pass1 at h4 ⊢
  have h5 := stepNormal_booked pass1.1 pass1.2 (Booked.weaken h4.1)
  generalize pass1.1.stepNormal pass1.2 = pass2 at h5 ⊢
  have hn : pass2.1.n_groups = mm.n_groups := (h5.2.trans h4.2).trans n3
  obtain ⟨pairs, hT, _, hacc⟩ := h5.1
  obtain ⟨⟨c6, N6, P6⟩, n6, z6⟩ := dropGroup_fold pass2.1 (Exact.accounted hacc) pass2.1.n_groups
  simp only [MatchMaker.stepSwap, MatchMaker.stepDrop]
  refine ⟨?_, n6.trans hn, ?_, pairs, hT, ?_, ?_⟩
  · intro g
    exact ⟨(c6 g).2, (c6 g).1⟩
  · intro g hg
    exact z6 g (hn ▸ hg)
  · intro g
    exact N6 g
  · intro g hg
    obtain ⟨d, hm⟩ := P6 g
    refine ⟨d, ?_⟩
    rw [(z6 g (hn ▸ hg)).1] at hm
    simpa using hm

end mm
end rg

namespace rg
namespace mm

theorem mem_addCredit (l : List (alje.MultiSetSize2 × Credit)) :
    ∀ (k : Nat) (x : ℚ) (p : alje.MultiSetSize2 × Credit),
      p ∈ addCredit l k x → ∃ q ∈ l, q.1 = p.1 := by
  induction l with
  | nil => intro k x p hp; simp [addCredit] at hp
  | cons a l ih =>
    intro k x p hp
    cases k with
    | zero =>
      simp only [addCredit, List.mem_cons] at hp
      rcases hp with rfl | hp
      · exact ⟨a, by simp, rfl⟩
      · exact ⟨p, by simp [hp], rfl⟩
    | succ k =>
      simp only [addCredit, List.mem_cons] at hp
      rcases hp with rfl | hp
      · exact ⟨p, by simp, rfl⟩
      · obtain ⟨q, hq, e⟩ := ih k x p hp
        exact ⟨q, by simp [hq], e⟩

theorem mem_foldl_addCredit {ι : Type} (idx : ι → Nat) (amt : ι → ℚ) (is : List ι) :
    ∀ (l : List (alje.MultiSetSize2 × Credit)) (p : alje.MultiSetSize2 × Credit),
      p ∈ is.foldl (fun ll i => addCredit ll (idx i) (amt i)) l → ∃ q ∈ l, q.1 = p.1 := by
  induction is with
  | nil => intro l p hp; exact ⟨p, hp, rfl⟩
  | cons i is ih =>
    intro l p hp
    rw [List.foldl_cons] at hp
    obtain ⟨q, hq, e⟩ := ih _ p hp
    obtain ⟨q1, hq1, e1⟩ := mem_addCredit l _ _ q hq
    exact ⟨q1, hq1, e1.trans e⟩

theorem mem_bubbleDown (ours : alje.MultiSetSize2 × Credit)
    (l : List (alje.MultiSetSize2 × Credit)) :
    ∀ p, p ∈ bubbleDown ours l → p = ours ∨ p ∈ l := by
  induction l with
  | nil => intro p hp; simpa [bubbleDown] using hp
  | cons b rest ih =>
    intro p hp
    unfold bubbleDown at hp
    split_ifs at hp
    · simpa using hp
    · rcases List.mem_cons.mp hp with rfl | hp
      · exact Or.inr (by simp)
      · rcases ih p hp with h | h
        · exact Or.inl h
        · exact Or.inr (List.mem_cons_of_mem _ h)

theorem length_bubbleDown (ours : alje.MultiSetSize2 × Credit)
    (l : List (alje.MultiSetSize2 × Credit)) :
    (bubbleDown ours l).length = l.length + 1 := by
  induction l with
  | nil => rfl
  | cons b rest ih =>
    unfold bubbleDown
    split_ifs
    · rfl
    · simp [ih]

theorem mem_removeAt (l : List (alje.MultiSetSize2 × Credit)) :
    ∀ (k : Nat) (p : alje.MultiSetSize2 × Credit),
      p ∈ removeAt l k → ∃ q ∈ l, q.1 = p.1 := by
  induction l with
  | nil => intro k p hp; simp [removeAt] at hp
  | cons a l ih =>
    intro k p hp
    cases k with
    | zero =>
      simp only [removeAt] at hp
      rcases mem_bubbleDown _ _ p hp with rfl | h
      · exact ⟨a, by simp, rfl⟩
      · exact ⟨p, by simp [h], rfl⟩
    | succ k =>
      simp only [removeAt, List.mem_cons] at hp
      rcases hp with rfl | hp
      · exact ⟨p, by simp, rfl⟩
      · obtain ⟨q, hq, e⟩ := ih k p hp
        exact ⟨q, by simp [hq], e⟩

theorem length_removeAt (l : List (alje.MultiSetSize2 × Credit)) :
    ∀ (k : Nat), (removeAt l k).length = l.length := by
  induction l with
  | nil => intro k; rfl
  | cons a l ih =>
    intro k
    cases k with
    | zero => simp [removeAt, length_bubbleDown]
    | succ k => simp [removeAt, ih]

theorem sum_counters_update (n : Nat) (f f1 : Nat → Nat) (group : Nat) (hg : group < n)
    (h : ∀ g, f1 g + (if g = group then 1 else 0) = f g) :
    (∑ g in Finset.range n, f1 g) + 1 = ∑ g in Finset.range n, f g := by
  have : ∑ g in Finset.range n, f g
      = ∑ g in Finset.range n, (f1 g + (if g = group then 1 else 0)) :=
    Finset.sum_congr rfl (fun g _ => (h g).symm)
  rw [this, Finset.sum_add_distrib, Finset.sum_ite_eq', if_pos (Finset.mem_range.mpr hg)]

theorem takeRequest_sum (mm : MatchMaker) (group : Nat) (hg : group < mm.n_groups)
    (hc : mm.CountersMatch) (hpos : mm.r_p_ group > 0 ∨ mm.r_ group > 0) :
    (∑ g in Finset.range mm.n_groups,
        (((mm.takeRequest group).1.r_ g).toNat + ((mm.takeRequest group).1.r_p_ g).toNat)) + 1
      = ∑ g in Finset.range mm.n_groups, ((mm.r_ g).toNat + (mm.r_p_ g).toNat) := by
  apply sum_counters_update _ _ _ group hg
  intro g
  rw [takeRequest_r_, takeRequest_r_p_]
  have h1 := (hc g).1
  have h2 := (hc g).2
  by_cases e : g = group
  · subst e
    by_cases hp : mm.r_p_ g > 0
    · simp only [hp, true_and, not_true_eq_false, false_and, if_true, if_false]
      omega
    · simp only [hp, false_and, not_false_eq_true, true_and, if_true, if_false]
      omega
  · simp only [e, and_false, if_false]
    omega

end mm
end rg

namespace rg
namespace mm

theorem takeRequest_link_handler (mm : MatchMaker) (group : Nat) :
    (mm.takeRequest group).1.link_handler_ = mm.link_handler_ := by
  unfold MatchMaker.takeRequest
  split_ifs <;> rfl

theorem LinksInRange.of_links {mm mm1 : MatchMaker} (h : mm.LinksInRange)
    (hn : mm1.n_groups = mm.n_groups)
    (hl : ∀ p ∈ mm1.link_handler_.link_list_, ∃ q ∈ mm.link_handler_.link_list_, q.1 = p.1) :
    mm1.LinksInRange := by
  intro p hp
  obtain ⟨q, hq, e⟩ := hl p hp
  rw [hn, ← e]
  exact h q hq

theorem Get_mem (lh : LinkHandler) (link : alje.MultiSetSize2) (h : lh.Get = some link) :
    ∃ p ∈ lh.link_list_, p.1 = link := by
  unfold LinkHandler.Get at h
  cases hp : lh.link_list_[lh.current_position_]? with
  | none => rw [hp] at h; simp at h
  | some p =>
    rw [hp] at h
    simp only [Option.map_some', Option.some.injEq] at h
    exact ⟨p, List.getElem?_mem hp, h⟩

theorem Get_lt_length (lh : LinkHandler) (link : alje.MultiSetSize2) (h : lh.Get = some link) :
    lh.current_position_ < lh.link_list_.length := by
  unfold LinkHandler.Get at h
  by_contra hge
  push_neg at hge
  rw [List.getElem?_eq_none hge] at h
  simp at h

/-- A match takes two queued requests and keeps the links. -/
theorem MatchFound_progress (mm : MatchMaker) (g1 g2 : Nat) (hc : mm.CountersMatch)
    (hr : mm.LinksInRange) (hg1 : g1 < mm.n_groups) (hg2 : g2 < mm.n_groups)
    (h1 : mm.r_p_ g1 > 0 ∨ mm.r_ g1 > 0)
    (h2 : (({ mm with link_handler_ := mm.link_handler_.Remove } : MatchMaker).takeRequest g1).1.r_p_ g2 > 0 ∨
      (({ mm with link_handler_ := mm.link_handler_.Remove } : MatchMaker).takeRequest g1).1.r_ g2 > 0) :
    (mm.MatchFoundDoAllAndReturnPair g1 g2).1.remaining + 2 = mm.remaining ∧
    (mm.MatchFoundDoAllAndReturnPair g1 g2).1.LinksInRange ∧
    (mm.MatchFoundDoAllAndReturnPair g1 g2).1.CountersMatch := by
  have hc1 : ({ mm with link_handler_ := mm.link_handler_.Remove } : MatchMaker).CountersMatch := hc
  have ha1 := takeRequest_exact (exact_self _ hc1) g1 h1
  have ha2 := takeRequest_exact ha1 g2 h2
  have s1 := takeRequest_sum ({ mm with link_handler_ := mm.link_handler_.Remove } : MatchMaker)
    g1 hg1 hc1 h1
  have n1 := takeRequest_n_groups ({ mm with link_handler_ := mm.link_handler_.Remove } : MatchMaker) g1
  have s2 := takeRequest_sum
    (({ mm with link_handler_ := mm.link_handler_.Remove } : MatchMaker).takeRequest g1).1 g2
    (by rw [n1]; exact hg2) ha1.1 h2
  have n2 := takeRequest_n_groups
    (({ mm with link_handler_ := mm.link_handler_.Remove } : MatchMaker).takeRequest g1).1 g2
  have l2 : ((({ mm with link_handler_ := mm.link_handler_.Remove } : MatchMaker).takeRequest g1).1.takeRequest
      g2).1.link_handler_ = mm.link_handler_.Remove := by
    rw [takeRequest_link_handler, takeRequest_link_handler]
  unfold MatchMaker.MatchFoundDoAllAndReturnPair
  simp only
  refine ⟨?_, ?_, ha2.1⟩
  · unfold MatchMaker.remaining
    rw [l2, n2, n1]
    rw [n1] at s2
    simp only [LinkHandler.Remove, length_removeAt] at s1 s2 ⊢
    omega
  · apply LinksInRange.of_links hr (n2.trans n1)
    rw [l2]
    intro p hp
    exact mem_removeAt _ _ p hp

theorem priorityStep_progress (mm : MatchMaker)
    (acc : List (RelationRequest × RelationRequest)) (hc : mm.CountersMatch)
    (hr : mm.LinksInRange) (next : MatchMaker × List (RelationRequest × RelationRequest))
    (hs : mm.priorityStep acc = some next) :
    next.1.remaining < mm.remaining ∧ next.1.CountersMatch ∧ next.1.LinksInRange := by
  unfold MatchMaker.priorityStep at hs
  split_ifs at hs with hpt
  cases hget : mm.link_handler_.Get with
  | none => rw [hget] at hs; simp at hs
  | some link =>
    rw [hget] at hs
    simp only at hs
    obtain ⟨p, hp, e⟩ := Get_mem _ _ hget
    have hrange := hr p hp
    rw [e] at hrange
    split_ifs at hs with htest
    · simp only [Option.some.injEq] at hs
      subst hs
      obtain ⟨t1, t2, _⟩ := priorityTest_takes mm mm.link_handler_.Remove _ _ hc htest
      obtain ⟨m1, m2, m3⟩ := MatchFound_progress mm _ _ hc hr hrange.1 hrange.2 t1 t2
      exact ⟨by simp only; omega, m3, m2⟩
    · simp only [Option.some.injEq] at hs
      subst hs
      refine ⟨?_, hc, hr⟩
      have hlt := Get_lt_length _ _ hget
      simp only [MatchMaker.remaining, LinkHandler.Next]
      omega

theorem normalStep_progress (mm : MatchMaker)
    (acc : List (RelationRequest × RelationRequest)) (hc : mm.CountersMatch)
    (hr : mm.LinksInRange) (next : MatchMaker × List (RelationRequest × RelationRequest))
    (hs : mm.normalStep acc = some next) :
    next.1.remaining < mm.remaining ∧ next.1.CountersMatch ∧ next.1.LinksInRange := by
  unfold MatchMaker.normalStep at hs
  split_ifs at hs with hpt
  cases hget : mm.link_handler_.Get with
  | none => rw [hget] at hs; simp at hs
  | some link =>
    rw [hget] at hs
    simp only at hs
    obtain ⟨p, hp, e⟩ := Get_mem _ _ hget
    have hrange := hr p hp
    rw [e] at hrange
    split_ifs at hs with htest
    · simp only [Option.some.injEq] at hs
      subst hs
      obtain ⟨t1, t2⟩ := normalTest_takes mm mm.link_handler_.Remove _ _ hc htest
      obtain ⟨m1, m2, m3⟩ := MatchFound_progress mm _ _ hc hr hrange.1 hrange.2 t1 t2
      exact ⟨by simp only; omega, m3, m2⟩
    · simp only [Option.some.injEq] at hs
      subst hs
      refine ⟨?_, hc, hr⟩
      have hlt := Get_lt_length _ _ hget
      simp only [MatchMaker.remaining, LinkHandler.Next]
      omega

/-- With more fuel than iterations remaining, a scheduling loop stops because
its loop condition is false, and it keeps the counters and the links. -/
theorem runLoop_complete
    (step : MatchMaker → List (RelationRequest × RelationRequest) →
      Option (MatchMaker × List (RelationRequest × RelationRequest)))
    (hstep : ∀ (mm : MatchMaker) (acc : List (RelationRequest × RelationRequest)),
      mm.CountersMatch → mm.LinksInRange → ∀ next, step mm acc = some next →
        next.1.remaining < mm.remaining ∧ next.1.CountersMatch ∧ next.1.LinksInRange)
    (fuel : Nat) :
    ∀ (mm : MatchMaker) (acc : List (RelationRequest × RelationRequest)),
      mm.CountersMatch → mm.LinksInRange → mm.remaining < fuel →
      step (MatchMaker.runLoop step fuel mm acc).1 (MatchMaker.runLoop step fuel mm acc).2 = none ∧
      (MatchMaker.runLoop step fuel mm acc).1.CountersMatch ∧
      (MatchMaker.runLoop step fuel mm acc).1.LinksInRange := by
  induction fuel with
  | zero => intro mm acc _ _ h; exact absurd h (Nat.not_lt_zero _)
  | succ fuel ih =>
    intro mm acc hc hr hlt
    simp only [MatchMaker.runLoop]
    cases hs : step mm acc with
    | none => exact ⟨hs, hc, hr⟩
    | some next =>
      obtain ⟨p1, p2, p3⟩ := hstep mm acc hc hr next hs
      exact ih next.1 next.2 p2 p3 (by omega)

end mm
end rg

namespace rg
namespace mm

theorem iterate_invariant (P : MatchMaker → Prop) (f : MatchMaker → MatchMaker)
    (hf : ∀ m, P m → P (f m)) (k : Nat) : ∀ m, P m → P (Nat.iterate f k m) := by
  induction k with
  | zero => intro m h; exact h
  | succ k ih => intro m h; rw [Function.iterate_succ_apply]; exact ih _ (hf m h)

theorem foldl_invariant {ι : Type} (P : MatchMaker → Prop) (f : MatchMaker → ι → MatchMaker)
    (hf : ∀ m i, P m → P (f m i)) (is : List ι) : ∀ m, P m → P (is.foldl f m) := by
  induction is with
  | nil => intro m h; exact h
  | cons i is ih => intro m h; rw [List.foldl_cons]; exact ih _ (hf m i h)

theorem mem_RemovePerson (lh : LinkHandler) (i : Nat) (p : alje.MultiSetSize2 × Credit)
    (hp : p ∈ (lh.RemovePerson i).link_list_) : ∃ q ∈ lh.link_list_, q.1 = p.1 :=
  mem_foldl_addCredit _ _ _ _ p hp

theorem mem_SortByLinks (lh : LinkHandler) (p : alje.MultiSetSize2 × Credit)
    (hp : p ∈ lh.SortByLinks.link_list_) : ∃ q ∈ lh.link_list_, q.1 = p.1 :=
  ⟨p, (List.perm_insertionSort linkPairLe lh.link_list_).mem_iff.mp hp, rfl⟩

theorem mem_Add (lh : LinkHandler) (n_people_per_group : Nat → Int)
    (p : alje.MultiSetSize2 × Credit) (hp : p ∈ (lh.Add n_people_per_group).link_list_) :
    ∃ q ∈ lh.link_list_, q.1 = p.1 := by
  have h1 : p.1 ∈ (lh.Add n_people_per_group).link_list_.map Prod.fst :=
    List.mem_map_of_mem _ hp
  rw [Add_map_fst] at h1
  obtain ⟨q, hq, e⟩ := List.mem_map.mp h1
  exact ⟨q, hq, e⟩

theorem removeAdvised_links (n : Nat) (i : Nat) (m : MatchMaker)
    (h : m.LinksInRange ∧ m.n_groups = n) :
    (m.removeAdvised i).LinksInRange ∧ (m.removeAdvised i).n_groups = n :=
  ⟨LinksInRange.of_links h.1 rfl (fun p hp => mem_RemovePerson _ _ p hp), h.2⟩

theorem dropOne_links (n : Nat) (i : Nat) (m : MatchMaker)
    (h : m.LinksInRange ∧ m.n_groups = n) :
    (m.dropOne i).LinksInRange ∧ (m.dropOne i).n_groups = n := by
  refine ⟨LinksInRange.of_links h.1 rfl (fun p hp => ?_), h.2⟩
  obtain ⟨q, hq, e⟩ := mem_RemovePerson _ _ p hp
  obtain ⟨q1, hq1, e1⟩ := mem_SortByLinks _ q hq
  exact ⟨q1, hq1, e1.trans e⟩

theorem dropGroup_links (n : Nat) (m : MatchMaker) (i : Nat)
    (h : m.LinksInRange ∧ m.n_groups = n) :
    (m.dropGroup i).LinksInRange ∧ (m.dropGroup i).n_groups = n :=
  iterate_invariant (fun m1 => m1.LinksInRange ∧ m1.n_groups = n) _
    (fun m1 h1 => dropOne_links n i m1 h1) _ m h

theorem stepDrop_links (m : MatchMaker) (h : m.LinksInRange) :
    m.stepDrop.LinksInRange ∧ m.stepDrop.n_groups = m.n_groups :=
  foldl_invariant (fun m1 => m1.LinksInRange ∧ m1.n_groups = m.n_groups) _
    (fun m1 i h1 => dropGroup_links m.n_groups m1 i h1) _ m ⟨h, rfl⟩

theorem stepRobustness_links (GetWeight : Int → ℚ) (m : MatchMaker) (h : m.LinksInRange) :
    (m.stepRobustness GetWeight).LinksInRange := by
  unfold MatchMaker.stepRobustness
  simp only
  refine (foldl_invariant (fun m1 => m1.LinksInRange ∧ m1.n_groups = m.n_groups) _
    (fun m1 i h1 => iterate_invariant (fun m2 => m2.LinksInRange ∧ m2.n_groups = m.n_groups) _
      (fun m2 h2 => removeAdvised_links m.n_groups i m2 h2) _ m1 h1) _ _ ⟨?_, ?_⟩).1
  · exact LinksInRange.of_links h rfl (fun p hp => mem_SortByLinks _ p hp)
  · rfl

theorem stepMatrix_links (new_matrix : Option GroupMatrix) (m : MatchMaker)
    (h : m.LinksInRange) : (m.stepMatrix new_matrix).LinksInRange := by
  unfold MatchMaker.stepMatrix
  cases new_matrix with
  | none => exact h
  | some p => exact h

theorem stepAdd_links (m : MatchMaker) (h : m.LinksInRange) : m.stepAdd.LinksInRange :=
  LinksInRange.of_links h rfl (fun p hp => mem_Add _ _ p hp)

/-- With the links in range, the priority pass stops because its loop
condition is false. -/
theorem stepPriority_complete
    (sort_descending : List (alje.MultiSetSize2 × Credit) → List (alje.MultiSetSize2 × Credit))
    (hsort : ∀ l, (sort_descending l).Perm l)
    (mm : MatchMaker) (hc : mm.CountersMatch) (hr : mm.LinksInRange) :
    MatchMaker.priorityStep (mm.stepPriority sort_descending).1
        (mm.stepPriority sort_descending).2 = none ∧
      (mm.stepPriority sort_descending).1.CountersMatch ∧
      (mm.stepPriority sort_descending).1.LinksInRange := by
  unfold MatchMaker.stepPriority
  apply runLoop_complete MatchMaker.priorityStep priorityStep_progress
  · exact hc
  · exact LinksInRange.of_links hr rfl (fun p hp => ⟨p, (hsort _).mem_iff.mp hp, rfl⟩)
  · simp only [MatchMaker.remaining, MatchMaker.fuel, LinkHandler.PointToTop]
    omega

/-- With the links in range, the non-priority pass stops because its loop
condition is false. -/
theorem stepNormal_complete (mm : MatchMaker)
    (acc : List (RelationRequest × RelationRequest))
    (hc : mm.CountersMatch) (hr : mm.LinksInRange) :
    MatchMaker.normalStep (mm.stepNormal acc).1 (mm.stepNormal acc).2 = none ∧
      (mm.stepNormal acc).1.CountersMatch ∧
      (mm.stepNormal acc).1.LinksInRange := by
  unfold MatchMaker.stepNormal
  apply runLoop_complete MatchMaker.normalStep normalStep_progress
  · exact hc
  · exact hr
  · simp only [MatchMaker.remaining, MatchMaker.fuel, LinkHandler.PointToTop]
    omega

theorem priorityStep_none (mm : MatchMaker) (acc : List (RelationRequest × RelationRequest))
    (h : mm.priorityStep acc = none) : mm.link_handler_.PointsToAcceptableLink = false := by
  unfold MatchMaker.priorityStep at h
  by_contra hne
  rw [Bool.not_eq_false] at hne
  rw [if_pos hne] at h
  cases hget : mm.link_handler_.Get with
  | none =>
    unfold LinkHandler.PointsToAcceptableLink at hne
    unfold LinkHandler.Get at hget
    cases hp : mm.link_handler_.link_list_[mm.link_handler_.current_position_]? with
    | none => rw [hp] at hne; simp at hne
    | some p => rw [hp] at hget; simp at hget
  | some link =>
    rw [hget] at h
    simp only at h
    split_ifs at h

theorem normalStep_none (mm : MatchMaker) (acc : List (RelationRequest × RelationRequest))
    (h : mm.normalStep acc = none) : mm.link_handler_.PointsToPositiveLink = false := by
  unfold MatchMaker.normalStep at h
  by_contra hne
  rw [Bool.not_eq_false] at hne
  rw [if_pos hne] at h
  cases hget : mm.link_handler_.Get with
  | none =>
    unfold LinkHandler.PointsToPositiveLink at hne
    unfold LinkHandler.Get at hget
    cases hp : mm.link_handler_.link_list_[mm.link_handler_.current_position_]? with
    | none => rw [hp] at hne; simp at hne
    | some p => rw [hp] at hget; simp at hget
  | some link =>
    rw [hget] at h
    simp only at h
    split_ifs at h

/-- The preparation steps 0-3 of `MatchMaker::Get` keep the books and the
links. -/
theorem prepared_accounted (shuffle : Nat → List RelationRequest → List RelationRequest)
    (new_matrix : Option GroupMatrix) (GetWeight : Int → ℚ)
    (mm : MatchMaker) (hc : mm.CountersMatch) (hsh : ∀ g l, (shuffle g l).Perm l) :
    (((mm.stepShuffle shuffle).stepMatrix new_matrix).stepRobustness
        GetWeight).stepAdd.Accounted
        mm.relation_request_by_group_ mm.relation_request_by_group_priority_ [] ∧
    (((mm.stepShuffle shuffle).stepMatrix new_matrix).stepRobustness
        GetWeight).stepAdd.n_groups = mm.n_groups ∧
    (mm.LinksInRange → (((mm.stepShuffle shuffle).stepMatrix new_matrix).stepRobustness
        GetWeight).stepAdd.LinksInRange) := by
  obtain ⟨s0, n0⟩ := stepShuffle_accounted shuffle mm hc hsh
  obtain ⟨s1, n1⟩ := stepMatrix_accounted new_matrix _ s0
  obtain ⟨s2, n2⟩ := stepRobustness_accounted GetWeight _ s1
  refine ⟨s2, (n2.trans n1).trans n0, fun hr => ?_⟩
  exact stepAdd_links _ (stepRobustness_links _ _ (stepMatrix_links _ _ hr))

/-- Both scheduling loops of `MatchMaker::Get` stop because their loop
conditions are false, and the links stay in range. -/
theorem Get_complete (shuffle : Nat → List RelationRequest → List RelationRequest)
    (new_matrix : Option GroupMatrix) (GetWeight : Int → ℚ)
    (sort_descending : List (alje.MultiSetSize2 × Credit) → List (alje.MultiSetSize2 × Credit))
    (mm : MatchMaker) (hc : mm.CountersMatch) (hr : mm.LinksInRange)
    (hsh : ∀ g l, (shuffle g l).Perm l) (hsort : ∀ l, (sort_descending l).Perm l) :
    ((((mm.stepShuffle shuffle).stepMatrix new_matrix).stepRobustness
        GetWeight).stepAdd.stepPriority sort_descending).1.link_handler_.PointsToAcceptableLink
      = false ∧
    ((((((mm.stepShuffle shuffle).stepMatrix new_matrix).stepRobustness
        GetWeight).stepAdd.stepPriority sort_descending).1.stepNormal
      ((((mm.stepShuffle shuffle).stepMatrix new_matrix).stepRobustness
        GetWeight).stepAdd.stepPriority sort_descending).2).1.link_handler_.PointsToPositiveLink
      = false) ∧
    (mm.Get shuffle new_matrix GetWeight sort_descending).1.LinksInRange := by
  obtain ⟨s3, n3, l3⟩ := prepared_accounted shuffle new_matrix GetWeight mm hc hsh
  simp only [MatchMaker.Get]
  generalize (((mm.stepShuffle shuffle).stepMatrix new_matrix).stepRobustness
    GetWeight).stepAdd = prepared at s3 n3 l3 ⊢
  obtain ⟨p1, p2, p3⟩ := stepPriority_complete sort_descending hsort prepared s3.1 (l3 hr)
  generalize prepared.stepPriority sort_descending = pass1 at p1 p2 p3 ⊢
  obtain ⟨q1, q2, q3⟩ := stepNormal_complete pass1.1 pass1.2 p2 p3
  generalize pass1.1.stepNormal pass1.2 = pass2 at q1 q2 q3 ⊢
  exact ⟨priorityStep_none _ _ p1, normalStep_none _ _ q1, (stepDrop_links pass2.1 q3).1⟩

end mm
end rg

namespace rg
namespace mm

theorem new_counters (n_groups : Nat) (preference_matrix : GroupMatrix) :
    (MatchMaker.new n_groups preference_matrix).CountersMatch :=
  fun _ => ⟨rfl, rfl⟩

theorem new_links (n_groups : Nat) (preference_matrix : GroupMatrix) :
    (MatchMaker.new n_groups preference_matrix).LinksInRange := by
  intro p hp
  simp only [MatchMaker.new, LinkHandler.new, List.mem_flatMap, List.mem_map,
    List.mem_range] at hp
  obtain ⟨higher, hh, lower, hl, e⟩ := hp
  subst e
  show lower < n_groups ∧ higher < n_groups
  omega

theorem AddRelationRequest_counters (GroupNumber : RelationRequest → Nat) (mm : MatchMaker)
    (rr : RelationRequest) (hc : mm.CountersMatch) :
    (mm.AddRelationRequest GroupNumber rr).CountersMatch := by
  intro g
  unfold MatchMaker.AddRelationRequest
  simp only
  by_cases e : g = GroupNumber rr
  · subst e
    simp only [Function.update_same]
    refine ⟨?_, (hc _).2⟩
    rw [(hc _).1]
    simp
  · simp only [Function.update_noteq e]
    exact hc g

/-- Requests added between two calls of `Get` are appended to the
non-priority queues of their groups; nothing else changes in the queues. -/
theorem AddRelationRequest_fold (GroupNumber : RelationRequest → Nat)
    (added : List RelationRequest) :
    ∀ (mm : MatchMaker), mm.CountersMatch →
      (added.foldl (MatchMaker.AddRelationRequest GroupNumber) mm).CountersMatch ∧
      (added.foldl (MatchMaker.AddRelationRequest GroupNumber) mm).n_groups = mm.n_groups ∧
      (added.foldl (MatchMaker.AddRelationRequest GroupNumber) mm).link_handler_
        = mm.link_handler_ ∧
      (added.foldl (MatchMaker.AddRelationRequest GroupNumber)
          mm).relation_request_by_group_priority_ = mm.relation_request_by_group_priority_ ∧
      ∀ g, (added.foldl (MatchMaker.AddRelationRequest GroupNumber)
          mm).relation_request_by_group_ g
        = mm.relation_request_by_group_ g
          ++ added.filter (fun rr => decide (GroupNumber rr = g)) := by
  induction added with
  | nil => intro mm hc; exact ⟨hc, rfl, rfl, rfl, fun g => by simp⟩
  | cons rr added ih =>
    intro mm hc
    rw [List.foldl_cons]
    obtain ⟨a, b, c, d, e⟩ := ih (mm.AddRelationRequest GroupNumber rr)
      (AddRelationRequest_counters GroupNumber mm rr hc)
    refine ⟨a, b, c, d, ?_⟩
    intro g
    rw [e g]
    unfold MatchMaker.AddRelationRequest
    simp only
    by_cases eg : g = GroupNumber rr
    · subst eg
      simp [List.filter_cons]
    · have : ¬ GroupNumber rr = g := fun h => eg h.symm
      simp [Function.update_noteq eg, List.filter_cons, this]

end mm
end rg

namespace rg
namespace mm

theorem AddRelationRequest_fold_links (GroupNumber : RelationRequest → Nat)
    (added : List RelationRequest) (mm : MatchMaker) (hc : mm.CountersMatch)
    (hr : mm.LinksInRange) :
    (added.foldl (MatchMaker.AddRelationRequest GroupNumber) mm).LinksInRange := by
  obtain ⟨_, a2, a3, _, _⟩ := AddRelationRequest_fold GroupNumber added mm hc
  apply LinksInRange.of_links hr a2
  rw [a3]
  exact fun p hp => ⟨p, hp, rfl⟩

end mm
end rg

namespace rg
namespace mm

/-- C4: the priority pass of `MatchMaker::Get` (step 4a), for a matchmaker
whose counters `r_`, `r_p_` equal the lengths of its queues. With `N` the
non-priority queues `relation_request_by_group_` and `P` the priority queues
`relation_request_by_group_priority_`: when the cursor points to an acceptable
link `{a, b}`, one iteration of the loop forms a match on that link (it calls
`MatchFoundDoAllAndReturnPair(a, b)` and appends the pair to the result)
exactly when `a = b` and (`|P a| ≥ 2`, or `|P a| ≥ 1` and `|N a| ≥ 1`), or
`a ≠ b` and (`|P a| ≥ 1` and `|P b| + |N b| ≥ 1`, or `|P b| ≥ 1` and
`|P a| + |N a| ≥ 1`); otherwise the iteration only advances the cursor. For
the whole pass: the matches it returns are made of requests taken from the
queues, each match with at least one request taken from a priority queue, and
the queues lose exactly these requests; with every link joining two groups of
the matchmaker and the sort a permutation, the loop ends because its
condition `PointsToAcceptableLink()` is false. -/
theorem C4_priority_pass_condition (mm : MatchMaker) (hc : mm.CountersMatch) :
    (∀ (return_vec : List (RelationRequest × RelationRequest)) (link : alje.MultiSetSize2),
      mm.link_handler_.PointsToAcceptableLink = true →
      mm.link_handler_.Get = some link →
      (((link.first = link.second ∧
            (2 ≤ (mm.relation_request_by_group_priority_ link.first).length ∨
              (1 ≤ (mm.relation_request_by_group_priority_ link.first).length ∧
                1 ≤ (mm.relation_request_by_group_ link.first).length))) ∨
          (link.first ≠ link.second ∧
            ((1 ≤ (mm.relation_request_by_group_priority_ link.first).length ∧
                1 ≤ (mm.relation_request_by_group_priority_ link.second).length
                  + (mm.relation_request_by_group_ link.second).length) ∨
              (1 ≤ (mm.relation_request_by_group_priority_ link.second).length ∧
                1 ≤ (mm.relation_request_by_group_priority_ link.first).length
                  + (mm.relation_request_by_group_ link.first).length)))) →
        mm.priorityStep return_vec =
          some ((mm.MatchFoundDoAllAndReturnPair link.first link.second).1,
            return_vec ++ [(mm.MatchFoundDoAllAndReturnPair link.first link.second).2])) ∧
      (¬ ((link.first = link.second ∧
            (2 ≤ (mm.relation_request_by_group_priority_ link.first).length ∨
              (1 ≤ (mm.relation_request_by_group_priority_ link.first).length ∧
                1 ≤ (mm.relation_request_by_group_ link.first).length))) ∨
          (link.first ≠ link.second ∧
            ((1 ≤ (mm.relation_request_by_group_priority_ link.first).length ∧
                1 ≤ (mm.relation_request_by_group_priority_ link.second).length
                  + (mm.relation_request_by_group_ link.second).length) ∨
              (1 ≤ (mm.relation_request_by_group_priority_ link.second).length ∧
                1 ≤ (mm.relation_request_by_group_priority_ link.first).length
                  + (mm.relation_request_by_group_ link.first).length)))) →
        mm.priorityStep return_vec =
          some ({ mm with link_handler_ := mm.link_handler_.Next }, return_vec))) ∧
    (∀ (sort_descending :
        List (alje.MultiSetSize2 × Credit) → List (alje.MultiSetSize2 × Credit)),
      (∃ pairs : List (Taken × Taken),
        pairs.map matchOf = (mm.stepPriority sort_descending).2 ∧
        (∀ p ∈ pairs, p.1.from_priority = true ∨ p.2.from_priority = true) ∧
        (∀ g, (mm.relation_request_by_group_ g).Perm
          ((mm.stepPriority sort_descending).1.relation_request_by_group_ g
            ++ takenFrom (takenOf pairs) g false)) ∧
        (∀ g, (mm.relation_request_by_group_priority_ g).Perm
          ((mm.stepPriority sort_descending).1.relation_request_by_group_priority_ g
            ++ takenFrom (takenOf pairs) g true))) ∧
      (mm.LinksInRange → (∀ l, (sort_descending l).Perm l) →
        (mm.stepPriority sort_descending).1.link_handler_.PointsToAcceptableLink = false)) := by
  constructor
  · intro return_vec link hpt hget
    have h1 := hc link.first
    have h2 := hc link.second
    have htest := priorityTest_iff mm link.first link.second
    unfold MatchMaker.priorityStep
    rw [if_pos hpt, hget]
    simp only
    constructor
    · intro hcond
      rw [if_pos]
      rw [htest]
      omega
    · intro hcond
      rw [if_neg]
      rw [htest]
      omega
  · intro sort_descending
    constructor
    · obtain ⟨⟨pairs, h1, h2, h3⟩, _⟩ :=
        stepPriority_booked sort_descending mm (exact_self mm hc)
      refine ⟨pairs, h1, h2, h3.2.1, ?_⟩
      intro g
      simpa using h3.2.2 g
    · intro hr hsort
      exact priorityStep_none _ _ (stepPriority_complete sort_descending hsort mm hc hr).1

end mm
end rg

namespace rg
namespace mm

theorem C4_priority_pass_condition_witness :
    (fun mm : MatchMaker =>
      mm.CountersMatch ∧ mm.link_handler_.PointsToAcceptableLink = true ∧
      mm.link_handler_.Get = some ⟨0, 0⟩ ∧
      mm.priorityStep [] = some ((mm.MatchFoundDoAllAndReturnPair 0 0).1,
        [] ++ [(mm.MatchFoundDoAllAndReturnPair 0 0).2]) ∧
      (mm.MatchFoundDoAllAndReturnPair 0 0).2 = (⟨1, 5⟩, ⟨2, 7⟩))
    { MatchMaker.new 2 (fun _ _ => 1 / 2) with
      relation_request_by_group_ := fun g => if g = 0 then [⟨2, 7⟩] else [],
      relation_request_by_group_priority_ := fun g => if g = 0 then [⟨1, 5⟩] else [],
      r_ := fun g => if g = 0 then 1 else 0,
      r_p_ := fun g => if g = 0 then 1 else 0 } := by
  have hc : ({ MatchMaker.new 2 (fun _ _ => 1 / 2) with
      relation_request_by_group_ := fun g => if g = 0 then [⟨2, 7⟩] else [],
      relation_request_by_group_priority_ := fun g => if g = 0 then [⟨1, 5⟩] else [],
      r_ := fun g => if g = 0 then 1 else 0,
      r_p_ := fun g => if g = 0 then 1 else 0 } : MatchMaker).CountersMatch := by
    intro g
    by_cases h : g = 0 <;> simp [h]
  have hpt : ({ MatchMaker.new 2 (fun _ _ => 1 / 2) with
      relation_request_by_group_ := fun g => if g = 0 then [⟨2, 7⟩] else [],
      relation_request_by_group_priority_ := fun g => if g = 0 then [⟨1, 5⟩] else [],
      r_ := fun g => if g = 0 then 1 else 0,
      r_p_ := fun g => if g = 0 then 1 else 0 } :
        MatchMaker).link_handler_.PointsToAcceptableLink = true := by
    decide!
  have hget : ({ MatchMaker.new 2 (fun _ _ => 1 / 2) with
      relation_request_by_group_ := fun g => if g = 0 then [⟨2, 7⟩] else [],
      relation_request_by_group_priority_ := fun g => if g = 0 then [⟨1, 5⟩] else [],
      r_ := fun g => if g = 0 then 1 else 0,
      r_p_ := fun g => if g = 0 then 1 else 0 } :
        MatchMaker).link_handler_.Get = some ⟨0, 0⟩ := by
    decide!
  exact ⟨hc, hpt, hget,
    ((C4_priority_pass_condition _ hc).1 [] ⟨0, 0⟩ hpt hget).1
      (Or.inl ⟨rfl, Or.inr ⟨by decide, by decide⟩⟩),
    by decide!⟩

end mm
end rg

namespace rg
namespace mm

/-- C5: the queues after `MatchMaker::Get`, for a matchmaker whose counters
equal the lengths of its queues and whose links join groups of the
matchmaker, with `std::shuffle` and `std::sort` permutations. Both scheduling
loops of the call end because their loop conditions are false, and the
counters and links are again as before the call. The matches returned are made
of requests taken from the queues, and for every group `g`: the non-priority
queue before the call is the new priority queue together with the requests
taken from that queue for the matches; the new non-priority queue is empty
with counter 0; and the priority queue before the call consists of the
requests taken from it for the matches and of dropped requests. Hence, after
a second call of `Get`, with the requests `added` by `AddRelationRequest`
between the two calls, the non-priority queues are empty and the priority
queues hold only requests that were added between the calls: no request
stays queued over two calls. -/
theorem C5_get_queues_after_call
    (shuffle : Nat → List RelationRequest → List RelationRequest)
    (new_matrix : Option GroupMatrix) (GetWeight : Int → ℚ)
    (sort_descending : List (alje.MultiSetSize2 × Credit) → List (alje.MultiSetSize2 × Credit))
    (mm : MatchMaker) (hc : mm.CountersMatch) (hr : mm.LinksInRange)
    (hsh : ∀ g l, (shuffle g l).Perm l) (hsort : ∀ l, (sort_descending l).Perm l) :
    ((((mm.stepShuffle shuffle).stepMatrix new_matrix).stepRobustness
        GetWeight).stepAdd.stepPriority sort_descending).1.link_handler_.PointsToAcceptableLink
      = false ∧
    ((((((mm.stepShuffle shuffle).stepMatrix new_matrix).stepRobustness
        GetWeight).stepAdd.stepPriority sort_descending).1.stepNormal
      ((((mm.stepShuffle shuffle).stepMatrix new_matrix).stepRobustness
        GetWeight).stepAdd.stepPriority sort_descending).2).1.link_handler_.PointsToPositiveLink
      = false) ∧
    (mm.Get shuffle new_matrix GetWeight sort_descending).1.CountersMatch ∧
    (mm.Get shuffle new_matrix GetWeight sort_descending).1.LinksInRange ∧
    (mm.Get shuffle new_matrix GetWeight sort_descending).1.n_groups = mm.n_groups ∧
    (∀ g, g < mm.n_groups →
      (mm.Get shuffle new_matrix GetWeight sort_descending).1.relation_request_by_group_ g = [] ∧
      (mm.Get shuffle new_matrix GetWeight sort_descending).1.r_ g = 0) ∧
    (∃ pairs : List (Taken × Taken),
      pairs.map matchOf = (mm.Get shuffle new_matrix GetWeight sort_descending).2 ∧
      (∀ g, (mm.relation_request_by_group_ g).Perm
        ((mm.Get shuffle new_matrix GetWeight sort_descending).1.relation_request_by_group_priority_ g
          ++ takenFrom (takenOf pairs) g false)) ∧
      (∀ g, g < mm.n_groups → ∃ dropped,
        (mm.relation_request_by_group_priority_ g).Perm
          (takenFrom (takenOf pairs) g true ++ dropped))) ∧
    (∀ (GroupNumber : RelationRequest → Nat) (added : List RelationRequest)
        (shuffle2 : Nat → List RelationRequest → List RelationRequest)
        (new_matrix2 : Option GroupMatrix) (GetWeight2 : Int → ℚ)
        (sort_descending2 :
          List (alje.MultiSetSize2 × Credit) → List (alje.MultiSetSize2 × Credit)),
      (∀ g l, (shuffle2 g l).Perm l) →
      ∀ g, g < mm.n_groups →
        ((added.foldl (MatchMaker.AddRelationRequest GroupNumber)
            (mm.Get shuffle new_matrix GetWeight sort_descending).1).Get
          shuffle2 new_matrix2 GetWeight2 sort_descending2).1.relation_request_by_group_ g = [] ∧
        (∃ pairs2 : List (Taken × Taken),
          pairs2.map matchOf =
            ((added.foldl (MatchMaker.AddRelationRequest GroupNumber)
                (mm.Get shuffle new_matrix GetWeight sort_descending).1).Get
              shuffle2 new_matrix2 GetWeight2 sort_descending2).2 ∧
          (added.filter (fun rr => decide (GroupNumber rr = g))).Perm
            (((added.foldl (MatchMaker.AddRelationRequest GroupNumber)
                (mm.Get shuffle new_matrix GetWeight sort_descending).1).Get
              shuffle2 new_matrix2 GetWeight2
                sort_descending2).1.relation_request_by_group_priority_ g
              ++ takenFrom (takenOf pairs2) g false)) ∧
        (∀ x ∈ ((added.foldl (MatchMaker.AddRelationRequest GroupNumber)
              (mm.Get shuffle new_matrix GetWeight sort_descending).1).Get
            shuffle2 new_matrix2 GetWeight2
              sort_descending2).1.relation_request_by_group_priority_ g,
          x ∈ added)) := by
  obtain ⟨l1, l2, l3⟩ := Get_complete shuffle new_matrix GetWeight sort_descending mm hc hr
    hsh hsort
  obtain ⟨c1, n1, z1, b1⟩ := Get_booked shuffle new_matrix GetWeight sort_descending mm hc hsh
  refine ⟨l1, l2, c1, l3, n1, z1, b1, ?_⟩
  intro GroupNumber added shuffle2 new_matrix2 GetWeight2 sort_descending2 hsh2 g hg
  generalize (mm.Get shuffle new_matrix GetWeight sort_descending).1 = first at c1 n1 z1 ⊢
  obtain ⟨a1, a2, _, _, a5⟩ := AddRelationRequest_fold GroupNumber added first c1
  obtain ⟨_, _, z2, pairs2, p1, p2, _⟩ := Get_booked shuffle2 new_matrix2 GetWeight2
    sort_descending2 _ a1 hsh2
  have hperm := p2 g
  rw [a5 g, (z1 g hg).1, List.nil_append] at hperm
  refine ⟨(z2 g (by rw [a2, n1]; exact hg)).1, ⟨pairs2, p1, hperm⟩, ?_⟩
  intro x hx
  have : x ∈ added.filter (fun rr => decide (GroupNumber rr = g)) :=
    hperm.mem_iff.mpr (List.mem_append_left _ hx)
  exact (List.mem_filter.mp this).1

end mm
end rg

namespace rg
namespace mm

theorem C5_get_queues_after_call_witness :
    (fun mm : MatchMaker =>
      mm.CountersMatch ∧ mm.LinksInRange ∧
      (∀ g l, ((fun _ l => l : Nat → List RelationRequest → List RelationRequest) g l).Perm l) ∧
      (∀ l : List (alje.MultiSetSize2 × Credit),
        (List.insertionSort (fun p q => p.2 ≥ q.2) l).Perm l) ∧
      (mm.Get (fun _ l => l) none (fun _ => 1 / 100)
        (List.insertionSort (fun p q => p.2 ≥ q.2))).2 = [(⟨4, 9⟩, ⟨3, 4⟩)] ∧
      (mm.Get (fun _ l => l) none (fun _ => 1 / 100)
        (List.insertionSort (fun p q => p.2 ≥ q.2))).1.relation_request_by_group_priority_ 0
          = [⟨2, 7⟩] ∧
      (mm.Get (fun _ l => l) none (fun _ => 1 / 100)
        (List.insertionSort (fun p q => p.2 ≥ q.2))).1.relation_request_by_group_priority_ 1
          = [⟨1, 5⟩] ∧
      (∀ g, g < mm.n_groups →
        (mm.Get (fun _ l => l) none (fun _ => 1 / 100)
          (List.insertionSort (fun p q => p.2 ≥ q.2))).1.relation_request_by_group_ g = [] ∧
        (mm.Get (fun _ l => l) none (fun _ => 1 / 100)
          (List.insertionSort (fun p q => p.2 ≥ q.2))).1.r_ g = 0) ∧
      (∀ g, g < mm.n_groups →
        ∀ x ∈ (((mm.Get (fun _ l => l) none (fun _ => 1 / 100)
            (List.insertionSort (fun p q => p.2 ≥ q.2))).1.Get (fun _ l => l) none
              (fun _ => 1 / 100)
              (List.insertionSort (fun p q => p.2 ≥ q.2))).1.relation_request_by_group_priority_
                g),
          x ∈ ([] : List RelationRequest)))
    ([(⟨1, 5⟩ : RelationRequest), ⟨2, 7⟩, ⟨3, 4⟩, ⟨4, 9⟩].foldl
      (MatchMaker.AddRelationRequest (fun rr => (rr.person_id % 2).toNat))
      (MatchMaker.new 2 (fun _ _ => 1 / 2))) := by
  have hc := (AddRelationRequest_fold (fun rr => (rr.person_id % 2).toNat)
    [(⟨1, 5⟩ : RelationRequest), ⟨2, 7⟩, ⟨3, 4⟩, ⟨4, 9⟩]
    (MatchMaker.new 2 (fun _ _ => 1 / 2)) (new_counters 2 (fun _ _ => 1 / 2))).1
  have hr := AddRelationRequest_fold_links (fun rr => (rr.person_id % 2).toNat)
    [(⟨1, 5⟩ : RelationRequest), ⟨2, 7⟩, ⟨3, 4⟩, ⟨4, 9⟩]
    (MatchMaker.new 2 (fun _ _ => 1 / 2)) (new_counters 2 (fun _ _ => 1 / 2))
    (new_links 2 (fun _ _ => 1 / 2))
  have hsh : ∀ (g : Nat) (l : List RelationRequest),
      ((fun _ l => l : Nat → List RelationRequest → List RelationRequest) g l).Perm l :=
    fun _ l => List.Perm.refl l
  have hsort : ∀ l : List (alje.MultiSetSize2 × Credit),
      (List.insertionSort (fun p q => p.2 ≥ q.2) l).Perm l :=
    fun l => List.perm_insertionSort _ l
  have h := C5_get_queues_after_call (fun _ l => l) none (fun _ => 1 / 100)
    (List.insertionSort (fun p q => p.2 ≥ q.2)) _ hc hr hsh hsort
  refine ⟨hc, hr, hsh, hsort, by decide!, by decide!, by decide!, h.2.2.2.2.2.1, ?_⟩
  intro g hg
  exact (h.2.2.2.2.2.2.2 (fun rr => (rr.person_id % 2).toNat) [] (fun _ l => l) none
    (fun _ => 1 / 100) (List.insertionSort (fun p q => p.2 ≥ q.2)) hsh g hg).2.2

end mm
end rg

namespace tr

theorem Layer.areaFrom_nonneg (l : List Coordinate) (T : ℚ) (hy : ∀ c ∈ l, 0 ≤ c.y) :
    0 ≤ Layer.areaFrom l T := by
  induction l with
  | nil => simp [Layer.areaFrom]
  | cons c rest ih =>
    cases rest with
    | nil =>
      simp only [Layer.areaFrom]
      exact mul_nonneg (hy c (by simp)) (le_max_left _ _)
    | cons d rest =>
      simp only [Layer.areaFrom, segLen]
      have h1 := mul_nonneg (hy c (by simp)) (le_max_left 0 (min d.x T - max c.x 0))
      have h2 := ih (fun c hc => hy c (List.mem_cons_of_mem _ hc))
      linarith

theorem Layer.sorted_le_last (l : List Coordinate) :
    ∀ (c : Coordinate), Layer.Sorted (c :: l) → c.x ≤ (l.getLastD c).x := by
  induction l with
  | nil => intro c _; exact le_rfl
  | cons d rest ih =>
    intro c hs
    obtain ⟨hcd, hs2⟩ := Layer.sorted_cons hs
    rw [List.getLastD_cons]
    exact le_trans hcd (ih d hs2)

/-- The walk ends with rate 0 exactly when the last `y` is 0 and the draw
covers the area up to the last `x`. -/
theorem GetTransmissionTime.walk_rate_zero (l : List Coordinate) :
    ∀ (prev : Coordinate) (val t : ℚ) (r : ℚ × ℚ × ℚ), Layer.Sorted (prev :: l) →
      (∀ c ∈ prev :: l, 0 ≤ c.y) → 0 ≤ val → t = max prev.x 0 →
      GetTransmissionTime.walk l val t prev.y = r →
      (r.2.2 = 0 ↔ ((l.getLastD prev).y = 0 ∧
        Layer.areaFrom (prev :: l) (l.getLastD prev).x ≤ val)) := by
  induction l with
  | nil =>
    intro prev val t r _ _ hval _ hr
    simp only [GetTransmissionTime.walk] at hr
    subst hr
    simp only [List.getLastD_nil, Layer.areaFrom]
    have h0 : max 0 (prev.x - max prev.x 0) = 0 :=
      max_eq_left (by linarith [le_max_left prev.x 0])
    rw [h0, mul_zero]
    exact ⟨fun h => ⟨h, hval⟩, fun h => h.1⟩
  | cons c rest ih =>
    intro prev val t r hs hy hval ht hr
    obtain ⟨hpc, hs2⟩ := Layer.sorted_cons hs
    have hp : 0 ≤ prev.y := hy prev (by simp)
    have hy2 : ∀ d ∈ c :: rest, 0 ≤ d.y := fun d hd => hy d (List.mem_cons_of_mem _ hd)
    have hlast : c.x ≤ (rest.getLastD c).x := Layer.sorted_le_last rest c hs2
    rw [List.getLastD_cons]
    simp only [Layer.areaFrom, segLen]
    by_cases hc : c.x ≤ 0
    · have hp0 : t = 0 := by rw [ht]; exact max_eq_right (le_trans hpc hc)
      have hc0 : t = max c.x 0 := by rw [hp0]; exact (max_eq_right hc).symm
      have hw : GetTransmissionTime.walk rest val t c.y = r := by
        rw [← hr]; simp [GetTransmissionTime.walk, hc]
      rw [ih c val t r hs2 hy2 hval hc0 hw]
      have hmin : min c.x (rest.getLastD c).x - max prev.x 0 ≤ 0 := by
        have := min_le_left c.x (rest.getLastD c).x
        rw [← ht, hp0]; linarith
      rw [max_eq_left hmin, mul_zero, zero_add]
    · push_neg at hc
      have hc0 : c.x = max c.x 0 := (max_eq_left hc.le).symm
      have htc : t ≤ c.x := by rw [ht]; exact max_le hpc hc.le
      have hseg : max 0 (min c.x (rest.getLastD c).x - max prev.x 0) = c.x - t := by
        rw [min_eq_left hlast, ← ht, max_eq_right (by linarith)]
      rw [hseg]
      by_cases hv : val - (c.x - t) * prev.y < 0
      · have hw : r = (val - (c.x - t) * prev.y + (c.x - t) * prev.y, t, prev.y) := by
          rw [← hr]; simp [GetTransmissionTime.walk, not_le.mpr hc, hv]
        subst hw
        have hnn := Layer.areaFrom_nonneg (c :: rest) (rest.getLastD c).x hy2
        constructor
        · intro h0
          simp only at h0
          rw [h0] at hv
          linarith
        · intro h
          linarith [h.2]
      · push_neg at hv
        have hw : GetTransmissionTime.walk rest (val - (c.x - t) * prev.y) c.x c.y = r := by
          rw [← hr]; simp [GetTransmissionTime.walk, not_le.mpr hc, not_lt.mpr hv]
        rw [ih c _ c.x r hs2 hy2 hv hc0 hw]
        constructor
        · intro h; exact ⟨h.1, by linarith [h.2]⟩
        · intro h; exact ⟨h.1, by linarith [h.2]⟩

theorem Layer.area_eq_areaFrom (c0 : Coordinate) (rest : List Coordinate) (T : ℚ) :
    Layer.area (c0 :: rest) T = Layer.areaFrom (⟨min c0.x 0, c0.y⟩ :: c0 :: rest) T := by
  simp only [Layer.area, Layer.areaFrom, segLen]
  rw [max_eq_right (min_le_right c0.x 0), sub_zero]

/-- C11: for a non-empty layer with non-decreasing x and non-negative y, and a
draw `e ≥ 0`, `GetTransmissionTime::Get` returns `-1` exactly when the walk
ends with rate 0, and that is exactly when the last y of the layer is 0 and
`e` is at least the integral of the layer between time 0 and the last x. The
layer `[{0,0}]` gives `-1` for every draw; the layer `[{0,2},{10,0}]` gives
`-1` for every draw `e ≥ 20` and `e / 2`, a value in `[0, 10]`, for every draw
`0 ≤ e < 20`. -/
theorem C11_get_returns_minus_one (layer : Layer) (e : ℚ)
    (hne : layer ≠ []) (hs : Layer.Sorted layer) (hy : ∀ c ∈ layer, 0 ≤ c.y)
    (he : 0 ≤ e) :
    (GetTransmissionTime.Get layer e = some (-1) ↔
      (GetTransmissionTime.walk layer e 0 (layer.headD default).y).2.2 = 0) ∧
    (GetTransmissionTime.Get layer e = some (-1) ↔
      ((layer.getLastD default).y = 0 ∧
        Layer.area layer (layer.getLastD default).x ≤ e)) ∧
    (∀ d : ℚ, GetTransmissionTime.Get [⟨0, 0⟩] d = some (-1)) ∧
    (∀ d : ℚ, 20 ≤ d → GetTransmissionTime.Get [⟨0, 2⟩, ⟨10, 0⟩] d = some (-1)) ∧
    (∀ d : ℚ, 0 ≤ d → d < 20 →
      GetTransmissionTime.Get [⟨0, 2⟩, ⟨10, 0⟩] d = some (d / 2) ∧ 0 ≤ d / 2 ∧ d / 2 ≤ 10) := by
  have hgen : (GetTransmissionTime.Get layer e = some (-1) ↔
      (GetTransmissionTime.walk layer e 0 (layer.headD default).y).2.2 = 0) ∧
      ((GetTransmissionTime.walk layer e 0 (layer.headD default).y).2.2 = 0 ↔
        ((layer.getLastD default).y = 0 ∧
          Layer.area layer (layer.getLastD default).x ≤ e)) := by
    cases layer with
    | nil => exact absurd rfl hne
    | cons c0 rest =>
      have hs1 : Layer.Sorted ((⟨min c0.x 0, c0.y⟩ : Coordinate) :: c0 :: rest) := by
        simp only [Layer.Sorted, List.chain'_cons] at hs ⊢
        exact ⟨min_le_left _ _, hs⟩
      have hy1 : ∀ c ∈ (⟨min c0.x 0, c0.y⟩ : Coordinate) :: c0 :: rest, 0 ≤ c.y := by
        intro c hc
        rcases List.mem_cons.mp hc with rfl | hc
        · exact hy c0 (by simp)
        · exact hy c hc
      have ht : (0 : ℚ) = max (⟨min c0.x 0, c0.y⟩ : Coordinate).x 0 :=
        (max_eq_right (min_le_right c0.x 0)).symm
      simp only [GetTransmissionTime.Get, List.headD_cons]
      generalize hr : GetTransmissionTime.walk (c0 :: rest) e 0 c0.y = r
      obtain ⟨h1, h2, h3, _⟩ := GetTransmissionTime.walk_spec (c0 :: rest) ⟨min c0.x 0, c0.y⟩
        e 0 r hs1 hy1 he ht hr
      have hz := GetTransmissionTime.walk_rate_zero (c0 :: rest) ⟨min c0.x 0, c0.y⟩
        e 0 r hs1 hy1 he ht hr
      rw [← Layer.area_eq_areaFrom, List.getLastD_cons] at hz
      constructor
      · by_cases h0 : r.2.2 = 0
        · simp [h0]
        · simp only [h0, if_false, Option.some.injEq, iff_false]
          have := div_nonneg h1 h3
          intro h
          linarith
      · rw [List.getLastD_cons]
        exact hz
  refine ⟨hgen.1, hgen.1.trans hgen.2, ?_, ?_, ?_⟩
  · intro d
    simp [GetTransmissionTime.Get, GetTransmissionTime.walk]
  · intro d hd
    have h1 : ¬ d < 10 * 2 := by linarith
    have h10 : ¬ (10 : ℚ) ≤ 0 := by norm_num
    simp [GetTransmissionTime.Get, GetTransmissionTime.walk, h1, h10]
  · intro d hd0 hd
    have h1 : d < 10 * 2 := by linarith
    have h10 : ¬ (10 : ℚ) ≤ 0 := by norm_num
    refine ⟨?_, by linarith, by linarith⟩
    simp [GetTransmissionTime.Get, GetTransmissionTime.walk, h1, h10]

/-- Witness for C11: the layer `[{0,2},{10,0}]` with the draw `e = 25`. -/
theorem C11_get_returns_minus_one_witness :
    ([⟨0, 2⟩, ⟨10, 0⟩] : Layer) ≠ [] ∧ Layer.Sorted [⟨0, 2⟩, ⟨10, 0⟩] ∧
    (∀ c ∈ ([⟨0, 2⟩, ⟨10, 0⟩] : Layer), 0 ≤ c.y) ∧ (0 : ℚ) ≤ 25 ∧
    (GetTransmissionTime.Get [⟨0, 2⟩, ⟨10, 0⟩] 25 = some (-1) ↔
      ((([⟨0, 2⟩, ⟨10, 0⟩] : Layer).getLastD default).y = 0 ∧
        Layer.area [⟨0, 2⟩, ⟨10, 0⟩] (([⟨0, 2⟩, ⟨10, 0⟩] : Layer).getLastD default).x ≤ 25)) :=
  ⟨by simp, by simp [Layer.Sorted], by simp, by norm_num,
    (C11_get_returns_minus_one [⟨0, 2⟩, ⟨10, 0⟩] 25 (by simp)
      (by simp [Layer.Sorted]) (by simp) (by norm_num)).2.1⟩

end tr

namespace tr

theorem doubleMax_pos : (0 : ℚ) < doubleMax := by
  unfold doubleMax
  norm_num

/-- The product layer of two constant layers starting at 0. -/
theorem CreateMultiplicationLayer_constants (u b : ℚ) :
    CreateMultiplicationLayer [[⟨0, u⟩], [⟨0, b⟩]] = [⟨0, 1 * u * b⟩] := by
  simp [CreateMultiplicationLayer, lowestXVal, GetMultiple, tChange, unique,
    multiplicationPoints, doubleMax_pos]

theorem GetTransmissionTime.Get_constant (rate e : ℚ) :
    GetTransmissionTime.Get [⟨0, rate⟩] e = some (if rate = 0 then -1 else e / rate) := by
  by_cases h : rate = 0
  · simp [GetTransmissionTime.Get, GetTransmissionTime.walk, h]
  · simp [GetTransmissionTime.Get, GetTransmissionTime.walk, h]

end tr

namespace tr

/-- C12: `Transmission::GetGNTransmission` for a `Transmission` built from any
parameters. Write `lambda = (1 - condom_use) * sex_frequency * base_rate` of
the gonorrhea parameters and `e` for the unit-exponential draw. Whenever the
assertions of the call hold (the infected person has gonorrhea since a time
not after `simulation_time`, the susceptible person has none, and
`AssertCorrect` accepts the two constant layers and their product layer), the
call returns `e / lambda` when `lambda > 0` and `-1` when `lambda = 0`; in
every case the call either fails an assertion or returns the value
`if lambda = 0 then -1 else e / lambda`, which has no dependence on the
relation, the persons and the simulation time. -/
theorem C12_gn_transmission_time (AssertCorrect : Layer → Bool)
    (sexual_behavior : parameters.TransmissionSexualBehavior)
    (hiv_parameters : parameters.TransmissionHIV)
    (gn_parameters : parameters.TransmissionGonorrhea)
    (relation : sv.Relation) (infected_person susceptible_person : sv.Person)
    (simulation_time : Int) (e : ℚ) :
    ((infected_person.gonorrhea_status.infected = true ∧
        susceptible_person.gonorrhea_status.infected = false ∧
        simulation_time - infected_person.gonorrhea_status.t_infected ≥ 0 ∧
        AssertCorrect [⟨0, gn_parameters.base_rate⟩] = true ∧
        AssertCorrect [⟨0, (1 - sexual_behavior.condom_use) * sexual_behavior.sex_frequency⟩]
          = true ∧
        AssertCorrect [⟨0, 1 * ((1 - sexual_behavior.condom_use)
          * sexual_behavior.sex_frequency) * gn_parameters.base_rate⟩] = true) →
      (0 < (1 - sexual_behavior.condom_use) * sexual_behavior.sex_frequency
            * gn_parameters.base_rate →
        (Transmission.new sexual_behavior hiv_parameters gn_parameters).GetGNTransmission
            AssertCorrect relation infected_person susceptible_person simulation_time e
          = some (e / ((1 - sexual_behavior.condom_use) * sexual_behavior.sex_frequency
            * gn_parameters.base_rate))) ∧
      ((1 - sexual_behavior.condom_use) * sexual_behavior.sex_frequency
            * gn_parameters.base_rate = 0 →
        (Transmission.new sexual_behavior hiv_parameters gn_parameters).GetGNTransmission
            AssertCorrect relation infected_person susceptible_person simulation_time e
          = some (-1))) ∧
    ((Transmission.new sexual_behavior hiv_parameters gn_parameters).GetGNTransmission
          AssertCorrect relation infected_person susceptible_person simulation_time e = none ∨
      (Transmission.new sexual_behavior hiv_parameters gn_parameters).GetGNTransmission
          AssertCorrect relation infected_person susceptible_person simulation_time e
        = some (if (1 - sexual_behavior.condom_use) * sexual_behavior.sex_frequency
              * gn_parameters.base_rate = 0 then -1
            else e / ((1 - sexual_behavior.condom_use) * sexual_behavior.sex_frequency
              * gn_parameters.base_rate))) := by
  have hval : ∀ h1 : AssertCorrect [⟨0, gn_parameters.base_rate⟩] = true,
      ∀ h2 : AssertCorrect
        [⟨0, (1 - sexual_behavior.condom_use) * sexual_behavior.sex_frequency⟩] = true,
      ∀ h3 : AssertCorrect [⟨0, 1 * ((1 - sexual_behavior.condom_use)
          * sexual_behavior.sex_frequency) * gn_parameters.base_rate⟩] = true,
      (Transmission.new sexual_behavior hiv_parameters
          gn_parameters).GetTransmissionGivenSTILayer AssertCorrect relation infected_person
          susceptible_person simulation_time [⟨0, gn_parameters.base_rate⟩] e
        = some (if (1 - sexual_behavior.condom_use) * sexual_behavior.sex_frequency
              * gn_parameters.base_rate = 0 then -1
            else e / ((1 - sexual_behavior.condom_use) * sexual_behavior.sex_frequency
              * gn_parameters.base_rate)) := by
    intro h1 h2 h3
    have h4 := h3
    rw [one_mul] at h4
    simp only [Transmission.GetTransmissionGivenSTILayer, Transmission.new,
      SexualBehaviorLayer.new, SexualBehaviorLayer.Get, CreateMultiplicationLayer_constants,
      h1, h2, h4, if_true, GetTransmissionTime.Get_constant, one_mul]
  constructor
  · rintro ⟨a1, a2, a3, h1, h2, h3⟩
    have hG : (Transmission.new sexual_behavior hiv_parameters gn_parameters).GetGNTransmission
          AssertCorrect relation infected_person susceptible_person simulation_time e
        = some (if (1 - sexual_behavior.condom_use) * sexual_behavior.sex_frequency
              * gn_parameters.base_rate = 0 then -1
            else e / ((1 - sexual_behavior.condom_use) * sexual_behavior.sex_frequency
              * gn_parameters.base_rate)) := by
      rw [← hval h1 h2 h3]
      simp only [Transmission.GetGNTransmission, GNLayer.Get, Transmission.new, GNLayer.new,
        a1, a2, a3, if_true]
    rw [hG]
    constructor
    · intro hpos
      rw [if_neg (ne_of_gt hpos)]
    · intro h0
      rw [if_pos h0]
  · by_cases hgn : (GNLayer.new gn_parameters).Get relation infected_person
        susceptible_person simulation_time = none
    · left
      simp only [Transmission.GetGNTransmission, Transmission.new, hgn]
    · have hsome : (GNLayer.new gn_parameters).Get relation infected_person
          susceptible_person simulation_time = some [⟨0, gn_parameters.base_rate⟩] := by
        unfold GNLayer.Get at hgn ⊢
        split_ifs at hgn ⊢ <;> simp_all [GNLayer.new]
      simp only [Transmission.GetGNTransmission]
      have hl : (Transmission.new sexual_behavior hiv_parameters gn_parameters).gn_layer_
          = GNLayer.new gn_parameters := rfl
      rw [hl, hsome]
      simp only
      by_cases h1 : AssertCorrect [⟨0, gn_parameters.base_rate⟩] = true
      · by_cases h2 : AssertCorrect
            [⟨0, (1 - sexual_behavior.condom_use) * sexual_behavior.sex_frequency⟩] = true
        · by_cases h3 : AssertCorrect [⟨0, 1 * ((1 - sexual_behavior.condom_use)
              * sexual_behavior.sex_frequency) * gn_parameters.base_rate⟩] = true
          · right
            exact hval h1 h2 h3
          · left
            simp only [Transmission.GetTransmissionGivenSTILayer, Transmission.new,
              SexualBehaviorLayer.new, SexualBehaviorLayer.Get,
              CreateMultiplicationLayer_constants, h1, h2, h3, if_true]
            simp
        · left
          simp only [Transmission.GetTransmissionGivenSTILayer, Transmission.new,
            SexualBehaviorLayer.new, SexualBehaviorLayer.Get, h1, h2, if_true]
          simp
      · left
        simp only [Transmission.GetTransmissionGivenSTILayer, h1]
        simp

end tr

namespace tr

/-- Witness for C12: the default sexual-behaviour and gonorrhea parameters
(`lambda = 1/25`), the draw `e = 2`, a person infected at day 0 and a
susceptible partner at day 7. -/
theorem C12_gn_transmission_time_witness :
    (fun (sb : parameters.TransmissionSexualBehavior) (gn : parameters.TransmissionGonorrhea)
        (hiv : parameters.TransmissionHIV) (infected susceptible : sv.Person) =>
      infected.gonorrhea_status.infected = true ∧
      susceptible.gonorrhea_status.infected = false ∧
      (7 : Int) - infected.gonorrhea_status.t_infected ≥ 0 ∧
      0 < (1 - sb.condom_use) * sb.sex_frequency * gn.base_rate ∧
      (Transmission.new sb hiv gn).GetGNTransmission (fun l => !l.isEmpty) ⟨1, 1, 2, 0, 100⟩
          infected susceptible 7 2
        = some (2 / ((1 - sb.condom_use) * sb.sex_frequency * gn.base_rate)) ∧
      (2 : ℚ) / ((1 - sb.condom_use) * sb.sex_frequency * gn.base_rate) = 50)
    ⟨1 / 3, 3 / 5⟩ ⟨3 / 10, 3 / 5, 45, 200⟩
    ⟨1 / 200, [[0, 5], [400, 9 / 10], [3650, 11 / 10]], 3 / 2, 3 / 2⟩
    ⟨1, 0, ⟨false, -1⟩, ⟨true, 0, false⟩⟩ ⟨2, 0, ⟨false, -1⟩, ⟨false, -1, false⟩⟩ :=
  ⟨rfl, rfl, by decide, by norm_num,
    ((C12_gn_transmission_time (fun l => !l.isEmpty) ⟨1 / 3, 3 / 5⟩
      ⟨1 / 200, [[0, 5], [400, 9 / 10], [3650, 11 / 10]], 3 / 2, 3 / 2⟩
      ⟨3 / 10, 3 / 5, 45, 200⟩ ⟨1, 1, 2, 0, 100⟩
      ⟨1, 0, ⟨false, -1⟩, ⟨true, 0, false⟩⟩ ⟨2, 0, ⟨false, -1⟩, ⟨false, -1, false⟩⟩ 7 2).1
      ⟨rfl, rfl, by decide, rfl, rfl, rfl⟩).1 (by norm_num),
    by norm_num⟩

end tr

namespace tr

/-- C13: `HIVLayer::Get` multiplies by `hiv_pos_has_gn_multiplier_` for the
susceptible partner too (line 67); `hiv_neg_has_gn_multiplier_` is stored by
the constructor and never read. With base rate 1/200, the default infectivity
profile, `hiv_pos_has_gonorrhea_multiplier = 2` and
`hiv_neg_has_gonorrhea_multiplier = 3`, an HIV-positive partner infected at
day 0 and the call at day 50: when only the susceptible partner has gonorrhea
every y is infectivity * base_rate * 2 (not * 3), and when both partners have
gonorrhea every y is infectivity * base_rate * 4 (not * 6). -/
theorem C13_hiv_layer_susceptible_multiplier :
    (HIVLayer.new ⟨1 / 200, [[0, 5], [400, 9 / 10], [3650, 11 / 10]], 2, 3⟩).Get
        ⟨1, 1, 2, 0, 100⟩ ⟨1, 0, ⟨true, 0⟩, ⟨false, -1, false⟩⟩
        ⟨2, 0, ⟨false, -1⟩, ⟨true, 10, false⟩⟩ 50
      = some [⟨-50, 5 * (1 / 200) * 2⟩, ⟨350, 9 / 10 * (1 / 200) * 2⟩,
          ⟨3600, 11 / 10 * (1 / 200) * 2⟩] ∧
    (HIVLayer.new ⟨1 / 200, [[0, 5], [400, 9 / 10], [3650, 11 / 10]], 2, 3⟩).Get
        ⟨1, 1, 2, 0, 100⟩ ⟨1, 0, ⟨true, 0⟩, ⟨false, -1, false⟩⟩
        ⟨2, 0, ⟨false, -1⟩, ⟨true, 10, false⟩⟩ 50
      ≠ some [⟨-50, 5 * (1 / 200) * 3⟩, ⟨350, 9 / 10 * (1 / 200) * 3⟩,
          ⟨3600, 11 / 10 * (1 / 200) * 3⟩] ∧
    (HIVLayer.new ⟨1 / 200, [[0, 5], [400, 9 / 10], [3650, 11 / 10]], 2, 3⟩).Get
        ⟨1, 1, 2, 0, 100⟩ ⟨1, 0, ⟨true, 0⟩, ⟨true, 20, false⟩⟩
        ⟨2, 0, ⟨false, -1⟩, ⟨true, 10, false⟩⟩ 50
      = some [⟨-50, 5 * (1 / 200) * (2 * 2)⟩, ⟨350, 9 / 10 * (1 / 200) * (2 * 2)⟩,
          ⟨3600, 11 / 10 * (1 / 200) * (2 * 2)⟩] ∧
    (HIVLayer.new ⟨1 / 200, [[0, 5], [400, 9 / 10], [3650, 11 / 10]], 2, 3⟩).Get
        ⟨1, 1, 2, 0, 100⟩ ⟨1, 0, ⟨true, 0⟩, ⟨true, 20, false⟩⟩
        ⟨2, 0, ⟨false, -1⟩, ⟨true, 10, false⟩⟩ 50
      ≠ some [⟨-50, 5 * (1 / 200) * (2 * 3)⟩, ⟨350, 9 / 10 * (1 / 200) * (2 * 3)⟩,
          ⟨3600, 11 / 10 * (1 / 200) * (2 * 3)⟩] := by
  refine ⟨by decide!, by decide!, by decide!, by decide!⟩

end tr

namespace tr

theorem NotifyChannel2_keeps_all (state : sv.State) (number extra_info : Int)
    (pending : List ev.GNTransmission)
    (h : ∀ event ∈ pending, event.channel2 = number →
      event.Notify state 2 number extra_info = some false) :
    alje.EventManager.NotifyChannel2 (fun event : ev.GNTransmission => event.channel2)
      (fun event s track n code => (event.Notify s track n code).map (fun b => (s, b)))
      pending state number extra_info = some (state, pending) := by
  induction pending with
  | nil => rfl
  | cons event rest ih =>
    have ih1 := ih (fun ev hev => h ev (List.mem_cons_of_mem _ hev))
    by_cases ht : event.channel2 = number
    · simp only [alje.EventManager.NotifyChannel2, ht, if_true]
      rw [h event (List.mem_cons_self _ _) ht]
      simp only [Option.map_some']
      rw [ih1]
      simp
    · simp only [alje.EventManager.NotifyChannel2, ht, if_false]
      rw [ih1]

/-- C14: `GNTransmission::Notify`, called with the relation id of the event
(its assertion), returns `true` for the code `END_DUE_TO_DEATH` in every
state, returns `true` for `CANCEL_EV_GN_TRANSMISSION` exactly when
`state.current_priority != GN_TRANSMISSION`, and returns `false` for every
other code, `CANCEL_EV_HIV_TRANSMISSION` included. Hence a channel-2
notification with `CANCEL_EV_GN_TRANSMISSION` sent while
`current_priority = GN_TRANSMISSION` leaves every pending gonorrhea
transmission event (built by the constructor) pending. -/
theorem C14_gn_transmission_notify (self : ev.GNTransmission) (state : sv.State)
    (track : Int) :
    self.Notify state track self.relation_id sv.relation_event_codes.END_DUE_TO_DEATH
      = some true ∧
    (self.Notify state track self.relation_id
        sv.relation_event_codes.CANCEL_EV_GN_TRANSMISSION
      = some (decide (state.current_priority ≠ sv.priority.GN_TRANSMISSION))) ∧
    (∀ extra_info : Int, extra_info ≠ sv.relation_event_codes.END_DUE_TO_DEATH →
      extra_info ≠ sv.relation_event_codes.CANCEL_EV_GN_TRANSMISSION →
      self.Notify state track self.relation_id extra_info = some false) ∧
    self.Notify state track self.relation_id
      sv.relation_event_codes.CANCEL_EV_HIV_TRANSMISSION = some false ∧
    (state.current_priority = sv.priority.GN_TRANSMISSION →
      ∀ (number : Int) (events : List (Int × Int × Int)),
        alje.EventManager.NotifyChannel2 (fun event : ev.GNTransmission => event.channel2)
          (fun event s tr n code => (event.Notify s tr n code).map (fun b => (s, b)))
          (events.map (fun a => ev.GNTransmission.new a.1 a.2.1 a.2.2)) state number
          sv.relation_event_codes.CANCEL_EV_GN_TRANSMISSION
        = some (state, events.map (fun a => ev.GNTransmission.new a.1 a.2.1 a.2.2))) := by
  refine ⟨?_, ?_, ?_, ?_, ?_⟩
  · simp [ev.GNTransmission.Notify]
  · by_cases h : state.current_priority = sv.priority.GN_TRANSMISSION
    · simp [ev.GNTransmission.Notify, h, sv.relation_event_codes.END_DUE_TO_DEATH,
        sv.relation_event_codes.CANCEL_EV_GN_TRANSMISSION]
    · simp [ev.GNTransmission.Notify, h, sv.relation_event_codes.END_DUE_TO_DEATH,
        sv.relation_event_codes.CANCEL_EV_GN_TRANSMISSION]
  · intro extra_info h1 h2
    simp [ev.GNTransmission.Notify, h1, h2]
  · simp [ev.GNTransmission.Notify, sv.relation_event_codes.END_DUE_TO_DEATH,
      sv.relation_event_codes.CANCEL_EV_GN_TRANSMISSION,
      sv.relation_event_codes.CANCEL_EV_HIV_TRANSMISSION]
  · intro hp number events
    apply NotifyChannel2_keeps_all
    intro event hev ht
    obtain ⟨a, _, rfl⟩ := List.mem_map.mp hev
    simp only [ev.GNTransmission.new] at ht
    simp [ev.GNTransmission.Notify, ev.GNTransmission.new, ht, hp,
      sv.relation_event_codes.END_DUE_TO_DEATH,
      sv.relation_event_codes.CANCEL_EV_GN_TRANSMISSION]

end tr

namespace tr

/-- Witness for C14: the event of relation 7 and a state that is executing
the class `GN_TRANSMISSION`. -/
theorem C14_gn_transmission_notify_witness :
    (fun (self : ev.GNTransmission) (state : sv.State) =>
      state.current_priority = sv.priority.GN_TRANSMISSION ∧
      (5 : Int) ≠ sv.relation_event_codes.END_DUE_TO_DEATH ∧
      (5 : Int) ≠ sv.relation_event_codes.CANCEL_EV_GN_TRANSMISSION ∧
      self.Notify state 2 self.relation_id 5 = some false ∧
      alje.EventManager.NotifyChannel2 (fun event : ev.GNTransmission => event.channel2)
          (fun event s tr n code => (event.Notify s tr n code).map (fun b => (s, b)))
          ([((7 : Int), (1 : Int), (60 : Int)), (8, 2, 70)].map
            (fun a => ev.GNTransmission.new a.1 a.2.1 a.2.2)) state 7
          sv.relation_event_codes.CANCEL_EV_GN_TRANSMISSION
        = some (state, [((7 : Int), (1 : Int), (60 : Int)), (8, 2, 70)].map
            (fun a => ev.GNTransmission.new a.1 a.2.1 a.2.2)))
    (ev.GNTransmission.new 7 1 60) ⟨50, 6, fun _ => none, fun _ _ _ _ => -1⟩ :=
  ⟨rfl, by decide, by decide,
    (C14_gn_transmission_notify (ev.GNTransmission.new 7 1 60)
      ⟨50, 6, fun _ => none, fun _ _ _ _ => -1⟩ 2).2.2.1 5 (by decide) (by decide),
    (C14_gn_transmission_notify (ev.GNTransmission.new 7 1 60)
      ⟨50, 6, fun _ => none, fun _ _ _ _ => -1⟩ 2).2.2.2.2 rfl 7 _⟩

end tr

namespace rg

theorem any_relation_id_iff (l : List sv.Relation) (id : Int) :
    l.any (fun r => r.relation_id == id) = true ↔ ∃ r ∈ l, r.relation_id = id := by
  simp [List.any_eq_true]

/-- Erasing the relation found for `id` from a list with unique ids leaves
exactly the relations with another id. -/
theorem eraseP_relation_id (l : List sv.Relation) (id : Int)
    (hn : (l.map (fun r => r.relation_id)).Nodup) :
    l.eraseP (fun r => r.relation_id == id) = l.filter (fun r => r.relation_id != id) := by
  induction l with
  | nil => rfl
  | cons a l ih =>
    rw [List.map_cons, List.nodup_cons] at hn
    by_cases h : a.relation_id = id
    · have hf : l.filter (fun r => r.relation_id != id) = l := by
        rw [List.filter_eq_self]
        intro r hr
        have : r.relation_id ≠ id := by
          intro e
          apply hn.1
          rw [h, ← e]
          exact List.mem_map_of_mem _ hr
        simp [this]
      simp [List.eraseP_cons, List.filter_cons, h, hf]
    · have := ih hn.2
      simp [List.eraseP_cons, List.filter_cons, h, this]

theorem NotifyChannel2_skips (relation_list : sv.RelationList) (number extra_info : Int)
    (pending : List ev.EndRelation) (h : ∀ event ∈ pending, event.channel2 ≠ number) :
    alje.EventManager.NotifyChannel2 (fun event : ev.EndRelation => event.channel2)
      (fun event s track n code => event.Notify s track n code)
      pending relation_list number extra_info = some (relation_list, pending) := by
  induction pending with
  | nil => rfl
  | cons event rest ih =>
    have ih1 := ih (fun ev hev => h ev (List.mem_cons_of_mem _ hev))
    have ht := h event (List.mem_cons_self _ _)
    simp only [alje.EventManager.NotifyChannel2, ht, if_false]
    rw [ih1]

end rg

namespace rg

theorem NotifyChannel2_append_skips {S : Type}
    (notify : ev.EndRelation → S → Int → Int → Int → Option (S × Bool))
    (state : S) (number extra_info : Int)
    (pre rest : List ev.EndRelation) (h : ∀ event ∈ pre, event.channel2 ≠ number) :
    alje.EventManager.NotifyChannel2 (fun event : ev.EndRelation => event.channel2) notify
      (pre ++ rest) state number extra_info =
    (alje.EventManager.NotifyChannel2 (fun event : ev.EndRelation => event.channel2) notify
      rest state number extra_info).map (fun r => (r.1, pre ++ r.2)) := by
  induction pre with
  | nil => simp
  | cons event pre ih =>
    have ih1 := ih (fun ev hev => h ev (List.mem_cons_of_mem _ hev))
    have ht := h event (List.mem_cons_self _ _)
    simp only [List.cons_append, alje.EventManager.NotifyChannel2, ht, if_false,
      List.append_eq]
    rw [ih1]
    cases alje.EventManager.NotifyChannel2 (fun event : ev.EndRelation => event.channel2)
      notify rest state number extra_info with
    | none => rfl
    | some r => rfl

/-- C15: `EndRelation::Notify` on channel 2, called with the relation id of
the event, for a relation list with unique relation ids that holds the
relation of the event. With the code `END_DUE_TO_DEATH` it returns `true` and
leaves the relation list without that relation and with every other relation
kept; with any other code it returns `false` and leaves the relation list
unchanged. Hence a channel-2 notification of `END_DUE_TO_DEATH` for this
relation removes the event from the pending `EndRelation` events (when it is
the only one listening for the relation), so it is not there on its due day. -/
theorem C15_end_relation_notify (self : ev.EndRelation) (relation_list : sv.RelationList)
    (hn : (relation_list.relation_multi_index_.map (fun r => r.relation_id)).Nodup)
    (hmem : ∃ r ∈ relation_list.relation_multi_index_, r.relation_id = self.relation_id_) :
    self.Notify relation_list 2 self.relation_id_ sv.relation_event_codes.END_DUE_TO_DEATH
      = some (sv.RelationList.mk (relation_list.relation_multi_index_.filter
          (fun r => r.relation_id != self.relation_id_)), true) ∧
    (∀ r ∈ relation_list.relation_multi_index_.filter
        (fun r => r.relation_id != self.relation_id_), r.relation_id ≠ self.relation_id_) ∧
    (∀ r ∈ relation_list.relation_multi_index_, r.relation_id ≠ self.relation_id_ →
      r ∈ relation_list.relation_multi_index_.filter
        (fun r => r.relation_id != self.relation_id_)) ∧
    (∀ extra_info : Int, extra_info ≠ sv.relation_event_codes.END_DUE_TO_DEATH →
      self.Notify relation_list 2 self.relation_id_ extra_info = some (relation_list, false)) ∧
    (∀ pre post : List ev.EndRelation, self.channel2 = self.relation_id_ →
      (∀ event ∈ pre ++ post, event.channel2 ≠ self.relation_id_) →
      alje.EventManager.NotifyChannel2 (fun event : ev.EndRelation => event.channel2)
          (fun event s track n code => event.Notify s track n code)
          (pre ++ self :: post) relation_list self.relation_id_
          sv.relation_event_codes.END_DUE_TO_DEATH
        = some (sv.RelationList.mk (relation_list.relation_multi_index_.filter
            (fun r => r.relation_id != self.relation_id_)), pre ++ post)) := by
  have hany : relation_list.relation_multi_index_.any
      (fun r => r.relation_id == self.relation_id_) = true :=
    (any_relation_id_iff _ _).mpr hmem
  have hnotify : self.Notify relation_list 2 self.relation_id_
      sv.relation_event_codes.END_DUE_TO_DEATH
      = some (sv.RelationList.mk (relation_list.relation_multi_index_.filter
          (fun r => r.relation_id != self.relation_id_)), true) := by
    simp only [ev.EndRelation.Notify, ev.EndRelation.Execute,
      sv.RelationList.RemoveGivenRelationID, hany, if_true, eraseP_relation_id _ _ hn]
  refine ⟨hnotify, ?_, ?_, ?_, ?_⟩
  · intro r hr
    have := (List.mem_filter.mp hr).2
    simpa using this
  · intro r hr hne
    exact List.mem_filter.mpr ⟨hr, by simpa using hne⟩
  · intro extra_info hne
    simp only [ev.EndRelation.Notify, hne, if_true, if_false]
  · intro pre post hch hother
    rw [NotifyChannel2_append_skips _ _ _ _ pre (self :: post)
      (fun ev hev => hother ev (List.mem_append_left _ hev))]
    simp only [alje.EventManager.NotifyChannel2, hch, if_true, hnotify]
    rw [NotifyChannel2_skips _ _ _ post
      (fun ev hev => hother ev (List.mem_append_right _ hev))]
    rfl

/-- Witness for C15: the relations 3 and 4 are stored and the `EndRelation`
event of relation 3, due at day 100, is notified. -/
theorem C15_end_relation_notify_witness :
    (fun (self : ev.EndRelation) (relation_list : sv.RelationList) =>
      (relation_list.relation_multi_index_.map (fun r => r.relation_id)).Nodup ∧
      (∃ r ∈ relation_list.relation_multi_index_, r.relation_id = self.relation_id_) ∧
      self.Notify relation_list 2 self.relation_id_ sv.relation_event_codes.END_DUE_TO_DEATH
        = some ({ relation_multi_index_ := [⟨4, 1, 5, 20, 300⟩] }, true) ∧
      (1 : Int) ≠ sv.relation_event_codes.END_DUE_TO_DEATH ∧
      self.Notify relation_list 2 self.relation_id_ 1 = some (relation_list, false))
    (ev.EndRelation.new 3 100)
    { relation_multi_index_ := [⟨3, 1, 2, 10, 100⟩, ⟨4, 1, 5, 20, 300⟩] } :=
  ⟨by decide, ⟨⟨3, 1, 2, 10, 100⟩, by simp, rfl⟩,
    (C15_end_relation_notify (ev.EndRelation.new 3 100)
      { relation_multi_index_ := [⟨3, 1, 2, 10, 100⟩, ⟨4, 1, 5, 20, 300⟩] }
      (by decide) ⟨⟨3, 1, 2, 10, 100⟩, by simp, rfl⟩).1,
    by decide,
    (C15_end_relation_notify (ev.EndRelation.new 3 100)
      { relation_multi_index_ := [⟨3, 1, 2, 10, 100⟩, ⟨4, 1, 5, 20, 300⟩] }
      (by decide) ⟨⟨3, 1, 2, 10, 100⟩, by simp, rfl⟩).2.2.2.1 1 (by decide)⟩

end rg

namespace rg
namespace mm

theorem SameLinks.refl (l : List (alje.MultiSetSize2 × Credit)) : SameLinks l l :=
  ⟨fun p hp => ⟨p, hp, rfl, fun h => h⟩, fun q hq => ⟨q, hq, rfl⟩⟩

theorem SameLinks.trans {l1 l2 l3 : List (alje.MultiSetSize2 × Credit)}
    (h12 : SameLinks l1 l2) (h23 : SameLinks l2 l3) : SameLinks l1 l3 := by
  constructor
  · intro p hp
    obtain ⟨q, hq, e, hb⟩ := h23.1 p hp
    obtain ⟨r, hr, e1, hb1⟩ := h12.1 q hq
    exact ⟨r, hr, e1.trans e, fun h => hb (hb1 h)⟩
  · intro q hq
    obtain ⟨p, hp, e⟩ := h12.2 q hq
    obtain ⟨r, hr, e1⟩ := h23.2 p hp
    exact ⟨r, hr, e1.trans e⟩

theorem SameLinks.of_perm {l1 l2 : List (alje.MultiSetSize2 × Credit)} (h : l2.Perm l1) :
    SameLinks l1 l2 :=
  ⟨fun p hp => ⟨p, h.mem_iff.mp hp, rfl, fun e => e⟩,
    fun q hq => ⟨q, h.mem_iff.mpr hq, rfl⟩⟩

theorem sameLinks_cons (a : alje.MultiSetSize2 × Credit)
    {l1 l2 : List (alje.MultiSetSize2 × Credit)} (h : SameLinks l1 l2) :
    SameLinks (a :: l1) (a :: l2) := by
  constructor
  · intro p hp
    rcases List.mem_cons.mp hp with rfl | hp
    · exact ⟨p, List.mem_cons_self _ _, rfl, fun e => e⟩
    · obtain ⟨q, hq, e⟩ := h.1 p hp
      exact ⟨q, List.mem_cons_of_mem _ hq, e⟩
  · intro q hq
    rcases List.mem_cons.mp hq with rfl | hq
    · exact ⟨q, List.mem_cons_self _ _, rfl⟩
    · obtain ⟨p, hp, e⟩ := h.2 q hq
      exact ⟨p, List.mem_cons_of_mem _ hp, e⟩

theorem sameLinks_cons_add (a : alje.MultiSetSize2 × Credit) (x : ℚ)
    (l : List (alje.MultiSetSize2 × Credit)) :
    SameLinks (a :: l) ((a.1, a.2 + (x : Credit)) :: l) := by
  constructor
  · intro p hp
    rcases List.mem_cons.mp hp with rfl | hp
    · refine ⟨a, List.mem_cons_self _ _, rfl, fun e => ?_⟩
      show a.2 + (x : Credit) = ⊥
      rw [e, WithBot.bot_add]
    · exact ⟨p, List.mem_cons_of_mem _ hp, rfl, fun e => e⟩
  · intro q hq
    rcases List.mem_cons.mp hq with rfl | hq
    · exact ⟨_, List.mem_cons_self _ _, rfl⟩
    · exact ⟨q, List.mem_cons_of_mem _ hq, rfl⟩

theorem sameLinks_addCredit (l : List (alje.MultiSetSize2 × Credit)) :
    ∀ (k : Nat) (x : ℚ), SameLinks l (addCredit l k x) := by
  induction l with
  | nil => intro k x; exact SameLinks.refl _
  | cons a l ih =>
    intro k x
    cases k with
    | zero => exact sameLinks_cons_add a x l
    | succ k => exact sameLinks_cons a (ih k x)

theorem sameLinks_foldl_addCredit {ι : Type} (idx : ι → Nat) (amt : ι → ℚ) (is : List ι) :
    ∀ (l : List (alje.MultiSetSize2 × Credit)),
      SameLinks l (is.foldl (fun ll i => addCredit ll (idx i) (amt i)) l) := by
  induction is with
  | nil => intro l; exact SameLinks.refl _
  | cons i is ih =>
    intro l
    rw [List.foldl_cons]
    exact SameLinks.trans (sameLinks_addCredit l _ _) (ih _)

theorem perm_bubbleDown (ours : alje.MultiSetSize2 × Credit)
    (l : List (alje.MultiSetSize2 × Credit)) : (bubbleDown ours l).Perm (ours :: l) := by
  induction l with
  | nil => exact List.Perm.refl _
  | cons b rest ih =>
    unfold bubbleDown
    split_ifs
    · exact List.Perm.refl _
    · exact (List.Perm.cons b ih).trans (List.Perm.swap ours b rest)

theorem sameLinks_removeAt (l : List (alje.MultiSetSize2 × Credit)) :
    ∀ (k : Nat), SameLinks l (removeAt l k) := by
  induction l with
  | nil => intro k; exact SameLinks.refl _
  | cons a l ih =>
    intro k
    cases k with
    | zero =>
      exact SameLinks.trans (sameLinks_cons_add a (-1) l)
        (SameLinks.of_perm (perm_bubbleDown _ l))
    | succ k => exact sameLinks_cons a (ih k)

theorem sameLinks_foldl_nested {ι κ : Type} (idx : ι → κ → Nat) (amt : ι → κ → ℚ)
    (os : List ι) (is : List κ) :
    ∀ (l : List (alje.MultiSetSize2 × Credit)),
      SameLinks l (os.foldl (fun ll o =>
        is.foldl (fun ll1 i => addCredit ll1 (idx o i) (amt o i)) ll) l) := by
  induction os with
  | nil => intro l; exact SameLinks.refl _
  | cons o os ih =>
    intro l
    rw [List.foldl_cons]
    exact SameLinks.trans (sameLinks_foldl_addCredit (idx o) (amt o) is l) (ih _)

theorem sameLinks_Add (lh : LinkHandler) (n_people_per_group : Nat → Int) :
    SameLinks lh.link_list_ (lh.Add n_people_per_group).link_list_ :=
  sameLinks_foldl_nested
    (fun group_from group_to => PositionInLinkSorted lh.n_groups_ group_from group_to)
    (fun group_from group_to => 1 / 2 * (n_people_per_group group_from : ℚ)
      * lh.partner_choice_matrix_ group_from group_to) _ _ _

/-- Every call keeps the links and keeps "-inf" credits. -/
theorem sameLinks_call
    (sort_descending : List (alje.MultiSetSize2 × Credit) → List (alje.MultiSetSize2 × Credit))
    (hsort : ∀ l, (sort_descending l).Perm l) (lh : LinkHandler) (c : LinkHandler.Call) :
    SameLinks lh.link_list_ (lh.call sort_descending c).link_list_ := by
  cases c with
  | Add n => exact sameLinks_Add lh n
  | RemovePerson g => exact sameLinks_foldl_addCredit _ _ _ _
  | Remove => exact sameLinks_removeAt _ _
  | SortByLinks => exact SameLinks.of_perm (List.perm_insertionSort _ _)
  | SortByValue => exact SameLinks.of_perm (hsort _)
  | UpdatePartnerChoiceMatrix p => exact SameLinks.refl _
  | PointToTop => exact SameLinks.refl _
  | Next => exact SameLinks.refl _

theorem sameLinks_calls
    (sort_descending : List (alje.MultiSetSize2 × Credit) → List (alje.MultiSetSize2 × Credit))
    (hsort : ∀ l, (sort_descending l).Perm l) (cs : List LinkHandler.Call) :
    ∀ lh : LinkHandler, SameLinks lh.link_list_ (lh.calls sort_descending cs).link_list_ := by
  induction cs with
  | nil => intro lh; exact SameLinks.refl _
  | cons c cs ih =>
    intro lh
    exact SameLinks.trans (sameLinks_call sort_descending hsort lh c)
      (ih (lh.call sort_descending c))

theorem Blocked.of_sameLinks {lh lh1 : LinkHandler} {key : alje.MultiSetSize2}
    (h : lh.Blocked key) (hs : SameLinks lh.link_list_ lh1.link_list_) : lh1.Blocked key := by
  obtain ⟨⟨q, hq, e⟩, hb⟩ := h
  constructor
  · obtain ⟨p, hp, e1⟩ := hs.2 q hq
    exact ⟨p, hp, e1.trans e⟩
  · intro p hp hk
    obtain ⟨r, hr, e1, hb1⟩ := hs.1 p hp
    exact hb1 (hb r hr (e1.trans hk))

theorem new_blocked (n_groups : Nat) (preference_matrix : GroupMatrix) (a b : Nat)
    (hab : a ≤ b) (hb : b < n_groups) (h0 : preference_matrix b a = 0) :
    (LinkHandler.new n_groups preference_matrix).Blocked ⟨a, b⟩ := by
  constructor
  · refine ⟨(⟨a, b⟩, ⊥), ?_, rfl⟩
    simp only [LinkHandler.new, List.mem_flatMap, List.mem_map, List.mem_range]
    exact ⟨b, hb, a, by omega, by simp [h0]⟩
  · intro p hp hk
    simp only [LinkHandler.new, List.mem_flatMap, List.mem_map, List.mem_range] at hp
    obtain ⟨higher, _, lower, _, e⟩ := hp
    subst e
    simp only [alje.MultiSetSize2.mk.injEq] at hk
    obtain ⟨rfl, rfl⟩ := hk
    simp [h0]

end mm
end rg

namespace rg
namespace mm

theorem Blocked.credit {lh : LinkHandler} {a b : Nat} (h : lh.Blocked ⟨a, b⟩) :
    lh.credit a b = some ⊥ := by
  obtain ⟨⟨q, hq, e⟩, hb⟩ := h
  unfold LinkHandler.credit
  cases hf : lh.link_list_.find? (fun p => decide (p.1 = ⟨a, b⟩)) with
  | none =>
    rw [List.find?_eq_none] at hf
    have := hf q hq
    simp [e] at this
  | some r =>
    have hr := List.mem_of_find?_eq_some hf
    have hk := List.find?_some hf
    simp only [decide_eq_true_eq] at hk
    simp only [Option.map_some', Option.some.injEq]
    exact hb r hr hk

theorem Blocked.cursor {lh : LinkHandler} {key : alje.MultiSetSize2} (h : lh.Blocked key)
    (hget : lh.Get = some key) :
    lh.PointsToAcceptableLink = false ∧ lh.PointsToPositiveLink = false := by
  unfold LinkHandler.Get at hget
  unfold LinkHandler.PointsToAcceptableLink LinkHandler.PointsToPositiveLink
  cases hp : lh.link_list_[lh.current_position_]? with
  | none => rw [hp] at hget; simp at hget
  | some p =>
    rw [hp] at hget
    simp only [Option.map_some', Option.some.injEq] at hget
    have hbot := h.2 p (List.getElem?_mem hp) hget
    simp [hbot]

/-- C16 (as amended): a link `{a, b}` (`a ≤ b`) whose preference entry
`preference_matrix[b][a]` (the entry `[higher][lower]` that the constructor
tests) was 0 when the
`LinkHandler` was constructed is stored at credit "-inf" after every sequence
of `Add`, `RemovePerson`, `Remove`, `SortByLinks`, `SortByValue`,
`UpdatePartnerChoiceMatrix`, `PointToTop` and `Next` calls (with `std::sort` a
permutation). While the cursor is on it, `PointsToAcceptableLink` and
`PointsToPositiveLink` are false, so an iteration of either scheduling loop of
the matchmaker ends the loop and forms no match on it. -/
theorem C16_zero_preference_link_stays_blocked
    (sort_descending : List (alje.MultiSetSize2 × Credit) → List (alje.MultiSetSize2 × Credit))
    (hsort : ∀ l, (sort_descending l).Perm l)
    (n_groups : Nat) (preference_matrix : GroupMatrix) (a b : Nat)
    (hab : a ≤ b) (hb : b < n_groups) (h0 : preference_matrix b a = 0)
    (cs : List LinkHandler.Call) :
    ((LinkHandler.new n_groups preference_matrix).calls sort_descending cs).credit a b
      = some ⊥ ∧
    (∀ p ∈ ((LinkHandler.new n_groups preference_matrix).calls sort_descending cs).link_list_,
      p.1 = ⟨a, b⟩ → p.2 = ⊥) ∧
    (((LinkHandler.new n_groups preference_matrix).calls sort_descending cs).Get
        = some ⟨a, b⟩ →
      ((LinkHandler.new n_groups preference_matrix).calls sort_descending
          cs).PointsToAcceptableLink = false ∧
      ((LinkHandler.new n_groups preference_matrix).calls sort_descending
          cs).PointsToPositiveLink = false ∧
      ∀ (mm : MatchMaker) (return_vec : List (RelationRequest × RelationRequest)),
        mm.link_handler_ = (LinkHandler.new n_groups preference_matrix).calls sort_descending cs →
        mm.priorityStep return_vec = none ∧ mm.normalStep return_vec = none) := by
  have hblocked : ((LinkHandler.new n_groups preference_matrix).calls sort_descending
      cs).Blocked ⟨a, b⟩ :=
    Blocked.of_sameLinks (new_blocked n_groups preference_matrix a b hab hb h0)
      (sameLinks_calls sort_descending hsort cs _)
  refine ⟨Blocked.credit hblocked, hblocked.2, ?_⟩
  intro hget
  obtain ⟨h1, h2⟩ := Blocked.cursor hblocked hget
  refine ⟨h1, h2, ?_⟩
  intro mm return_vec hmm
  constructor
  · unfold MatchMaker.priorityStep
    rw [hmm, h1]
    simp
  · unfold MatchMaker.normalStep
    rw [hmm, h2]
    simp

/-- Witness for C16: two groups that never choose each other; a person is
added to each group, the list is sorted by value and the cursor is moved to
the link `{0, 1}`. -/
theorem C16_zero_preference_link_stays_blocked_witness :
    (∀ l : List (alje.MultiSetSize2 × Credit),
      (List.insertionSort (fun p q => p.2 ≥ q.2) l).Perm l) ∧
    (0 : Nat) ≤ 1 ∧ (1 : Nat) < 2 ∧
    (fun i j => if i = j then (1 : ℚ) else 0 : GroupMatrix) 1 0 = 0 ∧
    ((LinkHandler.new 2 (fun i j => if i = j then (1 : ℚ) else 0)).calls
        (List.insertionSort (fun p q => p.2 ≥ q.2))
        [.SortByLinks, .Add (fun _ => 1), .SortByValue, .PointToTop, .Next, .Next]).Get
      = some ⟨0, 1⟩ ∧
    ((LinkHandler.new 2 (fun i j => if i = j then (1 : ℚ) else 0)).calls
        (List.insertionSort (fun p q => p.2 ≥ q.2))
        [.SortByLinks, .Add (fun _ => 1), .SortByValue, .PointToTop, .Next, .Next]).credit 0 1
      = some ⊥ ∧
    ((LinkHandler.new 2 (fun i j => if i = j then (1 : ℚ) else 0)).calls
        (List.insertionSort (fun p q => p.2 ≥ q.2))
        [.SortByLinks, .Add (fun _ => 1), .SortByValue, .PointToTop, .Next,
          .Next]).PointsToAcceptableLink = false :=
  ⟨fun l => List.perm_insertionSort _ l, by decide, by decide, by decide, by decide!,
    (C16_zero_preference_link_stays_blocked (List.insertionSort (fun p q => p.2 ≥ q.2))
      (fun l => List.perm_insertionSort _ l) 2 (fun i j => if i = j then (1 : ℚ) else 0) 0 1
      (by decide) (by decide) (by decide)
      [.SortByLinks, .Add (fun _ => 1), .SortByValue, .PointToTop, .Next, .Next]).1,
    ((C16_zero_preference_link_stays_blocked (List.insertionSort (fun p q => p.2 ≥ q.2))
      (fun l => List.perm_insertionSort _ l) 2 (fun i j => if i = j then (1 : ℚ) else 0) 0 1
      (by decide) (by decide) (by decide)
      [.SortByLinks, .Add (fun _ => 1), .SortByValue, .PointToTop, .Next, .Next]).2.2
      (by decide!)).1⟩

/-- Counterexample to C16 as stated: the matrix `[[1, 0], [1/2, 1/2]]` has rows
summing to 1 and the entry `M[0][1] = 0`, but the constructor tests only
`M[1][0] = 1/2`, so the link `{0,1}` is stored at credit 0. After `SortByLinks`
and `Add` of one person per group its credit is `1/4`; with the cursor on it
`PointsToAcceptableLink` and `PointsToPositiveLink` are true, and a call of
`MatchMaker::Get` with one request in each group returns the match of the two
requests. -/
theorem C16_counterexample :
    (fun (M : GroupMatrix) =>
      (∀ i < 2, ∑ j in Finset.range 2, M i j = 1) ∧
      M 0 1 = 0 ∧
      (LinkHandler.new 2 M).credit 0 1 = some ((0 : ℚ) : Credit) ∧
      ((LinkHandler.new 2 M).calls (List.insertionSort (fun p q => p.2 ≥ q.2))
          [.SortByLinks, .Add (fun _ => 1), .PointToTop, .Next]).Get = some ⟨0, 1⟩ ∧
      ((LinkHandler.new 2 M).calls (List.insertionSort (fun p q => p.2 ≥ q.2))
          [.SortByLinks, .Add (fun _ => 1), .PointToTop, .Next]).credit 0 1
        = some ((1 / 4 : ℚ) : Credit) ∧
      ((LinkHandler.new 2 M).calls (List.insertionSort (fun p q => p.2 ≥ q.2))
          [.SortByLinks, .Add (fun _ => 1), .PointToTop, .Next]).PointsToAcceptableLink = true ∧
      ((LinkHandler.new 2 M).calls (List.insertionSort (fun p q => p.2 ≥ q.2))
          [.SortByLinks, .Add (fun _ => 1), .PointToTop, .Next]).PointsToPositiveLink = true ∧
      (MatchMaker.Get (fun _ l => l) none (fun _ => 1 / 100)
          (List.insertionSort (fun p q => p.2 ≥ q.2))
          ([(⟨1, 5⟩ : RelationRequest), ⟨2, 7⟩].foldl
            (MatchMaker.AddRelationRequest (fun rr => (rr.person_id % 2).toNat))
            (MatchMaker.new 2 M))).2 = [(⟨2, 7⟩, ⟨1, 5⟩)])
    (fun i j => if i = 0 then (if j = 0 then 1 else 0) else 1 / 2) := by
  refine ⟨by decide!, by decide!, by decide!, by decide!, by decide!, by decide!, by decide!,
    by decide!⟩

end mm
end rg

namespace rg
namespace mm

theorem RemovePerson_getElem? (lh : LinkHandler) (g : Nat) (j : Nat) :
    (lh.RemovePerson g).link_list_[j]? =
      (lh.link_list_[j]?).map (fun p =>
        (p.1, p.2 + ((∑ t in Finset.range lh.n_groups_,
          if PositionInLinkSorted lh.n_groups_ g t = j then
            -(1 / 2 * lh.partner_choice_matrix_ g t)
          else 0 : ℚ) : Credit))) := by
  simp only [LinkHandler.RemovePerson]
  rw [foldl_addCredit_getElem? (fun t : Nat => PositionInLinkSorted lh.n_groups_ g t)
    (fun t : Nat => -(1 / 2 * lh.partner_choice_matrix_ g t))]
  rw [sum_map_range (fun t => if PositionInLinkSorted lh.n_groups_ g t = j then
    -(1 / 2 * lh.partner_choice_matrix_ g t) else 0)]

theorem sum_add_one_person (n g j : Nat) (hg : g < n) (P : GroupMatrix) :
    (∑ f in Finset.range n, ∑ t in Finset.range n,
      if PositionInLinkSorted n f t = j then
        1 / 2 * (((if f = g then 1 else 0 : Int)) : ℚ) * P f t
      else 0)
    = ∑ t in Finset.range n,
      if PositionInLinkSorted n g t = j then 1 / 2 * P g t else 0 := by
  rw [Finset.sum_eq_single g]
  · apply Finset.sum_congr rfl
    intro t _
    simp
  · intro f _ hf
    apply Finset.sum_eq_zero
    intro t _
    simp [hf]
  · intro h
    exact absurd (Finset.mem_range.mpr hg) h

/-- C17 (as amended): in exact arithmetic (credits and matrix entries as
rational numbers, sums and products not rounded), for every group `g` of the
link handler, `Add` of the vector with
one person in group `g` and nobody elsewhere, followed by `RemovePerson(g)`
with the partner-choice matrix unchanged in between, gives back the link
handler as it was: every entry of the link list, hence every credit, is the
one from before. -/
theorem C17_remove_person_undoes_add (lh : LinkHandler) (g : Nat) (hg : g < lh.n_groups_) :
    (lh.Add (fun i => if i = g then 1 else 0)).RemovePerson g = lh ∧
    ∀ a b, ((lh.Add (fun i => if i = g then 1 else 0)).RemovePerson g).credit a b
      = lh.credit a b := by
  have hlist : ((lh.Add (fun i => if i = g then 1 else 0)).RemovePerson g).link_list_
      = lh.link_list_ := by
    apply List.ext_getElem?
    intro j
    rw [RemovePerson_getElem?, Add_getElem?]
    have hn : (lh.Add (fun i => if i = g then 1 else 0)).n_groups_ = lh.n_groups_ := rfl
    have hP : (lh.Add (fun i => if i = g then 1 else 0)).partner_choice_matrix_
        = lh.partner_choice_matrix_ := rfl
    rw [hn, hP, sum_add_one_person lh.n_groups_ g j hg]
    cases lh.link_list_[j]? with
    | none => rfl
    | some p =>
      simp only [Option.map_some', Option.some.injEq]
      have hz : ((∑ t in Finset.range lh.n_groups_,
            if PositionInLinkSorted lh.n_groups_ g t = j then
              1 / 2 * lh.partner_choice_matrix_ g t else 0 : ℚ) : Credit)
          + ((∑ t in Finset.range lh.n_groups_,
            if PositionInLinkSorted lh.n_groups_ g t = j then
              -(1 / 2 * lh.partner_choice_matrix_ g t) else 0 : ℚ) : Credit) = 0 := by
        rw [← WithBot.coe_add, ← Finset.sum_add_distrib]
        rw [Finset.sum_eq_zero]
        · rfl
        · intro t _
          split_ifs <;> ring
      rw [add_assoc, hz, add_zero]
  have heq : (lh.Add (fun i => if i = g then 1 else 0)).RemovePerson g = lh := by
    have h1 : (lh.Add (fun i => if i = g then 1 else 0)).RemovePerson g
        = { lh with link_list_ :=
            ((lh.Add (fun i => if i = g then 1 else 0)).RemovePerson g).link_list_ } := rfl
    rw [h1, hlist]
  refine ⟨heq, fun a b => ?_⟩
  rw [heq]

/-- Witness for C17: three groups, one person added to group 1 and removed. -/
theorem C17_remove_person_undoes_add_witness :
    (fun lh : LinkHandler => 1 < lh.n_groups_ ∧
      (lh.Add (fun i => if i = 1 then 1 else 0)).RemovePerson 1 = lh)
    (LinkHandler.new 3 (fun i j => if i = j then 1 / 2 else 1 / 4)).SortByLinks :=
  ⟨by decide, (C17_remove_person_undoes_add
    (LinkHandler.new 3 (fun i j => if i = j then 1 / 2 else 1 / 4)).SortByLinks 1
    (by decide)).1⟩

/-- Counterexample to C17 as stated, in `double` arithmetic. Two groups with
the matrix rows `(0.1, 0.9)` and `(0.5, 0.5)`; after `SortByLinks` and `Add` of
two people in group 0 the link `{0,0}` has the credit `0.1`. `Add` of one
person in group 0 makes it `0.1 + 0.05 = 0.15000000000000002` and
`RemovePerson(0)` makes it `0.15000000000000002 - 0.05 = 0.10000000000000002`,
which is not the credit `0.1` from before; the link `{0,1}` goes from `0.9` to
`0.9000000000000001`. With exact sums the same calls give the credits back. -/
theorem C17_counterexample :
    (fun (lh : LinkHandler) =>
      (lh.n_groups_ = 2 ∧ lh.link_list_state_ = LinkListState.SORTED_BY_LINKS ∧
        lh.partner_choice_matrix_ 0 0 = 3602879701896397 / 36028797018963968 ∧
        lh.partner_choice_matrix_ 0 1 = 8106479329266893 / 9007199254740992) ∧
      lh.link_list_
        = [(⟨0, 0⟩, ((3602879701896397 / 36028797018963968 : ℚ) : Credit)),
           (⟨0, 1⟩, ((8106479329266893 / 9007199254740992 : ℚ) : Credit)),
           (⟨1, 1⟩, ((0 : ℚ) : Credit))] ∧
      (lh.AddDouble (fun i => if i = 0 then 1 else 0)).link_list_
        = [(⟨0, 0⟩, ((1351079888211149 / 9007199254740992 : ℚ) : Credit)),
           (⟨0, 1⟩, ((3039929748475085 / 2251799813685248 : ℚ) : Credit)),
           (⟨1, 1⟩, ((0 : ℚ) : Credit))] ∧
      ((lh.AddDouble (fun i => if i = 0 then 1 else 0)).RemovePersonDouble 0).link_list_
        = [(⟨0, 0⟩, ((7205759403792795 / 72057594037927936 : ℚ) : Credit)),
           (⟨0, 1⟩, ((4053239664633447 / 4503599627370496 : ℚ) : Credit)),
           (⟨1, 1⟩, ((0 : ℚ) : Credit))] ∧
      ((lh.AddDouble (fun i => if i = 0 then 1 else 0)).RemovePersonDouble 0).credit 0 0
        ≠ lh.credit 0 0 ∧
      ((lh.AddDouble (fun i => if i = 0 then 1 else 0)).RemovePersonDouble 0).credit 0 1
        ≠ lh.credit 0 1 ∧
      ((lh.Add (fun i => if i = 0 then 1 else 0)).RemovePerson 0).link_list_ = lh.link_list_)
    ((LinkHandler.new 2 (fun i j =>
        if i = 0 then (if j = 0 then ieee.roundDouble (1 / 10) else ieee.roundDouble (9 / 10))
        else 1 / 2)).SortByLinks.AddDouble (fun i => if i = 0 then 2 else 0)) := by
  refine ⟨⟨by decide!, by decide!, by decide!, by decide!⟩, by decide!, by decide!, by decide!,
    by decide!, by decide!, by decide!⟩

end mm
end rg

namespace rg
namespace mm

theorem adviceFor_bounds (cum_remove : ℚ) (priority_i : Int) (hc : 0 ≤ cum_remove) :
    0 ≤ RobustnessCheck.adviceFor cum_remove priority_i ∧
    RobustnessCheck.adviceFor cum_remove priority_i ≤ max 0 (priority_i - 10) ∧
    ((RobustnessCheck.adviceFor cum_remove priority_i : Int) : ℚ) ≤ cum_remove := by
  have hfloor : tr.staticCastInt cum_remove = ⌊cum_remove⌋ := by
    simp [tr.staticCastInt, hc]
  have h0 : 0 ≤ ⌊cum_remove⌋ := Int.floor_nonneg.mpr hc
  have hle : ((⌊cum_remove⌋ : Int) : ℚ) ≤ cum_remove := Int.floor_le cum_remove
  unfold RobustnessCheck.adviceFor
  simp only [hfloor]
  split_ifs with h1 h2
  · refine ⟨le_rfl, le_max_left _ _, ?_⟩
    simpa using hc
  · refine ⟨by omega, le_max_right _ _, ?_⟩
    have : ((priority_i - 10 : Int) : ℚ) ≤ ((⌊cum_remove⌋ : Int) : ℚ) := by
      exact_mod_cast (le_of_lt h1)
    linarith
  · refine ⟨h0, ?_, hle⟩
    exact le_trans (not_lt.mp h1) (le_max_right _ _)

theorem new_nonNeg (n_groups : Nat) (goal : ℚ) : (RobustnessCheck.new n_groups goal).NonNeg :=
  fun _ => ⟨le_rfl, le_rfl⟩

theorem Update_avg_nonneg (GetWeight : Int → ℚ)
    (hw : ∀ k, 0 ≤ GetWeight k ∧ GetWeight k ≤ 1) (rc : RobustnessCheck)
    (normal priority : Nat → Int) (h : ∀ i, 0 ≤ rc.avg_ i) (i : Nat) :
    0 ≤ (rc.Update GetWeight normal priority).avg_ i := by
  unfold RobustnessCheck.Update
  simp only
  split_ifs with hi hneg
  · have := hw rc.n_times_called_
    have h1 := mul_nonneg (sub_nonneg.mpr this.2) (h i)
    simp only [mul_zero, zero_add]
    exact h1
  · have := hw rc.n_times_called_
    have h1 := mul_nonneg (sub_nonneg.mpr this.2) (h i)
    have h2 := mul_nonneg this.1 (not_lt.mp hneg)
    linarith
  · exact h i

theorem Update_cum_remove (GetWeight : Int → ℚ) (rc : RobustnessCheck)
    (normal priority : Nat → Int) :
    (rc.Update GetWeight normal priority).cum_remove_ = rc.cum_remove_ ∧
    (rc.Update GetWeight normal priority).n_groups_ = rc.n_groups_ := ⟨rfl, rfl⟩

/-- `UpdateandAdvice` keeps the averages and remainders non-negative, and its
advice is within the bounds. -/
theorem UpdateandAdvice_nonNeg (GetWeight : Int → ℚ)
    (hw : ∀ k, 0 ≤ GetWeight k ∧ GetWeight k ≤ 1) (rc : RobustnessCheck)
    (normal priority : Nat → Int) (h : rc.NonNeg) :
    (rc.UpdateandAdvice GetWeight normal priority).1.NonNeg ∧
    ∀ i, 0 ≤ (rc.UpdateandAdvice GetWeight normal priority).2 i ∧
      (rc.UpdateandAdvice GetWeight normal priority).2 i ≤ max 0 (priority i - 10) := by
  have havg : ∀ i, 0 ≤ (RobustnessCheck.Update GetWeight
      { rc with n_times_called_ := rc.n_times_called_ + 1 } normal priority).avg_ i :=
    fun i => Update_avg_nonneg GetWeight hw
      { rc with n_times_called_ := rc.n_times_called_ + 1 } normal priority
      (fun j => (h j).1) i
  have hcum0 : ∀ i, 0 ≤ (RobustnessCheck.Update GetWeight
      { rc with n_times_called_ := rc.n_times_called_ + 1 } normal priority).cum_remove_ i :=
    fun i => (h i).2
  have hcum : ∀ i, 0 ≤ (RobustnessCheck.Update GetWeight
      { rc with n_times_called_ := rc.n_times_called_ + 1 } normal priority).cum_remove_ i
      + (RobustnessCheck.Update GetWeight
      { rc with n_times_called_ := rc.n_times_called_ + 1 } normal priority).avg_ i / 1000 := by
    intro i
    have h1 := hcum0 i
    have h2 := havg i
    have h3 : 0 ≤ (RobustnessCheck.Update GetWeight
      { rc with n_times_called_ := rc.n_times_called_ + 1 } normal priority).avg_ i / 1000 :=
      div_nonneg h2 (by norm_num)
    linarith
  unfold RobustnessCheck.UpdateandAdvice RobustnessCheck.Advice
  simp only
  generalize RobustnessCheck.Update GetWeight
      { rc with n_times_called_ := rc.n_times_called_ + 1 } normal priority = rc1
      at havg hcum hcum0
  constructor
  · intro i
    refine ⟨havg i, ?_⟩
    show 0 ≤ (if i < rc1.n_groups_ then _ else _)
    split_ifs
    · have := (adviceFor_bounds _ (priority i) (hcum i)).2.2
      linarith
    · exact hcum0 i
  · intro i
    show 0 ≤ (if i < rc1.n_groups_ then _ else _) ∧ (if i < rc1.n_groups_ then _ else _) ≤ _
    split_ifs
    · exact ⟨(adviceFor_bounds _ (priority i) (hcum i)).1,
        (adviceFor_bounds _ (priority i) (hcum i)).2.1⟩
    · exact ⟨le_rfl, le_max_left _ _⟩

end mm
end rg

namespace rg
namespace mm

theorem after_nonNeg (GetWeight : Int → ℚ)
    (hw : ∀ k, 0 ≤ GetWeight k ∧ GetWeight k ≤ 1)
    (calls : List ((Nat → Int) × (Nat → Int))) :
    ∀ rc : RobustnessCheck, rc.NonNeg → (rc.after GetWeight calls).NonNeg := by
  induction calls with
  | nil => intro rc h; exact h
  | cons c calls ih =>
    intro rc h
    exact ih _ (UpdateandAdvice_nonNeg GetWeight hw rc c.1 c.2 h).1

/-- C18: for a `RobustnessCheck` built by its constructor and then used for any
sequence of `UpdateandAdvice` calls, with every averaging weight
`GetWeight(n)` in `[0, 1]`: the advice of every further call
`UpdateandAdvice(normal, priority)` satisfies, for every group `i`,
`0 ≤ advice[i] ≤ max(0, priority[i] - 10)`. Hence it never advises to remove
more requests than a priority queue of `priority[i] ≥ 0` requests holds, and a
queue of at least 10 requests keeps at least 10. -/
theorem C18_advice_bounds (GetWeight : Int → ℚ)
    (hw : ∀ k, 0 ≤ GetWeight k ∧ GetWeight k ≤ 1)
    (n_groups : Nat) (max_percent_in_priority_goal : ℚ)
    (calls : List ((Nat → Int) × (Nat → Int))) (normal priority : Nat → Int) (i : Nat) :
    0 ≤ (((RobustnessCheck.new n_groups max_percent_in_priority_goal).after GetWeight
        calls).UpdateandAdvice GetWeight normal priority).2 i ∧
    (((RobustnessCheck.new n_groups max_percent_in_priority_goal).after GetWeight
        calls).UpdateandAdvice GetWeight normal priority).2 i ≤ max 0 (priority i - 10) ∧
    (0 ≤ priority i →
      (((RobustnessCheck.new n_groups max_percent_in_priority_goal).after GetWeight
        calls).UpdateandAdvice GetWeight normal priority).2 i ≤ priority i) ∧
    (10 ≤ priority i →
      10 ≤ priority i - (((RobustnessCheck.new n_groups max_percent_in_priority_goal).after
        GetWeight calls).UpdateandAdvice GetWeight normal priority).2 i) := by
  have hinv := after_nonNeg GetWeight hw calls _ (new_nonNeg n_groups max_percent_in_priority_goal)
  obtain ⟨h1, h2⟩ := (UpdateandAdvice_nonNeg GetWeight hw _ normal priority hinv).2 i
  refine ⟨h1, h2, ?_, ?_⟩
  · intro hp
    have : max 0 (priority i - 10) ≤ priority i := max_le hp (by omega)
    exact le_trans h2 this
  · intro hp
    have : max 0 (priority i - 10) = priority i - 10 := max_eq_right (by omega)
    rw [this] at h2
    omega

/-- Witness for C18: weight 1, one earlier call, then a call with 200000
priority requests in every group: the advice is 200. -/
theorem C18_advice_bounds_witness :
    (∀ k : Int, (0 : ℚ) ≤ (fun _ => 1 : Int → ℚ) k ∧ (fun _ => 1 : Int → ℚ) k ≤ 1) ∧
    (0 : Int) ≤ (fun _ => 200000 : Nat → Int) 0 ∧
    (((RobustnessCheck.new 2 (4 / 5)).after (fun _ => 1)
        [(fun _ => 0, fun _ => 200000)]).UpdateandAdvice (fun _ => 1) (fun _ => 0)
        (fun _ => 200000)).2 0 ≤ (fun _ => 200000 : Nat → Int) 0 ∧
    (((RobustnessCheck.new 2 (4 / 5)).after (fun _ => 1)
        [(fun _ => 0, fun _ => 200000)]).UpdateandAdvice (fun _ => 1) (fun _ => 0)
        (fun _ => 200000)).2 0 = 200 :=
  ⟨fun _ => ⟨by norm_num, by norm_num⟩, by decide,
    (C18_advice_bounds (fun _ => 1) (fun _ => ⟨by norm_num, by norm_num⟩) 2 (4 / 5)
      [(fun _ => 0, fun _ => 200000)] (fun _ => 0) (fun _ => 200000) 0).2.2.1 (by decide),
    by decide!⟩

end mm
end rg

namespace rg
namespace mm

theorem takeWhile_length_lt {α : Type} (p : α → Bool) (v : List α)
    (h : ∃ u ∈ v, p u = false) : (v.takeWhile p).length < v.length := by
  induction v with
  | nil => obtain ⟨u, hu, _⟩ := h; exact absurd hu (List.not_mem_nil u)
  | cons a v ih =>
    by_cases ha : p a = true
    · rw [List.takeWhile_cons_of_pos ha, List.length_cons, List.length_cons]
      obtain ⟨u, hu, hp⟩ := h
      rcases List.mem_cons.mp hu with rfl | hu
      · rw [ha] at hp; exact absurd hp (by decide)
      · exact Nat.succ_lt_succ (ih ⟨u, hu, hp⟩)
    · rw [List.takeWhile_cons_of_neg ha, List.length_nil, List.length_cons]
      exact Nat.succ_pos _

theorem lowerBound_lt {α : Type} [LinearOrder α] (v : List α) (value back : α)
    (hlast : v.getLast? = some back) (hle : value ≤ back) :
    lowerBound v value < v.length := by
  apply takeWhile_length_lt
  refine ⟨back, List.mem_of_getLast?_eq_some hlast, ?_⟩
  simpa using hle

theorem GroupNumber_lt_normal (self : GroupDimensionNormal) (value : ℚ)
    (k : Nat) (h : self.GroupNumber value = some k) : k < self.NumberOfGroups := by
  unfold GroupDimensionNormal.GroupNumber at h
  cases hf : self.g_lower_.head? with
  | none => rw [hf] at h; simp at h
  | some front =>
    cases hb : self.g_upper_.getLast? with
    | none => rw [hf, hb] at h; simp at h
    | some back =>
      rw [hf, hb] at h
      simp only at h
      split_ifs at h with hc
      simp only [Option.some.injEq] at h
      rw [← h]
      exact lowerBound_lt _ _ back hb hc.2

theorem new_highest_exact (groups : List (List Int)) (dim : GroupDimensionExact)
    (h : GroupDimensionExact.new groups = some dim) :
    dim.g_upper_.getLast? = some dim.highest_ := by
  unfold GroupDimensionExact.new at h
  split_ifs at h with hc
  simp only [Option.some.injEq] at h
  subst h
  simp only
  obtain ⟨hne, _⟩ := hc
  rw [List.getLast?_map]
  cases hl : groups.getLast? with
  | none => rw [List.getLast?_eq_none_iff] at hl; exact absurd hl hne
  | some g =>
    have hg : groups.getLastD [] = g := by
      rw [List.getLastD_eq_getLast?, hl]
      rfl
    simp only [Option.map_some', Option.some.injEq]
    rw [hg, List.getLastD_eq_getLast?]

theorem GroupNumber_lt_exact (groups : List (List Int))
    (self : GroupDimensionExact) (hnew : GroupDimensionExact.new groups = some self)
    (value : Int) (k : Nat) (h : self.GroupNumber value = some k) :
    k < self.NumberOfGroups := by
  unfold GroupDimensionExact.GroupNumber at h
  split_ifs at h with hc
  simp only [Option.some.injEq] at h
  rw [← h]
  exact lowerBound_lt _ _ _ (new_highest_exact groups self hnew) hc.2

theorem new_duration_dimension (time : Int) (person_list : Int → Option sv.Person)
    (mm_parameters : parameters.MatchMaking) (gh : GroupHandler)
    (h : GroupHandler.new time person_list mm_parameters = some gh) :
    GroupDimensionExact.new mm_parameters.duration_groups = some gh.duration_dimension_ := by
  unfold GroupHandler.new at h
  cases ha : GroupDimensionNormal.new mm_parameters.age_groups
      mm_parameters.age_group_preference_sd with
  | none => rw [ha] at h; simp at h
  | some ad =>
    cases hd : GroupDimensionExact.new mm_parameters.duration_groups with
    | none => rw [ha, hd] at h; simp at h
    | some dd =>
      rw [ha, hd] at h
      simp only at h
      split_ifs at h
      simp only [Option.some.injEq] at h
      rw [← h]

theorem flat_index_decode (A D a d : Nat) (ha : a < A) (hd : d < D) :
    a * D + d < A * D ∧ (a * D + d) / D = a ∧ (a * D + d) % D = d := by
  have hD : 0 < D := by omega
  refine ⟨?_, ?_, ?_⟩
  · calc a * D + d < a * D + D := by omega
      _ = (a + 1) * D := by ring
      _ ≤ A * D := Nat.mul_le_mul_right D ha
  · rw [Nat.add_comm, Nat.add_mul_div_right _ _ hD, Nat.div_eq_of_lt hd, Nat.zero_add]
  · rw [Nat.add_comm, Nat.add_mul_mod_self_right, Nat.mod_eq_of_lt hd]

theorem flat_index_encode (A D o : Nat) (ho : o < A * D) :
    o / D < A ∧ o % D < D ∧ (o / D) * D + o % D = o := by
  have hD : 0 < D := by
    rcases Nat.eq_zero_or_pos D with h | h
    · rw [h, Nat.mul_zero] at ho; exact absurd ho (Nat.not_lt_zero _)
    · exact h
  refine ⟨?_, Nat.mod_lt _ hD, Nat.div_add_mod' o D⟩
  rw [Nat.div_lt_iff_lt_mul hD]
  exact ho

end mm
end rg

namespace rg
namespace mm

/-- C19: for a `GroupHandler` built by its constructor, a call
`GroupNumber(request)` that returns (the person is known and the assertions of
both dimensions hold) returns `age_idx * D + duration_idx`, where `age_idx` and
`duration_idx` are the group numbers of the two dimensions and `D` the number
of duration groups; `age_idx` and `duration_idx` are below the numbers of
groups of their dimensions, the result is below `NumberOfGroups()`, and
`result / D` and `result % D` give back `age_idx` and `duration_idx`. The flat
index is a bijection: every pair `(a, d)` of dimension groups gives an index
below `NumberOfGroups()` that decodes to `(a, d)`, every index below
`NumberOfGroups()` decodes to a pair of dimension groups that encodes to it,
and `PreferenceMatrix` at two encoded pairs is the product of the two
dimension preferences at the pairs. -/
theorem C19_group_number_flat_index (time : Int) (person_list : Int → Option sv.Person)
    (mm_parameters : parameters.MatchMaking) (gh : GroupHandler)
    (hnew : GroupHandler.new time person_list mm_parameters = some gh)
    (request : RelationRequest) (k : Nat) (hk : gh.GroupNumber request = some k)
    (dim1_pref : GroupMatrix) :
    (∃ person age_idx duration_idx,
      gh.person_list_ request.person_id = some person ∧
      gh.age_dimension_.GroupNumber (((gh.time_ - person.day_of_birth : Int) : ℚ) / 365)
        = some age_idx ∧
      gh.duration_dimension_.GroupNumber request.duration_in_days = some duration_idx ∧
      age_idx < gh.age_dimension_.NumberOfGroups ∧
      duration_idx < gh.duration_dimension_.NumberOfGroups ∧
      k = age_idx * gh.duration_dimension_.NumberOfGroups + duration_idx ∧
      k < gh.NumberOfGroups ∧
      k / gh.duration_dimension_.NumberOfGroups = age_idx ∧
      k % gh.duration_dimension_.NumberOfGroups = duration_idx) ∧
    (∀ a d, a < gh.age_dimension_.NumberOfGroups → d < gh.duration_dimension_.NumberOfGroups →
      a * gh.duration_dimension_.NumberOfGroups + d < gh.NumberOfGroups ∧
      (a * gh.duration_dimension_.NumberOfGroups + d) / gh.duration_dimension_.NumberOfGroups
        = a ∧
      (a * gh.duration_dimension_.NumberOfGroups + d) % gh.duration_dimension_.NumberOfGroups
        = d) ∧
    (∀ o, o < gh.NumberOfGroups →
      o / gh.duration_dimension_.NumberOfGroups < gh.age_dimension_.NumberOfGroups ∧
      o % gh.duration_dimension_.NumberOfGroups < gh.duration_dimension_.NumberOfGroups ∧
      (o / gh.duration_dimension_.NumberOfGroups) * gh.duration_dimension_.NumberOfGroups
        + o % gh.duration_dimension_.NumberOfGroups = o) ∧
    (∀ a d a1 d1, a < gh.age_dimension_.NumberOfGroups →
      d < gh.duration_dimension_.NumberOfGroups →
      a1 < gh.age_dimension_.NumberOfGroups → d1 < gh.duration_dimension_.NumberOfGroups →
      gh.PreferenceMatrix dim1_pref (a * gh.duration_dimension_.NumberOfGroups + d)
          (a1 * gh.duration_dimension_.NumberOfGroups + d1)
        = dim1_pref a a1 * gh.duration_dimension_.PreferenceMatrix d d1) := by
  refine ⟨?_, ?_, ?_, ?_⟩
  · have hdur := new_duration_dimension time person_list mm_parameters gh hnew
    unfold GroupHandler.GroupNumber at hk
    simp only at hk
    cases hp : gh.person_list_ request.person_id with
    | none => rw [hp] at hk; simp at hk
    | some person =>
      rw [hp] at hk
      simp only at hk
      cases ha : gh.age_dimension_.GroupNumber
          (((gh.time_ - person.day_of_birth : Int) : ℚ) / 365) with
      | none => rw [ha] at hk; simp at hk
      | some age_idx =>
        cases hd : gh.duration_dimension_.GroupNumber request.duration_in_days with
        | none => rw [ha, hd] at hk; simp at hk
        | some duration_idx =>
          rw [ha, hd] at hk
          simp only [Option.some.injEq] at hk
          have h1 := GroupNumber_lt_normal _ _ _ ha
          have h2 := GroupNumber_lt_exact _ _ hdur _ _ hd
          obtain ⟨f1, f2, f3⟩ := flat_index_decode _ _ _ _ h1 h2
          refine ⟨person, age_idx, duration_idx, rfl, ha, ?_, h1, h2, hk.symm, ?_, ?_, ?_⟩
          · rfl
          · rw [← hk]; exact f1
          · rw [← hk]; exact f2
          · rw [← hk]; exact f3
  · intro a d ha hd
    exact flat_index_decode _ _ _ _ ha hd
  · intro o ho
    exact flat_index_encode _ _ _ ho
  · intro a d a1 d1 ha hd ha1 hd1
    obtain ⟨f1, f2, f3⟩ := flat_index_decode _ _ _ _ ha hd
    obtain ⟨g1, g2, g3⟩ := flat_index_decode _ _ _ _ ha1 hd1
    unfold GroupHandler.PreferenceMatrix
    simp only
    rw [if_pos ⟨f1, g1⟩, f2, f3, g2, g3]

/-- Witness for C19: age groups 15-20 and 20-25, duration groups 0, 1 and
2-3; a person of 22 years asks for a relation of 2 days: group 1 * 3 + 2. -/
theorem C19_group_number_flat_index_witness :
    (fun (gh : GroupHandler) (pl : Int → Option sv.Person) (p : parameters.MatchMaking) =>
      GroupHandler.new 8030 pl p = some gh ∧
      gh.GroupNumber ⟨1, 2⟩ = some 5 ∧
      (∃ person age_idx duration_idx,
        gh.person_list_ (⟨1, 2⟩ : RelationRequest).person_id = some person ∧
        gh.age_dimension_.GroupNumber (((gh.time_ - person.day_of_birth : Int) : ℚ) / 365)
          = some age_idx ∧
        gh.duration_dimension_.GroupNumber (⟨1, 2⟩ : RelationRequest).duration_in_days
          = some duration_idx ∧
        age_idx < gh.age_dimension_.NumberOfGroups ∧
        duration_idx < gh.duration_dimension_.NumberOfGroups ∧
        5 = age_idx * gh.duration_dimension_.NumberOfGroups + duration_idx ∧
        5 < gh.NumberOfGroups ∧
        5 / gh.duration_dimension_.NumberOfGroups = age_idx ∧
        5 % gh.duration_dimension_.NumberOfGroups = duration_idx))
    { time_ := 8030,
      person_list_ := fun id =>
        if id = 1 then some ⟨1, 0, ⟨false, -1⟩, ⟨false, -1, false⟩⟩ else none,
      age_dimension_ := ⟨[15, 20], [20, 25]⟩,
      duration_dimension_ := ⟨[0, 1, 2], [0, 1, 3], 0, 3⟩ }
    (fun id => if id = 1 then some ⟨1, 0, ⟨false, -1⟩, ⟨false, -1, false⟩⟩ else none)
    ⟨[[15, 20], [20, 25]], "normal", 12, [[0, 0], [1, 1], [2, 3]], "exact"⟩ := by
  have h1 : GroupDimensionNormal.new [[15, 20], [20, 25]] 12 = some ⟨[15, 20], [20, 25]⟩ := by
    simp [GroupDimensionNormal.new]
    norm_num
  have h2 : GroupDimensionExact.new [[0, 0], [1, 1], [2, 3]]
      = some ⟨[0, 1, 2], [0, 1, 3], 0, 3⟩ := by
    simp [GroupDimensionExact.new]
  have hnew : GroupHandler.new 8030
      (fun id => if id = 1 then some ⟨1, 0, ⟨false, -1⟩, ⟨false, -1, false⟩⟩ else none)
      ⟨[[15, 20], [20, 25]], "normal", 12, [[0, 0], [1, 1], [2, 3]], "exact"⟩
      = some (GroupHandler.mk 8030
        (fun id => if id = 1 then some ⟨1, 0, ⟨false, -1⟩, ⟨false, -1, false⟩⟩ else none)
        ⟨[15, 20], [20, 25]⟩ ⟨[0, 1, 2], [0, 1, 3], 0, 3⟩) := by
    simp only [GroupHandler.new, h1, h2]
    rfl
  exact ⟨hnew, by decide!,
    (C19_group_number_flat_index 8030 _ _ _ hnew ⟨1, 2⟩ 5 (by decide!) (fun _ _ => 0)).1⟩

end mm
end rg

namespace rg
namespace mm

/-- C20: `GroupDimensionExact::PreferenceMatrix` is the identity matrix: 1 on
the diagonal and 0 elsewhere. Therefore the joint matrix of
`GroupHandler::PreferenceMatrix` is 0 at every pair of flat groups whose
duration groups (`index % D`) differ, whatever the age preferences are: an
entry that is not 0 joins two groups with the same duration group, and there
it is the age preference of the two age groups (`index / D`). -/
theorem C20_duration_preference_exact (self : GroupDimensionExact) (gh : GroupHandler)
    (dim1_pref : GroupMatrix) :
    (∀ row column, row < self.NumberOfGroups → column < self.NumberOfGroups →
      self.PreferenceMatrix row column = if row = column then 1 else 0) ∧
    (∀ o_from o_to, o_from < gh.NumberOfGroups → o_to < gh.NumberOfGroups →
      o_from % gh.duration_dimension_.NumberOfGroups
        ≠ o_to % gh.duration_dimension_.NumberOfGroups →
      gh.PreferenceMatrix dim1_pref o_from o_to = 0) ∧
    (∀ o_from o_to, gh.PreferenceMatrix dim1_pref o_from o_to ≠ 0 →
      o_from % gh.duration_dimension_.NumberOfGroups
        = o_to % gh.duration_dimension_.NumberOfGroups) ∧
    (∀ o_from o_to, o_from < gh.NumberOfGroups → o_to < gh.NumberOfGroups →
      o_from % gh.duration_dimension_.NumberOfGroups
        = o_to % gh.duration_dimension_.NumberOfGroups →
      gh.PreferenceMatrix dim1_pref o_from o_to
        = dim1_pref (o_from / gh.duration_dimension_.NumberOfGroups)
            (o_to / gh.duration_dimension_.NumberOfGroups)) := by
  have hzero : ∀ o_from o_to,
      o_from % gh.duration_dimension_.NumberOfGroups
        ≠ o_to % gh.duration_dimension_.NumberOfGroups →
      gh.PreferenceMatrix dim1_pref o_from o_to = 0 := by
    intro o_from o_to hne
    unfold GroupHandler.PreferenceMatrix GroupDimensionExact.PreferenceMatrix
    simp only
    split_ifs <;> simp
  refine ⟨?_, ?_, ?_, ?_⟩
  · intro row column hr hc
    unfold GroupDimensionExact.PreferenceMatrix
    rw [if_pos ⟨hr, hc⟩]
  · intro o_from o_to _ _ hne
    exact hzero o_from o_to hne
  · intro o_from o_to hnz
    by_contra hne
    exact hnz (hzero o_from o_to hne)
  · intro o_from o_to hf ht heq
    have hD : 0 < gh.duration_dimension_.NumberOfGroups := by
      rcases Nat.eq_zero_or_pos gh.duration_dimension_.NumberOfGroups with h | h
      · unfold GroupHandler.NumberOfGroups at hf
        rw [h, Nat.mul_zero] at hf
        exact absurd hf (Nat.not_lt_zero _)
      · exact h
    unfold GroupHandler.PreferenceMatrix GroupDimensionExact.PreferenceMatrix
    simp only
    rw [if_pos ⟨hf, ht⟩, if_pos ⟨Nat.mod_lt _ hD, Nat.mod_lt _ hD⟩, if_pos heq, mul_one]

/-- Witness for C20: two age groups and three duration groups; the flat groups
1 and 5 have the duration groups 1 and 2. -/
theorem C20_duration_preference_exact_witness :
    (fun (gh : GroupHandler) =>
      1 < gh.NumberOfGroups ∧ 5 < gh.NumberOfGroups ∧
      1 % gh.duration_dimension_.NumberOfGroups ≠ 5 % gh.duration_dimension_.NumberOfGroups ∧
      gh.PreferenceMatrix (fun _ _ => 1 / 2) 1 5 = 0)
    (GroupHandler.mk 8030 (fun _ => none) ⟨[15, 20], [20, 25]⟩
      ⟨[0, 1, 2], [0, 1, 3], 0, 3⟩) :=
  ⟨by decide, by decide, by decide,
    (C20_duration_preference_exact ⟨[0, 1, 2], [0, 1, 3], 0, 3⟩
      (GroupHandler.mk 8030 (fun _ => none) ⟨[15, 20], [20, 25]⟩
        ⟨[0, 1, 2], [0, 1, 3], 0, 3⟩) (fun _ _ => 1 / 2)).2.1 1 5
      (by decide) (by decide) (by decide)⟩

end mm
end rg

namespace rg
namespace dur

theorem take_length_takeWhile (p : Int → Bool) (l : List Int) :
    l.take (l.takeWhile p).length = l.takeWhile p := by
  induction l with
  | nil => simp
  | cons a t ih =>
    by_cases h : p a
    · simp [List.takeWhile_cons, h, ih]
    · simp [List.takeWhile_cons, h]

theorem drop_length_takeWhile (p : Int → Bool) (l : List Int) :
    l.drop (l.takeWhile p).length = l.dropWhile p := by
  induction l with
  | nil => simp
  | cons a t ih =>
    by_cases h : p a
    · simp [List.takeWhile_cons, List.dropWhile_cons, h, ih]
    · simp [List.takeWhile_cons, List.dropWhile_cons, h]

/-- On a sorted list the prefix that `takeWhile` cuts off for a downward closed
test holds every element that passes the test. -/
theorem length_takeWhile_sorted (p : Int → Bool)
    (hp : ∀ a b : Int, a ≤ b → p b = true → p a = true) (l : List Int)
    (hl : l.Sorted (fun a b => a ≤ b)) :
    (l.takeWhile p).length = l.countP p := by
  induction l with
  | nil => simp
  | cons a t ih =>
    have ht := (List.sorted_cons.1 hl).2
    have ha := (List.sorted_cons.1 hl).1
    by_cases h : p a
    · simp [List.takeWhile_cons, List.countP_cons, h, ih ht]
    · have h0 : t.countP p = 0 := by
        rw [List.countP_eq_zero]
        intro b hb hpb
        exact h (hp a b (ha b hb) hpb)
      simp [List.takeWhile_cons, List.countP_cons, h, h0]

theorem lowerBound_eq_countP (l : List Int) (hl : l.Sorted (fun a b => a ≤ b)) (v : Int) :
    mm.lowerBound l v = l.countP (fun u => decide (u < v)) := by
  unfold mm.lowerBound
  exact length_takeWhile_sorted _ (fun a b hab hb => by
    simp only [decide_eq_true_eq] at hb ⊢; omega) l hl

theorem upperBound_eq_countP (l : List Int) (hl : l.Sorted (fun a b => a ≤ b)) (v : Int) :
    upperBound l v = l.countP (fun u => decide (u ≤ v)) := by
  unfold upperBound
  exact length_takeWhile_sorted _ (fun a b hab hb => by
    simp only [decide_eq_true_eq] at hb ⊢; omega) l hl

/-- Inserting a value at its upper bound keeps a sorted list sorted. -/
theorem sorted_insert_upperBound (l : List Int) (hl : l.Sorted (fun a b => a ≤ b)) (v : Int) :
    (l.take (upperBound l v) ++ v :: l.drop (upperBound l v)).Sorted (fun a b => a ≤ b) := by
  unfold upperBound
  rw [take_length_takeWhile, drop_length_takeWhile]
  have hsplit : l.takeWhile (fun u => decide (u ≤ v)) ++
      l.dropWhile (fun u => decide (u ≤ v)) = l := List.takeWhile_append_dropWhile _ l
  have hl2 : (l.takeWhile (fun u => decide (u ≤ v)) ++
      l.dropWhile (fun u => decide (u ≤ v))).Sorted (fun a b => a ≤ b) := by
    rw [hsplit]; exact hl
  have h3 := List.pairwise_append.1 hl2
  have htake : ∀ a ∈ l.takeWhile (fun u => decide (u ≤ v)), a ≤ v := by
    intro a ha
    have := List.mem_takeWhile_imp ha
    simpa using this
  have hdrop : ∀ b ∈ l.dropWhile (fun u => decide (u ≤ v)), v ≤ b := by
    intro b hb
    cases hd : l.dropWhile (fun u => decide (u ≤ v)) with
    | nil => rw [hd] at hb; cases hb
    | cons c t =>
      have hc : ¬ (fun u => decide (u ≤ v)) c = true := by
        have := List.head_dropWhile_not (fun u => decide (u ≤ v)) l
          (by rw [hd]; exact List.cons_ne_nil _ _)
        simpa [hd] using this
      have hc2 : v < c := by simpa using hc
      rw [hd] at hb h3
      rcases List.mem_cons.1 hb with rfl | hbt
      · omega
      · have := (List.pairwise_cons.1 h3.2.1).1 b hbt
        omega
  refine List.pairwise_append.2 ⟨h3.1, ?_, ?_⟩
  · refine List.pairwise_cons.2 ⟨hdrop, h3.2.1⟩
  · intro a ha b hb
    rcases List.mem_cons.1 hb with rfl | hbt
    · exact htake a ha
    · exact h3.2.2 a ha b hbt

theorem perm_insert_at (l : List Int) (k : Nat) (v : Int) :
    (l.take k ++ v :: l.drop k).Perm (v :: l) := by
  have h : (l.take k ++ v :: l.drop k).Perm (v :: (l.take k ++ l.drop k)) :=
    List.perm_middle
  rwa [List.take_append_drop] at h

/-- The sample database stays sorted and never holds more than 100 000 values. -/
theorem after_sorted (history : List Int) :
    (ValuesToPercentiles.after history).sample_database_.Sorted (fun a b => a ≤ b) ∧
      (ValuesToPercentiles.after history).sample_database_.length ≤ 100000 := by
  unfold ValuesToPercentiles.after
  have key : ∀ (h : List Int) (s : ValuesToPercentiles),
      (s.sample_database_.Sorted (fun a b => a ≤ b) ∧ s.sample_database_.length ≤ 100000) →
      ((h.foldl (fun s v => (s.GetLowerUpper v).2) s).sample_database_.Sorted
          (fun a b => a ≤ b) ∧
        (h.foldl (fun s v => (s.GetLowerUpper v).2) s).sample_database_.length ≤ 100000) := by
    intro h
    induction h with
    | nil => intro s hs; exact hs
    | cons v t ih =>
      intro s hs
      rw [List.foldl_cons]
      apply ih
      unfold ValuesToPercentiles.GetLowerUpper
      simp only
      split_ifs with hlt
      · refine ⟨sorted_insert_upperBound _ hs.1 v, ?_⟩
        rw [(perm_insert_at _ _ v).length_eq, List.length_cons]
        omega
      · exact hs
  exact key history ValuesToPercentiles.new ⟨by simp [ValuesToPercentiles.new], by
    simp [ValuesToPercentiles.new]⟩

/-- A history of one and the same value: the database holds that value once for
each call, up to 100 000 times. -/
theorem after_replicate (c : Int) (k : Nat) :
    (ValuesToPercentiles.after (List.replicate k c)).sample_database_ =
      List.replicate (min k 100000) c := by
  induction k with
  | zero => simp [ValuesToPercentiles.after, ValuesToPercentiles.new]
  | succ k ih =>
    have hfold : ValuesToPercentiles.after (List.replicate (k + 1) c) =
        ((ValuesToPercentiles.after (List.replicate k c)).GetLowerUpper c).2 := by
      unfold ValuesToPercentiles.after
      rw [List.replicate_succ', List.foldl_append]
      rfl
    rw [hfold]
    unfold ValuesToPercentiles.GetLowerUpper
    simp only
    rw [ih]
    have hub : upperBound (List.replicate (min k 100000) c) c = min k 100000 := by
      unfold upperBound
      rw [List.takeWhile_eq_self_iff.2 (by
        intro x hx
        simp [(List.mem_replicate.1 hx).2])]
      simp
    rw [hub]
    split_ifs with hlt
    · simp only [List.length_replicate] at hlt
      have h1 : min k 100000 = k := by omega
      have h2 : min (k + 1) 100000 = k + 1 := by omega
      rw [h1, h2]
      simp [List.replicate_succ']
    · simp only [List.length_replicate] at hlt
      have h1 : min k 100000 = 100000 := by omega
      have h2 : min (k + 1) 100000 = 100000 := by omega
      rw [h1, h2]

/-- C21: For every history of calls, `GetLowerUpper v` returns
lower = (number of stored samples below `v` + 1/2)/(n + 1) and
upper = (number of stored samples not above `v` + 1/2)/(n + 1), where `n` is
the number of samples stored before the call; hence 0 < lower ≤ upper < 1, and
lower = upper exactly when `v` is not stored yet. The stored sample is sorted
before and after the call and never holds more than 100 000 values; when
n < 100 000 the value is inserted (the new sample is a rearrangement of `v`
and the old sample), and when the sample holds 100 000 values it is left
unchanged. -/
theorem C21_get_lower_upper (history : List Int) (v : Int) :
    (fun (db : List Int) (r : (ℚ × ℚ) × ValuesToPercentiles) =>
      r.1.1 = ((db.countP (fun u => decide (u < v)) : ℚ) + 1 / 2) / ((db.length : ℚ) + 1) ∧
      r.1.2 = ((db.countP (fun u => decide (u ≤ v)) : ℚ) + 1 / 2) / ((db.length : ℚ) + 1) ∧
      0 < r.1.1 ∧ r.1.1 ≤ r.1.2 ∧ r.1.2 < 1 ∧
      (r.1.1 = r.1.2 ↔ v ∉ db) ∧
      db.Sorted (fun a b => a ≤ b) ∧
      r.2.sample_database_.Sorted (fun a b => a ≤ b) ∧
      db.length ≤ 100000 ∧
      (db.length < 100000 →
        r.2.sample_database_.Perm (v :: db) ∧
        r.2.sample_database_ =
          db.take (db.countP (fun u => decide (u ≤ v))) ++
            v :: db.drop (db.countP (fun u => decide (u ≤ v)))) ∧
      (db.length = 100000 → r.2.sample_database_ = db))
    (ValuesToPercentiles.after history).sample_database_
    ((ValuesToPercentiles.after history).GetLowerUpper v) := by
  obtain ⟨hs, hlen⟩ := after_sorted history
  generalize (ValuesToPercentiles.after history) = s at hs hlen
  show _ ∧ _
  have hlo := lowerBound_eq_countP s.sample_database_ hs v
  have hup := upperBound_eq_countP s.sample_database_ hs v
  have hle : s.sample_database_.countP (fun u => decide (u < v)) ≤
      s.sample_database_.countP (fun u => decide (u ≤ v)) := by
    apply List.countP_mono_left
    intro x _ hx
    simp only [decide_eq_true_eq] at hx ⊢
    omega
  have hupn : s.sample_database_.countP (fun u => decide (u ≤ v)) ≤
      s.sample_database_.length := List.countP_le_length _
  have hcount : s.sample_database_.countP (fun u => decide (u ≤ v)) =
      s.sample_database_.countP (fun u => decide (u < v)) + s.sample_database_.count v := by
    generalize s.sample_database_ = l
    induction l with
    | nil => simp
    | cons a t ih =>
      simp only [List.countP_cons, List.count_cons, ih, decide_eq_true_eq, beq_iff_eq]
      rcases lt_trichotomy a v with h | h | h
      · have h1 : a ≤ v := by omega
        have h2 : ¬ a = v := by omega
        simp [h, h1, h2]; omega
      · subst h; simp; omega
      · have h1 : ¬ a ≤ v := by omega
        have h2 : ¬ a = v := by omega
        have h3 : ¬ a < v := by omega
        simp [h1, h2, h3]
  have hpos : (0 : ℚ) < (s.sample_database_.length : ℚ) + 1 := by positivity
  have e1 : (s.GetLowerUpper v).1.1 =
      ((s.sample_database_.countP (fun u => decide (u < v)) : ℚ) + 1 / 2) /
        ((s.sample_database_.length : ℚ) + 1) := by
    simp [ValuesToPercentiles.GetLowerUpper, hlo]
  have e2 : (s.GetLowerUpper v).1.2 =
      ((s.sample_database_.countP (fun u => decide (u ≤ v)) : ℚ) + 1 / 2) /
        ((s.sample_database_.length : ℚ) + 1) := by
    simp [ValuesToPercentiles.GetLowerUpper, hup]
  have hleq : (s.sample_database_.countP (fun u => decide (u < v)) : ℚ) ≤
      (s.sample_database_.countP (fun u => decide (u ≤ v)) : ℚ) := by exact_mod_cast hle
  have hupq : (s.sample_database_.countP (fun u => decide (u ≤ v)) : ℚ) ≤
      (s.sample_database_.length : ℚ) := by exact_mod_cast hupn
  refine ⟨e1, e2, ?_, ?_, ?_, ?_, hs, ?_, hlen, ?_, ?_⟩
  · rw [e1]; positivity
  · rw [e1, e2]
    apply div_le_div_of_nonneg_right _ hpos.le
    linarith
  · rw [e2, div_lt_one hpos]
    linarith
  · rw [e1, e2]
    constructor
    · intro h
      have h2 := (div_left_inj' hpos.ne').1 h
      have h3 : (s.sample_database_.countP (fun u => decide (u < v)) : ℚ) =
          (s.sample_database_.countP (fun u => decide (u ≤ v)) : ℚ) := by linarith
      have h4 : s.sample_database_.countP (fun u => decide (u < v)) =
          s.sample_database_.countP (fun u => decide (u ≤ v)) := by exact_mod_cast h3
      have h5 : s.sample_database_.count v = 0 := by omega
      exact List.count_eq_zero.1 h5
    · intro h
      have h5 : s.sample_database_.count v = 0 := List.count_eq_zero.2 h
      rw [hcount, h5, Nat.add_zero]
  · unfold ValuesToPercentiles.GetLowerUpper
    simp only
    split_ifs with hlt
    · exact sorted_insert_upperBound _ hs v
    · exact hs
  · intro hlt
    unfold ValuesToPercentiles.GetLowerUpper
    simp only [hlt, if_true]
    refine ⟨perm_insert_at _ _ v, ?_⟩
    rw [hup]
  · intro heq
    unfold ValuesToPercentiles.GetLowerUpper
    simp [heq]

/-- Witness for C21: after the calls with 3, 1 and 3 the sample is 1, 3, 3; a
call with 3 then returns 3/8 and 7/8 and stores a third 3, and a call with
2 returns 3/8 twice. -/
theorem C21_get_lower_upper_witness :
    (ValuesToPercentiles.after [3, 1, 3]).sample_database_ = [1, 3, 3] ∧
    ((ValuesToPercentiles.after [3, 1, 3]).GetLowerUpper 3).1 = (3 / 8, 7 / 8) ∧
    ((ValuesToPercentiles.after [3, 1, 3]).GetLowerUpper 3).2.sample_database_ = [1, 3, 3, 3] ∧
    ((ValuesToPercentiles.after [3, 1, 3]).GetLowerUpper 2).1 = (3 / 8, 3 / 8) ∧
    ((ValuesToPercentiles.after [3, 1, 3]).GetLowerUpper 2).1.1 =
      ((ValuesToPercentiles.after [3, 1, 3]).GetLowerUpper 2).1.2 ∧
    (2 : Int) ∉ (ValuesToPercentiles.after [3, 1, 3]).sample_database_ := by
  have h := C21_get_lower_upper [3, 1, 3] 2
  simp only at h
  refine ⟨by decide!, by decide!, by decide!, by decide!, ?_, ?_⟩
  · exact h.2.2.2.2.2.1.2 (by decide!)
  · exact h.2.2.2.2.2.1.1 (by decide!)

end dur
end rg

namespace rg

theorem staticCastInt_nonneg (x : ℚ) (hx : 0 ≤ x) : 0 ≤ tr.staticCastInt x := by
  unfold tr.staticCastInt
  rw [if_pos hx]
  exact Int.floor_nonneg.2 hx

theorem staticCastInt_eq_zero_iff (x : ℚ) (hx : 0 ≤ x) : tr.staticCastInt x = 0 ↔ x < 1 := by
  unfold tr.staticCastInt
  rw [if_pos hx, Int.floor_eq_iff]
  constructor
  · intro h; simpa using h.2
  · intro h; exact ⟨by simpa using hx, by simpa using h⟩

/-- C22 (counterexample): `AddRelation` creates a relation that ends on the day
it starts. The two requests are made by `AddRelationRequest` on a new sampler
and matchmaker at calls where the quantile of the duration distribution is
half a day; `Get` rounds it down to 0 days, and the relation made from the two
requests on day 100 has `time_start = time_end = 100`. -/
theorem C22_counterexample :
    (fun (first second : dur.GetDuration × mm.MatchMaker) =>
      first.2.relation_request_by_group_ 0 = [⟨1, 0⟩] ∧
      second.2.relation_request_by_group_ 0 = [⟨1, 0⟩, ⟨2, 0⟩] ∧
      (AddRelation ⟨100, sv.priority.MATCHMAKING, fun _ => none, fun _ _ _ _ => 0⟩
        ⟨[]⟩ 0 true (⟨1, 0⟩, ⟨2, 0⟩)).1 = ⟨0, 1, 2, 100, 100⟩ ∧
      ¬ ((AddRelation ⟨100, sv.priority.MATCHMAKING, fun _ => none, fun _ _ _ _ => 0⟩
        ⟨[]⟩ 0 true (⟨1, 0⟩, ⟨2, 0⟩)).1.time_end >
        (AddRelation ⟨100, sv.priority.MATCHMAKING, fun _ => none, fun _ _ _ _ => 0⟩
        ⟨[]⟩ 0 true (⟨1, 0⟩, ⟨2, 0⟩)).1.time_start))
    (AddRelationRequest (fun _ => 1 / 100) (fun _ => 1 / 2) (fun _ => 0)
      (dur.GetDuration.after []) (mm.MatchMaker.new 1 (fun _ _ => 1)) 0 0 1 30)
    (AddRelationRequest (fun _ => 1 / 100) (fun _ => 1 / 2) (fun _ => 0)
      (AddRelationRequest (fun _ => 1 / 100) (fun _ => 1 / 2) (fun _ => 0)
        (dur.GetDuration.after []) (mm.MatchMaker.new 1 (fun _ _ => 1)) 0 0 1 30).1
      (AddRelationRequest (fun _ => 1 / 100) (fun _ => 1 / 2) (fun _ => 0)
        (dur.GetDuration.after []) (mm.MatchMaker.new 1 (fun _ _ => 1)) 0 0 1 30).2
      0 0 2 45) := by
  refine ⟨by decide!, by decide!, by decide!, by decide!⟩

/-- C22 (amended): the relation that `AddRelation` creates starts on the current
day and ends `duration` days later, where `duration` is the duration of the
request that the Bernoulli draw picks. For requests with non-negative
durations the relation does not end before it starts, and it ends strictly
later exactly when the picked duration is at least one day. The durations that
`AddRelationRequest` stores come from `GetDuration::Get`, which for a
non-negative quantile function returns a non-negative number of days, and
returns 0 exactly when the quantile is below one day. -/
theorem C22_add_relation_time_end (state : sv.State) (relation_list : sv.RelationList)
    (relation_id : Int) (pick_first_duration : Bool)
    (requests : mm.RelationRequest × mm.RelationRequest)
    (h1 : 0 ≤ requests.1.duration_in_days) (h2 : 0 ≤ requests.2.duration_in_days) :
    (fun (duration : Int) (r : sv.Relation) =>
      r.time_start = state.time ∧
      r.time_end = r.time_start + duration ∧
      r.time_start ≤ r.time_end ∧
      (r.time_start < r.time_end ↔ 1 ≤ duration) ∧
      (r.time_start = r.time_end ↔ duration = 0))
      (if pick_first_duration then requests.1.duration_in_days
        else requests.2.duration_in_days)
      (AddRelation state relation_list relation_id pick_first_duration requests).1 ∧
    (∀ (CombineValues : List ℚ → ℚ) (DurationGivenPercentile : ℚ → ℚ),
      (∀ p, 0 ≤ DurationGivenPercentile p) →
      ∀ (get_duration : dur.GetDuration) (draw_range draw_association : ℚ)
        (interrelation_time : Int),
        0 ≤ (get_duration.Get CombineValues DurationGivenPercentile draw_range
              draw_association interrelation_time).1 ∧
        ((get_duration.Get CombineValues DurationGivenPercentile draw_range
              draw_association interrelation_time).1 = 0 ↔
          DurationGivenPercentile (CombineValues [draw_association,
            get_duration.inter_relation_percentile draw_range interrelation_time]) < 1)) := by
  constructor
  · show _ ∧ _
    unfold AddRelation
    cases pick_first_duration
    · simp only [Bool.false_eq_true, if_false] at *
      refine ⟨trivial, trivial, ?_, ?_, ?_⟩
      · omega
      · constructor <;> intro h <;> omega
      · constructor <;> intro h <;> omega
    · simp only [if_true] at *
      refine ⟨trivial, trivial, ?_, ?_, ?_⟩
      · omega
      · constructor <;> intro h <;> omega
      · constructor <;> intro h <;> omega
  · intro CombineValues DurationGivenPercentile hq get_duration draw_range draw_association
      interrelation_time
    unfold dur.GetDuration.Get dur.GetDuration.inter_relation_percentile
    exact ⟨staticCastInt_nonneg _ (hq _), staticCastInt_eq_zero_iff _ (hq _)⟩

/-- Witness for C22: on day 100 the requests of 0 and 3 days give a relation
from day 100 to day 100 when the first duration is picked. -/
theorem C22_add_relation_time_end_witness :
    (fun (requests : mm.RelationRequest × mm.RelationRequest) =>
      0 ≤ requests.1.duration_in_days ∧ 0 ≤ requests.2.duration_in_days ∧
      (AddRelation ⟨100, sv.priority.MATCHMAKING, fun _ => none, fun _ _ _ _ => 0⟩
        ⟨[]⟩ 7 true requests).1.time_end = 100 + 0 ∧
      (AddRelation ⟨100, sv.priority.MATCHMAKING, fun _ => none, fun _ _ _ _ => 0⟩
        ⟨[]⟩ 7 false requests).1.time_end = 100 + 3)
    (⟨1, 0⟩, ⟨2, 3⟩) :=
  ⟨by decide, by decide,
    (C22_add_relation_time_end ⟨100, sv.priority.MATCHMAKING, fun _ => none, fun _ _ _ _ => 0⟩
      ⟨[]⟩ 7 true (⟨1, 0⟩, ⟨2, 3⟩) (by decide) (by decide)).1.2.1,
    (C22_add_relation_time_end ⟨100, sv.priority.MATCHMAKING, fun _ => none, fun _ _ _ _ => 0⟩
      ⟨[]⟩ 7 false (⟨1, 0⟩, ⟨2, 3⟩) (by decide) (by decide)).1.2.1⟩

end rg

namespace rg
namespace start

/-- C23: `next_relation_time` is not monotone. A person born on day 0 with the
parameters sexual onset 15, sexual stop 80 + 2000001/912500000 years, 300
partners, skew 0, age effect 1 and the average rate 16/365 gets the arrivals
2138.7151427 and 0.0000001 from the stationary process. For the first the loop
ends after one pass (the correction is just below 0.1) at 17338.00000003, for
the second it makes a second pass (the first correction is just above 0.1) and
ends at 17337.99999984: the two calls return day 17338 and then day 17337. -/
theorem C23_next_relation_time_decreases :
    sv.Person.next_relation_times 0 100
      (NextRelationPersonTime.new
        { sexual_onset := 15, sexual_stop := 80 + 2000001 / 912500000,
          average_total_lifetime_n_partners := 300, rate_given_age_formula_skew := 0,
          age_effect_strength := 1 }
        (16 / 365))
      [21387151427 / 10000000, 1 / 10000000] = some [17338, 17337] := by
  decide!

end start
end rg

namespace tr

/-- C24: For every layer `L` and every shift `d`, moving `L` forward by `d` and
then by `-d` gives `L` back (every x-coordinate, in exact arithmetic), and
`MoveForward` keeps the number of points, their order and every y-value: the
point at each position is the point of `L` at that position with `d` added
to its x-coordinate. -/
theorem C24_move_forward_round_trip (L : Layer) (d : ℚ) :
    layer.MoveForward (layer.MoveForward L d) (-d) = L ∧
    (layer.MoveForward (layer.MoveForward L d) (-d)).map (fun c => c.x) =
      L.map (fun c => c.x) ∧
    (layer.MoveForward L d).length = L.length ∧
    (layer.MoveForward L d).map (fun c => c.y) = L.map (fun c => c.y) ∧
    (layer.MoveForward L d).map (fun c => c.x) = L.map (fun c => c.x + d) ∧
    (∀ i : Nat, (layer.MoveForward L d)[i]? =
      (L[i]?).map (fun c => (⟨c.x + d, c.y⟩ : Coordinate))) := by
  have h : layer.MoveForward (layer.MoveForward L d) (-d) = L := by
    unfold layer.MoveForward
    rw [List.map_map]
    conv_rhs => rw [← List.map_id L]
    apply List.map_congr_left
    intro c _
    cases c
    simp
  refine ⟨h, by rw [h], ?_, ?_, ?_, ?_⟩
  · simp [layer.MoveForward]
  · simp [layer.MoveForward, List.map_map, Function.comp_def]
  · simp [layer.MoveForward, List.map_map, Function.comp_def]
  · intro i
    simp [layer.MoveForward, List.getElem?_map]

end tr

namespace rg
namespace dur

/-- The percentile bounds for a value that was the only one fed so far: with
`n` stored copies they are (1/2)/(n + 1) and (n + 1/2)/(n + 1). -/
theorem GetLowerUpper_replicate (c : Int) (n : Nat) :
    ((ValuesToPercentiles.mk (List.replicate n c)).GetLowerUpper c).1 =
      ((1 / 2 : ℚ) / ((n : ℚ) + 1), ((n : ℚ) + 1 / 2) / ((n : ℚ) + 1)) := by
  have hlo : mm.lowerBound (List.replicate n c) c = 0 := by
    unfold mm.lowerBound
    cases n with
    | zero => simp
    | succ m => simp [List.replicate_succ, List.takeWhile_cons]
  have hup : upperBound (List.replicate n c) c = n := by
    unfold upperBound
    rw [List.takeWhile_eq_self_iff.2 (by
      intro x hx
      simp [(List.mem_replicate.1 hx).2])]
    simp
  unfold ValuesToPercentiles.GetLowerUpper
  simp [hlo, hup]

/-- C25 (counterexample): with the same inter-relation time 30 on every call the
inter-relation percentile is not one single value. On the first call it is
1/2; on the second call the bounds are 1/4 and 3/4 and the percentile is
1/4 for the draw 0 and 1/2 for the draw 1/2, so it depends on the draw and
differs from call to call. -/
theorem C25_counterexample :
    (GetDuration.after []).inter_relation_percentile 0 30 = 1 / 2 ∧
    ((GetDuration.after [30]).val_to_percentile_.GetLowerUpper 30).1 = (1 / 4, 3 / 4) ∧
    (GetDuration.after [30]).inter_relation_percentile 0 30 = 1 / 4 ∧
    (GetDuration.after [30]).inter_relation_percentile (1 / 2) 30 = 1 / 2 ∧
    (GetDuration.after [30]).inter_relation_percentile 0 30 ≠
      (GetDuration.after [30]).inter_relation_percentile (1 / 2) 30 ∧
    (GetDuration.after [30]).inter_relation_percentile 0 30 ≠
      (GetDuration.after []).inter_relation_percentile 0 30 := by
  refine ⟨by decide!, by decide!, by decide!, by decide!, by decide!, by decide!⟩

/-- C25 (amended): for the duration sampler fed the same inter-relation time `c`
on every call, the inter-relation percentile of the call after `k` earlier
calls is 1/2 when `k = 0`; for `k ≥ 1`, with `n = min k 100000` stored
copies of `c`, the bounds are (1/2)/(n + 1) and (n + 1/2)/(n + 1) and the
percentile is `n/(n + 1) * draw + (1/2)/(n + 1)`, a value that moves with the
uniform draw. The sampler after the call is the one after `k + 1` calls. -/
theorem C25_constant_input_percentile (c : Int) (k : Nat) (draw : ℚ)
    (CombineValues : List ℚ → ℚ) (DurationGivenPercentile : ℚ → ℚ) (draw_association : ℚ) :
    (GetDuration.after (List.replicate k c)).inter_relation_percentile draw c =
      (if k = 0 then 1 / 2
       else ((min k 100000 : Nat) : ℚ) / (((min k 100000 : Nat) : ℚ) + 1) * draw +
          (1 / 2) / (((min k 100000 : Nat) : ℚ) + 1)) ∧
    ((GetDuration.after (List.replicate k c)).Get CombineValues DurationGivenPercentile
        draw draw_association c).1 =
      tr.staticCastInt (DurationGivenPercentile (CombineValues [draw_association,
        (GetDuration.after (List.replicate k c)).inter_relation_percentile draw c])) ∧
    ((GetDuration.after (List.replicate k c)).Get CombineValues DurationGivenPercentile
        draw draw_association c).2 = GetDuration.after (List.replicate (k + 1) c) := by
  refine ⟨?_, rfl, ?_⟩
  · unfold GetDuration.inter_relation_percentile GetDuration.after
    have hdb : ValuesToPercentiles.after (List.replicate k c) =
        ValuesToPercentiles.mk (List.replicate (min k 100000) c) := by
      have := after_replicate c k
      cases h : ValuesToPercentiles.after (List.replicate k c) with
      | mk db => rw [h] at this; simp only at this; rw [this]
    rw [hdb, GetLowerUpper_replicate]
    unfold GetDuration.interRelationPercentile
    simp only
    by_cases hk : k = 0
    · subst hk
      norm_num
    · rw [if_neg hk]
      have hn : 1 ≤ min k 100000 := by omega
      generalize min k 100000 = n at hn
      have hn1 : (1 : ℚ) ≤ (n : ℚ) := by exact_mod_cast hn
      have hpos : (0 : ℚ) < (n : ℚ) + 1 := by linarith
      have hdiff : ((n : ℚ) + 1 / 2) / ((n : ℚ) + 1) - 1 / 2 / ((n : ℚ) + 1) =
          (n : ℚ) / ((n : ℚ) + 1) := by
        field_simp
        ring
      rw [hdiff]
      have hgt : (n : ℚ) / ((n : ℚ) + 1) > 1 / 1000 := by
        rw [gt_iff_lt, div_lt_div_iff₀ (by norm_num) hpos]
        linarith
      rw [if_pos hgt]
  · unfold GetDuration.Get GetDuration.after
    simp only
    congr 1
    unfold ValuesToPercentiles.after
    rw [List.replicate_succ', List.foldl_append]
    rfl

end dur
end rg

namespace rg
namespace mm

theorem credit_sub_one_le (c : Credit) : c + ((-1 : ℚ) : Credit) ≤ c := by
  cases c using WithBot.recBotCoe with
  | bot => simp
  | coe v =>
    rw [← WithBot.coe_add, WithBot.coe_le_coe]
    linarith

/-- The partial bubble sort puts the changed entry in its place in a list that
is sorted by descending credit. -/
theorem sorted_bubbleDown (ours : alje.MultiSetSize2 × Credit) :
    ∀ (l : List (alje.MultiSetSize2 × Credit)),
      l.Pairwise (fun p q => q.2 ≤ p.2) →
      (bubbleDown ours l).Pairwise (fun p q => q.2 ≤ p.2) := by
  intro l
  induction l with
  | nil => intro _; simp [bubbleDown]
  | cons below rest ih =>
    intro hl
    have hrest := (List.pairwise_cons.1 hl).2
    have hbelow := (List.pairwise_cons.1 hl).1
    unfold bubbleDown
    split_ifs with hle
    · refine List.pairwise_cons.2 ⟨?_, hl⟩
      intro q hq
      rcases List.mem_cons.1 hq with rfl | hq
      · exact hle
      · exact le_trans (hbelow q hq) hle
    · refine List.pairwise_cons.2 ⟨?_, ih hrest⟩
      intro q hq
      rcases mem_bubbleDown ours rest q hq with rfl | hq
      · exact le_of_lt (lt_of_not_le hle)
      · exact hbelow q hq

theorem mem_removeAt_le (l : List (alje.MultiSetSize2 × Credit)) :
    ∀ (k : Nat) (q : alje.MultiSetSize2 × Credit),
      q ∈ removeAt l k → ∃ x ∈ l, q.2 ≤ x.2 := by
  induction l with
  | nil => intro k q hq; simp [removeAt] at hq
  | cons a l ih =>
    intro k q hq
    cases k with
    | zero =>
      simp only [removeAt] at hq
      rcases mem_bubbleDown _ _ q hq with rfl | h
      · exact ⟨a, by simp, credit_sub_one_le a.2⟩
      · exact ⟨q, by simp [h], le_refl _⟩
    | succ k =>
      simp only [removeAt] at hq
      rcases List.mem_cons.1 hq with rfl | h
      · exact ⟨q, by simp, le_refl _⟩
      · obtain ⟨x, hx, hle⟩ := ih k q h
        exact ⟨x, by simp [hx], hle⟩

/-- `Remove` keeps a list that is sorted by descending credit sorted. -/
theorem sorted_removeAt (l : List (alje.MultiSetSize2 × Credit)) :
    ∀ (k : Nat), l.Pairwise (fun p q => q.2 ≤ p.2) →
      (removeAt l k).Pairwise (fun p q => q.2 ≤ p.2) := by
  induction l with
  | nil => intro k _; simp [removeAt]
  | cons a l ih =>
    intro k hl
    have hrest := (List.pairwise_cons.1 hl).2
    have ha := (List.pairwise_cons.1 hl).1
    cases k with
    | zero =>
      simp only [removeAt]
      exact sorted_bubbleDown _ l hrest
    | succ k =>
      simp only [removeAt]
      refine List.pairwise_cons.2 ⟨?_, ih k hrest⟩
      intro q hq
      obtain ⟨x, hx, hle⟩ := mem_removeAt_le l k q hq
      exact le_trans hle (ha x hx)

/-- The entries after `Remove` are the entries before it, with the entry at the
position lowered by 1. -/
theorem perm_removeAt (l : List (alje.MultiSetSize2 × Credit)) :
    ∀ (k : Nat) (p : alje.MultiSetSize2 × Credit), l[k]? = some p →
      (removeAt l k).Perm (l.set k (p.1, p.2 + ((-1 : ℚ) : Credit))) := by
  induction l with
  | nil => intro k p hp; simp at hp
  | cons a l ih =>
    intro k p hp
    cases k with
    | zero =>
      simp only [List.getElem?_cons_zero, Option.some.injEq] at hp
      subst hp
      simp only [removeAt, List.set_cons_zero]
      exact perm_bubbleDown _ l
    | succ k =>
      simp only [List.getElem?_cons_succ] at hp
      simp only [removeAt, List.set_cons_succ]
      exact List.Perm.cons a (ih k p hp)

theorem removeAt_getElem?_lt (l : List (alje.MultiSetSize2 × Credit)) :
    ∀ (k i : Nat), i < k → (removeAt l k)[i]? = l[i]? := by
  induction l with
  | nil => intro k i _; simp [removeAt]
  | cons a l ih =>
    intro k i hik
    cases k with
    | zero => omega
    | succ k =>
      simp only [removeAt]
      cases i with
      | zero => simp
      | succ i =>
        simp only [List.getElem?_cons_succ]
        exact ih k i (by omega)

/-- C26: If the link list is sorted by credit in descending order and the
cursor is on an acceptable link, then after `Remove` the list is again sorted
in descending order; the link under the cursor had a credit `v > -50`, and the
new list is a rearrangement of the old list in which that one entry has the
credit `v - 1` and every other (link, credit) pair is unchanged; the entries
above the cursor keep their places, and the cursor index, the length of the
list and the other members are unchanged. -/
theorem C26_remove_keeps_sorted (lh : LinkHandler)
    (hsorted : lh.link_list_.Pairwise (fun p q => q.2 ≤ p.2))
    (hacc : lh.PointsToAcceptableLink = true) :
    (lh.Remove).link_list_.Pairwise (fun p q => q.2 ≤ p.2) ∧
    (∃ (link : alje.MultiSetSize2) (v : ℚ),
      lh.link_list_[lh.current_position_]? = some (link, (v : Credit)) ∧ -50 < v ∧
      (lh.Remove).link_list_.Perm
        (lh.link_list_.set lh.current_position_ (link, ((v - 1 : ℚ) : Credit)))) ∧
    (∀ i, i < lh.current_position_ → (lh.Remove).link_list_[i]? = lh.link_list_[i]?) ∧
    (lh.Remove).current_position_ = lh.current_position_ ∧
    (lh.Remove).link_list_.length = lh.link_list_.length ∧
    (lh.Remove).link_list_state_ = lh.link_list_state_ ∧
    (lh.Remove).n_groups_ = lh.n_groups_ := by
  refine ⟨sorted_removeAt _ _ hsorted, ?_, removeAt_getElem?_lt _ _, rfl,
    length_removeAt _ _, rfl, rfl⟩
  unfold LinkHandler.PointsToAcceptableLink at hacc
  cases hget : lh.link_list_[lh.current_position_]? with
  | none => rw [hget] at hacc; simp at hacc
  | some p =>
    rw [hget] at hacc
    simp only [decide_eq_true_eq] at hacc
    obtain ⟨link, c⟩ := p
    cases c using WithBot.recBotCoe with
    | bot => simp at hacc
    | coe v =>
      have hv : -50 < v := by
        have h := WithBot.coe_lt_coe.1 hacc
        simpa [LinkHandler.acceptable_treshhold_] using h
      refine ⟨link, v, rfl, hv, ?_⟩
      have h := perm_removeAt lh.link_list_ lh.current_position_ _ hget
      have hc : ((v : ℚ) : Credit) + ((-1 : ℚ) : Credit) = ((v - 1 : ℚ) : Credit) := by
        rw [← WithBot.coe_add, sub_eq_add_neg]
      simp only [hc] at h
      exact h

/-- Witness for C26: the list with credits 3, 3, 5/2, "-inf" and the cursor on
the first link; `Remove` lowers the credit of link {0,0} to 2 and moves it
below the two entries with a higher credit. -/
theorem C26_remove_keeps_sorted_witness :
    (fun (lh : LinkHandler) =>
      lh.link_list_.Pairwise (fun p q => q.2 ≤ p.2) ∧
      lh.PointsToAcceptableLink = true ∧
      (lh.Remove).link_list_ =
        [(⟨0, 1⟩, ((3 : ℚ) : Credit)), (⟨1, 1⟩, ((5 / 2 : ℚ) : Credit)),
          (⟨0, 0⟩, ((2 : ℚ) : Credit)), (⟨0, 2⟩, ⊥)] ∧
      (lh.Remove).link_list_.Pairwise (fun p q => q.2 ≤ p.2))
    { n_sorts_by_value_called_ := 1, n_sorts_by_links_called_ := 1, current_position_ := 0,
      n_groups_ := 3, partner_choice_matrix_ := fun _ _ => 1 / 3,
      link_list_ := [(⟨0, 0⟩, ((3 : ℚ) : Credit)), (⟨0, 1⟩, ((3 : ℚ) : Credit)),
        (⟨1, 1⟩, ((5 / 2 : ℚ) : Credit)), (⟨0, 2⟩, ⊥)],
      link_list_state_ := LinkListState.SORTED_BY_VALUE } :=
  ⟨by decide!, by decide!, by decide!,
    (C26_remove_keeps_sorted
      { n_sorts_by_value_called_ := 1, n_sorts_by_links_called_ := 1, current_position_ := 0,
        n_groups_ := 3, partner_choice_matrix_ := fun _ _ => 1 / 3,
        link_list_ := [(⟨0, 0⟩, ((3 : ℚ) : Credit)), (⟨0, 1⟩, ((3 : ℚ) : Credit)),
          (⟨1, 1⟩, ((5 / 2 : ℚ) : Credit)), (⟨0, 2⟩, ⊥)],
        link_list_state_ := LinkListState.SORTED_BY_VALUE }
      (by decide!) (by decide!)).1⟩

end mm
end rg

namespace rg
namespace mm

theorem mem_removeAt_link_le (l : List (alje.MultiSetSize2 × Credit)) :
    ∀ (k : Nat) (q : alje.MultiSetSize2 × Credit),
      q ∈ removeAt l k → ∃ x ∈ l, x.1 = q.1 ∧ q.2 ≤ x.2 := by
  induction l with
  | nil => intro k q hq; simp [removeAt] at hq
  | cons a l ih =>
    intro k q hq
    cases k with
    | zero =>
      simp only [removeAt] at hq
      rcases mem_bubbleDown _ _ q hq with rfl | h
      · exact ⟨a, by simp, rfl, credit_sub_one_le a.2⟩
      · exact ⟨q, by simp [h], rfl, le_refl _⟩
    | succ k =>
      simp only [removeAt] at hq
      rcases List.mem_cons.1 hq with rfl | h
      · exact ⟨q, by simp, rfl, le_refl _⟩
      · obtain ⟨x, hx, he, hle⟩ := ih k q h
        exact ⟨x, by simp [hx], he, hle⟩

/-- The test of the priority pass stays false when counters go down. -/
theorem priorityTest_mono (mm mm1 : MatchMaker) (g1 g2 : Nat)
    (hr : ∀ g, mm1.r_ g ≤ mm.r_ g) (hp : ∀ g, mm1.r_p_ g ≤ mm.r_p_ g)
    (h : mm.priorityTest g1 g2 = false) : mm1.priorityTest g1 g2 = false := by
  rw [Bool.eq_false_iff, Ne, priorityTest_iff] at h ⊢
  have a1 := hr g1
  have a2 := hr g2
  have a3 := hp g1
  have a4 := hp g2
  intro hc
  apply h
  rcases hc with ⟨e, c⟩ | ⟨e, c⟩ | ⟨e, c⟩
  · left; exact ⟨e, by omega⟩
  · right; left; exact ⟨e, by omega⟩
  · right; right; exact ⟨e, by omega⟩

theorem takeRequest_le (mm : MatchMaker) (group : Nat) :
    (∀ g, (mm.takeRequest group).1.r_ g ≤ mm.r_ g) ∧
    (∀ g, (mm.takeRequest group).1.r_p_ g ≤ mm.r_p_ g) := by
  constructor
  · intro g
    rw [takeRequest_r_]
    split_ifs <;> omega
  · intro g
    rw [takeRequest_r_p_]
    split_ifs <;> omega

theorem MatchFound_link_handler (mm : MatchMaker) (g1 g2 : Nat) :
    (mm.MatchFoundDoAllAndReturnPair g1 g2).1.link_handler_ = mm.link_handler_.Remove := by
  unfold MatchMaker.MatchFoundDoAllAndReturnPair
  simp only
  rw [takeRequest_link_handler, takeRequest_link_handler]

theorem MatchFound_le (mm : MatchMaker) (g1 g2 : Nat) :
    (∀ g, (mm.MatchFoundDoAllAndReturnPair g1 g2).1.r_ g ≤ mm.r_ g) ∧
    (∀ g, (mm.MatchFoundDoAllAndReturnPair g1 g2).1.r_p_ g ≤ mm.r_p_ g) := by
  unfold MatchMaker.MatchFoundDoAllAndReturnPair
  simp only
  obtain ⟨a1, a2⟩ := takeRequest_le
    ({ mm with link_handler_ := mm.link_handler_.Remove } : MatchMaker) g1
  obtain ⟨b1, b2⟩ := takeRequest_le
    (({ mm with link_handler_ := mm.link_handler_.Remove } : MatchMaker).takeRequest g1).1 g2
  exact ⟨fun g => le_trans (b1 g) (a1 g), fun g => le_trans (b2 g) (a2 g)⟩

/-- A `while` loop keeps what each of its iterations keeps. -/
theorem runLoop_keeps
    (J : MatchMaker → List (RelationRequest × RelationRequest) → Prop)
    (step : MatchMaker → List (RelationRequest × RelationRequest) →
      Option (MatchMaker × List (RelationRequest × RelationRequest)))
    (hstep : ∀ (mm : MatchMaker) (acc : List (RelationRequest × RelationRequest)),
      J mm acc → ∀ next, step mm acc = some next → J next.1 next.2)
    (fuel : Nat) :
    ∀ (mm : MatchMaker) (acc : List (RelationRequest × RelationRequest)),
      J mm acc →
      J (MatchMaker.runLoop step fuel mm acc).1 (MatchMaker.runLoop step fuel mm acc).2 := by
  induction fuel with
  | zero => intro mm acc h; exact h
  | succ fuel ih =>
    intro mm acc h
    simp only [MatchMaker.runLoop]
    cases hs : step mm acc with
    | none => exact h
    | some next => exact ih next.1 next.2 (hstep mm acc h next hs)

/-- An iteration of the priority pass keeps the links above the cursor
without a possible priority match. -/
theorem priorityStep_scanned (mm : MatchMaker)
    (acc : List (RelationRequest × RelationRequest)) (h : mm.PriorityScanned)
    (next : MatchMaker × List (RelationRequest × RelationRequest))
    (hs : mm.priorityStep acc = some next) : next.1.PriorityScanned := by
  unfold MatchMaker.priorityStep at hs
  split_ifs at hs with hpt
  cases hget : mm.link_handler_.Get with
  | none => rw [hget] at hs; simp at hs
  | some link =>
    rw [hget] at hs
    simp only at hs
    split_ifs at hs with htest
    · simp only [Option.some.injEq] at hs
      subst hs
      obtain ⟨m1, m2⟩ := MatchFound_le mm link.first link.second
      unfold MatchMaker.PriorityScanned
      simp only [MatchFound_link_handler]
      refine ⟨sorted_removeAt _ _ h.1, ?_⟩
      intro i hi p hp
      simp only [LinkHandler.Remove] at hi hp
      rw [removeAt_getElem?_lt _ _ _ hi] at hp
      exact priorityTest_mono mm _ _ _ m1 m2 (h.2 i hi p hp)
    · simp only [Option.some.injEq] at hs
      subst hs
      refine ⟨h.1, ?_⟩
      intro i hi p hp
      simp only [LinkHandler.Next] at hi hp
      by_cases e : i < mm.link_handler_.current_position_
      · exact h.2 i e p hp
      · have e2 : i = mm.link_handler_.current_position_ := by omega
        subst e2
        unfold LinkHandler.Get at hget
        rw [hp] at hget
        simp only [Option.map_some', Option.some.injEq] at hget
        rw [hget]
        simpa using htest

/-- When the priority pass has ended, no acceptable link allows a match with a
priority request. -/
theorem PriorityScanned.done (mm : MatchMaker) (h : mm.PriorityScanned)
    (hend : mm.link_handler_.PointsToAcceptableLink = false) : mm.PriorityDone := by
  intro p hp hacc
  obtain ⟨i, hi, hget⟩ := List.mem_iff_getElem.1 hp
  have hpi : mm.link_handler_.link_list_[i]? = some p := by
    rw [List.getElem?_eq_getElem hi, hget]
  by_cases e : i < mm.link_handler_.current_position_
  · exact h.2 i e p hpi
  · exfalso
    have hc : mm.link_handler_.current_position_ < mm.link_handler_.link_list_.length := by
      omega
    unfold LinkHandler.PointsToAcceptableLink at hend
    rw [List.getElem?_eq_getElem hc] at hend
    simp only [decide_eq_false_iff_not] at hend
    apply hend
    by_cases e2 : i = mm.link_handler_.current_position_
    · subst e2
      rw [hget]
      exact hacc
    · have hlt : mm.link_handler_.current_position_ < i := by omega
      have hle := List.pairwise_iff_getElem.1 h.1 _ _ hc hi hlt
      rw [hget] at hle
      exact lt_of_lt_of_le hacc hle

/-- A match of the non-priority pass is made where no priority request waits. -/
theorem PriorityDone.no_priority (mm : MatchMaker) (h : mm.PriorityDone)
    (hc : mm.CountersMatch) (link : alje.MultiSetSize2)
    (hpt : mm.link_handler_.PointsToPositiveLink = true)
    (hget : mm.link_handler_.Get = some link)
    (htest : mm.normalTest link.first link.second = true) :
    mm.r_p_ link.first = 0 ∧ mm.r_p_ link.second = 0 := by
  unfold LinkHandler.PointsToPositiveLink at hpt
  unfold LinkHandler.Get at hget
  cases hp : mm.link_handler_.link_list_[mm.link_handler_.current_position_]? with
  | none => rw [hp] at hget; simp at hget
  | some p =>
    rw [hp] at hget hpt
    simp only [Option.map_some', Option.some.injEq] at hget
    simp only [decide_eq_true_eq] at hpt
    have hmem : p ∈ mm.link_handler_.link_list_ := List.getElem?_mem hp
    have hacc : p.2 > (((LinkHandler.acceptable_treshhold_ : Int) : ℚ) : Credit) := by
      refine lt_trans ?_ hpt
      rw [show (0 : Credit) = ((0 : ℚ) : Credit) from rfl, WithBot.coe_lt_coe]
      simp [LinkHandler.acceptable_treshhold_]
    have hno := h p hmem hacc
    rw [hget] at hno
    rw [Bool.eq_false_iff, Ne, priorityTest_iff] at hno
    rw [normalTest_iff] at htest
    have a1 := (hc link.first).1
    have a2 := (hc link.first).2
    have a3 := (hc link.second).1
    have a4 := (hc link.second).2
    by_cases e : link.first = link.second
    · rw [← e] at a3 a4 hno htest ⊢
      have : ¬ (mm.r_p_ link.first > 1 ∨ (mm.r_p_ link.first > 0 ∧ mm.r_ link.first > 0)) :=
        fun c => hno (Or.inl ⟨rfl, c⟩)
      have : mm.r_ link.first > 1 := by
        rcases htest with ⟨_, c⟩ | ⟨c, _⟩
        · exact c
        · exact absurd rfl c
      omega
    · have n1 : ¬ (mm.r_p_ link.first > 0 ∧ (mm.r_p_ link.second > 0 ∨ mm.r_ link.second > 0)) :=
        fun c => hno (Or.inr (Or.inl ⟨e, c⟩))
      have n2 : ¬ (mm.r_p_ link.second > 0 ∧ (mm.r_p_ link.first > 0 ∨ mm.r_ link.first > 0)) :=
        fun c => hno (Or.inr (Or.inr ⟨e, c⟩))
      have : ¬ (mm.r_ link.first = 0 ∨ mm.r_ link.second = 0) := by
        rcases htest with ⟨c, _⟩ | ⟨_, c⟩
        · exact absurd c e
        · exact c
      omega

/-- An iteration of the non-priority pass keeps the books with matches made of
two non-priority requests only. -/
theorem normalStep_done {N0 P0 : Nat → List RelationRequest} (mm : MatchMaker)
    (acc0 acc : List (RelationRequest × RelationRequest))
    (h : mm.PriorityDone ∧ ∃ pairs : List (Taken × Taken),
      acc = acc0 ++ pairs.map matchOf ∧
      (∀ p ∈ pairs, p.1.from_priority = false ∧ p.2.from_priority = false) ∧
      mm.Exact N0 P0 (takenOf pairs) (fun _ => []))
    (next : MatchMaker × List (RelationRequest × RelationRequest))
    (hs : mm.normalStep acc = some next) :
    next.1.PriorityDone ∧ ∃ pairs : List (Taken × Taken),
      next.2 = acc0 ++ pairs.map matchOf ∧
      (∀ p ∈ pairs, p.1.from_priority = false ∧ p.2.from_priority = false) ∧
      next.1.Exact N0 P0 (takenOf pairs) (fun _ => []) := by
  obtain ⟨hd, pairs, hacc, hq, hex⟩ := h
  unfold MatchMaker.normalStep at hs
  split_ifs at hs with hpt
  cases hget : mm.link_handler_.Get with
  | none => rw [hget] at hs; simp at hs
  | some link =>
    rw [hget] at hs
    simp only at hs
    split_ifs at hs with htest
    · simp only [Option.some.injEq] at hs
      subst hs
      obtain ⟨z1, z2⟩ := PriorityDone.no_priority mm hd hex.1 link hpt hget htest
      obtain ⟨t1, t2⟩ := normalTest_takes mm mm.link_handler_.Remove _ _ hex.1 htest
      obtain ⟨m1, m2⟩ := MatchFound_le mm link.first link.second
      have z3 : (({ mm with link_handler_ := mm.link_handler_.Remove } :
          MatchMaker).takeRequest link.first).1.r_p_ link.second = 0 := by
        rw [takeRequest_r_p_]
        simp only
        split_ifs with hif
        · omega
        · exact z2
      have hb : mm.Booked (fun p => p.1.from_priority = false ∧ p.2.from_priority = false)
          N0 P0 (pairs.map matchOf) (fun _ => []) := ⟨pairs, rfl, hq, hex⟩
      obtain ⟨pairs1, q1, q2, q3⟩ := MatchFound_booked hb link.first link.second t1 t2
        (fun x y => by
          simp only [z1, z3]
          exact ⟨by decide, by decide⟩)
      refine ⟨?_, pairs1, ?_, q2, q3⟩
      · intro q hq1 hacc1
        rw [MatchFound_link_handler] at hq1
        obtain ⟨x, hx, he, hle⟩ := mem_removeAt_link_le _ _ q hq1
        have := hd x hx (lt_of_lt_of_le hacc1 hle)
        rw [he] at this
        exact priorityTest_mono mm _ _ _ m1 m2 this
      · simp only [hacc, q1, List.append_assoc]
    · simp only [Option.some.injEq] at hs
      subst hs
      exact ⟨hd, pairs, hacc, hq, hex⟩

end mm
end rg

namespace rg
namespace mm

theorem takenFrom_priority_nil (pairs : List (Taken × Taken))
    (h : ∀ p ∈ pairs, p.1.from_priority = false ∧ p.2.from_priority = false) (g : Nat) :
    takenFrom (takenOf pairs) g true = [] := by
  unfold takenFrom takenOf
  rw [List.map_eq_nil_iff, List.filter_eq_nil_iff]
  intro t ht
  rw [List.mem_flatMap] at ht
  obtain ⟨p, hp, htp⟩ := ht
  have hf := h p hp
  simp only [List.mem_cons, List.mem_singleton, List.not_mem_nil, or_false] at htp
  rcases htp with rfl | rfl
  · simp [hf.1]
  · simp [hf.2]

/-- With no priority request waiting in `group`, a request is taken from the
non-priority queue and counted as scheduled on the first day. -/
theorem takeRequest_normal (mm : MatchMaker) (group : Nat) (h : mm.r_p_ group = 0) :
    (mm.takeRequest group).1.relation_request_by_group_priority_ =
      mm.relation_request_by_group_priority_ ∧
    (mm.takeRequest group).1.r_p_ = mm.r_p_ ∧
    (mm.takeRequest group).1.n_requests_scheduled_second_day_ =
      mm.n_requests_scheduled_second_day_ ∧
    (mm.takeRequest group).1.n_requests_scheduled_first_day_ =
      mm.n_requests_scheduled_first_day_ + 1 ∧
    (mm.takeRequest group).2 = (mm.relation_request_by_group_ group).getLastD default := by
  unfold MatchMaker.takeRequest
  have hn : ¬ mm.r_p_ group > 0 := by omega
  rw [if_neg hn]
  exact ⟨rfl, rfl, rfl, rfl, rfl⟩

/-- C27: Every match formed in the non-priority pass of `MatchMaker::Get`
(step 4b) consists of two requests taken from non-priority queues. For a
matchmaker whose counters equal the lengths of its queues and whose links join
groups of the matchmaker, with `std::shuffle` a permutation and `std::sort`
a permutation sorted by descending credit: in the state after any number `k`
of iterations of the loop of step 4b, when the cursor is on a positive link
and the test of the pass holds (a match is formed on that link), the priority
queues of both groups of the link are empty and their counters are 0; the
iteration calls `MatchFoundDoAllAndReturnPair`, which leaves all priority
queues unchanged, counts no request as scheduled on the second day and two as
scheduled on the first day, and returns the last request of the non-priority
queue of the first group as the first request of the pair. For the whole pass:
the matches it appends are made of requests taken from non-priority queues
only, the non-priority queues lose exactly these requests and the priority
queues keep theirs. -/
theorem C27_non_priority_pass_uses_normal_queues
    (shuffle : Nat → List RelationRequest → List RelationRequest)
    (new_matrix : Option GroupMatrix) (GetWeight : Int → ℚ)
    (sort_descending : List (alje.MultiSetSize2 × Credit) → List (alje.MultiSetSize2 × Credit))
    (mm : MatchMaker) (hc : mm.CountersMatch) (hr : mm.LinksInRange)
    (hsh : ∀ g l, (shuffle g l).Perm l) (hsort : ∀ l, (sort_descending l).Perm l)
    (hdesc : ∀ l, (sort_descending l).Pairwise (fun p q => q.2 ≤ p.2)) :
    (fun (pass1 : MatchMaker × List (RelationRequest × RelationRequest)) =>
      (∀ (k : Nat) (link : alje.MultiSetSize2),
        (fun (s : MatchMaker × List (RelationRequest × RelationRequest)) =>
          s.1.link_handler_.PointsToPositiveLink = true →
          s.1.link_handler_.Get = some link →
          s.1.normalTest link.first link.second = true →
          s.1.relation_request_by_group_priority_ link.first = [] ∧
          s.1.relation_request_by_group_priority_ link.second = [] ∧
          s.1.r_p_ link.first = 0 ∧ s.1.r_p_ link.second = 0 ∧
          s.1.normalStep s.2 =
            some ((s.1.MatchFoundDoAllAndReturnPair link.first link.second).1,
              s.2 ++ [(s.1.MatchFoundDoAllAndReturnPair link.first link.second).2]) ∧
          (s.1.MatchFoundDoAllAndReturnPair link.first
              link.second).1.relation_request_by_group_priority_ =
            s.1.relation_request_by_group_priority_ ∧
          (s.1.MatchFoundDoAllAndReturnPair link.first
              link.second).1.n_requests_scheduled_second_day_ =
            s.1.n_requests_scheduled_second_day_ ∧
          (s.1.MatchFoundDoAllAndReturnPair link.first
              link.second).1.n_requests_scheduled_first_day_ =
            s.1.n_requests_scheduled_first_day_ + 2 ∧
          (s.1.MatchFoundDoAllAndReturnPair link.first link.second).2.1 =
            (s.1.relation_request_by_group_ link.first).getLastD default)
        (MatchMaker.runLoop MatchMaker.normalStep k
          { pass1.1 with link_handler_ := pass1.1.link_handler_.PointToTop } pass1.2)) ∧
      (∃ pairs : List (Taken × Taken),
        (pass1.1.stepNormal pass1.2).2 = pass1.2 ++ pairs.map matchOf ∧
        (∀ p ∈ pairs, p.1.from_priority = false ∧ p.2.from_priority = false) ∧
        (∀ g, (pass1.1.relation_request_by_group_ g).Perm
          ((pass1.1.stepNormal pass1.2).1.relation_request_by_group_ g
            ++ takenFrom (takenOf pairs) g false)) ∧
        (∀ g, (pass1.1.relation_request_by_group_priority_ g).Perm
          ((pass1.1.stepNormal pass1.2).1.relation_request_by_group_priority_ g))))
    ((((mm.stepShuffle shuffle).stepMatrix new_matrix).stepRobustness
        GetWeight).stepAdd.stepPriority sort_descending) := by
  obtain ⟨s3, _, l3⟩ := prepared_accounted shuffle new_matrix GetWeight mm hc hsh
  generalize (((mm.stepShuffle shuffle).stepMatrix new_matrix).stepRobustness
    GetWeight).stepAdd = prepared at s3 l3 ⊢
  obtain ⟨p1, p2, _⟩ := stepPriority_complete sort_descending hsort prepared s3.1 (l3 hr)
  have hscan : (prepared.stepPriority sort_descending).1.PriorityScanned := by
    unfold MatchMaker.stepPriority
    exact runLoop_keeps (fun m _ => m.PriorityScanned) MatchMaker.priorityStep
      (fun m acc hm next hs => priorityStep_scanned m acc hm next hs) _ _ []
      ⟨hdesc _, fun i hi => absurd hi (Nat.not_lt_zero i)⟩
  have hdone := PriorityScanned.done _ hscan (priorityStep_none _ _ p1)
  generalize prepared.stepPriority sort_descending = pass1 at p2 hdone ⊢
  have hstart : (fun (m : MatchMaker) (acc : List (RelationRequest × RelationRequest)) =>
      m.PriorityDone ∧ ∃ pairs : List (Taken × Taken),
        acc = pass1.2 ++ pairs.map matchOf ∧
        (∀ p ∈ pairs, p.1.from_priority = false ∧ p.2.from_priority = false) ∧
        m.Exact pass1.1.relation_request_by_group_ pass1.1.relation_request_by_group_priority_
          (takenOf pairs) (fun _ => []))
      { pass1.1 with link_handler_ := pass1.1.link_handler_.PointToTop } pass1.2 :=
    ⟨hdone, [], by simp, fun _ hp => absurd hp (List.not_mem_nil _),
      Exact.link_handler (exact_self pass1.1 p2) _⟩
  have hall := fun k => runLoop_keeps _ MatchMaker.normalStep
    (fun m acc hm next hs => normalStep_done m pass1.2 acc hm next hs) k _ _ hstart
  show _ ∧ _
  constructor
  · intro k link
    obtain ⟨hd, pairs, _, _, hex⟩ := hall k
    generalize MatchMaker.runLoop MatchMaker.normalStep k
      { pass1.1 with link_handler_ := pass1.1.link_handler_.PointToTop } pass1.2 = s at hd hex
    intro hpt hget htest
    obtain ⟨z1, z2⟩ := PriorityDone.no_priority s.1 hd hex.1 link hpt hget htest
    have e1 : s.1.relation_request_by_group_priority_ link.first = [] := by
      have := (hex.1 link.first).2
      rw [z1] at this
      exact List.length_eq_zero.1 (by omega)
    have e2 : s.1.relation_request_by_group_priority_ link.second = [] := by
      have := (hex.1 link.second).2
      rw [z2] at this
      exact List.length_eq_zero.1 (by omega)
    obtain ⟨a1, a2, a3, a4, a5⟩ := takeRequest_normal
      ({ s.1 with link_handler_ := s.1.link_handler_.Remove } : MatchMaker) link.first z1
    obtain ⟨b1, b2, b3, b4, _⟩ := takeRequest_normal
      (({ s.1 with link_handler_ := s.1.link_handler_.Remove } : MatchMaker).takeRequest
        link.first).1 link.second (by rw [a2]; exact z2)
    refine ⟨e1, e2, z1, z2, ?_, ?_, ?_, ?_, ?_⟩
    · unfold MatchMaker.normalStep
      rw [if_pos hpt, hget]
      simp only
      rw [if_pos htest]
    · unfold MatchMaker.MatchFoundDoAllAndReturnPair
      simp only
      rw [b1, a1]
    · unfold MatchMaker.MatchFoundDoAllAndReturnPair
      simp only
      rw [b3, a3]
    · unfold MatchMaker.MatchFoundDoAllAndReturnPair
      simp only
      rw [b4, a4]
      ring
    · unfold MatchMaker.MatchFoundDoAllAndReturnPair
      simp only
      rw [a5]
  · obtain ⟨_, pairs, h1, h2, h3⟩ := hall
      ({ pass1.1 with link_handler_ := pass1.1.link_handler_.PointToTop } : MatchMaker).fuel
    refine ⟨pairs, h1, h2, h3.2.1, ?_⟩
    intro g
    have := h3.2.2 g
    rw [takenFrom_priority_nil pairs h2 g] at this
    simpa using this

end mm
end rg

namespace rg
namespace mm

theorem insertionSort_descending (l : List (alje.MultiSetSize2 × Credit)) :
    (List.insertionSort (fun p q => p.2 ≥ q.2) l).Pairwise (fun p q => q.2 ≤ p.2) := by
  haveI : IsTotal (alje.MultiSetSize2 × Credit) (fun p q => p.2 ≥ q.2) :=
    ⟨fun a b => le_total b.2 a.2⟩
  haveI : IsTrans (alje.MultiSetSize2 × Credit) (fun p q => p.2 ≥ q.2) :=
    ⟨fun a b c hab hbc => le_trans hbc hab⟩
  exact List.sorted_insertionSort (fun p q : alje.MultiSetSize2 × Credit => p.2 ≥ q.2) l

/-- Witness for C27: two groups with the requests of persons 2 and 4 (group 0)
and 1 and 3 (group 1), all new. At the start of the non-priority pass the
cursor is on the positive link {0,1}, the test holds, both priority queues
are empty, and the match is made of the last requests of the two non-priority
queues. -/
theorem C27_non_priority_pass_uses_normal_queues_witness :
    (fun mm : MatchMaker =>
      mm.CountersMatch ∧ mm.LinksInRange ∧
      (∀ g l, ((fun _ l => l : Nat → List RelationRequest → List RelationRequest) g l).Perm l) ∧
      (∀ l : List (alje.MultiSetSize2 × Credit),
        (List.insertionSort (fun p q => p.2 ≥ q.2) l).Perm l) ∧
      (∀ l : List (alje.MultiSetSize2 × Credit),
        (List.insertionSort (fun p q => p.2 ≥ q.2) l).Pairwise (fun p q => q.2 ≤ p.2)) ∧
      (fun (s : MatchMaker × List (RelationRequest × RelationRequest)) =>
        s.1.link_handler_.PointsToPositiveLink = true ∧
        s.1.link_handler_.Get = some ⟨0, 1⟩ ∧
        s.1.normalTest 0 1 = true ∧
        s.1.relation_request_by_group_priority_ 0 = [] ∧
        s.1.relation_request_by_group_priority_ 1 = [] ∧
        (s.1.MatchFoundDoAllAndReturnPair 0 1).2 = (⟨4, 9⟩, ⟨3, 4⟩))
      (MatchMaker.runLoop MatchMaker.normalStep 0
        { ((((mm.stepShuffle (fun _ l => l)).stepMatrix none).stepRobustness
            (fun _ => 1 / 100)).stepAdd.stepPriority
              (List.insertionSort (fun p q => p.2 ≥ q.2))).1 with
          link_handler_ := ((((mm.stepShuffle (fun _ l => l)).stepMatrix none).stepRobustness
            (fun _ => 1 / 100)).stepAdd.stepPriority
              (List.insertionSort (fun p q => p.2 ≥ q.2))).1.link_handler_.PointToTop }
        ((((mm.stepShuffle (fun _ l => l)).stepMatrix none).stepRobustness
            (fun _ => 1 / 100)).stepAdd.stepPriority
              (List.insertionSort (fun p q => p.2 ≥ q.2))).2))
    ([(⟨1, 5⟩ : RelationRequest), ⟨2, 7⟩, ⟨3, 4⟩, ⟨4, 9⟩].foldl
      (MatchMaker.AddRelationRequest (fun rr => (rr.person_id % 2).toNat))
      (MatchMaker.new 2 (fun _ _ => 1 / 2))) := by
  have hc := (AddRelationRequest_fold (fun rr => (rr.person_id % 2).toNat)
    [(⟨1, 5⟩ : RelationRequest), ⟨2, 7⟩, ⟨3, 4⟩, ⟨4, 9⟩]
    (MatchMaker.new 2 (fun _ _ => 1 / 2)) (new_counters 2 (fun _ _ => 1 / 2))).1
  have hr := AddRelationRequest_fold_links (fun rr => (rr.person_id % 2).toNat)
    [(⟨1, 5⟩ : RelationRequest), ⟨2, 7⟩, ⟨3, 4⟩, ⟨4, 9⟩]
    (MatchMaker.new 2 (fun _ _ => 1 / 2)) (new_counters 2 (fun _ _ => 1 / 2))
    (new_links 2 (fun _ _ => 1 / 2))
  have hsh : ∀ (g : Nat) (l : List RelationRequest),
      ((fun _ l => l : Nat → List RelationRequest → List RelationRequest) g l).Perm l :=
    fun _ l => List.Perm.refl l
  have hsort : ∀ l : List (alje.MultiSetSize2 × Credit),
      (List.insertionSort (fun p q => p.2 ≥ q.2) l).Perm l :=
    fun l => List.perm_insertionSort _ l
  have h := (C27_non_priority_pass_uses_normal_queues (fun _ l => l) none (fun _ => 1 / 100)
    (List.insertionSort (fun p q => p.2 ≥ q.2)) _ hc hr hsh hsort insertionSort_descending).1
    0 ⟨0, 1⟩
  refine ⟨hc, hr, hsh, hsort, insertionSort_descending, ?_⟩
  have e : ∀ (P Q R S T U : Prop), P → Q → R → (P → Q → R → S ∧ T) → U →
      P ∧ Q ∧ R ∧ S ∧ T ∧ U :=
    fun _ _ _ _ _ _ p q r f u => ⟨p, q, r, (f p q r).1, (f p q r).2, u⟩
  show _ ∧ _ ∧ _ ∧ _ ∧ _ ∧ _
  refine e _ _ _ _ _ _ (by decide!) (by decide!) (by decide!) (fun a b c => ?_) (by decide!)
  exact ⟨(h a b c).1, (h a b c).2.1⟩

end mm
end rg

namespace rg
namespace mm

theorem canTake_of_pos (mm : MatchMaker) (hc : mm.CountersMatch) (group : Nat)
    (h : mm.r_p_ group > 0 ∨ mm.r_ group > 0) : mm.CanTake group := by
  unfold MatchMaker.CanTake
  split_ifs with hp
  · exact ne_nil_of_length_pos (hc group).2 hp
  · have hr : mm.r_ group > 0 := h.resolve_left hp
    exact ⟨hr, ne_nil_of_length_pos (hc group).1 hr⟩

theorem removeAdvised_iterate_r_p_ (i : Nat) (k : Nat) :
    ∀ (mm : MatchMaker),
      (Nat.iterate (fun m1 => m1.removeAdvised i) k mm).r_p_ i = mm.r_p_ i - (k : Int) := by
  induction k with
  | zero => intro mm; simp
  | succ k ih =>
    intro mm
    rw [Function.iterate_succ_apply, ih]
    simp only [MatchMaker.removeAdvised, Function.update_same]
    push_cast
    ring

theorem removeAdvised_iterate_safe {N0 P0 : Nat → List RelationRequest} {cs : List Taken}
    (i j k : Nat) (base : MatchMaker) (hacc : base.Accounted N0 P0 cs)
    (hk : (k : Int) ≤ base.r_p_ i) (hj : j ≤ k) :
    (Nat.iterate (fun m1 => m1.removeAdvised i) j base).CountersMatch ∧
    (Nat.iterate (fun m1 => m1.removeAdvised i) j base).r_p_ i = base.r_p_ i - (j : Int) ∧
    (j < k →
      (Nat.iterate (fun m1 => m1.removeAdvised i) j base).r_p_ i > 0 ∧
      (Nat.iterate (fun m1 => m1.removeAdvised i) j
        base).relation_request_by_group_priority_ i ≠ []) := by
  obtain ⟨b1, _, _⟩ := removeAdvised_iterate i j base hacc (by omega)
  have hval := removeAdvised_iterate_r_p_ i j base
  refine ⟨b1.1, hval, ?_⟩
  intro hlt
  have hpos : (Nat.iterate (fun m1 => m1.removeAdvised i) j base).r_p_ i > 0 := by
    rw [hval]
    omega
  exact ⟨hpos, ne_nil_of_length_pos (b1.1 i).2 hpos⟩

/-- The calls of `pop_back` in step 2 of `MatchMaker::Get` are made on queues
that are not empty: the advice for a group never exceeds its priority
counter. -/
theorem robustnessState_safe (GetWeight : Int → ℚ) (mm : MatchMaker) (hc : mm.CountersMatch)
    (i j : Nat)
    (hj : j ≤ ((mm.robustness_check_.UpdateandAdvice GetWeight mm.r_ mm.r_p_).2 i).toNat) :
    (mm.robustnessState GetWeight i j).CountersMatch ∧
    (mm.robustnessState GetWeight i j).r_p_ i = mm.r_p_ i - (j : Int) ∧
    (j < ((mm.robustness_check_.UpdateandAdvice GetWeight mm.r_ mm.r_p_).2 i).toNat →
      (mm.robustnessState GetWeight i j).r_p_ i > 0 ∧
      (mm.robustnessState GetWeight i j).relation_request_by_group_priority_ i ≠ []) := by
  have hadv : ∀ i, (((mm.robustness_check_.UpdateandAdvice GetWeight mm.r_ mm.r_p_).2 i).toNat
      : Int) ≤ mm.r_p_ i := by
    intro i
    apply UpdateandAdvice_le
    rw [(hc i).2]
    exact Int.natCast_nonneg _
  have hacc : ({ mm with
      robustness_check_ := (mm.robustness_check_.UpdateandAdvice GetWeight mm.r_ mm.r_p_).1,
      link_handler_ := mm.link_handler_.SortByLinks } : MatchMaker).Accounted
        mm.relation_request_by_group_ mm.relation_request_by_group_priority_ [] :=
    Exact.accounted (exact_self mm hc)
  obtain ⟨a1, _, a3⟩ := @removeAdvised_fold mm.relation_request_by_group_
    mm.relation_request_by_group_priority_ []
    (mm.robustness_check_.UpdateandAdvice GetWeight mm.r_ mm.r_p_).2
    { mm with
      robustness_check_ := (mm.robustness_check_.UpdateandAdvice GetWeight mm.r_ mm.r_p_).1,
      link_handler_ := mm.link_handler_.SortByLinks }
    hacc hadv i
  have hbase := a3 i le_rfl
  simp only at hbase
  have h := removeAdvised_iterate_safe i j _ _ a1 (by rw [hbase]; exact hadv i) hj
  rw [hbase] at h
  exact h

theorem robustnessState_last (GetWeight : Int → ℚ) (mm : MatchMaker) :
    mm.robustnessState GetWeight mm.n_groups 0 = mm.stepRobustness GetWeight := rfl

theorem robustnessState_succ (GetWeight : Int → ℚ) (mm : MatchMaker) (i : Nat) :
    mm.robustnessState GetWeight (i + 1) 0 = mm.robustnessState GetWeight i
      ((mm.robustness_check_.UpdateandAdvice GetWeight mm.r_ mm.r_p_).2 i).toNat := by
  unfold MatchMaker.robustnessState
  simp only [Function.iterate_zero, id_eq]
  rw [List.range_succ, List.foldl_append, List.foldl_cons, List.foldl_nil]

theorem robustnessState_step (GetWeight : Int → ℚ) (mm : MatchMaker) (i j : Nat) :
    mm.robustnessState GetWeight i (j + 1) =
      (mm.robustnessState GetWeight i j).removeAdvised i := by
  unfold MatchMaker.robustnessState
  simp only
  rw [Function.iterate_succ_apply']

/-- In every state of a scheduling loop in which a match is formed, both calls
of `pop_back` in `MatchFoundDoAllAndReturnPair` are made on queues that are not
empty. -/
theorem loop_safe (mm : MatchMaker) (hc : mm.CountersMatch) (g1 g2 : Nat)
    (h1 : mm.r_p_ g1 > 0 ∨ mm.r_ g1 > 0)
    (h2 : (({ mm with link_handler_ := mm.link_handler_.Remove } :
        MatchMaker).takeRequest g1).1.r_p_ g2 > 0 ∨
      (({ mm with link_handler_ := mm.link_handler_.Remove } :
        MatchMaker).takeRequest g1).1.r_ g2 > 0) :
    ({ mm with link_handler_ := mm.link_handler_.Remove } : MatchMaker).CanTake g1 ∧
    (({ mm with link_handler_ := mm.link_handler_.Remove } :
      MatchMaker).takeRequest g1).1.CanTake g2 ∧
    (({ mm with link_handler_ := mm.link_handler_.Remove } :
      MatchMaker).takeRequest g1).1.CountersMatch ∧
    (mm.MatchFoundDoAllAndReturnPair g1 g2).1.CountersMatch := by
  have hc1 : ({ mm with link_handler_ := mm.link_handler_.Remove } : MatchMaker).CountersMatch :=
    hc
  have ha1 := takeRequest_exact (exact_self _ hc1) g1 h1
  have ha2 := takeRequest_exact ha1 g2 h2
  exact ⟨canTake_of_pos _ hc1 g1 h1, canTake_of_pos _ ha1.1 g2 h2, ha1.1, ha2.1⟩

end mm
end rg

namespace rg
namespace mm

theorem call_counters (GroupNumber : RelationRequest → Nat) (GetWeight : Int → ℚ)
    (sort_descending : List (alje.MultiSetSize2 × Credit) → List (alje.MultiSetSize2 × Credit))
    (n_groups : Nat) (cs : List MatchMaker.Call) :
    ∀ (s : MatchMaker × List (RelationRequest × RelationRequest)),
      (∀ c ∈ cs, c.WellFormed GroupNumber n_groups) → s.1.CountersMatch →
      (cs.foldl (MatchMaker.call GroupNumber GetWeight sort_descending) s).1.CountersMatch := by
  induction cs with
  | nil => intro s _ hc; exact hc
  | cons c cs ih =>
    intro s hcs hc
    rw [List.foldl_cons]
    apply ih _ (fun c1 hc1 => hcs c1 (List.mem_cons_of_mem _ hc1))
    have hw := hcs c (List.mem_cons_self _ _)
    cases c with
    | AddRelationRequest rr => exact AddRelationRequest_counters GroupNumber s.1 rr hc
    | Get shuffle new_matrix =>
      exact (Get_booked shuffle new_matrix GetWeight sort_descending s.1 hc hw).1

end mm
end rg

namespace rg
namespace mm

theorem priorityStep_counters (mm : MatchMaker)
    (acc : List (RelationRequest × RelationRequest)) (hc : mm.CountersMatch)
    (next : MatchMaker × List (RelationRequest × RelationRequest))
    (hs : mm.priorityStep acc = some next) : next.1.CountersMatch := by
  unfold MatchMaker.priorityStep at hs
  split_ifs at hs with hpt
  cases hget : mm.link_handler_.Get with
  | none => rw [hget] at hs; simp at hs
  | some link =>
    rw [hget] at hs
    simp only at hs
    split_ifs at hs with htest
    · simp only [Option.some.injEq] at hs
      subst hs
      obtain ⟨t1, t2, _⟩ := priorityTest_takes mm mm.link_handler_.Remove _ _ hc htest
      exact (loop_safe mm hc _ _ t1 t2).2.2.2
    · simp only [Option.some.injEq] at hs
      subst hs
      exact hc

theorem normalStep_counters (mm : MatchMaker)
    (acc : List (RelationRequest × RelationRequest)) (hc : mm.CountersMatch)
    (next : MatchMaker × List (RelationRequest × RelationRequest))
    (hs : mm.normalStep acc = some next) : next.1.CountersMatch := by
  unfold MatchMaker.normalStep at hs
  split_ifs at hs with hpt
  cases hget : mm.link_handler_.Get with
  | none => rw [hget] at hs; simp at hs
  | some link =>
    rw [hget] at hs
    simp only at hs
    split_ifs at hs with htest
    · simp only [Option.some.injEq] at hs
      subst hs
      obtain ⟨t1, t2⟩ := normalTest_takes mm mm.link_handler_.Remove _ _ hc htest
      exact (loop_safe mm hc _ _ t1 t2).2.2.2
    · simp only [Option.some.injEq] at hs
      subst hs
      exact hc

/-- C28: In every state that the matchmaker reaches from a new matchmaker by
calls of `AddRelationRequest` (with the group of the request one of the
groups) and `Get` (with `std::shuffle` rearranging the queues), the
counters equal the queue lengths: `r_[g]` is the size of the non-priority
queue of `g` and `r_p_[g]` the size of the priority queue of `g`, for every
group `g`; so no counter is below 0. The same holds after a further call of
`AddRelationRequest`, and during and after a further call of `Get`: before
step 2; at the head of the removal loop of step 2 for every group `i` and
every number `j` of removals done, where, when a removal follows, the priority
counter of `i` is positive and its priority queue is not empty; after step 3;
after any number `k` of iterations of the priority pass and of the
non-priority pass, where, when the iteration forms a match, both calls of
`pop_back` in `MatchFoundDoAllAndReturnPair` are made on a queue that is not
empty and whose counter is positive (`CanTake`), and the counters equal the
queue lengths between the two and after the second; after step 5 and after
step 6. -/
theorem C28_counters_equal_queue_lengths
    (GroupNumber : RelationRequest → Nat) (GetWeight : Int → ℚ)
    (sort_descending : List (alje.MultiSetSize2 × Credit) → List (alje.MultiSetSize2 × Credit))
    (n_groups : Nat) (preference_matrix : GroupMatrix) (cs : List MatchMaker.Call)
    (hcs : ∀ c ∈ cs, c.WellFormed GroupNumber n_groups) :
    (fun (mm : MatchMaker) =>
      mm.CountersMatch ∧
      (∀ g, 0 ≤ mm.r_ g ∧ 0 ≤ mm.r_p_ g) ∧
      (∀ rr, (mm.AddRelationRequest GroupNumber rr).CountersMatch) ∧
      ∀ (shuffle : Nat → List RelationRequest → List RelationRequest)
        (new_matrix : Option GroupMatrix), (∀ g l, (shuffle g l).Perm l) →
        (fun (s1 : MatchMaker) =>
          s1.CountersMatch ∧
          (∀ i j, j ≤ ((s1.robustness_check_.UpdateandAdvice GetWeight s1.r_ s1.r_p_).2 i).toNat →
            (s1.robustnessState GetWeight i j).CountersMatch ∧
            (j < ((s1.robustness_check_.UpdateandAdvice GetWeight s1.r_ s1.r_p_).2 i).toNat →
              (s1.robustnessState GetWeight i j).r_p_ i > 0 ∧
              (s1.robustnessState GetWeight i j).relation_request_by_group_priority_ i ≠ [])) ∧
          (fun (prepared : MatchMaker) =>
            prepared.CountersMatch ∧
            (∀ (k : Nat) (link : alje.MultiSetSize2),
              (fun (s : MatchMaker × List (RelationRequest × RelationRequest)) =>
                s.1.CountersMatch ∧
                (s.1.link_handler_.PointsToAcceptableLink = true →
                  s.1.link_handler_.Get = some link →
                  s.1.priorityTest link.first link.second = true →
                  ({ s.1 with link_handler_ := s.1.link_handler_.Remove } :
                    MatchMaker).CanTake link.first ∧
                  (({ s.1 with link_handler_ := s.1.link_handler_.Remove } :
                    MatchMaker).takeRequest link.first).1.CanTake link.second ∧
                  (({ s.1 with link_handler_ := s.1.link_handler_.Remove } :
                    MatchMaker).takeRequest link.first).1.CountersMatch ∧
                  (s.1.MatchFoundDoAllAndReturnPair link.first link.second).1.CountersMatch))
              (MatchMaker.runLoop MatchMaker.priorityStep k
                { prepared with
                  link_handler_ :=
                    (prepared.link_handler_.SortByValue sort_descending).PointToTop } [])) ∧
            (fun (pass1 : MatchMaker × List (RelationRequest × RelationRequest)) =>
              pass1.1.CountersMatch ∧
              (∀ (k : Nat) (link : alje.MultiSetSize2),
                (fun (s : MatchMaker × List (RelationRequest × RelationRequest)) =>
                  s.1.CountersMatch ∧
                  (s.1.link_handler_.PointsToPositiveLink = true →
                    s.1.link_handler_.Get = some link →
                    s.1.normalTest link.first link.second = true →
                    ({ s.1 with link_handler_ := s.1.link_handler_.Remove } :
                      MatchMaker).CanTake link.first ∧
                    (({ s.1 with link_handler_ := s.1.link_handler_.Remove } :
                      MatchMaker).takeRequest link.first).1.CanTake link.second ∧
                    (({ s.1 with link_handler_ := s.1.link_handler_.Remove } :
                      MatchMaker).takeRequest link.first).1.CountersMatch ∧
                    (s.1.MatchFoundDoAllAndReturnPair link.first
                      link.second).1.CountersMatch))
                (MatchMaker.runLoop MatchMaker.normalStep k
                  { pass1.1 with link_handler_ := pass1.1.link_handler_.PointToTop }
                  pass1.2)) ∧
              (pass1.1.stepNormal pass1.2).1.CountersMatch ∧
              (pass1.1.stepNormal pass1.2).1.stepDrop.CountersMatch ∧
              (pass1.1.stepNormal pass1.2).1.stepDrop.stepSwap.CountersMatch)
            (prepared.stepPriority sort_descending))
          ((s1.stepRobustness GetWeight).stepAdd))
        ((mm.stepShuffle shuffle).stepMatrix new_matrix) ∧
        (mm.Get shuffle new_matrix GetWeight sort_descending).1.CountersMatch)
    (MatchMaker.calls GroupNumber GetWeight sort_descending
      (MatchMaker.new n_groups preference_matrix) cs).1 := by
  have hc := call_counters GroupNumber GetWeight sort_descending n_groups cs
    (MatchMaker.new n_groups preference_matrix, []) hcs (new_counters _ _)
  unfold MatchMaker.calls
  generalize (cs.foldl (MatchMaker.call GroupNumber GetWeight sort_descending)
    (MatchMaker.new n_groups preference_matrix, [])).1 = mm at hc
  show _ ∧ _
  refine ⟨hc, ?_, fun rr => AddRelationRequest_counters GroupNumber mm rr hc, ?_⟩
  · intro g
    have h1 := (hc g).1
    have h2 := (hc g).2
    omega
  intro shuffle new_matrix hsh
  refine ⟨?_, (Get_booked shuffle new_matrix GetWeight sort_descending mm hc hsh).1⟩
  obtain ⟨s0, _⟩ := stepShuffle_accounted shuffle mm hc hsh
  obtain ⟨s1, _⟩ := stepMatrix_accounted new_matrix _ s0
  obtain ⟨s2, _⟩ := stepRobustness_accounted GetWeight _ s1
  generalize (mm.stepShuffle shuffle).stepMatrix new_matrix = st1 at s1 s2
  show _ ∧ _
  refine ⟨s1.1, fun i j hj => ?_, ?_⟩
  · obtain ⟨a, _, c⟩ := robustnessState_safe GetWeight st1 s1.1 i j hj
    exact ⟨a, c⟩
  have hprep : (st1.stepRobustness GetWeight).stepAdd.CountersMatch := s2.1
  generalize (st1.stepRobustness GetWeight).stepAdd = prepared at hprep
  show _ ∧ _
  have hloop1 : ∀ k, (MatchMaker.runLoop MatchMaker.priorityStep k
      { prepared with
        link_handler_ := (prepared.link_handler_.SortByValue sort_descending).PointToTop }
      []).1.CountersMatch := fun k =>
    runLoop_keeps (fun m _ => m.CountersMatch) MatchMaker.priorityStep
      (fun m acc hm next hs => priorityStep_counters m acc hm next hs) k _ [] hprep
  refine ⟨hprep, fun k link => ?_, ?_⟩
  · have hk := hloop1 k
    generalize MatchMaker.runLoop MatchMaker.priorityStep k
      { prepared with
        link_handler_ := (prepared.link_handler_.SortByValue sort_descending).PointToTop }
      [] = s at hk
    refine ⟨hk, fun _ _ htest => ?_⟩
    obtain ⟨t1, t2, _⟩ := priorityTest_takes s.1 s.1.link_handler_.Remove _ _ hk htest
    exact loop_safe s.1 hk _ _ t1 t2
  have hpass1 : (prepared.stepPriority sort_descending).1.CountersMatch := hloop1 _
  generalize prepared.stepPriority sort_descending = pass1 at hpass1
  show _ ∧ _
  have hloop2 : ∀ k, (MatchMaker.runLoop MatchMaker.normalStep k
      { pass1.1 with link_handler_ := pass1.1.link_handler_.PointToTop }
      pass1.2).1.CountersMatch := fun k =>
    runLoop_keeps (fun m _ => m.CountersMatch) MatchMaker.normalStep
      (fun m acc hm next hs => normalStep_counters m acc hm next hs) k _ pass1.2 hpass1
  refine ⟨hpass1, fun k link => ?_, ?_⟩
  · have hk := hloop2 k
    generalize MatchMaker.runLoop MatchMaker.normalStep k
      { pass1.1 with link_handler_ := pass1.1.link_handler_.PointToTop } pass1.2 = s at hk
    refine ⟨hk, fun _ _ htest => ?_⟩
    obtain ⟨t1, t2⟩ := normalTest_takes s.1 s.1.link_handler_.Remove _ _ hk htest
    exact loop_safe s.1 hk _ _ t1 t2
  have hpass2 : (pass1.1.stepNormal pass1.2).1.CountersMatch := hloop2 _
  generalize pass1.1.stepNormal pass1.2 = pass2 at hpass2
  obtain ⟨⟨c6, _, _⟩, _, _⟩ := dropGroup_fold pass2.1
    (Exact.accounted (exact_self pass2.1 hpass2)) pass2.1.n_groups
  refine ⟨hpass2, c6, ?_⟩
  intro g
  exact ⟨(c6 g).2, (c6 g).1⟩

end mm
end rg

namespace rg
namespace mm

/-- Witness for C28: two groups; the requests of persons 1 and 2 are added,
`Get` matches them, and the request of person 3 is added. The counters equal
the queue lengths: the non-priority queue of group 1 holds one request. -/
theorem C28_counters_equal_queue_lengths_witness :
    (fun (cs : List MatchMaker.Call) =>
      (∀ c ∈ cs, c.WellFormed (fun rr => (rr.person_id % 2).toNat) 2) ∧
      (MatchMaker.calls (fun rr => (rr.person_id % 2).toNat) (fun _ => 1 / 100)
        (List.insertionSort (fun p q => p.2 ≥ q.2))
        (MatchMaker.new 2 (fun _ _ => 1 / 2)) cs).1.CountersMatch ∧
      (MatchMaker.calls (fun rr => (rr.person_id % 2).toNat) (fun _ => 1 / 100)
        (List.insertionSort (fun p q => p.2 ≥ q.2))
        (MatchMaker.new 2 (fun _ _ => 1 / 2)) cs).1.r_ 1 = 1 ∧
      (MatchMaker.calls (fun rr => (rr.person_id % 2).toNat) (fun _ => 1 / 100)
        (List.insertionSort (fun p q => p.2 ≥ q.2))
        (MatchMaker.new 2 (fun _ _ => 1 / 2)) cs).1.relation_request_by_group_ 1 = [⟨3, 4⟩] ∧
      (MatchMaker.calls (fun rr => (rr.person_id % 2).toNat) (fun _ => 1 / 100)
        (List.insertionSort (fun p q => p.2 ≥ q.2))
        (MatchMaker.new 2 (fun _ _ => 1 / 2)) cs).2 = [(⟨2, 7⟩, ⟨1, 5⟩)])
    [MatchMaker.Call.AddRelationRequest ⟨1, 5⟩, MatchMaker.Call.AddRelationRequest ⟨2, 7⟩,
      MatchMaker.Call.Get (fun _ l => l) none, MatchMaker.Call.AddRelationRequest ⟨3, 4⟩] := by
  have hcs : ∀ c ∈ [MatchMaker.Call.AddRelationRequest ⟨1, 5⟩,
      MatchMaker.Call.AddRelationRequest ⟨2, 7⟩,
      MatchMaker.Call.Get (fun _ l => l) none, MatchMaker.Call.AddRelationRequest ⟨3, 4⟩],
      c.WellFormed (fun rr => (rr.person_id % 2).toNat) 2 := by
    intro c hc
    simp only [List.mem_cons, List.mem_singleton, List.not_mem_nil, or_false] at hc
    rcases hc with rfl | rfl | rfl | rfl
    · show ((1 : Int) % 2).toNat < 2
      decide
    · show ((2 : Int) % 2).toNat < 2
      decide
    · intro g l
      exact List.Perm.refl l
    · show ((3 : Int) % 2).toNat < 2
      decide
  exact ⟨hcs,
    (C28_counters_equal_queue_lengths (fun rr => (rr.person_id % 2).toNat) (fun _ => 1 / 100)
      (List.insertionSort (fun p q => p.2 ≥ q.2)) 2 (fun _ _ => 1 / 2) _ hcs).1,
    by decide!, by decide!, by decide!⟩

end mm
end rg

namespace rg
namespace mm

theorem foldl_mem_invariant {ι : Type} (P : MatchMaker → Prop) (f : MatchMaker → ι → MatchMaker)
    (is : List ι) (hf : ∀ m i, i ∈ is → P m → P (f m i)) : ∀ m, P m → P (is.foldl f m) := by
  induction is with
  | nil => intro m h; exact h
  | cons i is ih =>
    intro m h
    rw [List.foldl_cons]
    exact ih (fun m1 i1 hi1 => hf m1 i1 (List.mem_cons_of_mem _ hi1)) _
      (hf m i (List.mem_cons_self _ _) h)

theorem sum_update_int (n : Nat) (f f1 : Nat → Int) (group : Nat) (d : Int) (hg : group < n)
    (h : ∀ g, f1 g = f g + (if g = group then d else 0)) :
    ∑ g in Finset.range n, f1 g = (∑ g in Finset.range n, f g) + d := by
  have : ∑ g in Finset.range n, f1 g
      = ∑ g in Finset.range n, (f g + (if g = group then d else 0)) :=
    Finset.sum_congr rfl (fun g _ => h g)
  rw [this, Finset.sum_add_distrib, Finset.sum_ite_eq', if_pos (Finset.mem_range.mpr hg)]

/-- `AddRelationRequest` for a group of the matchmaker: one more request
received and one more accounted for. -/
theorem AddRelationRequest_ledger (GroupNumber : RelationRequest → Nat) (mm : MatchMaker)
    (rr : RelationRequest) (hg : GroupNumber rr < mm.n_groups) (k : Nat) :
    (mm.AddRelationRequest GroupNumber rr).ledger k =
      ((mm.ledger k).1, (mm.ledger k).2.1 + 1, (mm.ledger k).2.2.1 + 1, (mm.ledger k).2.2.2) := by
  have hs : ∑ g in Finset.range mm.n_groups,
      ((Function.update mm.r_ (GroupNumber rr) (mm.r_ (GroupNumber rr) + 1)) g + mm.r_p_ g)
      = (∑ g in Finset.range mm.n_groups, (mm.r_ g + mm.r_p_ g)) + 1 := by
    apply sum_update_int _ _ _ (GroupNumber rr) 1 hg
    intro g
    by_cases e : g = GroupNumber rr
    · subst e; simp; ring
    · simp [Function.update_noteq e, e]
  simp only [MatchMaker.ledger, MatchMaker.counted, MatchMaker.AddRelationRequest, hs]
  refine Prod.ext rfl (Prod.ext rfl (Prod.ext ?_ rfl))
  simp only
  ring

theorem removeAdvised_ledger (mm : MatchMaker) (i : Nat) (hi : i < mm.n_groups) (k : Nat) :
    (mm.removeAdvised i).ledger k = mm.ledger k := by
  have hs : ∑ g in Finset.range mm.n_groups,
      (mm.r_ g + (Function.update mm.r_p_ i (mm.r_p_ i - 1)) g)
      = (∑ g in Finset.range mm.n_groups, (mm.r_ g + mm.r_p_ g)) + (-1) := by
    apply sum_update_int _ _ _ i (-1) hi
    intro g
    by_cases e : g = i
    · subst e; simp; ring
    · simp [Function.update_noteq e, e]
  simp only [MatchMaker.ledger, MatchMaker.counted, MatchMaker.removeAdvised, hs]
  refine Prod.ext rfl (Prod.ext rfl (Prod.ext ?_ rfl))
  simp only
  ring

/-- Taking a request moves it from the counters of the groups to the counters
of scheduled requests. -/
theorem takeRequest_ledger (mm : MatchMaker) (group : Nat) (hg : group < mm.n_groups)
    (k : Nat) :
    ((mm.takeRequest group).1.ledger k).1 = (mm.ledger k).1 ∧
    ((mm.takeRequest group).1.ledger k).2.1 = (mm.ledger k).2.1 ∧
    ((mm.takeRequest group).1.ledger k).2.2.1 = (mm.ledger k).2.2.1 ∧
    ((mm.takeRequest group).1.ledger k).2.2.2 = (mm.ledger k).2.2.2 + 1 := by
  unfold MatchMaker.takeRequest
  split_ifs with hp
  · have hs : ∑ g in Finset.range mm.n_groups,
        (mm.r_ g + (Function.update mm.r_p_ group (mm.r_p_ group - 1)) g)
        = (∑ g in Finset.range mm.n_groups, (mm.r_ g + mm.r_p_ g)) + (-1) := by
      apply sum_update_int _ _ _ group (-1) hg
      intro g
      by_cases e : g = group
      · subst e; simp; ring
      · simp [Function.update_noteq e, e]
    simp only [MatchMaker.ledger, MatchMaker.counted, hs]
    refine ⟨trivial, trivial, ?_, ?_⟩ <;> ring
  · have hs : ∑ g in Finset.range mm.n_groups,
        ((Function.update mm.r_ group (mm.r_ group - 1)) g + mm.r_p_ g)
        = (∑ g in Finset.range mm.n_groups, (mm.r_ g + mm.r_p_ g)) + (-1) := by
      apply sum_update_int _ _ _ group (-1) hg
      intro g
      by_cases e : g = group
      · subst e; simp; ring
      · simp [Function.update_noteq e, e]
    simp only [MatchMaker.ledger, MatchMaker.counted, hs]
    refine ⟨trivial, trivial, ?_, ?_⟩ <;> ring

/-- A match takes two requests and returns one pair: the books stay the same
against one more returned match. -/
theorem MatchFound_ledger (mm : MatchMaker) (g1 g2 : Nat) (hg1 : g1 < mm.n_groups)
    (hg2 : g2 < mm.n_groups) (k : Nat) :
    (mm.MatchFoundDoAllAndReturnPair g1 g2).1.ledger (k + 1) = mm.ledger k := by
  unfold MatchMaker.MatchFoundDoAllAndReturnPair
  simp only
  obtain ⟨a1, a2, a3, a4⟩ := takeRequest_ledger
    ({ mm with link_handler_ := mm.link_handler_.Remove } : MatchMaker) g1 hg1 k
  have hn : (({ mm with link_handler_ := mm.link_handler_.Remove } :
      MatchMaker).takeRequest g1).1.n_groups = mm.n_groups := takeRequest_n_groups _ _
  obtain ⟨b1, b2, b3, b4⟩ := takeRequest_ledger
    (({ mm with link_handler_ := mm.link_handler_.Remove } : MatchMaker).takeRequest g1).1 g2
    (by rw [hn]; exact hg2) k
  have hl : ({ mm with link_handler_ := mm.link_handler_.Remove } : MatchMaker).ledger k
      = mm.ledger k := rfl
  rw [hl] at a1 a2 a3 a4
  refine Prod.ext ?_ (Prod.ext ?_ (Prod.ext ?_ ?_))
  · exact b1.trans a1
  · exact b2.trans a2
  · exact b3.trans a3
  · have e1 : ∀ (m : MatchMaker), (m.ledger (k + 1)).2.2.2 = (m.ledger k).2.2.2 - 2 := by
      intro m
      simp only [MatchMaker.ledger]
      push_cast
      ring
    rw [e1, b4, a4]
    ring

end mm
end rg

namespace rg
namespace mm

theorem stepShuffle_ledger (shuffle : Nat → List RelationRequest → List RelationRequest)
    (mm : MatchMaker) (k : Nat) : (mm.stepShuffle shuffle).ledger k = mm.ledger k := rfl

theorem stepMatrix_ledger (new_matrix : Option GroupMatrix) (mm : MatchMaker) (k : Nat) :
    (mm.stepMatrix new_matrix).ledger k = mm.ledger k := by
  cases new_matrix <;> rfl

theorem stepAdd_ledger (mm : MatchMaker) (k : Nat) : mm.stepAdd.ledger k = mm.ledger k := rfl

theorem stepRobustness_ledger (GetWeight : Int → ℚ) (mm : MatchMaker) (k : Nat) :
    (mm.stepRobustness GetWeight).ledger k = mm.ledger k := by
  unfold MatchMaker.stepRobustness
  simp only
  refine foldl_mem_invariant (fun m1 => m1.ledger k = mm.ledger k) _ _
    (fun m1 i hi h1 => iterate_invariant (fun m2 => m2.ledger k = mm.ledger k) _
      (fun m2 h2 => ?_) _ m1 h1) _ rfl
  have hn : m2.n_groups = mm.n_groups := congrArg Prod.fst h2
  show (m2.removeAdvised i).ledger k = mm.ledger k
  rw [removeAdvised_ledger m2 i (by rw [hn]; exact List.mem_range.1 hi) k]
  exact h2

/-- An iteration of the priority pass keeps the books: it forms a match on a
link of two groups of the matchmaker, or it only advances the cursor. -/
theorem priorityStep_ledger (mm : MatchMaker)
    (acc : List (RelationRequest × RelationRequest)) (hr : mm.LinksInRange) (k : Nat)
    (next : MatchMaker × List (RelationRequest × RelationRequest))
    (hs : mm.priorityStep acc = some next) :
    next.1.ledger (k + next.2.length) = mm.ledger (k + acc.length) := by
  unfold MatchMaker.priorityStep at hs
  split_ifs at hs with hpt
  cases hget : mm.link_handler_.Get with
  | none => rw [hget] at hs; simp at hs
  | some link =>
    rw [hget] at hs
    simp only at hs
    obtain ⟨p, hp, e⟩ := Get_mem _ _ hget
    have hrange := hr p hp
    rw [e] at hrange
    split_ifs at hs with htest
    · simp only [Option.some.injEq] at hs
      subst hs
      simp only [List.length_append, List.length_singleton, ← Nat.add_assoc]
      exact MatchFound_ledger mm _ _ hrange.1 hrange.2 _
    · simp only [Option.some.injEq] at hs
      subst hs
      rfl

/-- An iteration of the non-priority pass keeps the books. -/
theorem normalStep_ledger (mm : MatchMaker)
    (acc : List (RelationRequest × RelationRequest)) (hr : mm.LinksInRange) (k : Nat)
    (next : MatchMaker × List (RelationRequest × RelationRequest))
    (hs : mm.normalStep acc = some next) :
    next.1.ledger (k + next.2.length) = mm.ledger (k + acc.length) := by
  unfold MatchMaker.normalStep at hs
  split_ifs at hs with hpt
  cases hget : mm.link_handler_.Get with
  | none => rw [hget] at hs; simp at hs
  | some link =>
    rw [hget] at hs
    simp only at hs
    obtain ⟨p, hp, e⟩ := Get_mem _ _ hget
    have hrange := hr p hp
    rw [e] at hrange
    split_ifs at hs with htest
    · simp only [Option.some.injEq] at hs
      subst hs
      simp only [List.length_append, List.length_singleton, ← Nat.add_assoc]
      exact MatchFound_ledger mm _ _ hrange.1 hrange.2 _
    · simp only [Option.some.injEq] at hs
      subst hs
      rfl

theorem dropOne_iterate_counters (group_nr : Nat) (k : Nat) :
    ∀ (mm : MatchMaker),
      (Nat.iterate (fun m => m.dropOne group_nr) k mm).n_requests_received_
        = mm.n_requests_received_ ∧
      (Nat.iterate (fun m => m.dropOne group_nr) k mm).n_requests_scheduled_first_day_
        = mm.n_requests_scheduled_first_day_ ∧
      (Nat.iterate (fun m => m.dropOne group_nr) k mm).n_requests_scheduled_second_day_
        = mm.n_requests_scheduled_second_day_ ∧
      (Nat.iterate (fun m => m.dropOne group_nr) k mm).n_requests_dropped_after_first_day_
        = mm.n_requests_dropped_after_first_day_ ∧
      (Nat.iterate (fun m => m.dropOne group_nr) k mm).n_requests_dropped_after_second_day_
        = mm.n_requests_dropped_after_second_day_ + (k : Int) := by
  induction k with
  | zero => intro mm; simp
  | succ k ih =>
    intro mm
    rw [Function.iterate_succ_apply]
    obtain ⟨a, b, c, d, e⟩ := ih (mm.dropOne group_nr)
    refine ⟨a, b, c, d, ?_⟩
    rw [e]
    simp only [MatchMaker.dropOne]
    push_cast
    ring

/-- Step 5 for one group keeps the books: every request left in the priority
queue is counted as dropped after the second day, and the counter of the
queue is set to 0. -/
theorem dropGroup_ledger (mm : MatchMaker) (hc : mm.CountersMatch) (g : Nat)
    (hg : g < mm.n_groups) (k : Nat) :
    (mm.dropGroup g).ledger k = mm.ledger k := by
  obtain ⟨a, b, c, d, e⟩ := dropOne_iterate g (mm.relation_request_by_group_priority_ g).length mm
  obtain ⟨a1, b1, c1, d1, e1⟩ := dropOne_iterate_counters g
    (mm.relation_request_by_group_priority_ g).length mm
  have hs : ∑ x in Finset.range mm.n_groups,
      (mm.r_ x + (Function.update mm.r_p_ g 0) x)
      = (∑ x in Finset.range mm.n_groups, (mm.r_ x + mm.r_p_ x)) + (- mm.r_p_ g) := by
    apply sum_update_int _ _ _ g (- mm.r_p_ g) hg
    intro x
    by_cases ex : x = g
    · subst ex; simp
    · simp [Function.update_noteq ex, ex]
  unfold MatchMaker.dropGroup
  simp only [MatchMaker.ledger, MatchMaker.counted, a, d, e, a1, b1, c1, d1, e1, hs]
  refine Prod.ext rfl (Prod.ext rfl (Prod.ext ?_ rfl))
  simp only
  rw [(hc g).2]
  ring

theorem stepDrop_ledger (mm : MatchMaker) (hc : mm.CountersMatch) (k : Nat) :
    mm.stepDrop.ledger k = mm.ledger k ∧ mm.stepDrop.CountersMatch := by
  unfold MatchMaker.stepDrop
  refine foldl_mem_invariant (fun m1 => m1.ledger k = mm.ledger k ∧ m1.CountersMatch) _ _
    (fun m1 i hi h1 => ?_) _ ⟨rfl, hc⟩
  have hn : m1.n_groups = mm.n_groups := congrArg Prod.fst h1.1
  refine ⟨?_, (dropGroup_accounted m1 (Exact.accounted (exact_self m1 h1.2)) i).1.1⟩
  show (m1.dropGroup i).ledger k = mm.ledger k
  rw [dropGroup_ledger m1 h1.2 i (by rw [hn]; exact List.mem_range.1 hi) k]
  exact h1.1

theorem stepSwap_ledger (mm : MatchMaker) (k : Nat) : mm.stepSwap.ledger k = mm.ledger k := by
  have hs : ∑ g in Finset.range mm.n_groups, (mm.r_p_ g + mm.r_ g)
      = ∑ g in Finset.range mm.n_groups, (mm.r_ g + mm.r_p_ g) :=
    Finset.sum_congr rfl (fun g _ => add_comm _ _)
  simp only [MatchMaker.ledger, MatchMaker.counted, MatchMaker.stepSwap, hs]

/-- `MatchMaker::Get` keeps the books against the matches that it returns. -/
theorem Get_ledger (shuffle : Nat → List RelationRequest → List RelationRequest)
    (new_matrix : Option GroupMatrix) (GetWeight : Int → ℚ)
    (sort_descending : List (alje.MultiSetSize2 × Credit) → List (alje.MultiSetSize2 × Credit))
    (mm : MatchMaker) (hc : mm.CountersMatch) (hr : mm.LinksInRange)
    (hsh : ∀ g l, (shuffle g l).Perm l) (hsort : ∀ l, (sort_descending l).Perm l) (k : Nat) :
    (mm.Get shuffle new_matrix GetWeight sort_descending).1.ledger
        (k + (mm.Get shuffle new_matrix GetWeight sort_descending).2.length) = mm.ledger k := by
  obtain ⟨s3, _, l3⟩ := prepared_accounted shuffle new_matrix GetWeight mm hc hsh
  have hl : ((((mm.stepShuffle shuffle).stepMatrix new_matrix).stepRobustness
      GetWeight).stepAdd).ledger k = mm.ledger k := by
    rw [stepAdd_ledger, stepRobustness_ledger, stepMatrix_ledger, stepShuffle_ledger]
  simp only [MatchMaker.Get]
  generalize (((mm.stepShuffle shuffle).stepMatrix new_matrix).stepRobustness
    GetWeight).stepAdd = prepared at s3 l3 hl ⊢
  have hr1 : ({ prepared with
      link_handler_ := (prepared.link_handler_.SortByValue sort_descending).PointToTop } :
        MatchMaker).LinksInRange :=
    LinksInRange.of_links (l3 hr) rfl (fun p hp => ⟨p, (hsort _).mem_iff.mp hp, rfl⟩)
  have h1 := runLoop_keeps
    (fun m acc => (m.CountersMatch ∧ m.LinksInRange) ∧ m.ledger (k + acc.length) = mm.ledger k)
    MatchMaker.priorityStep
    (fun m acc hm next hs =>
      ⟨(priorityStep_progress m acc hm.1.1 hm.1.2 next hs).2,
        (priorityStep_ledger m acc hm.1.2 k next hs).trans hm.2⟩)
    ({ prepared with
      link_handler_ := (prepared.link_handler_.SortByValue sort_descending).PointToTop } :
        MatchMaker).fuel
    { prepared with
      link_handler_ := (prepared.link_handler_.SortByValue sort_descending).PointToTop } []
    ⟨⟨s3.1, hr1⟩, hl⟩
  have h1' : ((prepared.stepPriority sort_descending).1.CountersMatch ∧
      (prepared.stepPriority sort_descending).1.LinksInRange) ∧
      (prepared.stepPriority sort_descending).1.ledger
        (k + (prepared.stepPriority sort_descending).2.length) = mm.ledger k := h1
  generalize prepared.stepPriority sort_descending = pass1 at h1' ⊢
  have h2 := runLoop_keeps
    (fun m acc => (m.CountersMatch ∧ m.LinksInRange) ∧ m.ledger (k + acc.length) = mm.ledger k)
    MatchMaker.normalStep
    (fun m acc hm next hs =>
      ⟨(normalStep_progress m acc hm.1.1 hm.1.2 next hs).2,
        (normalStep_ledger m acc hm.1.2 k next hs).trans hm.2⟩)
    ({ pass1.1 with link_handler_ := pass1.1.link_handler_.PointToTop } : MatchMaker).fuel
    { pass1.1 with link_handler_ := pass1.1.link_handler_.PointToTop } pass1.2
    ⟨⟨h1'.1.1, h1'.1.2⟩, h1'.2⟩
  have h2' : ((pass1.1.stepNormal pass1.2).1.CountersMatch ∧
      (pass1.1.stepNormal pass1.2).1.LinksInRange) ∧
      (pass1.1.stepNormal pass1.2).1.ledger
        (k + (pass1.1.stepNormal pass1.2).2.length) = mm.ledger k := h2
  generalize pass1.1.stepNormal pass1.2 = pass2 at h2' ⊢
  rw [stepSwap_ledger, (stepDrop_ledger pass2.1 h2'.1.1 _).1]
  exact h2'.2

end mm
end rg

namespace rg
namespace mm

/-- Every sequence of calls keeps the counters, the links and the books. -/
theorem calls_ledger (GroupNumber : RelationRequest → Nat) (GetWeight : Int → ℚ)
    (sort_descending : List (alje.MultiSetSize2 × Credit) → List (alje.MultiSetSize2 × Credit))
    (hsort : ∀ l, (sort_descending l).Perm l) (n_groups : Nat) (cs : List MatchMaker.Call) :
    ∀ (s : MatchMaker × List (RelationRequest × RelationRequest)),
      (∀ c ∈ cs, c.WellFormed GroupNumber n_groups) →
      (s.1.CountersMatch ∧ s.1.LinksInRange ∧
        ∃ r, s.1.ledger s.2.length = (n_groups, r, r, 0)) →
      ((cs.foldl (MatchMaker.call GroupNumber GetWeight sort_descending) s).1.CountersMatch ∧
        (cs.foldl (MatchMaker.call GroupNumber GetWeight sort_descending) s).1.LinksInRange ∧
        ∃ r, (cs.foldl (MatchMaker.call GroupNumber GetWeight sort_descending) s).1.ledger
          (cs.foldl (MatchMaker.call GroupNumber GetWeight sort_descending) s).2.length
            = (n_groups, r, r, 0)) := by
  induction cs with
  | nil => intro s _ h; exact h
  | cons c cs ih =>
    intro s hcs h
    rw [List.foldl_cons]
    apply ih _ (fun c1 hc1 => hcs c1 (List.mem_cons_of_mem _ hc1))
    have hw := hcs c (List.mem_cons_self _ _)
    obtain ⟨hc, hr, r, hl⟩ := h
    have hn : s.1.n_groups = n_groups := congrArg Prod.fst hl
    cases c with
    | AddRelationRequest rr =>
      refine ⟨AddRelationRequest_counters GroupNumber s.1 rr hc,
        AddRelationRequest_fold_links GroupNumber [rr] s.1 hc hr, r + 1, ?_⟩
      show (s.1.AddRelationRequest GroupNumber rr).ledger s.2.length = _
      rw [AddRelationRequest_ledger GroupNumber s.1 rr (by rw [hn]; exact hw), hl]
    | Get shuffle new_matrix =>
      refine ⟨(Get_booked shuffle new_matrix GetWeight sort_descending s.1 hc hw).1,
        (Get_complete shuffle new_matrix GetWeight sort_descending s.1 hc hr hw hsort).2.2,
        r, ?_⟩
      show (s.1.Get shuffle new_matrix GetWeight sort_descending).1.ledger
        (s.2 ++ (s.1.Get shuffle new_matrix GetWeight sort_descending).2).length = _
      rw [List.length_append, Get_ledger shuffle new_matrix GetWeight sort_descending s.1 hc hr
        hw hsort, hl]

/-- C29: After any sequence of calls of `AddRelationRequest` (with the group of
the request one of the groups) and `Get` (with `std::shuffle` and `std::sort`
rearranging their input) on a new matchmaker, requests are conserved:
`n_requests_received_` is the sum of `n_requests_scheduled_first_day_`,
`n_requests_scheduled_second_day_`, `n_requests_dropped_after_first_day_`,
`n_requests_dropped_after_second_day_` and the number of requests still queued
(in the two queues of every group), and the number of requests returned in
pairs by all calls of `Get`, two for each pair, is the sum of the two
scheduled counters. -/
theorem C29_requests_conserved
    (GroupNumber : RelationRequest → Nat) (GetWeight : Int → ℚ)
    (sort_descending : List (alje.MultiSetSize2 × Credit) → List (alje.MultiSetSize2 × Credit))
    (n_groups : Nat) (preference_matrix : GroupMatrix) (cs : List MatchMaker.Call)
    (hcs : ∀ c ∈ cs, c.WellFormed GroupNumber n_groups)
    (hsort : ∀ l, (sort_descending l).Perm l) :
    (fun (s : MatchMaker × List (RelationRequest × RelationRequest)) =>
      s.1.n_requests_received_ =
        s.1.n_requests_scheduled_first_day_ + s.1.n_requests_scheduled_second_day_
          + s.1.n_requests_dropped_after_first_day_
          + s.1.n_requests_dropped_after_second_day_ + s.1.queued ∧
      (2 * (s.2.length : Int)) =
        s.1.n_requests_scheduled_first_day_ + s.1.n_requests_scheduled_second_day_)
    (MatchMaker.calls GroupNumber GetWeight sort_descending
      (MatchMaker.new n_groups preference_matrix) cs) := by
  obtain ⟨hc, _, r, hl⟩ := calls_ledger GroupNumber GetWeight sort_descending hsort n_groups cs
    (MatchMaker.new n_groups preference_matrix, []) hcs
    ⟨new_counters _ _, new_links _ _, 0, by
      simp [MatchMaker.ledger, MatchMaker.counted, MatchMaker.new]⟩
  unfold MatchMaker.calls
  generalize cs.foldl (MatchMaker.call GroupNumber GetWeight sort_descending)
    (MatchMaker.new n_groups preference_matrix, []) = s at hc hl
  show _ ∧ _
  have hq : s.1.queued = ∑ g in Finset.range s.1.n_groups, (s.1.r_ g + s.1.r_p_ g) := by
    unfold MatchMaker.queued
    exact Finset.sum_congr rfl (fun g _ => by rw [(hc g).1, (hc g).2])
  simp only [MatchMaker.ledger, Prod.mk.injEq] at hl
  obtain ⟨_, h1, h2, h3⟩ := hl
  unfold MatchMaker.counted at h2
  constructor
  · rw [hq, h1, ← h2]
  · omega

/-- Witness for C29: two groups; the requests of persons 1 and 2 are added,
`Get` matches them, and the request of person 3 is added: three requests
received, two scheduled on the first day and returned in one pair, one
queued. -/
theorem C29_requests_conserved_witness :
    (fun (cs : List MatchMaker.Call) =>
      (∀ c ∈ cs, c.WellFormed (fun rr => (rr.person_id % 2).toNat) 2) ∧
      (∀ l : List (alje.MultiSetSize2 × Credit),
        (List.insertionSort (fun p q => p.2 ≥ q.2) l).Perm l) ∧
      (fun (s : MatchMaker × List (RelationRequest × RelationRequest)) =>
        s.1.n_requests_received_ = 3 ∧ s.1.n_requests_scheduled_first_day_ = 2 ∧
        s.1.n_requests_scheduled_second_day_ = 0 ∧
        s.1.n_requests_dropped_after_first_day_ = 0 ∧
        s.1.n_requests_dropped_after_second_day_ = 0 ∧ s.1.queued = 1 ∧ s.2.length = 1 ∧
        s.1.n_requests_received_ =
          s.1.n_requests_scheduled_first_day_ + s.1.n_requests_scheduled_second_day_
            + s.1.n_requests_dropped_after_first_day_
            + s.1.n_requests_dropped_after_second_day_ + s.1.queued)
      (MatchMaker.calls (fun rr => (rr.person_id % 2).toNat) (fun _ => 1 / 100)
        (List.insertionSort (fun p q => p.2 ≥ q.2))
        (MatchMaker.new 2 (fun _ _ => 1 / 2)) cs))
    [MatchMaker.Call.AddRelationRequest ⟨1, 5⟩, MatchMaker.Call.AddRelationRequest ⟨2, 7⟩,
      MatchMaker.Call.Get (fun _ l => l) none, MatchMaker.Call.AddRelationRequest ⟨3, 4⟩] := by
  have hcs : ∀ c ∈ [MatchMaker.Call.AddRelationRequest ⟨1, 5⟩,
      MatchMaker.Call.AddRelationRequest ⟨2, 7⟩,
      MatchMaker.Call.Get (fun _ l => l) none, MatchMaker.Call.AddRelationRequest ⟨3, 4⟩],
      c.WellFormed (fun rr => (rr.person_id % 2).toNat) 2 := by
    intro c hc
    simp only [List.mem_cons, List.mem_singleton, List.not_mem_nil, or_false] at hc
    rcases hc with rfl | rfl | rfl | rfl
    · show ((1 : Int) % 2).toNat < 2
      decide
    · show ((2 : Int) % 2).toNat < 2
      decide
    · intro g l
      exact List.Perm.refl l
    · show ((3 : Int) % 2).toNat < 2
      decide
  have hsort : ∀ l : List (alje.MultiSetSize2 × Credit),
      (List.insertionSort (fun p q => p.2 ≥ q.2) l).Perm l :=
    fun l => List.perm_insertionSort _ l
  exact ⟨hcs, hsort, by decide!, by decide!, by decide!, by decide!, by decide!, by decide!,
    by decide!,
    (C29_requests_conserved (fun rr => (rr.person_id % 2).toNat) (fun _ => 1 / 100)
      (List.insertionSort (fun p q => p.2 ≥ q.2)) 2 (fun _ _ => 1 / 2) _ hcs hsort).1⟩

end mm
end rg

namespace tr

/-- C30: Whenever `UpdateGNTransmissionEvent` schedules an event, for a sampled
time that is the sentinel `-1` or non-negative (so the time of a scheduled
event is non-negative), the key (due day, `GN_TRANSMISSION`) of the event is
strictly greater in lexicographic order than (`state.time`,
`state.current_priority`), for every current priority: the due day is later
than `state.time`, or it is `state.time` and the class `GN_TRANSMISSION` comes
after the class that is executing. So the due day is never before
`state.time` (the assertion of the function holds), and the event is never
added to a class that is executing or has already run. -/
theorem C30_scheduled_event_after_now (state : sv.State) (relation : sv.Relation)
    (calls : List EventManagerCall) (e : ev.GNTransmission)
    (hT : ∀ infected susceptible : sv.Person,
      state.GetGNTransmission relation infected susceptible state.time = -1 ∨
      0 ≤ state.GetGNTransmission relation infected susceptible state.time)
    (hcalls : UpdateGNTransmissionEvent state relation = some calls)
    (he : EventManagerCall.Add e ∈ calls) :
    e.priority = sv.priority.GN_TRANSMISSION ∧
    (state.time < e.time_due ∨
      (state.time = e.time_due ∧ state.current_priority < e.priority)) ∧
    state.time ≤ e.time_due ∧
    ¬ e.time_due < state.time ∧
    ¬ (e.time_due = state.time ∧ e.priority ≤ state.current_priority) := by
  have key : ∀ (dT : ℚ) (id mod : Int), (dT = -1 ∨ 0 ≤ dT) → dT ≠ -1 →
      mod = (if state.current_priority ≥ sv.priority.GN_TRANSMISSION then 1 else 0) →
      e = ev.GNTransmission.new relation.relation_id id
        (state.time + staticCastInt dT + mod) →
      e.priority = sv.priority.GN_TRANSMISSION ∧
      (state.time < e.time_due ∨
        (state.time = e.time_due ∧ state.current_priority < e.priority)) ∧
      state.time ≤ e.time_due ∧
      ¬ e.time_due < state.time ∧
      ¬ (e.time_due = state.time ∧ e.priority ≤ state.current_priority) := by
    intro dT id mod hd hne hmod hee
    have h0 : 0 ≤ dT := hd.resolve_left hne
    have hf : 0 ≤ staticCastInt dT := by
      unfold staticCastInt
      rw [if_pos h0]
      exact Int.floor_nonneg.2 h0
    have hpr : e.priority = sv.priority.GN_TRANSMISSION := by rw [hee]; rfl
    have hdue : e.time_due = state.time + staticCastInt dT + mod := by rw [hee]; rfl
    rw [hpr, hdue]
    by_cases hp : state.current_priority ≥ sv.priority.GN_TRANSMISSION
    · rw [if_pos hp] at hmod
      refine ⟨rfl, Or.inl (by omega), by omega, by omega, ?_⟩
      rintro ⟨h1, _⟩
      omega
    · rw [if_neg hp] at hmod
      have hlt : state.current_priority < sv.priority.GN_TRANSMISSION := by omega
      refine ⟨rfl, ?_, by omega, by omega, ?_⟩
      · by_cases hz : staticCastInt dT = 0
        · right
          exact ⟨by omega, hlt⟩
        · left
          omega
      · rintro ⟨_, h2⟩
        omega
  unfold UpdateGNTransmissionEvent at hcalls
  cases hp1 : state.person_list relation.person1_id with
  | none => rw [hp1] at hcalls; simp at hcalls
  | some person1 =>
    cases hp2 : state.person_list relation.person2_id with
    | none => rw [hp1, hp2] at hcalls; simp at hcalls
    | some person2 =>
      rw [hp1, hp2] at hcalls
      simp only at hcalls
      split_ifs at hcalls
      all_goals simp only [Option.some.injEq] at hcalls
      all_goals subst hcalls
      all_goals simp only [List.mem_cons, List.mem_singleton, List.not_mem_nil, or_false,
        false_or, reduceCtorEq, EventManagerCall.Add.injEq] at he
      all_goals first
        | exact key _ _ _ (hT person1 person2) (by assumption)
            (by first | rw [if_pos (by assumption)] | rw [if_neg (by assumption)]) he
        | exact key _ _ _ (hT person2 person1) (by assumption)
            (by first | rw [if_pos (by assumption)] | rw [if_neg (by assumption)]) he

/-- Witness for C30: on day 10, while the matchmaking class (priority 3)
executes, person 1 is infected and the sampled time is 1/2: the event is due
on day 10 in the class `GN_TRANSMISSION` (priority 6), which has not run. -/
theorem C30_scheduled_event_after_now_witness :
    (fun (state : sv.State) =>
      (∀ infected susceptible : sv.Person,
        state.GetGNTransmission ⟨7, 1, 2, 0, 100⟩ infected susceptible state.time = -1 ∨
        0 ≤ state.GetGNTransmission ⟨7, 1, 2, 0, 100⟩ infected susceptible state.time) ∧
      UpdateGNTransmissionEvent state ⟨7, 1, 2, 0, 100⟩ =
        some [EventManagerCall.NotifyChannel2 7 2,
          EventManagerCall.Add ⟨10, 6, -1, 7, 7, 2⟩] ∧
      EventManagerCall.Add ⟨10, 6, -1, 7, 7, 2⟩ ∈
        [EventManagerCall.NotifyChannel2 7 2, EventManagerCall.Add ⟨10, 6, -1, 7, 7, 2⟩] ∧
      (state.time < (10 : Int) ∨ (state.time = (10 : Int) ∧ state.current_priority < (6 : Int))))
    { time := 10, current_priority := 3,
      person_list := fun i =>
        if i = 1 then some ⟨1, 0, ⟨false, -1⟩, ⟨true, 3, false⟩⟩
        else if i = 2 then some ⟨2, 0, ⟨false, -1⟩, ⟨false, -1, false⟩⟩ else none,
      GetGNTransmission := fun _ _ _ _ => 1 / 2 } :=
  ⟨fun _ _ => Or.inr (by norm_num), by decide!, by simp,
    (C30_scheduled_event_after_now
      { time := 10, current_priority := 3,
        person_list := fun i =>
          if i = 1 then some ⟨1, 0, ⟨false, -1⟩, ⟨true, 3, false⟩⟩
          else if i = 2 then some ⟨2, 0, ⟨false, -1⟩, ⟨false, -1, false⟩⟩ else none,
        GetGNTransmission := fun _ _ _ _ => 1 / 2 }
      ⟨7, 1, 2, 0, 100⟩
      [EventManagerCall.NotifyChannel2 7 2, EventManagerCall.Add ⟨10, 6, -1, 7, 7, 2⟩]
      ⟨10, 6, -1, 7, 7, 2⟩
      (fun _ _ => Or.inr (by norm_num)) (by decide!) (by simp)).2.1⟩

end tr

namespace tr

/-- While the current priority is below `GN_TRANSMISSION` no day is added after
the test against `relation.time_end`, and the event is due on or before the
end day of the relation. -/
theorem UpdateGNTransmissionEvent_due_le_time_end (state : sv.State) (relation : sv.Relation)
    (calls : List EventManagerCall) (e : ev.GNTransmission)
    (hT : ∀ infected susceptible : sv.Person,
      state.GetGNTransmission relation infected susceptible state.time = -1 ∨
      0 ≤ state.GetGNTransmission relation infected susceptible state.time)
    (hp : state.current_priority < sv.priority.GN_TRANSMISSION)
    (h : UpdateGNTransmissionEvent state relation = some calls)
    (he : EventManagerCall.Add e ∈ calls) :
    e.time_due ≤ relation.time_end := by
  have key : ∀ (dT : ℚ) (pid : Int), (dT = -1 ∨ 0 ≤ dT) → dT ≠ -1 →
      ¬ (dT + (state.time : ℚ) > (relation.time_end : ℚ)) →
      EventManagerCall.Add e ∈ [EventManagerCall.NotifyChannel2 relation.relation_id
          sv.relation_event_codes.CANCEL_EV_GN_TRANSMISSION,
        EventManagerCall.Add (ev.GNTransmission.new relation.relation_id pid
          (state.time + staticCastInt dT + 0))] →
      e.time_due ≤ relation.time_end := by
    intro dT pid h01 hne hle hmem
    have h0 : 0 ≤ dT := by
      rcases h01 with h1 | h1
      · exact absurd h1 hne
      · exact h1
    simp only [List.mem_cons, List.mem_singleton, EventManagerCall.Add.injEq,
      List.not_mem_nil, or_false, false_or, reduceCtorEq] at hmem
    rw [hmem]
    show state.time + staticCastInt dT + 0 ≤ relation.time_end
    have hfl : staticCastInt dT = ⌊dT⌋ := by
      unfold staticCastInt
      rw [if_pos h0]
    rw [hfl, add_zero]
    have h1 : ((⌊dT⌋ : Int) : ℚ) ≤ dT := Int.floor_le dT
    have h2 : ((state.time + ⌊dT⌋ : Int) : ℚ) ≤ (relation.time_end : ℚ) := by
      push_cast
      linarith [not_lt.mp hle]
    exact_mod_cast h2
  unfold UpdateGNTransmissionEvent at h
  split at h
  · rename_i person1 person2 _ _
    simp only at h
    split_ifs at h
    all_goals first
      | exact absurd (by assumption : state.current_priority ≥ sv.priority.GN_TRANSMISSION)
          (not_le.mpr hp)
      | exact key _ _ (hT person1 person2) (by assumption) (by assumption)
          (by rw [Option.some.injEq] at h; rw [← h] at he; exact he)
      | exact key _ _ (hT person2 person1) (by assumption) (by assumption)
          (by rw [Option.some.injEq] at h; rw [← h] at he; exact he)
      | (rw [Option.some.injEq] at h
         rw [← h] at he
         simp at he)
  · exact absurd h (by simp)

/-- C31: the event is not always due by the end day of the relation. On day 10,
while events of class `GN_TRANSMISSION` are being executed, a sampled
transmission time of 2 days passes the test against `time_end = 12`, and the day
added afterwards makes the scheduled event due on day 13, one day after the
relation has ended. -/
theorem C31_event_due_after_relation_end :
    UpdateGNTransmissionEvent
      { time := 10, current_priority := sv.priority.GN_TRANSMISSION,
        person_list := fun i =>
          if i = 1 then some ⟨1, 0, ⟨false, -1⟩, ⟨true, 10, false⟩⟩
          else if i = 2 then some ⟨2, 0, ⟨false, -1⟩, ⟨false, -1, false⟩⟩ else none,
        GetGNTransmission := fun _ _ _ _ => 2 }
      ⟨7, 1, 2, 0, 12⟩ =
      some [EventManagerCall.NotifyChannel2 7 2, EventManagerCall.Add ⟨13, 6, -1, 7, 7, 2⟩] ∧
    (ev.GNTransmission.mk 13 6 (-1) 7 7 2).time_due > (sv.Relation.mk 7 1 2 0 12).time_end ∧
    ¬ ((2 : ℚ) + ((10 : Int) : ℚ) > ((sv.Relation.mk 7 1 2 0 12).time_end : ℚ)) := by
  refine ⟨by decide!, by decide, by norm_num⟩

end tr

namespace rg
namespace mm

/-- The mass `π_i * C[i][j]` of the matrix made by `ProvideFinishingTouch` is
the cell `(i, j)` of the padded `fullmatrix`. -/
theorem ProvideFinishingTouch_mass (pcm : PartnerChoiceMatrix) (m : GroupMatrix)
    (hpi : ∀ i < pcm.n_groups_, 0 ≤ pcm.percent_in_group_estimate_ i)
    (hm : ∀ i < pcm.n_groups_, ∀ j < pcm.n_groups_, 0 ≤ m i j)
    (C : GroupMatrix) (hC : pcm.ProvideFinishingTouch m = some C) :
    ∃ f, pcm.factor m = some f ∧ f ≠ 0 ∧
      ∀ i < pcm.n_groups_, ∀ j < pcm.n_groups_,
        pcm.percent_in_group_estimate_ i * C i j = pcm.fullmatrixPadded m f i j := by
  unfold PartnerChoiceMatrix.ProvideFinishingTouch at hC
  cases hf : pcm.factor m with
  | none => rw [hf] at hC; exact absurd hC (by simp)
  | some f =>
    rw [hf] at hC
    simp only at hC
    by_cases hf0 : f = 0
    · rw [if_pos hf0] at hC
      exact absurd hC (by simp)
    · rw [if_neg hf0, Option.some.injEq] at hC
      refine ⟨f, rfl, hf0, ?_⟩
      intro i hi j hj
      rw [← hC]
      simp only
      rw [sum_fullmatrixPadded pcm m f i hi]
      by_cases h0 : pcm.percent_in_group_estimate_ i = 0
      · rw [h0, zero_mul, fullmatrixPadded_zero pcm m hpi hm f i j hi hj h0]
      · rw [if_pos h0]
        field_simp

/-- C32 (as amended): for a group-proportion estimate with non-negative
entries and a row-stochastic preference matrix, with the finishing touch
enabled, the iterations of `PartnerChoiceMatrix::Get` produce a matrix, and
whenever the normalisation factor of the finishing touch is non-zero, `Get`
returns a matrix `C` that is in detailed balance with the group proportions:
`π_i * C[i][j] = π_j * C[j][i]` for all groups `i` and `j`. -/
theorem C32_partner_choice_detailed_balance (pcm : PartnerChoiceMatrix)
    (hmsm : pcm.msm_hack_enabled_ = true)
    (hpi : ∀ i < pcm.n_groups_, 0 ≤ pcm.percent_in_group_estimate_ i)
    (hP0 : ∀ i < pcm.n_groups_, ∀ j < pcm.n_groups_, 0 ≤ pcm.preference_matrix_ i j)
    (hP1 : ∀ i < pcm.n_groups_, ∑ j in Finset.range pcm.n_groups_, pcm.preference_matrix_ i j = 1) :
    ∃ m, pcm.iterate pcm.n_relation_matrix_iterations_.toNat pcm.preference_matrix_ = some m ∧
      ∀ f, pcm.factor m = some f → f ≠ 0 →
        ∃ C, pcm.Get.2 = some C ∧
          ∀ i < pcm.n_groups_, ∀ j < pcm.n_groups_,
            pcm.percent_in_group_estimate_ i * C i j
              = pcm.percent_in_group_estimate_ j * C j i := by
  obtain ⟨m, hm, hm0⟩ := iterate_preference pcm hpi hP0 hP1
  have hGet : pcm.Get.2 = pcm.ProvideFinishingTouch m := by
    simp only [PartnerChoiceMatrix.Get, hm, hmsm, if_true]
  refine ⟨m, hm, ?_⟩
  intro f hf hf0
  obtain ⟨C, hC, _⟩ := ProvideFinishingTouch_spec pcm m hpi hm0 f hf hf0
  refine ⟨C, hGet.trans hC, ?_⟩
  intro i hi j hj
  obtain ⟨f1, _, _, hmass⟩ := ProvideFinishingTouch_mass pcm m hpi hm0 C hC
  rw [hmass i hi j hj, hmass j hj i hi, fullmatrixPadded_symm]

/-- Witness for C32: two groups with proportions `1/4, 3/4`, preference rows
`(1/2, 1/2)` and `(1/3, 2/3)`, three iterations; the factor is 1 and `Get`
returns a matrix. -/
theorem C32_partner_choice_detailed_balance_witness :
    (fun pcm : PartnerChoiceMatrix =>
      pcm.msm_hack_enabled_ = true ∧
      (∀ i < pcm.n_groups_, 0 ≤ pcm.percent_in_group_estimate_ i) ∧
      (∀ i < pcm.n_groups_, ∀ j < pcm.n_groups_, 0 ≤ pcm.preference_matrix_ i j) ∧
      (∀ i < pcm.n_groups_,
        ∑ j in Finset.range pcm.n_groups_, pcm.preference_matrix_ i j = 1) ∧
      (∃ m, pcm.iterate pcm.n_relation_matrix_iterations_.toNat pcm.preference_matrix_ = some m ∧
        ∀ f, pcm.factor m = some f → f ≠ 0 →
          ∃ C, pcm.Get.2 = some C ∧
            ∀ i < pcm.n_groups_, ∀ j < pcm.n_groups_,
              pcm.percent_in_group_estimate_ i * C i j
                = pcm.percent_in_group_estimate_ j * C j i) ∧
      (pcm.iterate pcm.n_relation_matrix_iterations_.toNat pcm.preference_matrix_).bind
          pcm.factor = some 1 ∧
      pcm.Get.2.map (fun C => [[C 0 0, C 0 1], [C 1 0, C 1 1]])
        = some [[2309 / 6518, 4209 / 6518], [1403 / 6518, 5115 / 6518]])
      { percent_in_group_estimate_ := fun i => if i = 0 then 1 / 4 else 3 / 4,
        percent_in_group_estimate_last_recalculation_ := fun _ => 0,
        n_database_updates_called_ := 1,
        n_get_called_ := 0,
        preference_matrix_ := fun i j =>
          if i = 0 then 1 / 2 else if j = 0 then 1 / 3 else 2 / 3,
        weight_new_database_update_ := 1 / 1000,
        n_relation_matrix_iterations_ := 3,
        group_estimate_error_tolerance_ := 1 / 10000,
        n_groups_ := 2,
        msm_hack_enabled_ := true } := by
  have h1 : ∀ i < 2, (0 : ℚ) ≤ (fun i : Nat => if i = 0 then (1 / 4 : ℚ) else 3 / 4) i := by
    intro i _; simp only; split_ifs <;> norm_num
  have h2 : ∀ i < 2, ∀ j < 2, (0 : ℚ) ≤
      (fun i j : Nat => if i = 0 then (1 / 2 : ℚ) else if j = 0 then 1 / 3 else 2 / 3) i j := by
    intro i _ j _; simp only; split_ifs <;> norm_num
  have h3 : ∀ i < 2, ∑ j in Finset.range 2,
      (fun i j : Nat => if i = 0 then (1 / 2 : ℚ) else if j = 0 then 1 / 3 else 2 / 3) i j = 1 := by
    intro i hi; simp only [Finset.sum_range_succ, Finset.sum_range_zero]
    split_ifs <;> first | contradiction | norm_num
  exact ⟨rfl, h1, h2, h3, C32_partner_choice_detailed_balance _ rfl h1 h2 h3, by decide!,
    by decide!⟩

/-- Counterexample to C32 as stated: two groups with proportions `(1, 0)` and
the row-stochastic preference matrix `[[0, 1], [1, 0]]`. The iterations leave
the matrix unchanged, every cell of `fullmatrix` is 0, `factor` is 0 and every
cell is divided by 0: `Get` returns no matrix of numbers, so no matrix in
detailed balance with the proportions. -/
theorem C32_counterexample :
    (fun pcm : PartnerChoiceMatrix =>
      pcm.msm_hack_enabled_ = true ∧
      (∀ i < pcm.n_groups_, 0 ≤ pcm.percent_in_group_estimate_ i) ∧
      (∀ i < pcm.n_groups_, ∀ j < pcm.n_groups_, 0 ≤ pcm.preference_matrix_ i j) ∧
      (∀ i < pcm.n_groups_,
        ∑ j in Finset.range pcm.n_groups_, pcm.preference_matrix_ i j = 1) ∧
      (pcm.iterate pcm.n_relation_matrix_iterations_.toNat pcm.preference_matrix_).bind
          pcm.factor = some 0 ∧
      pcm.Get.2.isNone = true ∧
      ¬ ∃ C, pcm.Get.2 = some C ∧
        ∀ i < pcm.n_groups_, ∀ j < pcm.n_groups_,
          pcm.percent_in_group_estimate_ i * C i j = pcm.percent_in_group_estimate_ j * C j i)
      { percent_in_group_estimate_ := fun i => if i = 0 then 1 else 0,
        percent_in_group_estimate_last_recalculation_ := fun _ => 0,
        n_database_updates_called_ := 1,
        n_get_called_ := 0,
        preference_matrix_ := fun i j => if i = j then 0 else 1,
        weight_new_database_update_ := 1 / 1000,
        n_relation_matrix_iterations_ := 50,
        group_estimate_error_tolerance_ := 1 / 10000,
        n_groups_ := 2,
        msm_hack_enabled_ := true } := by
  have e : ∀ P Q R S T U V : Prop, P → Q → R → S → T → U → (U → V) →
      P ∧ Q ∧ R ∧ S ∧ T ∧ U ∧ V :=
    fun _ _ _ _ _ _ _ p q r s t u f => ⟨p, q, r, s, t, u, f u⟩
  show _ ∧ _ ∧ _ ∧ _ ∧ _ ∧ _ ∧ _
  refine e _ _ _ _ _ _ _ rfl (by decide!) (by decide!) (by decide!) (by decide!) (by decide!) ?_
  rintro hnone ⟨C, hC, _⟩
  rw [hC] at hnone
  exact absurd hnone (by simp)

end mm
end rg

namespace rg
namespace start

theorem newtonStep_lower (self : NextRelationPersonTime) (stat_time current_estimate : ℚ)
    (p : ℚ × ℚ) (h : self.newtonStep stat_time current_estimate = some p) :
    self.sexual_onset_ + 1 ≤ p.1 := by
  unfold NextRelationPersonTime.newtonStep at h
  split_ifs at h with h0
  simp only [Option.some.injEq] at h
  rw [← h]
  simp only
  split_ifs with h1 h2 h2
  · exact le_rfl
  · exact (not_le.mp h2).le
  · exact le_rfl
  · exact (not_le.mp h2).le

theorem newtonLoop_lower (self : NextRelationPersonTime) (stat_time : ℚ) (fuel : Nat) :
    ∀ current_estimate r, self.newtonLoop stat_time fuel current_estimate = some r →
      self.sexual_onset_ + 1 ≤ r := by
  induction fuel with
  | zero => intro _ r h; simp [NextRelationPersonTime.newtonLoop] at h
  | succ fuel ih =>
    intro current_estimate r h
    simp only [NextRelationPersonTime.newtonLoop] at h
    cases hs : self.newtonStep stat_time current_estimate with
    | none => rw [hs] at h; exact absurd h (by simp)
    | some p =>
      rw [hs] at h
      obtain ⟨e1, c⟩ := p
      simp only at h
      split_ifs at h
      · exact ih e1 r h
      · rw [Option.some.injEq] at h
        rw [← h]
        exact newtonStep_lower self stat_time current_estimate (e1, c) hs

/-- What `ConvertStationaryTimeToRealPersonTime` returns is -1 or lies in
`[sexual_onset_ + 1, sexual_stop_ - 1)`. -/
theorem Convert_range (self : NextRelationPersonTime) (fuel : Nat) (stat_time r : ℚ)
    (h : self.ConvertStationaryTimeToRealPersonTime fuel stat_time = some r) :
    r = -1 ∨ (self.sexual_onset_ + 1 ≤ r ∧ r < self.sexual_stop_ - 1) := by
  unfold NextRelationPersonTime.ConvertStationaryTimeToRealPersonTime at h
  cases hl : self.newtonLoop stat_time fuel
      ((self.sexual_stop_ - self.sexual_onset_) / 2 + self.sexual_onset_) with
  | none => rw [hl] at h; exact absurd h (by simp)
  | some est =>
    rw [hl] at h
    simp only at h
    split_ifs at h with hc
    · left
      rw [Option.some.injEq] at h
      exact h.symm
    · right
      rw [Option.some.injEq] at h
      rw [← h]
      exact ⟨newtonLoop_lower self stat_time fuel _ est hl, not_le.mp hc⟩

theorem staticCastInt_le_of_nonneg (x : ℚ) (h : 0 ≤ x) : ((tr.staticCastInt x : Int) : ℚ) ≤ x := by
  unfold tr.staticCastInt
  rw [if_pos h]
  exact Int.floor_le x

theorem staticCastInt_lt_add_one (x : ℚ) : ((tr.staticCastInt x : Int) : ℚ) < x + 1 := by
  unfold tr.staticCastInt
  split_ifs with h
  · linarith [Int.floor_le x]
  · exact Int.ceil_lt_add_one x

theorem staticCastInt_nonpos_of_neg (x : ℚ) (h : x < 0) : tr.staticCastInt x ≤ 0 := by
  unfold tr.staticCastInt
  rw [if_neg (not_le.mpr h)]
  exact Int.ceil_le.mpr (by exact_mod_cast h.le)

/-- C33: every value `r` that `ConvertStationaryTimeToRealPersonTime` returns
is -1 or satisfies `sexual_onset_ + 1 ≤ r < sexual_stop_ - 1` (in days). When
`sexual_stop_` is at most the largest `int`, a call of `Get` that returns `g`
has converted the new stationary total time to some `r`, `g` is the largest
`int` exactly when `r = -1` and the truncation of `r` otherwise; a call of
`Person::next_relation_time` that returns `t` has obtained some `g` from `Get`,
`t` is the largest `int` when `g` is, and otherwise `t = g + day_of_birth_`,
which lies strictly before `day_of_birth_ + sexual_stop_`, and for a
non-negative `sexual_onset_` strictly before the day of death
`day_of_birth_ + static_cast<int>(sexual_stop_)`. -/
theorem C33_next_relation_time_before_stop (self : NextRelationPersonTime) (fuel : Nat)
    (day_of_birth_ : Int) (next_arrival : ℚ)
    (hstop : self.sexual_stop_ ≤ (intMax : ℚ)) :
    (∀ stat_time r, self.ConvertStationaryTimeToRealPersonTime fuel stat_time = some r →
      r = -1 ∨ (self.sexual_onset_ + 1 ≤ r ∧ r < self.sexual_stop_ - 1)) ∧
    (∀ g self1, self.Get fuel next_arrival = some (g, self1) →
      ∃ r, self1.ConvertStationaryTimeToRealPersonTime fuel
          (self.stationary_process_total_time + next_arrival) = some r ∧
        (g = intMax ↔ r = -1) ∧ (r ≠ -1 → g = tr.staticCastInt r) ∧
        (r ≠ -1 → (g : ℚ) < self.sexual_stop_ ∧
          (0 ≤ self.sexual_onset_ → g < tr.staticCastInt self.sexual_stop_))) ∧
    (∀ t self1, sv.Person.next_relation_time day_of_birth_ self fuel next_arrival
        = some (t, self1) →
      ∃ g, self.Get fuel next_arrival = some (g, self1) ∧
        (g = intMax → t = intMax) ∧
        (g ≠ intMax → t = g + day_of_birth_ ∧
          (t : ℚ) < (day_of_birth_ : ℚ) + self.sexual_stop_ ∧
          (0 ≤ self.sexual_onset_ →
            t < day_of_birth_ + tr.staticCastInt self.sexual_stop_))) := by
  have hGet : ∀ g self1, self.Get fuel next_arrival = some (g, self1) →
      ∃ r, self1.ConvertStationaryTimeToRealPersonTime fuel
          (self.stationary_process_total_time + next_arrival) = some r ∧
        (g = intMax ↔ r = -1) ∧ (r ≠ -1 → g = tr.staticCastInt r) ∧
        (r ≠ -1 → (g : ℚ) < self.sexual_stop_ ∧
          (0 ≤ self.sexual_onset_ → g < tr.staticCastInt self.sexual_stop_)) := by
    intro g self1 h
    unfold NextRelationPersonTime.Get at h
    split_ifs at h with hna
    simp only at h
    split at h
    · exact absurd h (by simp)
    · rename_i r hr
      have hrange := Convert_range _ fuel _ r hr
      have hlt : r ≠ -1 → ((tr.staticCastInt r : Int) : ℚ) < self.sexual_stop_ ∧
          (0 ≤ self.sexual_onset_ → tr.staticCastInt r < tr.staticCastInt self.sexual_stop_) ∧
          tr.staticCastInt r ≠ intMax := by
        intro hne
        rcases hrange with h1 | ⟨h1, h2⟩
        · exact absurd h1 hne
        · simp only at h1 h2
          have hA : ((tr.staticCastInt r : Int) : ℚ) < self.sexual_stop_ := by
            linarith [staticCastInt_lt_add_one r]
          refine ⟨hA, ?_, ?_⟩
          · intro hon
            have hr0 : 0 ≤ r := by linarith
            have h3 := staticCastInt_le_of_nonneg r hr0
            have h4 : tr.staticCastInt self.sexual_stop_ = ⌊self.sexual_stop_⌋ := by
              unfold tr.staticCastInt
              rw [if_pos (by linarith)]
            rw [h4]
            have h5 : ((tr.staticCastInt r + 1 : Int) : ℚ) ≤ self.sexual_stop_ := by
              push_cast
              linarith
            have h6 := Int.le_floor.mpr h5
            omega
          · intro heq
            rw [heq] at hA
            exact absurd (lt_of_lt_of_le hA hstop) (lt_irrefl _)
      split_ifs at h with hm
      · rw [Option.some.injEq, Prod.mk.injEq] at h
        obtain ⟨hg, hs⟩ := h
        rw [← hs, ← hg]
        exact ⟨r, hr, ⟨fun _ => hm, fun _ => rfl⟩, fun hne => absurd hm hne,
          fun hne => absurd hm hne⟩
      · rw [Option.some.injEq, Prod.mk.injEq] at h
        obtain ⟨hg, hs⟩ := h
        rw [← hs, ← hg]
        obtain ⟨hA, hB, hC⟩ := hlt hm
        exact ⟨r, hr, ⟨fun hx => absurd hx hC, fun hx => absurd hx hm⟩, fun _ => rfl,
          fun _ => ⟨hA, hB⟩⟩
  refine ⟨fun stat_time r h => Convert_range self fuel stat_time r h, hGet, ?_⟩
  intro t self1 h
  unfold sv.Person.next_relation_time at h
  split at h
  · exact absurd h (by simp)
  · rename_i g self2 hg
    obtain ⟨r, _, hiff, _, hbound⟩ := hGet g self2 hg
    split_ifs at h with hm
    · rw [Option.some.injEq, Prod.mk.injEq] at h
      obtain ⟨ht, hs⟩ := h
      rw [← hs, ← ht]
      exact ⟨g, hg, fun _ => rfl, fun hne => absurd hm hne⟩
    · rw [Option.some.injEq, Prod.mk.injEq] at h
      obtain ⟨ht, hs⟩ := h
      rw [← hs, ← ht]
      refine ⟨g, hg, fun hx => absurd hx hm, fun _ => ⟨rfl, ?_, ?_⟩⟩
      · have hb := (hbound (fun hr => hm (hiff.mpr hr))).1
        push_cast
        linarith
      · intro hon
        have hb := (hbound (fun hr => hm (hiff.mpr hr))).2 hon
        omega

/-- Witness for C33: sexual onset 15, sexual stop 80 years, 300 partners, skew
1/2, age effect 1, average rate 16/365; a person born on day 100 whose
stationary process delivers the arrival 3000 gets day 16360 + 100. -/
theorem C33_next_relation_time_before_stop_witness :
    (fun (self : NextRelationPersonTime) =>
      self.sexual_stop_ ≤ (intMax : ℚ) ∧
      ((∀ stat_time r, self.ConvertStationaryTimeToRealPersonTime 100 stat_time = some r →
        r = -1 ∨ (self.sexual_onset_ + 1 ≤ r ∧ r < self.sexual_stop_ - 1)) ∧
      (∀ g self1, self.Get 100 3000 = some (g, self1) →
        ∃ r, self1.ConvertStationaryTimeToRealPersonTime 100
            (self.stationary_process_total_time + 3000) = some r ∧
          (g = intMax ↔ r = -1) ∧ (r ≠ -1 → g = tr.staticCastInt r) ∧
          (r ≠ -1 → (g : ℚ) < self.sexual_stop_ ∧
            (0 ≤ self.sexual_onset_ → g < tr.staticCastInt self.sexual_stop_))) ∧
      (∀ t self1, sv.Person.next_relation_time 100 self 100 3000 = some (t, self1) →
        ∃ g, self.Get 100 3000 = some (g, self1) ∧
          (g = intMax → t = intMax) ∧
          (g ≠ intMax → t = g + 100 ∧
            (t : ℚ) < ((100 : Int) : ℚ) + self.sexual_stop_ ∧
            (0 ≤ self.sexual_onset_ →
              t < 100 + tr.staticCastInt self.sexual_stop_)))) ∧
      (sv.Person.next_relation_time 100 self 100 3000).map (fun p => p.1) = some 16460 ∧
      (sv.Person.next_relation_time 100 self 100 100000).map (fun p => p.1) = some intMax)
      (NextRelationPersonTime.new
        { sexual_onset := 15, sexual_stop := 80,
          average_total_lifetime_n_partners := 300, rate_given_age_formula_skew := 1 / 2,
          age_effect_strength := 1 }
        (16 / 365)) := by
  have e : ∀ P S T U : Prop, P → (P → S) → T → U → P ∧ S ∧ T ∧ U :=
    fun _ _ _ _ p f t u => ⟨p, f p, t, u⟩
  show _ ∧ _ ∧ _ ∧ _
  refine e _ _ _ _ (by decide!)
    (fun h => C33_next_relation_time_before_stop _ 100 100 3000 h) (by decide!) (by decide!)

end start
end rg

namespace rg
namespace start

/-- The cubic that the constructor fits, written in the age since sexual onset:
with `B`, `E` the onset and stop in days and `L = E - B`, the rate at age `x` is
`N / L * (w * 12 * (x - B) * (E - x) * (s * (E - x) + (1 - s) * (x - B)) / L ^ 3
+ (1 - w))`. -/
theorem rate_function_factored (par : parameters.RelationGenerationStart)
    (h : par.sexual_onset ≠ par.sexual_stop) (x : ℚ) :
    (RateGivenAgeFormula.new par).rate_function x
      = par.average_total_lifetime_n_partners / (par.sexual_stop * 365 - par.sexual_onset * 365)
        * (par.age_effect_strength
            * (12 * (x - par.sexual_onset * 365) * (par.sexual_stop * 365 - x)
                * (par.rate_given_age_formula_skew * (par.sexual_stop * 365 - x)
                  + (1 - par.rate_given_age_formula_skew) * (x - par.sexual_onset * 365))
              / (par.sexual_stop * 365 - par.sexual_onset * 365) ^ 3)
          + (1 - par.age_effect_strength)) := by
  have hne : par.sexual_stop * 365 - par.sexual_onset * 365 ≠ 0 := by
    intro h0
    apply h
    linarith
  simp only [RateGivenAgeFormula.new, RateGivenAgeFormula.rate_function]
  field_simp
  ring

/-- C34: with `age_effect_strength = 1` the code shapes the curve the other way
round than documented. For skew 0 the rate on `[B, E]` is maximal at
`B + 2 (E - B) / 3`, two thirds of the sexual lifetime (a late peak), and the
rate at one third is strictly smaller; for skew 1 it is maximal at
`B + (E - B) / 3` (an early peak) and the rate at two thirds is strictly
smaller; for skew 1/2 the curve is symmetric about the midpoint. -/
theorem C34_skew_peak_reversed (par : parameters.RelationGenerationStart)
    (h : par.sexual_onset < par.sexual_stop)
    (hN : 0 < par.average_total_lifetime_n_partners)
    (hw : par.age_effect_strength = 1) :
    (par.rate_given_age_formula_skew = 0 →
      (∀ x, par.sexual_onset * 365 ≤ x → x ≤ par.sexual_stop * 365 →
        (RateGivenAgeFormula.new par).rate_function x
          ≤ (RateGivenAgeFormula.new par).rate_function
              (par.sexual_onset * 365
                + 2 * (par.sexual_stop * 365 - par.sexual_onset * 365) / 3)) ∧
      (RateGivenAgeFormula.new par).rate_function
          (par.sexual_onset * 365 + (par.sexual_stop * 365 - par.sexual_onset * 365) / 3)
        < (RateGivenAgeFormula.new par).rate_function
            (par.sexual_onset * 365
              + 2 * (par.sexual_stop * 365 - par.sexual_onset * 365) / 3)) ∧
    (par.rate_given_age_formula_skew = 1 →
      (∀ x, par.sexual_onset * 365 ≤ x → x ≤ par.sexual_stop * 365 →
        (RateGivenAgeFormula.new par).rate_function x
          ≤ (RateGivenAgeFormula.new par).rate_function
              (par.sexual_onset * 365
                + (par.sexual_stop * 365 - par.sexual_onset * 365) / 3)) ∧
      (RateGivenAgeFormula.new par).rate_function
          (par.sexual_onset * 365 + 2 * (par.sexual_stop * 365 - par.sexual_onset * 365) / 3)
        < (RateGivenAgeFormula.new par).rate_function
            (par.sexual_onset * 365
              + (par.sexual_stop * 365 - par.sexual_onset * 365) / 3)) ∧
    (par.rate_given_age_formula_skew = 1 / 2 →
      ∀ t, (RateGivenAgeFormula.new par).rate_function (par.sexual_onset * 365 + t)
        = (RateGivenAgeFormula.new par).rate_function (par.sexual_stop * 365 - t)) := by
  have hL : 0 < par.sexual_stop * 365 - par.sexual_onset * 365 := by linarith
  have hne := h.ne
  refine ⟨fun hs => ⟨?_, ?_⟩, fun hs => ⟨?_, ?_⟩, fun hs t => ?_⟩
  · intro x hx1 hx2
    have key : (RateGivenAgeFormula.new par).rate_function
          (par.sexual_onset * 365 + 2 * (par.sexual_stop * 365 - par.sexual_onset * 365) / 3)
        - (RateGivenAgeFormula.new par).rate_function x
        = 4 * par.average_total_lifetime_n_partners / 9
          * (3 * (x - par.sexual_onset * 365)
              - 2 * (par.sexual_stop * 365 - par.sexual_onset * 365)) ^ 2
          * (3 * (x - par.sexual_onset * 365)
              + (par.sexual_stop * 365 - par.sexual_onset * 365))
          / (par.sexual_stop * 365 - par.sexual_onset * 365) ^ 4 := by
      rw [rate_function_factored par hne, rate_function_factored par hne, hs, hw]
      generalize par.sexual_stop * 365 = E at hL ⊢
      generalize par.sexual_onset * 365 = B at hL ⊢
      generalize par.average_total_lifetime_n_partners = N
      have hL0 : E - B ≠ 0 := hL.ne'
      simp only [sub_self, zero_mul, mul_zero, zero_add, add_zero, one_mul, mul_one, sub_zero]
      field_simp
      ring
    have hnn : 0 ≤ 4 * par.average_total_lifetime_n_partners / 9
          * (3 * (x - par.sexual_onset * 365)
              - 2 * (par.sexual_stop * 365 - par.sexual_onset * 365)) ^ 2
          * (3 * (x - par.sexual_onset * 365)
              + (par.sexual_stop * 365 - par.sexual_onset * 365))
          / (par.sexual_stop * 365 - par.sexual_onset * 365) ^ 4 := by
      apply div_nonneg _ (pow_pos hL 4).le
      apply mul_nonneg (mul_nonneg (by linarith) (sq_nonneg _))
      linarith
    linarith
  · have key : (RateGivenAgeFormula.new par).rate_function
          (par.sexual_onset * 365 + 2 * (par.sexual_stop * 365 - par.sexual_onset * 365) / 3)
        - (RateGivenAgeFormula.new par).rate_function
          (par.sexual_onset * 365 + (par.sexual_stop * 365 - par.sexual_onset * 365) / 3)
        = 8 / 9 * par.average_total_lifetime_n_partners
          / (par.sexual_stop * 365 - par.sexual_onset * 365) := by
      rw [rate_function_factored par hne, rate_function_factored par hne, hs, hw]
      generalize par.sexual_stop * 365 = E at hL ⊢
      generalize par.sexual_onset * 365 = B at hL ⊢
      generalize par.average_total_lifetime_n_partners = N
      have hL0 : E - B ≠ 0 := hL.ne'
      simp only [sub_self, zero_mul, mul_zero, zero_add, add_zero, one_mul, mul_one, sub_zero]
      field_simp
      ring
    have hpos : 0 < 8 / 9 * par.average_total_lifetime_n_partners
          / (par.sexual_stop * 365 - par.sexual_onset * 365) :=
      div_pos (by linarith) hL
    linarith
  · intro x hx1 hx2
    have key : (RateGivenAgeFormula.new par).rate_function
          (par.sexual_onset * 365 + (par.sexual_stop * 365 - par.sexual_onset * 365) / 3)
        - (RateGivenAgeFormula.new par).rate_function x
        = 4 * par.average_total_lifetime_n_partners / 9
          * (3 * (par.sexual_stop * 365 - x)
              - 2 * (par.sexual_stop * 365 - par.sexual_onset * 365)) ^ 2
          * (3 * (par.sexual_stop * 365 - x)
              + (par.sexual_stop * 365 - par.sexual_onset * 365))
          / (par.sexual_stop * 365 - par.sexual_onset * 365) ^ 4 := by
      rw [rate_function_factored par hne, rate_function_factored par hne, hs, hw]
      generalize par.sexual_stop * 365 = E at hL ⊢
      generalize par.sexual_onset * 365 = B at hL ⊢
      generalize par.average_total_lifetime_n_partners = N
      have hL0 : E - B ≠ 0 := hL.ne'
      simp only [sub_self, zero_mul, mul_zero, zero_add, add_zero, one_mul, mul_one, sub_zero]
      field_simp
      ring
    have hnn : 0 ≤ 4 * par.average_total_lifetime_n_partners / 9
          * (3 * (par.sexual_stop * 365 - x)
              - 2 * (par.sexual_stop * 365 - par.sexual_onset * 365)) ^ 2
          * (3 * (par.sexual_stop * 365 - x)
              + (par.sexual_stop * 365 - par.sexual_onset * 365))
          / (par.sexual_stop * 365 - par.sexual_onset * 365) ^ 4 := by
      apply div_nonneg _ (pow_pos hL 4).le
      apply mul_nonneg (mul_nonneg (by linarith) (sq_nonneg _))
      linarith
    linarith
  · have key : (RateGivenAgeFormula.new par).rate_function
          (par.sexual_onset * 365 + (par.sexual_stop * 365 - par.sexual_onset * 365) / 3)
        - (RateGivenAgeFormula.new par).rate_function
          (par.sexual_onset * 365 + 2 * (par.sexual_stop * 365 - par.sexual_onset * 365) / 3)
        = 8 / 9 * par.average_total_lifetime_n_partners
          / (par.sexual_stop * 365 - par.sexual_onset * 365) := by
      rw [rate_function_factored par hne, rate_function_factored par hne, hs, hw]
      generalize par.sexual_stop * 365 = E at hL ⊢
      generalize par.sexual_onset * 365 = B at hL ⊢
      generalize par.average_total_lifetime_n_partners = N
      have hL0 : E - B ≠ 0 := hL.ne'
      simp only [sub_self, zero_mul, mul_zero, zero_add, add_zero, one_mul, mul_one, sub_zero]
      field_simp
      ring
    have hpos : 0 < 8 / 9 * par.average_total_lifetime_n_partners
          / (par.sexual_stop * 365 - par.sexual_onset * 365) :=
      div_pos (by linarith) hL
    linarith
  · rw [rate_function_factored par hne, rate_function_factored par hne, hs, hw]
    generalize par.sexual_stop * 365 = E at hL ⊢
    generalize par.sexual_onset * 365 = B at hL ⊢
    generalize par.average_total_lifetime_n_partners = N
    have hL0 : E - B ≠ 0 := hL.ne'
    ring

/-- Witness for C34: onset 15, stop 80 years, 300 partners, strength 1 and
skew 0. The rate at one third of the sexual lifetime is 32/2847, the rate at
two thirds is 64/2847. -/
theorem C34_skew_peak_reversed_witness :
    (fun par : parameters.RelationGenerationStart =>
      (par.sexual_onset < par.sexual_stop ∧
        0 < par.average_total_lifetime_n_partners ∧
        par.age_effect_strength = 1 ∧
        par.rate_given_age_formula_skew = 0) ∧
      (∀ x, par.sexual_onset * 365 ≤ x → x ≤ par.sexual_stop * 365 →
        (RateGivenAgeFormula.new par).rate_function x
          ≤ (RateGivenAgeFormula.new par).rate_function
              (par.sexual_onset * 365
                + 2 * (par.sexual_stop * 365 - par.sexual_onset * 365) / 3)) ∧
      (RateGivenAgeFormula.new par).rate_function
          (par.sexual_onset * 365 + (par.sexual_stop * 365 - par.sexual_onset * 365) / 3)
        = 32 / 2847 ∧
      (RateGivenAgeFormula.new par).rate_function
          (par.sexual_onset * 365 + 2 * (par.sexual_stop * 365 - par.sexual_onset * 365) / 3)
        = 64 / 2847)
      ⟨15, 80, 300, 0, 1⟩ :=
  ⟨⟨by norm_num, by norm_num, rfl, rfl⟩,
    ((C34_skew_peak_reversed ⟨15, 80, 300, 0, 1⟩ (by norm_num) (by norm_num) rfl).1 rfl).1,
    by decide!, by decide!⟩

end start
end rg

namespace tr

/-- Moving a layer forward by `amount` moves its step function: the value of
the moved layer at `t` is the value of the layer at `t - amount`. -/
theorem value_MoveForward (L : Layer) (amount t : ℚ) :
    Layer.value (layer.MoveForward L amount) t = Layer.value L (t - amount) := by
  have hfilter : ∀ pts : List Coordinate,
      (pts.map (fun c : Coordinate => (⟨c.x + amount, c.y⟩ : Coordinate))).filter
          (fun c => decide (c.x ≤ t))
        = (pts.filter (fun c => decide (c.x ≤ t - amount))).map
            (fun c : Coordinate => (⟨c.x + amount, c.y⟩ : Coordinate)) := by
    intro pts
    rw [List.filter_map]
    congr 1
    apply List.filter_congr
    intro c _
    simp only [Function.comp, decide_eq_decide]
    constructor <;> intro h <;> linarith
  have hhead : ((layer.MoveForward L amount).headD default).y = (L.headD default).y := by
    cases L with
    | nil => rfl
    | cons c rest => rfl
  unfold Layer.value
  rw [hhead]
  unfold Layer.valueFrom layer.MoveForward
  rw [hfilter, List.getLast?_map]
  cases (L.filter (fun c => decide (c.x ≤ t - amount))).getLast? with
  | none => rfl
  | some c => rfl

/-- C35: for an HIV-positive infected person, an HIV-negative susceptible
person and a time since infection `τ = simulation_t - t_infected ≥ 0`,
`HIVLayer::Get` returns a layer with as many points as the infectivity profile
of the parameters, in the same order; its `k`-th point has
`x = profile x_k - τ` and `y = profile y_k * base_rate * μ` for one multiplier
`μ`, and the value of the returned layer at time `t` is the value of the scaled
profile at `t + τ`. -/
theorem C35_hiv_layer_shifted_by_time_since_infection
    (parameters : parameters.TransmissionHIV) (relation : sv.Relation)
    (infected_person susceptible_person : sv.Person) (simulation_t : Int)
    (hi : infected_person.hiv_status.infected = true)
    (hs : susceptible_person.hiv_status.infected = false)
    (hτ : simulation_t - infected_person.hiv_status.t_infected ≥ 0) :
    ∃ (L : Layer) (μ : ℚ),
      (HIVLayer.new parameters).Get relation infected_person susceptible_person simulation_t
        = some L ∧
      L.length = parameters.infectivity_over_time.length ∧
      (∀ k : Nat, L[k]? = (parameters.infectivity_over_time[k]?).map (fun period =>
        (⟨period.getD 0 0
            - ((simulation_t - infected_person.hiv_status.t_infected : Int) : ℚ),
          period.getD 1 0 * parameters.base_rate * μ⟩ : Coordinate))) ∧
      (∀ t : ℚ, Layer.value L t
        = Layer.value
            ((HIVLayer.new parameters).hiv_base_layer_.map
              (fun point => (⟨point.x, point.y * μ⟩ : Coordinate)))
            (t + ((simulation_t - infected_person.hiv_status.t_infected : Int) : ℚ))) := by
  have key : ∀ μ : ℚ,
      let L := layer.MoveForward
        ((HIVLayer.new parameters).hiv_base_layer_.map
          (fun point => (⟨point.x, point.y * μ⟩ : Coordinate)))
        ((-1 * (simulation_t - infected_person.hiv_status.t_infected) : Int) : ℚ)
      L.length = parameters.infectivity_over_time.length ∧
      (∀ k : Nat, L[k]? = (parameters.infectivity_over_time[k]?).map (fun period =>
        (⟨period.getD 0 0
            - ((simulation_t - infected_person.hiv_status.t_infected : Int) : ℚ),
          period.getD 1 0 * parameters.base_rate * μ⟩ : Coordinate))) ∧
      (∀ t : ℚ, Layer.value L t
        = Layer.value
            ((HIVLayer.new parameters).hiv_base_layer_.map
              (fun point => (⟨point.x, point.y * μ⟩ : Coordinate)))
            (t + ((simulation_t - infected_person.hiv_status.t_infected : Int) : ℚ))) := by
    intro μ
    refine ⟨?_, ?_, ?_⟩
    · simp [layer.MoveForward, HIVLayer.new]
    · intro k
      simp only [layer.MoveForward, HIVLayer.new, List.map_map, List.getElem?_map]
      cases parameters.infectivity_over_time[k]? with
      | none => rfl
      | some period =>
        simp only [Option.map_some', Function.comp, Option.some.injEq, Coordinate.mk.injEq,
          and_true]
        push_cast
        ring
    · intro t
      rw [value_MoveForward]
      congr 1
      push_cast
      ring
  unfold HIVLayer.Get
  rw [if_pos hi, if_pos hs, if_pos hτ]
  exact ⟨_, _, rfl, key _⟩

/-- Witness for C35: the profile `{0, 5}, {400, 0.9}, {3650, 1.1}` with base
rate 0.005; the infected person has had HIV since day 0 and has gonorrhea
(multiplier 2), the call is made on day 50: the points lie at -50, 350 and
3600. -/
theorem C35_hiv_layer_shifted_by_time_since_infection_witness :
    (fun (parameters : parameters.TransmissionHIV) (infected_person susceptible_person : sv.Person)
        (simulation_t : Int) =>
      (infected_person.hiv_status.infected = true ∧
        susceptible_person.hiv_status.infected = false ∧
        simulation_t - infected_person.hiv_status.t_infected ≥ 0) ∧
      (∃ (L : Layer) (μ : ℚ),
        (HIVLayer.new parameters).Get ⟨7, 1, 2, 0, 100⟩ infected_person susceptible_person
          simulation_t = some L ∧
        L.length = parameters.infectivity_over_time.length ∧
        (∀ k : Nat, L[k]? = (parameters.infectivity_over_time[k]?).map (fun period =>
          (⟨period.getD 0 0
              - ((simulation_t - infected_person.hiv_status.t_infected : Int) : ℚ),
            period.getD 1 0 * parameters.base_rate * μ⟩ : Coordinate))) ∧
        (∀ t : ℚ, Layer.value L t
          = Layer.value
              ((HIVLayer.new parameters).hiv_base_layer_.map
                (fun point => (⟨point.x, point.y * μ⟩ : Coordinate)))
              (t + ((simulation_t - infected_person.hiv_status.t_infected : Int) : ℚ)))) ∧
      (HIVLayer.new parameters).Get ⟨7, 1, 2, 0, 100⟩ infected_person susceptible_person
          simulation_t
        = some [⟨-50, 1 / 20⟩, ⟨350, 9 / 1000⟩, ⟨3600, 11 / 1000⟩])
      ⟨5 / 1000, [[0, 5], [400, 9 / 10], [3650, 11 / 10]], 2, 3⟩
      ⟨1, 0, ⟨true, 0⟩, ⟨true, 3, false⟩⟩
      ⟨2, 0, ⟨false, -1⟩, ⟨false, -1, false⟩⟩
      50 :=
  ⟨⟨rfl, rfl, by decide⟩,
    C35_hiv_layer_shifted_by_time_since_infection
      ⟨5 / 1000, [[0, 5], [400, 9 / 10], [3650, 11 / 10]], 2, 3⟩ ⟨7, 1, 2, 0, 100⟩
      ⟨1, 0, ⟨true, 0⟩, ⟨true, 3, false⟩⟩ ⟨2, 0, ⟨false, -1⟩, ⟨false, -1, false⟩⟩ 50
      rfl rfl (by decide),
    by decide!⟩

end tr

namespace rg
namespace mm

/-- A sum over the flat indices `j < m * d` is the double sum over the pairs
`(j / d, j % d)`. -/
theorem sum_range_mul_div_mod (f : Nat → Nat → ℚ) (d : Nat) (hd : 0 < d) (m : Nat) :
    ∑ j in Finset.range (m * d), f (j / d) (j % d)
      = ∑ a in Finset.range m, ∑ e in Finset.range d, f a e := by
  induction m with
  | zero => simp
  | succ m ih =>
    rw [Nat.succ_mul, Finset.sum_range_add, ih, Finset.sum_range_succ]
    congr 1
    apply Finset.sum_congr rfl
    intro e he
    rw [Finset.mem_range] at he
    have h1 : (m * d + e) / d = m := by
      rw [Nat.add_comm, Nat.add_mul_div_right _ _ hd, Nat.div_eq_of_lt he, Nat.zero_add]
    have h2 : (m * d + e) % d = e := by
      rw [Nat.add_comm, Nat.add_mul_mod_self_right, Nat.mod_eq_of_lt he]
    rw [h1, h2]

/-- Every row of the matrix of `GroupDimensionExact::PreferenceMatrix` sums
to 1. -/
theorem exact_PreferenceMatrix_row_sum (self : GroupDimensionExact) (c : Nat)
    (hc : c < self.NumberOfGroups) :
    ∑ e in Finset.range self.NumberOfGroups, self.PreferenceMatrix c e = 1 := by
  have h : ∀ e ∈ Finset.range self.NumberOfGroups,
      self.PreferenceMatrix c e = if c = e then 1 else 0 := by
    intro e he
    unfold GroupDimensionExact.PreferenceMatrix
    rw [if_pos ⟨hc, Finset.mem_range.mp he⟩]
  rw [Finset.sum_congr rfl h, Finset.sum_ite_eq, if_pos (Finset.mem_range.mpr hc)]

/-- C36: `GroupHandler::PreferenceMatrix` is the Kronecker product of the
age-dimension matrix `A` and the duration-dimension matrix `D`: with `d` the
number of duration groups, entry `[i][j]` is `A[i / d][j / d] * D[i % d][j % d]`
for all flat groups `i`, `j`; whenever every row of `A` and every row of `D`
sums to 1, every row of the joint matrix sums to 1; and the rows of the matrix
`D` of the exact duration dimension do sum to 1. -/
theorem C36_preference_matrix_kronecker (gh : GroupHandler) (dim1_pref : GroupMatrix) :
    (∀ i j, i < gh.NumberOfGroups → j < gh.NumberOfGroups →
      gh.PreferenceMatrix dim1_pref i j
        = dim1_pref (i / gh.duration_dimension_.NumberOfGroups)
            (j / gh.duration_dimension_.NumberOfGroups)
          * gh.duration_dimension_.PreferenceMatrix
              (i % gh.duration_dimension_.NumberOfGroups)
              (j % gh.duration_dimension_.NumberOfGroups)) ∧
    ((∀ a < gh.age_dimension_.NumberOfGroups,
        ∑ b in Finset.range gh.age_dimension_.NumberOfGroups, dim1_pref a b = 1) →
      (∀ c < gh.duration_dimension_.NumberOfGroups,
        ∑ e in Finset.range gh.duration_dimension_.NumberOfGroups,
          gh.duration_dimension_.PreferenceMatrix c e = 1) →
      ∀ i < gh.NumberOfGroups,
        ∑ j in Finset.range gh.NumberOfGroups, gh.PreferenceMatrix dim1_pref i j = 1) ∧
    (∀ c < gh.duration_dimension_.NumberOfGroups,
      ∑ e in Finset.range gh.duration_dimension_.NumberOfGroups,
        gh.duration_dimension_.PreferenceMatrix c e = 1) := by
  have hentry : ∀ i j, i < gh.NumberOfGroups → j < gh.NumberOfGroups →
      gh.PreferenceMatrix dim1_pref i j
        = dim1_pref (i / gh.duration_dimension_.NumberOfGroups)
            (j / gh.duration_dimension_.NumberOfGroups)
          * gh.duration_dimension_.PreferenceMatrix
              (i % gh.duration_dimension_.NumberOfGroups)
              (j % gh.duration_dimension_.NumberOfGroups) := by
    intro i j hi hj
    unfold GroupHandler.PreferenceMatrix
    simp only
    rw [if_pos ⟨hi, hj⟩]
  refine ⟨hentry, ?_, fun c hc => exact_PreferenceMatrix_row_sum _ c hc⟩
  intro hA hD i hi
  have hn : gh.NumberOfGroups
      = gh.age_dimension_.NumberOfGroups * gh.duration_dimension_.NumberOfGroups := rfl
  have hd : 0 < gh.duration_dimension_.NumberOfGroups := by
    rcases Nat.eq_zero_or_pos gh.duration_dimension_.NumberOfGroups with h0 | h0
    · rw [hn, h0, Nat.mul_zero] at hi
      exact absurd hi (Nat.not_lt_zero _)
    · exact h0
  have hia : i / gh.duration_dimension_.NumberOfGroups < gh.age_dimension_.NumberOfGroups := by
    apply Nat.div_lt_of_lt_mul
    rw [Nat.mul_comm]
    exact hn ▸ hi
  have hid : i % gh.duration_dimension_.NumberOfGroups < gh.duration_dimension_.NumberOfGroups :=
    Nat.mod_lt _ hd
  rw [Finset.sum_congr rfl (fun j hj => hentry i j hi (Finset.mem_range.mp hj)), hn,
    sum_range_mul_div_mod
      (fun a e => dim1_pref (i / gh.duration_dimension_.NumberOfGroups) a
        * gh.duration_dimension_.PreferenceMatrix
            (i % gh.duration_dimension_.NumberOfGroups) e)
      gh.duration_dimension_.NumberOfGroups hd gh.age_dimension_.NumberOfGroups]
  simp only [← Finset.mul_sum]
  rw [hD _ hid]
  simp only [mul_one]
  exact hA _ hia

/-- Witness for C36: two age groups with the age matrix `1/2` everywhere and
three duration groups; every row of the joint `6 x 6` matrix sums to 1 and its
entry `[1][4]` is `A[0][1] * D[1][1] = 1/2`. -/
theorem C36_preference_matrix_kronecker_witness :
    (fun (gh : GroupHandler) (dim1_pref : GroupMatrix) =>
      (∀ a < gh.age_dimension_.NumberOfGroups,
        ∑ b in Finset.range gh.age_dimension_.NumberOfGroups, dim1_pref a b = 1) ∧
      (∀ c < gh.duration_dimension_.NumberOfGroups,
        ∑ e in Finset.range gh.duration_dimension_.NumberOfGroups,
          gh.duration_dimension_.PreferenceMatrix c e = 1) ∧
      (∀ i < gh.NumberOfGroups,
        ∑ j in Finset.range gh.NumberOfGroups, gh.PreferenceMatrix dim1_pref i j = 1) ∧
      gh.NumberOfGroups = 6 ∧
      gh.PreferenceMatrix dim1_pref 1 4 = 1 / 2)
    (GroupHandler.mk 8030 (fun _ => none) ⟨[15, 20], [20, 25]⟩
      ⟨[0, 1, 2], [0, 1, 3], 0, 3⟩)
    (fun _ _ => 1 / 2) := by
  have hA : ∀ a < 2, ∑ b in Finset.range 2, (fun _ _ : Nat => (1 / 2 : ℚ)) a b = 1 := by
    intro a _
    simp only [Finset.sum_range_succ, Finset.sum_range_zero]
    norm_num
  have h := C36_preference_matrix_kronecker
    (GroupHandler.mk 8030 (fun _ => none) ⟨[15, 20], [20, 25]⟩ ⟨[0, 1, 2], [0, 1, 3], 0, 3⟩)
    (fun _ _ => 1 / 2)
  exact ⟨hA, h.2.2, h.2.1 hA h.2.2, rfl, by decide!⟩

end mm
end rg

namespace rg
namespace mm

/-- In a chain of contiguous non-empty ranges every later range starts above
the end of an earlier one. -/
theorem ranges_after (ranges : List (Int × Int)) :
    ∀ a : Int × Int, List.Chain (fun r r' : Int × Int => r'.1 = r.2 + 1) a ranges →
      (∀ r ∈ ranges, r.1 ≤ r.2) → ∀ r' ∈ ranges, a.2 < r'.1 := by
  induction ranges with
  | nil => intro a _ _ r' hr'; exact absurd hr' (List.not_mem_nil r')
  | cons b rest ih =>
    intro a hc hle r' hr'
    rw [List.chain_cons] at hc
    obtain ⟨hab, hrest⟩ := hc
    rcases List.mem_cons.mp hr' with rfl | hmem
    · omega
    · have h1 := ih b hrest (fun r hr => hle r (List.mem_cons_of_mem _ hr)) r' hmem
      have h2 := hle b (List.mem_cons_self _ _)
      omega

theorem ranges_pairwise (ranges : List (Int × Int))
    (hle : ∀ r ∈ ranges, r.1 ≤ r.2)
    (hchain : List.Chain' (fun r r' : Int × Int => r'.1 = r.2 + 1) ranges) :
    List.Pairwise (fun r r' : Int × Int => r.2 < r'.1) ranges := by
  induction ranges with
  | nil => exact List.Pairwise.nil
  | cons a rest ih =>
    rw [List.pairwise_cons]
    refine ⟨?_, ih (fun r hr => hle r (List.mem_cons_of_mem _ hr)) hchain.tail⟩
    exact ranges_after rest a hchain (fun r hr => hle r (List.mem_cons_of_mem _ hr))

/-- The index that `std::lower_bound` finds among the upper ends of contiguous
ranges is the index of the range that holds the value. -/
theorem lowerBound_ranges (ranges : List (Int × Int)) (v : Int) :
    (∀ r ∈ ranges, r.1 ≤ r.2) →
    List.Chain' (fun r r' : Int × Int => r'.1 = r.2 + 1) ranges →
    (∀ a, ranges.head? = some a → a.1 ≤ v) →
    (∃ z, ranges.getLast? = some z ∧ v ≤ z.2) →
    ∃ r, ranges[lowerBound (ranges.map (fun r => r.2)) v]? = some r ∧ r.1 ≤ v ∧ v ≤ r.2 := by
  induction ranges with
  | nil => intro _ _ _ hz; obtain ⟨z, hz, _⟩ := hz; simp at hz
  | cons a rest ih =>
    intro hle hchain hhead hlast
    by_cases hav : a.2 < v
    · have hlb : lowerBound ((a :: rest).map (fun r => r.2)) v
          = lowerBound (rest.map (fun r => r.2)) v + 1 := by
        unfold lowerBound
        rw [List.map_cons, List.takeWhile_cons_of_pos (by simpa using hav), List.length_cons]
      rw [hlb, List.getElem?_cons_succ]
      obtain ⟨z, hz, hvz⟩ := hlast
      cases rest with
      | nil =>
        simp only [List.getLast?_singleton, Option.some.injEq] at hz
        rw [← hz] at hvz
        omega
      | cons b rest1 =>
        apply ih (fun r hr => hle r (List.mem_cons_of_mem _ hr)) hchain.tail
        · intro c hc
          simp only [List.head?_cons, Option.some.injEq] at hc
          rw [← hc]
          have := (List.chain'_cons.mp hchain).1
          omega
        · refine ⟨z, ?_, hvz⟩
          rw [← hz, List.getLast?_cons_cons]
    · have hlb : lowerBound ((a :: rest).map (fun r => r.2)) v = 0 := by
        unfold lowerBound
        rw [List.map_cons, List.takeWhile_cons_of_neg (by simpa using hav), List.length_nil]
      rw [hlb]
      exact ⟨a, List.getElem?_cons_zero, hhead a rfl, not_lt.mp hav⟩

/-- The constructor accepts contiguous ranges `[l_i, u_i]` and stores the
upper ends, the first lower end and the last upper end. -/
theorem new_of_ranges (ranges : List (Int × Int)) (hne : ranges ≠ [])
    (hle : ∀ r ∈ ranges, r.1 ≤ r.2)
    (hchain : List.Chain' (fun r r' : Int × Int => r'.1 = r.2 + 1) ranges) :
    GroupDimensionExact.new (ranges.map (fun r => [r.1, r.2]))
      = some
          { g_lower_ := ranges.map (fun r => r.1),
            g_upper_ := ranges.map (fun r => r.2),
            lowest_ := (ranges.head hne).1,
            highest_ := (ranges.getLast hne).2 } := by
  have hsorted : List.Chain' (fun a b : Int => a ≤ b) (ranges.map (fun r => r.2)) := by
    rw [List.chain'_map]
    have hp := ranges_pairwise ranges hle hchain
    apply List.Pairwise.chain'
    apply hp.imp_of_mem
    intro a b _ hb hab
    have := hle b hb
    omega
  unfold GroupDimensionExact.new
  rw [if_pos]
  · simp only [List.map_map, Option.some.injEq, GroupDimensionExact.mk.injEq]
    refine ⟨?_, ?_, ?_, ?_⟩
    · apply List.map_congr_left
      intro r _
      rfl
    · apply List.map_congr_left
      intro r _
      rfl
    · cases ranges with
      | nil => exact absurd rfl hne
      | cons a rest => rfl
    · have h1 : (ranges.map (fun r : Int × Int => [r.1, r.2])).getLastD []
          = [(ranges.getLast hne).1, (ranges.getLast hne).2] := by
        rw [List.getLastD_eq_getLast?, List.getLast?_map, List.getLast?_eq_getLast _ hne]
        rfl
      rw [h1]
      rfl
  · refine ⟨by simpa using hne, ?_, ?_, ?_, ?_⟩
    · intro g hg
      obtain ⟨r, _, rfl⟩ := List.mem_map.mp hg
      exact le_rfl
    · intro g hg
      obtain ⟨r, hr, rfl⟩ := List.mem_map.mp hg
      exact hle r hr
    · rw [List.chain'_map]
      exact hchain
    · rw [List.map_map]
      exact hsorted

/-- C37: for duration groups given as contiguous integer ranges
`[l_0, u_0], [l_1, u_1], ...` with `l_i ≤ u_i` and `l_{i+1} = u_i + 1`, the
constructor of `GroupDimensionExact` accepts the groups, and for every value
`v` with `l_0 ≤ v ≤ u_last`, `GroupNumber(v)` returns an index `i` with
`l_i ≤ v ≤ u_i`, and `i` is the only index of a range that holds `v`. -/
theorem C37_exact_group_number_of_range (ranges : List (Int × Int)) (hne : ranges ≠ [])
    (hle : ∀ r ∈ ranges, r.1 ≤ r.2)
    (hchain : List.Chain' (fun r r' : Int × Int => r'.1 = r.2 + 1) ranges)
    (v : Int) (hlo : (ranges.head hne).1 ≤ v) (hhi : v ≤ (ranges.getLast hne).2) :
    ∃ (dim : GroupDimensionExact) (i : Nat),
      GroupDimensionExact.new (ranges.map (fun r => [r.1, r.2])) = some dim ∧
      dim.GroupNumber v = some i ∧
      (∃ r, ranges[i]? = some r ∧ r.1 ≤ v ∧ v ≤ r.2) ∧
      ∀ j r, ranges[j]? = some r → r.1 ≤ v → v ≤ r.2 → j = i := by
  obtain ⟨r, hr, hr1, hr2⟩ := lowerBound_ranges ranges v hle hchain
    (by
      intro a ha
      rw [List.head?_eq_head hne, Option.some.injEq] at ha
      rw [← ha]
      exact hlo)
    ⟨ranges.getLast hne, List.getLast?_eq_getLast _ hne, hhi⟩
  refine ⟨_, lowerBound (ranges.map (fun r => r.2)) v, new_of_ranges ranges hne hle hchain,
    ?_, ⟨r, hr, hr1, hr2⟩, ?_⟩
  · unfold GroupDimensionExact.GroupNumber
    rw [if_pos ⟨hlo, hhi⟩]
  · intro j q hq hq1 hq2
    have hp := ranges_pairwise ranges hle hchain
    rw [List.pairwise_iff_getElem] at hp
    obtain ⟨hj, hjq⟩ := List.getElem?_eq_some.mp hq
    obtain ⟨hi, hir⟩ := List.getElem?_eq_some.mp hr
    rcases Nat.lt_trichotomy j (lowerBound (ranges.map (fun r => r.2)) v) with hlt | heq | hgt
    · have := hp j _ hj hi hlt
      rw [hjq, hir] at this
      omega
    · exact heq
    · have := hp _ j hi hj hgt
      rw [hjq, hir] at this
      omega

/-- Witness for C37: the ranges `[0,0], [1,1], [2,3], [4,10]`; the value 3 is in
range number 2. -/
theorem C37_exact_group_number_of_range_witness :
    (fun (ranges : List (Int × Int)) (v : Int) =>
      (ranges ≠ [] ∧ (∀ r ∈ ranges, r.1 ≤ r.2) ∧
        List.Chain' (fun r r' : Int × Int => r'.1 = r.2 + 1) ranges ∧
        (ranges.headD (0, 0)).1 ≤ v ∧ v ≤ (ranges.getLastD (0, 0)).2) ∧
      (∃ (dim : GroupDimensionExact) (i : Nat),
        GroupDimensionExact.new (ranges.map (fun r => [r.1, r.2])) = some dim ∧
        dim.GroupNumber v = some i ∧
        (∃ r, ranges[i]? = some r ∧ r.1 ≤ v ∧ v ≤ r.2) ∧
        ∀ j r, ranges[j]? = some r → r.1 ≤ v → v ≤ r.2 → j = i) ∧
      (GroupDimensionExact.mk [0, 1, 2, 4] [0, 1, 3, 10] 0 10).GroupNumber v = some 2)
    [(0, 0), (1, 1), (2, 3), (4, 10)] 3 :=
  ⟨⟨by simp, by simp, by simp, by decide, by decide⟩,
    C37_exact_group_number_of_range [(0, 0), (1, 1), (2, 3), (4, 10)] (by simp) (by simp)
      (by simp) 3 (by decide) (by decide),
    by decide⟩

end mm
end rg

namespace rg
namespace mm

/-- Once the loop condition is false, more fuel changes nothing. -/
theorem runLoop_fuel_irrelevant
    (step : MatchMaker → List (RelationRequest × RelationRequest) →
      Option (MatchMaker × List (RelationRequest × RelationRequest)))
    (fuel : Nat) :
    ∀ (mm : MatchMaker) (acc : List (RelationRequest × RelationRequest)),
      step (MatchMaker.runLoop step fuel mm acc).1 (MatchMaker.runLoop step fuel mm acc).2 = none →
      ∀ k, MatchMaker.runLoop step (fuel + k) mm acc = MatchMaker.runLoop step fuel mm acc := by
  induction fuel with
  | zero =>
    intro mm acc h k
    simp only [MatchMaker.runLoop] at h
    cases k with
    | zero => rfl
    | succ k =>
      rw [Nat.zero_add]
      simp only [MatchMaker.runLoop, h]
  | succ fuel ih =>
    intro mm acc h k
    rw [Nat.add_right_comm]
    simp only [MatchMaker.runLoop] at h ⊢
    cases hs : step mm acc with
    | none => rfl
    | some next =>
      rw [hs] at h
      exact ih next.1 next.2 h k

/-- With the counters equal to the queue lengths, the counters count the
queued requests. -/
theorem queued_eq_counters (mm : MatchMaker) (hc : mm.CountersMatch) :
    mm.queued
      = ((∑ g in Finset.range mm.n_groups, ((mm.r_ g).toNat + (mm.r_p_ g).toNat) : Nat) : Int) := by
  unfold MatchMaker.queued
  push_cast
  apply Finset.sum_congr rfl
  intro g _
  rw [(hc g).1, (hc g).2]
  simp

/-- A match leaves the cursor and the number of links and takes two queued
requests. -/
theorem MatchFound_iteration (mm : MatchMaker) (g1 g2 : Nat) (hc : mm.CountersMatch)
    (h : (mm.MatchFoundDoAllAndReturnPair g1 g2).1.remaining + 2 = mm.remaining)
    (hc1 : (mm.MatchFoundDoAllAndReturnPair g1 g2).1.CountersMatch) :
    (mm.MatchFoundDoAllAndReturnPair g1 g2).1.link_handler_.current_position_
        = mm.link_handler_.current_position_ ∧
    (mm.MatchFoundDoAllAndReturnPair g1 g2).1.link_handler_.link_list_.length
        = mm.link_handler_.link_list_.length ∧
    (mm.MatchFoundDoAllAndReturnPair g1 g2).1.queued + 2 = mm.queued := by
  have hl := MatchFound_link_handler mm g1 g2
  have hn := MatchFound_n_groups mm g1 g2
  have h1 : (mm.MatchFoundDoAllAndReturnPair g1 g2).1.link_handler_.current_position_
      = mm.link_handler_.current_position_ := by rw [hl]; rfl
  have h2 : (mm.MatchFoundDoAllAndReturnPair g1 g2).1.link_handler_.link_list_.length
      = mm.link_handler_.link_list_.length := by
    rw [hl]
    exact length_removeAt _ _
  refine ⟨h1, h2, ?_⟩
  rw [queued_eq_counters _ hc1, queued_eq_counters _ hc]
  unfold MatchMaker.remaining at h
  rw [h1, h2] at h
  omega

/-- C38: for a matchmaker whose counters equal its queue lengths and whose
links join existing groups, both scheduling loops of `MatchMaker::Get`
terminate. The priority pass and the non-priority pass as `Get` runs them end
because their loop condition is false; from any such state each loop, given
more iterations than `remaining` (the queued requests plus the links from the
cursor on), ends with its loop condition false in a state that does not depend
on the bound. Each iteration either forms a match, which keeps the cursor and
takes two queued requests, or advances the cursor by one below the number of
links and keeps the queues; the number of links never changes; and `Remove`
keeps the cursor and every entry before the cursor. -/
theorem C38_scheduling_loops_terminate
    (sort_descending : List (alje.MultiSetSize2 × Credit) → List (alje.MultiSetSize2 × Credit))
    (hsort : ∀ l, (sort_descending l).Perm l)
    (mm : MatchMaker) (acc : List (RelationRequest × RelationRequest))
    (hc : mm.CountersMatch) (hr : mm.LinksInRange) :
    MatchMaker.priorityStep (mm.stepPriority sort_descending).1
        (mm.stepPriority sort_descending).2 = none ∧
    MatchMaker.normalStep (mm.stepNormal acc).1 (mm.stepNormal acc).2 = none ∧
    (∀ fuel, mm.remaining < fuel →
      MatchMaker.priorityStep (MatchMaker.runLoop MatchMaker.priorityStep fuel mm acc).1
          (MatchMaker.runLoop MatchMaker.priorityStep fuel mm acc).2 = none ∧
      MatchMaker.runLoop MatchMaker.priorityStep fuel mm acc
        = MatchMaker.runLoop MatchMaker.priorityStep (mm.remaining + 1) mm acc) ∧
    (∀ fuel, mm.remaining < fuel →
      MatchMaker.normalStep (MatchMaker.runLoop MatchMaker.normalStep fuel mm acc).1
          (MatchMaker.runLoop MatchMaker.normalStep fuel mm acc).2 = none ∧
      MatchMaker.runLoop MatchMaker.normalStep fuel mm acc
        = MatchMaker.runLoop MatchMaker.normalStep (mm.remaining + 1) mm acc) ∧
    (∀ next, (mm.priorityStep acc = some next ∨ mm.normalStep acc = some next) →
      next.1.remaining < mm.remaining ∧
      next.1.link_handler_.link_list_.length = mm.link_handler_.link_list_.length ∧
      ((next.1.link_handler_.current_position_ = mm.link_handler_.current_position_ ∧
          next.1.queued + 2 = mm.queued ∧ ∃ pair, next.2 = acc ++ [pair]) ∨
        (next.1.link_handler_.current_position_ = mm.link_handler_.current_position_ + 1 ∧
          mm.link_handler_.current_position_ < mm.link_handler_.link_list_.length ∧
          next.1.queued = mm.queued ∧ next.2 = acc))) ∧
    (mm.link_handler_.Remove.current_position_ = mm.link_handler_.current_position_ ∧
      mm.link_handler_.Remove.link_list_.length = mm.link_handler_.link_list_.length ∧
      ∀ i < mm.link_handler_.current_position_,
        mm.link_handler_.Remove.link_list_[i]? = mm.link_handler_.link_list_[i]?) := by
  have hloop : ∀ (step : MatchMaker → List (RelationRequest × RelationRequest) →
        Option (MatchMaker × List (RelationRequest × RelationRequest))),
      (∀ (mm : MatchMaker) (acc : List (RelationRequest × RelationRequest)),
        mm.CountersMatch → mm.LinksInRange → ∀ next, step mm acc = some next →
          next.1.remaining < mm.remaining ∧ next.1.CountersMatch ∧ next.1.LinksInRange) →
      ∀ fuel, mm.remaining < fuel →
        step (MatchMaker.runLoop step fuel mm acc).1 (MatchMaker.runLoop step fuel mm acc).2
          = none ∧
        MatchMaker.runLoop step fuel mm acc
          = MatchMaker.runLoop step (mm.remaining + 1) mm acc := by
    intro step hstep fuel hfuel
    refine ⟨(runLoop_complete step hstep fuel mm acc hc hr hfuel).1, ?_⟩
    have h1 := (runLoop_complete step hstep (mm.remaining + 1) mm acc hc hr
      (Nat.lt_succ_self _)).1
    have h2 := runLoop_fuel_irrelevant step (mm.remaining + 1) mm acc h1
      (fuel - (mm.remaining + 1))
    rw [← h2]
    congr 1
    omega
  have hadvance : ∀ link, mm.link_handler_.Get = some link →
      (({ mm with link_handler_ := mm.link_handler_.Next } : MatchMaker).remaining
          < mm.remaining) ∧
      mm.link_handler_.current_position_ < mm.link_handler_.link_list_.length := by
    intro link hget
    have hlt := Get_lt_length _ _ hget
    refine ⟨?_, hlt⟩
    simp only [MatchMaker.remaining, LinkHandler.Next]
    omega
  refine ⟨(stepPriority_complete sort_descending hsort mm hc hr).1,
    (stepNormal_complete mm acc hc hr).1,
    hloop MatchMaker.priorityStep priorityStep_progress,
    hloop MatchMaker.normalStep normalStep_progress, ?_, ?_⟩
  · intro next hnext
    rcases hnext with hs | hs
    · have hprog := (priorityStep_progress mm acc hc hr next hs).1
      refine ⟨hprog, ?_⟩
      unfold MatchMaker.priorityStep at hs
      split_ifs at hs with hpt
      cases hget : mm.link_handler_.Get with
      | none => rw [hget] at hs; simp at hs
      | some link =>
        rw [hget] at hs
        simp only at hs
        obtain ⟨p, hp, e⟩ := Get_mem _ _ hget
        have hrange := hr p hp
        rw [e] at hrange
        split_ifs at hs with htest
        · simp only [Option.some.injEq] at hs
          subst hs
          obtain ⟨t1, t2, _⟩ := priorityTest_takes mm mm.link_handler_.Remove _ _ hc htest
          obtain ⟨m1, _, m3⟩ := MatchFound_progress mm _ _ hc hr hrange.1 hrange.2 t1 t2
          obtain ⟨i1, i2, i3⟩ := MatchFound_iteration mm _ _ hc m1 m3
          exact ⟨i2, Or.inl ⟨i1, i3, _, rfl⟩⟩
        · simp only [Option.some.injEq] at hs
          subst hs
          exact ⟨rfl, Or.inr ⟨rfl, (hadvance link hget).2, rfl, rfl⟩⟩
    · have hprog := (normalStep_progress mm acc hc hr next hs).1
      refine ⟨hprog, ?_⟩
      unfold MatchMaker.normalStep at hs
      split_ifs at hs with hpt
      cases hget : mm.link_handler_.Get with
      | none => rw [hget] at hs; simp at hs
      | some link =>
        rw [hget] at hs
        simp only at hs
        obtain ⟨p, hp, e⟩ := Get_mem _ _ hget
        have hrange := hr p hp
        rw [e] at hrange
        split_ifs at hs with htest
        · simp only [Option.some.injEq] at hs
          subst hs
          obtain ⟨t1, t2⟩ := normalTest_takes mm mm.link_handler_.Remove _ _ hc htest
          obtain ⟨m1, _, m3⟩ := MatchFound_progress mm _ _ hc hr hrange.1 hrange.2 t1 t2
          obtain ⟨i1, i2, i3⟩ := MatchFound_iteration mm _ _ hc m1 m3
          exact ⟨i2, Or.inl ⟨i1, i3, _, rfl⟩⟩
        · simp only [Option.some.injEq] at hs
          subst hs
          exact ⟨rfl, Or.inr ⟨rfl, (hadvance link hget).2, rfl, rfl⟩⟩
  · refine ⟨rfl, length_removeAt _ _, ?_⟩
    intro i hi
    exact removeAt_getElem?_lt _ _ _ hi

/-- Witness for C38: two groups with the requests of persons 2 and 4 (group 0)
and 1 and 3 (group 1). Both passes end with their loop condition false; after
the credits are added the non-priority loop makes two matches and one advance
of the cursor. -/
theorem C38_scheduling_loops_terminate_witness :
    (fun mm : MatchMaker =>
      mm.CountersMatch ∧ mm.LinksInRange ∧
      (∀ l : List (alje.MultiSetSize2 × Credit),
        (List.insertionSort (fun p q => p.2 ≥ q.2) l).Perm l) ∧
      MatchMaker.priorityStep
          (mm.stepPriority (List.insertionSort (fun p q => p.2 ≥ q.2))).1
          (mm.stepPriority (List.insertionSort (fun p q => p.2 ≥ q.2))).2 = none ∧
      MatchMaker.normalStep (mm.stepNormal []).1 (mm.stepNormal []).2 = none ∧
      (∀ fuel, mm.remaining < fuel →
        MatchMaker.normalStep (MatchMaker.runLoop MatchMaker.normalStep fuel mm []).1
            (MatchMaker.runLoop MatchMaker.normalStep fuel mm []).2 = none ∧
        MatchMaker.runLoop MatchMaker.normalStep fuel mm []
          = MatchMaker.runLoop MatchMaker.normalStep (mm.remaining + 1) mm []) ∧
      mm.remaining = 7 ∧
      (MatchMaker.runLoop MatchMaker.normalStep 8 mm.stepAdd []).2 = [(⟨4, 9⟩, ⟨2, 7⟩), (⟨3, 4⟩, ⟨1, 5⟩)] ∧
      (MatchMaker.runLoop MatchMaker.normalStep 8 mm.stepAdd []).1.link_handler_.current_position_
        = 1)
    ([(⟨1, 5⟩ : RelationRequest), ⟨2, 7⟩, ⟨3, 4⟩, ⟨4, 9⟩].foldl
      (MatchMaker.AddRelationRequest (fun rr => (rr.person_id % 2).toNat))
      (MatchMaker.new 2 (fun _ _ => 1 / 2))) := by
  have hc := (AddRelationRequest_fold (fun rr => (rr.person_id % 2).toNat)
    [(⟨1, 5⟩ : RelationRequest), ⟨2, 7⟩, ⟨3, 4⟩, ⟨4, 9⟩]
    (MatchMaker.new 2 (fun _ _ => 1 / 2)) (new_counters 2 (fun _ _ => 1 / 2))).1
  have hr := AddRelationRequest_fold_links (fun rr => (rr.person_id % 2).toNat)
    [(⟨1, 5⟩ : RelationRequest), ⟨2, 7⟩, ⟨3, 4⟩, ⟨4, 9⟩]
    (MatchMaker.new 2 (fun _ _ => 1 / 2)) (new_counters 2 (fun _ _ => 1 / 2))
    (new_links 2 (fun _ _ => 1 / 2))
  have hsort : ∀ l : List (alje.MultiSetSize2 × Credit),
      (List.insertionSort (fun p q => p.2 ≥ q.2) l).Perm l :=
    fun l => List.perm_insertionSort _ l
  have h := C38_scheduling_loops_terminate (List.insertionSort (fun p q => p.2 ≥ q.2)) hsort
    _ [] hc hr
  exact ⟨hc, hr, hsort, h.1, h.2.1, h.2.2.2.1, by decide!, by decide!, by decide!⟩

end mm
end rg

namespace rg
namespace start

/-- Simpson's rule is exact for the cubic: the increase of `rate_primitive`
from `x` to `y` is `(y - x) / 6` times the rates at `x`, at the midpoint (four
times) and at `y`. -/
theorem rate_primitive_sub (f : RateGivenAgeFormula) (x y : ℚ) :
    f.rate_primitive y - f.rate_primitive x
      = (y - x) / 6
        * (f.rate_function x + 4 * f.rate_function ((x + y) / 2) + f.rate_function y) := by
  simp only [RateGivenAgeFormula.rate_primitive, RateGivenAgeFormula.rate_function]
  ring

theorem rate_function_nonneg (par : parameters.RelationGenerationStart)
    (h : par.sexual_onset < par.sexual_stop)
    (hs0 : 0 ≤ par.rate_given_age_formula_skew) (hs1 : par.rate_given_age_formula_skew ≤ 1)
    (hw0 : 0 ≤ par.age_effect_strength) (hw1 : par.age_effect_strength ≤ 1)
    (hN : 0 ≤ par.average_total_lifetime_n_partners)
    (x : ℚ) (hx1 : par.sexual_onset * 365 ≤ x) (hx2 : x ≤ par.sexual_stop * 365) :
    0 ≤ (RateGivenAgeFormula.new par).rate_function x := by
  have hL : 0 < par.sexual_stop * 365 - par.sexual_onset * 365 := by linarith
  rw [rate_function_factored par h.ne]
  apply mul_nonneg (div_nonneg hN hL.le)
  apply add_nonneg _ (by linarith)
  apply mul_nonneg hw0
  apply div_nonneg _ (pow_pos hL 3).le
  apply mul_nonneg
  · apply mul_nonneg
    · apply mul_nonneg (by norm_num)
      linarith
    · linarith
  · apply add_nonneg
    · apply mul_nonneg hs0
      linarith
    · apply mul_nonneg (by linarith)
      linarith

/-- C39: for `sexual_onset < sexual_stop`, a skew and an age-effect strength in
`[0, 1]` and a non-negative number of lifetime partners, `rate_function(x) ≥ 0`
for every age `x` in `[B, E]` (`B`, `E` the onset and stop in days); hence
`rate_primitive` is non-decreasing on `[B, E]`; and with strength 1 the rate is
0 at `B` and at `E`. -/
theorem C39_rate_function_nonneg (par : parameters.RelationGenerationStart)
    (h : par.sexual_onset < par.sexual_stop)
    (hs0 : 0 ≤ par.rate_given_age_formula_skew) (hs1 : par.rate_given_age_formula_skew ≤ 1)
    (hw0 : 0 ≤ par.age_effect_strength) (hw1 : par.age_effect_strength ≤ 1)
    (hN : 0 ≤ par.average_total_lifetime_n_partners) :
    (∀ x, par.sexual_onset * 365 ≤ x → x ≤ par.sexual_stop * 365 →
      0 ≤ (RateGivenAgeFormula.new par).rate_function x) ∧
    (∀ x y, par.sexual_onset * 365 ≤ x → x ≤ y → y ≤ par.sexual_stop * 365 →
      (RateGivenAgeFormula.new par).rate_primitive x
        ≤ (RateGivenAgeFormula.new par).rate_primitive y) ∧
    (par.age_effect_strength = 1 →
      (RateGivenAgeFormula.new par).rate_function (par.sexual_onset * 365) = 0 ∧
      (RateGivenAgeFormula.new par).rate_function (par.sexual_stop * 365) = 0) := by
  have hnn := rate_function_nonneg par h hs0 hs1 hw0 hw1 hN
  refine ⟨hnn, ?_, ?_⟩
  · intro x y hx hxy hy
    have hsub := rate_primitive_sub (RateGivenAgeFormula.new par) x y
    have h1 := hnn x hx (by linarith)
    have h2 := hnn ((x + y) / 2) (by linarith) (by linarith)
    have h3 := hnn y (by linarith) hy
    have h4 : 0 ≤ (y - x) / 6
        * ((RateGivenAgeFormula.new par).rate_function x
          + 4 * (RateGivenAgeFormula.new par).rate_function ((x + y) / 2)
          + (RateGivenAgeFormula.new par).rate_function y) :=
      mul_nonneg (by linarith) (by linarith)
    linarith
  · intro hw
    rw [rate_function_factored par h.ne, rate_function_factored par h.ne, hw]
    constructor
    · simp
    · simp

/-- Witness for C39: the default parameter pack (onset 15, stop 80, 300
partners, skew 1/2, strength 1); the rate at age 40 years is 2880/160381 per
day. -/
theorem C39_rate_function_nonneg_witness :
    (fun par : parameters.RelationGenerationStart =>
      (par.sexual_onset < par.sexual_stop ∧
        0 ≤ par.rate_given_age_formula_skew ∧ par.rate_given_age_formula_skew ≤ 1 ∧
        0 ≤ par.age_effect_strength ∧ par.age_effect_strength ≤ 1 ∧
        0 ≤ par.average_total_lifetime_n_partners) ∧
      ((∀ x, par.sexual_onset * 365 ≤ x → x ≤ par.sexual_stop * 365 →
        0 ≤ (RateGivenAgeFormula.new par).rate_function x) ∧
      (∀ x y, par.sexual_onset * 365 ≤ x → x ≤ y → y ≤ par.sexual_stop * 365 →
        (RateGivenAgeFormula.new par).rate_primitive x
          ≤ (RateGivenAgeFormula.new par).rate_primitive y) ∧
      (par.age_effect_strength = 1 →
        (RateGivenAgeFormula.new par).rate_function (par.sexual_onset * 365) = 0 ∧
        (RateGivenAgeFormula.new par).rate_function (par.sexual_stop * 365) = 0)) ∧
      (RateGivenAgeFormula.new par).rate_function (40 * 365) = 2880 / 160381)
      ⟨15, 80, 300, 1 / 2, 1⟩ :=
  ⟨⟨by norm_num, by norm_num, by norm_num, by norm_num, by norm_num, by norm_num⟩,
    C39_rate_function_nonneg ⟨15, 80, 300, 1 / 2, 1⟩ (by norm_num) (by norm_num) (by norm_num)
      (by norm_num) (by norm_num) (by norm_num),
    by decide!⟩

end start
end rg

namespace rg
namespace mm

/-- There are `n (n + 1) / 2` unordered links over `n` groups. -/
theorem length_allLinks (n : Nat) : (allLinks n).length = n * (n + 1) / 2 := by
  unfold allLinks
  rw [length_flatMap_range, offset_allLinks n n le_rfl]
  cases n with
  | zero => rfl
  | succ m =>
    have h1 : 2 * (m + 1) - (m + 1) - 1 = m := by omega
    have h2 : (m + 1) * (m + 1 + 1) = (m + 1) * m + (m + 1) * 2 := by ring
    rw [h1, h2, Nat.add_mul_div_right _ _ (by norm_num : 0 < 2)]

/-- The product that `PositionInLinkSorted` halves is even. -/
theorem PositionInLinkSorted_even (n g : Nat) (hg : g < n) :
    g * (2 * n - g - 1) % 2 = 0 := by
  apply Nat.even_iff.mp
  rw [Nat.even_mul]
  rcases Nat.even_or_odd g with he | ho
  · exact Or.inl he
  · right
    obtain ⟨k, hk⟩ := ho
    exact ⟨n - k - 1, by omega⟩

/-- The position of a link with the groups in any order. -/
theorem getElem?_allLinks_min_max (n a b : Nat) (ha : a < n) (hb : b < n) :
    (allLinks n)[PositionInLinkSorted n a b]? = some ⟨min a b, max a b⟩ := by
  rcases Nat.le_total a b with hab | hba
  · rw [min_eq_left hab, max_eq_right hab]
    exact getElem?_allLinks n a b hab hb
  · rw [min_eq_right hba, max_eq_left hba, PositionInLinkSorted_comm]
    exact getElem?_allLinks n b a hba ha

/-- C40: for `n` groups and all `a, b < n`, `PositionInLinkSorted(a, b)` equals
`PositionInLinkSorted(b, a)` and is the index of the link `{min(a,b), max(a,b)}`
in the list of all `n (n + 1) / 2` unordered links sorted by (smaller group,
larger group), which is the order of the link list of a new handler after
`SortByLinks`; two calls give the same position only for the same unordered
link, every position below `n (n + 1) / 2` is the position of a link, and the
product that the formula divides by 2 is even. -/
theorem C40_position_in_link_sorted (n a b : Nat) (ha : a < n) (hb : b < n) :
    PositionInLinkSorted n a b = PositionInLinkSorted n b a ∧
    (allLinks n)[PositionInLinkSorted n a b]? = some ⟨min a b, max a b⟩ ∧
    (∀ preference_matrix : GroupMatrix,
      ((LinkHandler.new n preference_matrix).SortByLinks.link_list_[PositionInLinkSorted n a b]?).map
        Prod.fst = some ⟨min a b, max a b⟩) ∧
    ((allLinks n).length = n * (n + 1) / 2 ∧ List.Sorted linkLe (allLinks n) ∧
      (allLinks n).Nodup ∧
      ∀ l : alje.MultiSetSize2, l ∈ allLinks n ↔ l.first ≤ l.second ∧ l.second < n) ∧
    PositionInLinkSorted n a b < n * (n + 1) / 2 ∧
    (∀ c d, c < n → d < n → PositionInLinkSorted n a b = PositionInLinkSorted n c d →
      min a b = min c d ∧ max a b = max c d) ∧
    (∀ k, k < n * (n + 1) / 2 → ∃ c d, c ≤ d ∧ d < n ∧ PositionInLinkSorted n c d = k) ∧
    min a b * (2 * n - min a b - 1) % 2 = 0 ∧
    PositionInLinkSorted n a b * 2
      = min a b * (2 * n - min a b - 1) + 2 * max a b := by
  have hpos := getElem?_allLinks_min_max n a b ha hb
  have hlen := length_allLinks n
  have hmin : min a b < n := lt_of_le_of_lt (min_le_left a b) ha
  have heven := PositionInLinkSorted_even n (min a b) hmin
  refine ⟨PositionInLinkSorted_comm n a b, hpos, ?_,
    ⟨hlen, allLinks_sorted n, allLinks_nodup n, mem_allLinks n⟩, ?_, ?_, ?_, heven, ?_⟩
  · intro preference_matrix
    have hlayout := SortByLinks_layout (LinkHandler.new n preference_matrix)
      (new_links_perm n preference_matrix)
    have hn : (LinkHandler.new n preference_matrix).n_groups_ = n := rfl
    rw [hn] at hlayout
    rw [← List.getElem?_map, hlayout]
    exact hpos
  · rw [← hlen]
    by_contra hge
    push_neg at hge
    rw [List.getElem?_eq_none hge] at hpos
    exact absurd hpos (by simp)
  · intro c d hc hd heq
    have hcd := getElem?_allLinks_min_max n c d hc hd
    rw [← heq, hpos] at hcd
    simp only [Option.some.injEq, alje.MultiSetSize2.mk.injEq] at hcd
    exact hcd
  · intro k hk
    rw [← hlen] at hk
    have hmem : (allLinks n)[k] ∈ allLinks n := List.getElem_mem hk
    rw [mem_allLinks] at hmem
    refine ⟨(allLinks n)[k].first, (allLinks n)[k].second, hmem.1, hmem.2, ?_⟩
    have h1 := getElem?_allLinks n _ _ hmem.1 hmem.2
    have hlt := length_allLinks_pos n _ _ hmem.1 hmem.2
    rw [List.getElem?_eq_getElem hlt, Option.some.injEq] at h1
    exact (List.Nodup.getElem_inj_iff (allLinks_nodup n)).mp h1
  · have hdiv : PositionInLinkSorted n a b
        = min a b * (2 * n - min a b - 1) / 2 + max a b := by
      unfold PositionInLinkSorted
      rcases Nat.lt_or_ge b a with hlt | hge
      · rw [if_pos hlt, min_eq_right hlt.le, max_eq_left hlt.le]
      · rw [if_neg (by omega), min_eq_left hge, max_eq_right hge]
    rw [hdiv]
    omega

/-- Witness for C40: four groups; the link of the groups 3 and 1 is at
position 6 of the ten links. -/
theorem C40_position_in_link_sorted_witness :
    (3 < 4 ∧ 1 < 4) ∧
    (PositionInLinkSorted 4 3 1 = PositionInLinkSorted 4 1 3 ∧
      (allLinks 4)[PositionInLinkSorted 4 3 1]? = some ⟨min 3 1, max 3 1⟩) ∧
    PositionInLinkSorted 4 3 1 = 6 ∧
    allLinks 4 = [⟨0, 0⟩, ⟨0, 1⟩, ⟨0, 2⟩, ⟨0, 3⟩, ⟨1, 1⟩, ⟨1, 2⟩, ⟨1, 3⟩, ⟨2, 2⟩, ⟨2, 3⟩, ⟨3, 3⟩] :=
  ⟨⟨by decide, by decide⟩,
    ⟨(C40_position_in_link_sorted 4 3 1 (by decide) (by decide)).1,
      (C40_position_in_link_sorted 4 3 1 (by decide) (by decide)).2.1⟩,
    by decide, by decide⟩

end mm
end rg
end soa1
